import Mathlib

/-!
# Badges-Be-Done: layer stacks, session codec, slice detection, compositing

A shallow embedding of the pure core of the badge generator
(`save.js`, `layers.js`, `slicing.js`, `processing.js`) and theorems about it.

Conventions of the embedding.

* A 64×64 RGBA buffer (`ImageData.data`, 16384 bytes) is a list of 4096 `Pixel`
  records in row-major order: byte `4*i + k` of the JavaScript array is channel `k`
  of pixel `i`.
* An `HTMLImageElement` / `HTMLCanvasElement` is modelled by its 64×64 pixel content.
* JavaScript strings are lists of characters.
* The browser's Canvas 2D compositing operator is a parameter `blend` of the
  drawing functions: `blend ga dst src` is the destination pixel after drawing
  `src` over `dst` with `globalAlpha = ga`.
* DOM wiring (`listEl`, layer cards, the `_onRecompile` notification, status
  texts) is outside the embedding.
-/

namespace BadgesBeDone

/-! ## Basic data -/

/-- JavaScript string. -/
abbrev JsString := List Char

/-- One RGBA pixel; channel values are bytes. -/
structure Pixel where
  r : Nat
  g : Nat
  b : Nat
  a : Nat
  deriving DecidableEq, Repr

/-- Pixel content of a 64×64 canvas or image, row-major. -/
abbrev ImageData := List Pixel

/-- All four channels are bytes. -/
def Pixel.IsByte (p : Pixel) : Prop := p.r < 256 ∧ p.g < 256 ∧ p.b < 256 ∧ p.a < 256

instance (p : Pixel) : Decidable p.IsByte := by
  unfold Pixel.IsByte; infer_instance

/-- Transparent black, the content of a fresh canvas and of `createImageData`. -/
def Pixel.clear : Pixel := ⟨0, 0, 0, 0⟩

/-- Errors raised by the modelled code. -/
inductive JsError where
  | typeError
  | invalidCharacter
  | imageDecodeFailed
  | versionMismatch (message : JsString)
  deriving DecidableEq, Repr

deriving instance DecidableEq for Except

/-- A data URL, modelled by what the browser's image decoder yields for it
(`none`: the image cannot be decoded). -/
structure DataURL where
  decoded : Option ImageData
  deriving DecidableEq, Repr

/-- `canvas.toDataURL()`: a lossless PNG snapshot of the canvas, `cv` being the content
of the canvas as `getImageData` reports it. -/
def toDataURL (cv : ImageData) : DataURL := ⟨some cv⟩

/-- `_loadImg(src)` of `save.js`: resolves with the decoded image, rejects with
`Image decode failed during session restore` otherwise. -/
def _loadImg (src : DataURL) : Except JsError ImageData :=
  match src.decoded with
  | some img => .ok img
  | none => .error .imageDecodeFailed

/-! ## Double-precision arithmetic

JavaScript numbers are IEEE 754 doubles. A double is modelled by the rational it denotes,
and an arithmetic operation by the exact operation followed by `toDouble`, rounding to the
nearest number with a 53-bit significand, ties to the even significand. The exponent is
not limited: overflow and underflow, which need magnitudes beyond `2^1023` or below
`2^-1022`, are not modelled. -/

/-- The power `2^e`. -/
def pow2 (e : Int) : ℚ :=
  if 0 ≤ e then ((2 ^ e.toNat : Nat) : ℚ) else 1 / ((2 ^ (-e).toNat : Nat) : ℚ)

/-- Number of binary digits of `n`, found in at most `fuel` halvings. -/
def bitLength : Nat → Nat → Nat
  | 0, _ => 0
  | fuel + 1, n => if n = 0 then 0 else bitLength fuel (n / 2) + 1

/-- The binary exponent of a positive number `q`: the `e` with `2^e ≤ q < 2^(e+1)`. -/
def binExp (q : ℚ) : Int :=
  let k : Int := (bitLength q.num.toNat q.num.toNat : Int) - (bitLength q.den q.den : Int)
  if pow2 k ≤ q then k else k - 1

/-- Rounding to the nearest integer, ties to the even one. -/
def roundHalfEven (m : ℚ) : Int :=
  if m - ⌊m⌋ < 1 / 2 then ⌊m⌋
  else if 1 / 2 < m - ⌊m⌋ then ⌊m⌋ + 1
  else if ⌊m⌋ % 2 = 0 then ⌊m⌋ else ⌊m⌋ + 1

/-- Rounding of a positive number to 53 significant bits. -/
def roundPos (q : ℚ) : ℚ :=
  roundHalfEven (q / pow2 (binExp q - 52)) * pow2 (binExp q - 52)

/-- The double nearest to `q`. -/
def toDouble (q : ℚ) : ℚ :=
  if 0 < q then roundPos q else if q < 0 then - roundPos (-q) else 0

/-- The operators `+`, `-`, `*`, `/` on doubles. -/
def fadd (x y : ℚ) : ℚ := toDouble (x + y)

/-- The operator `-` on doubles. -/
def fsub (x y : ℚ) : ℚ := toDouble (x - y)

/-- The operator `*` on doubles. -/
def fmul (x y : ℚ) : ℚ := toDouble (x * y)

/-- The operator `/` on doubles (the divisor is not 0). -/
def fdiv (x y : ℚ) : ℚ := toDouble (x / y)

/-! ## The Canvas 2D platform -/

/-- A loaded source image of arbitrary size (`width × height` pixels, row-major). -/
structure SourceImg where
  width : Nat
  height : Nat
  pixels : List Pixel
  deriving DecidableEq, Repr

/-- The Canvas 2D operations the code relies on.
`blend ga dst src` is one destination pixel after a draw with `globalAlpha = ga`;
`drawScaled ctx img dx dy dw dh` is `ctx.drawImage(img, dx, dy, dw, dh)` for a
source image (nearest-neighbour resampling into the target rectangle);
`store p` is the pixel a canvas holds, as `getImageData` and `toDataURL` report it,
after `putImageData` wrote the bytes `p` (a canvas that keeps its pixels with
premultiplied alpha does not return every byte as written). -/
structure Canvas2D where
  blend : ℚ → Pixel → Pixel → Pixel
  drawScaled : ImageData → SourceImg → ℚ → ℚ → ℚ → ℚ → ImageData
  store : Pixel → Pixel

/-- `ctx.putImageData(imgData, 0, 0)` on a fresh canvas: the content of the canvas
afterwards. -/
def putImageData (P : Canvas2D) (data : ImageData) : ImageData := data.map P.store

/-- Drawing a pixel whose alpha is 0 leaves the destination pixel as it was. -/
def Canvas2D.TransparentIsNoOp (P : Canvas2D) : Prop :=
  ∀ (ga : ℚ) (d s : Pixel), s.a = 0 → P.blend ga d s = d

/-- A fresh 64×64 canvas (also `createImageData(64, 64)`): transparent black. -/
def blankCanvas : ImageData := List.replicate 4096 Pixel.clear

/-- `ctx.drawImage(src, 0, 0, 64, 64)` (or `ctx.drawImage(src, 0, 0)`) of a 64×64
source onto a 64×64 canvas with `globalAlpha = ga`: pixelwise blend. -/
def drawImage (P : Canvas2D) (ga : ℚ) : ImageData → ImageData → ImageData
  | [], _ => []
  | d :: ds, [] => d :: ds
  | d :: ds, s :: ss => P.blend ga d s :: drawImage P ga ds ss

/-- Placement mode of a source image. -/
inductive PlacementMode where
  | resize
  | center
  deriving DecidableEq, Repr

/-- The target rectangle `(dx, dy, dw, dh)` that `drawSourceOnCanvas` passes to
`drawImage`, for an image of positive width and height. Every operator is the double
operation as written in the source; `Math.floor` and `Math.min` are exact. -/
def placementRect (sourceImg : SourceImg) (canvasW canvasH : ℚ) (mode : PlacementMode) :
    ℚ × ℚ × ℚ × ℚ :=
  match mode with
  | .center =>
    let scale : ℚ := fdiv canvasW 64
    let dw0 : ℚ := sourceImg.width
    let dh0 : ℚ := sourceImg.height
    let ratio : ℚ := min (fdiv 64 dw0) (fdiv 64 dh0)
    let dw : ℚ := if dw0 > 64 ∨ dh0 > 64 then (⌊fmul dw0 ratio⌋ : ℤ) else dw0
    let dh : ℚ := if dw0 > 64 ∨ dh0 > 64 then (⌊fmul dh0 ratio⌋ : ℤ) else dh0
    let dx : ℚ := fmul (⌊fdiv (fsub 64 dw) 2⌋ : ℤ) scale
    let dy : ℚ := fmul (⌊fdiv (fsub 64 dh) 2⌋ : ℤ) scale
    (dx, dy, fmul dw scale, fmul dh scale)
  | .resize => (0, 0, canvasW, canvasH)

/-- `drawSourceOnCanvas(ctx, sourceImg, canvasW, canvasH, mode)` of `imageUtils.js`. -/
def drawSourceOnCanvas (P : Canvas2D) (ctx : ImageData) (sourceImg : SourceImg)
    (canvasW canvasH : ℚ) (mode : PlacementMode) : ImageData :=
  let rect := placementRect sourceImg canvasW canvasH mode
  P.drawScaled ctx sourceImg rect.1 rect.2.1 rect.2.2.1 rect.2.2.2

/-! ## String helpers of the platform -/

/-- `n.toString(16)`. -/
def toString16 (n : Nat) : JsString := Nat.toDigits 16 n

/-- `s.padStart(len, c)`. -/
def padStart (s : JsString) (len : Nat) (c : Char) : JsString :=
  List.replicate (len - s.length) c ++ s

/-- `s.slice(a, b)` for `0 ≤ a ≤ b`. -/
def slice (s : JsString) (a b : Nat) : JsString := (s.take b).drop a

/-- Value of a hexadecimal digit. -/
def hexVal (c : Char) : Option Nat :=
  if 48 ≤ c.toNat ∧ c.toNat ≤ 57 then some (c.toNat - 48)
  else if 97 ≤ c.toNat ∧ c.toNat ≤ 102 then some (c.toNat - 87)
  else if 65 ≤ c.toNat ∧ c.toNat ≤ 70 then some (c.toNat - 55)
  else none

/-- White space skipped by `parseInt` (ECMAScript `StrWhiteSpaceChar`). -/
def isStrWhiteSpace (c : Char) : Bool :=
  let n := c.toNat
  n = 9 || n = 10 || n = 11 || n = 12 || n = 13 || n = 32 || n = 160 || n = 5760 ||
  (8192 ≤ n && n ≤ 8202) || n = 8232 || n = 8233 || n = 8239 || n = 8287 ||
  n = 12288 || n = 65279

/-- Value of a digit string, most significant digit first. -/
def hexDigitsValue (ds : List Char) : Nat :=
  ds.foldl (fun acc c => acc * 16 + (hexVal c).getD 0) 0

/-- `parseInt(s, 16)`; `none` is `NaN`. -/
def parseInt16 (s : JsString) : Option Int :=
  let s1 := s.dropWhile isStrWhiteSpace
  let neg := match s1 with
    | '-' :: _ => true
    | _ => false
  let s2 := match s1 with
    | '-' :: t => t
    | '+' :: t => t
    | _ => s1
  let s3 := match s2 with
    | '0' :: 'x' :: t => t
    | '0' :: 'X' :: t => t
    | _ => s2
  let ds := s3.takeWhile (fun c => (hexVal c).isSome)
  if ds = [] then none
  else if neg then some (-(hexDigitsValue ds : Int)) else some (hexDigitsValue ds : Int)

/-- Storing a number into a `Uint8ClampedArray` (`NaN` becomes 0). -/
def toUint8Clamped (v : Option Int) : Nat :=
  match v with
  | none => 0
  | some n => if n < 0 then 0 else if 255 < n then 255 else n.toNat

/-- `String.fromCharCode(...codes)`. -/
def fromCharCode (codes : List Nat) : JsString := codes.map (fun c => Char.ofNat (c % 65536))

/-- `s.charCodeAt(i)`; `none` is `NaN`. -/
def charCodeAt (s : JsString) (i : Nat) : Option Nat := s[i]?.map Char.toNat

/-! ## Base64 (`btoa` / `atob`) -/

/-- The base64 alphabet. -/
def b64Alphabet : List Char :=
  "ABCDEFGHIJKLMNOPQRSTUVWXYZabcdefghijklmnopqrstuvwxyz0123456789+/".toList

/-- Character of a 6-bit value. -/
def b64Char (v : Nat) : Char := b64Alphabet.getD v 'A'

/-- The 6-bit value of an alphabet character. -/
def b64Val (c : Char) : Option Nat :=
  if b64Alphabet.indexOf c < 64 then some (b64Alphabet.indexOf c) else none

/-- Bytes to 6-bit groups. -/
def b64Sextets : List Nat → List Nat
  | a :: b :: c :: rest =>
      a / 4 :: (a % 4 * 16 + b / 16) :: (b % 16 * 4 + c / 64) :: c % 64 :: b64Sextets rest
  | [a, b] => [a / 4, a % 4 * 16 + b / 16, b % 16 * 4]
  | [a] => [a / 4, a % 4 * 16]
  | [] => []

/-- The 6-bit groups back to bytes; an incomplete group drops its spare bits. -/
def b64Bytes : List Nat → List Nat
  | a :: b :: c :: d :: rest =>
      (a * 4 + b / 16) :: (b % 16 * 16 + c / 4) :: (c % 4 * 64 + d) :: b64Bytes rest
  | [a, b, c] => [a * 4 + b / 16, b % 16 * 16 + c / 4]
  | [a, b] => [a * 4 + b / 16]
  | _ => []

/-- `btoa(s)`; fails with `InvalidCharacterError` on a code above 255. -/
def btoa (s : JsString) : Except JsError JsString :=
  if s.all (fun c => c.toNat ≤ 255) then
    .ok ((b64Sextets (s.map Char.toNat)).map b64Char
      ++ List.replicate ((3 - s.length % 3) % 3) '=')
  else .error .invalidCharacter

/-- ASCII white space, removed by `atob`. -/
def isAsciiWhitespace (c : Char) : Bool :=
  c.toNat = 9 || c.toNat = 10 || c.toNat = 12 || c.toNat = 13 || c.toNat = 32

/-- Removal of one or two trailing `=` from data whose length is a multiple of 4. -/
def stripPadding (s : JsString) : JsString :=
  if s.length % 4 = 0 then
    match s.reverse with
    | '=' :: '=' :: t => t.reverse
    | '=' :: t => t.reverse
    | _ => s
  else s

/-- The 6-bit values of a string; `none` if a character is outside the alphabet. -/
def b64Values : JsString → Option (List Nat)
  | [] => some []
  | c :: rest =>
    match b64Val c, b64Values rest with
    | some v, some vs => some (v :: vs)
    | _, _ => none

/-- `atob(s)` (forgiving-base64 decode); fails with `InvalidCharacterError`. -/
def atob (s : JsString) : Except JsError JsString :=
  let s1 := s.filter (fun c => !isAsciiWhitespace c)
  let s2 := stripPadding s1
  if s2.length % 4 = 1 then .error .invalidCharacter
  else
    match b64Values s2 with
    | none => .error .invalidCharacter
    | some vs => .ok (fromCharCode (b64Bytes vs))

/-! ## Session codec: pixel encoding (`save.js`) -/

/-- `SAVE_VERSION`. -/
def SAVE_VERSION : Nat := 2

/-- The `imageData` object of a serialized layer; an absent field is `none`,
`regen` absent is `false`. -/
structure Encoded where
  regen : Bool := false
  fallback : Option DataURL := none
  palette : Option (List JsString) := none
  pixels : Option JsString := none
  deriving DecidableEq, Repr

/-- The `key` template string of `encodeImage`: `rrggbbaa`. -/
def pixelKey (p : Pixel) : JsString :=
  padStart (toString16 p.r) 2 '0' ++ padStart (toString16 p.g) 2 '0'
    ++ padStart (toString16 p.b) 2 '0' ++ padStart (toString16 p.a) 2 '0'

/-- Position in `raw` of the first pixel whose key is `key` (`raw.length` if none). -/
def firstOccurrence (raw : List Pixel) (key : JsString) : Nat :=
  raw.findIdx (fun q => decide (pixelKey q = key))

/-- `paletteMap.get(key)` on a `Map` kept as an association list. -/
def mapGet (m : List (JsString × Nat)) (key : JsString) : Option Nat :=
  match m with
  | [] => none
  | (k, v) :: rest => if k = key then some v else mapGet rest key

/-- Locals of the loop of `encodeImage`. -/
structure EncodeState where
  paletteMap : List (JsString × Nat)
  palette : List JsString
  indices : List Nat
  deriving DecidableEq, Repr

/-- The loop of `encodeImage` over the remaining pixels of `raw`; `none` is the
early `return { fallback }`. `indices` is a `Uint8Array`, so a store is taken
modulo 256. -/
def encodeLoop : List Pixel → EncodeState → Option EncodeState
  | [], st => some st
  | p :: rest, st =>
    let key := pixelKey p
    match mapGet st.paletteMap key with
    | none =>
      if st.palette.length ≥ 256 then none
      else
        encodeLoop rest
          { paletteMap := (key, st.palette.length) :: st.paletteMap
            palette := st.palette ++ [key]
            indices := st.indices ++ [st.palette.length % 256] }
    | some v => encodeLoop rest { st with indices := st.indices ++ [v % 256] }

/-- `encodeImage(img)`: `img` is the 64×64 content read by `getImageData`. -/
def encodeImage (img : ImageData) : Except JsError Encoded :=
  match encodeLoop img ⟨[], [], []⟩ with
  | none => .ok { fallback := some (toDataURL img) }
  | some st =>
    match btoa (fromCharCode st.indices) with
    | .ok pixels => .ok { palette := some st.palette, pixels := some pixels }
    | .error e => .error e

/-- One iteration of the loop of `decodeImage`: pixel `i` of `imgData`. -/
def decodePixel (palette : Option (List JsString)) (raw : JsString) (i : Nat) :
    Except JsError Pixel :=
  match palette with
  | none => .error .typeError
  | some pal =>
    match charCodeAt raw i with
    | none => .error .typeError
    | some idx =>
      match pal[idx]? with
      | none => .error .typeError
      | some hex =>
        .ok ⟨toUint8Clamped (parseInt16 (slice hex 0 2)),
             toUint8Clamped (parseInt16 (slice hex 2 4)),
             toUint8Clamped (parseInt16 (slice hex 4 6)),
             toUint8Clamped (parseInt16 (slice hex 6 8))⟩

/-- Iterations `i, i+1, …, i+n-1` of the loop of `decodeImage`. -/
def decodeLoop (palette : Option (List JsString)) (raw : JsString) :
    Nat → Nat → Except JsError (List Pixel)
  | _, 0 => .ok []
  | i, n + 1 =>
    match decodePixel palette raw i with
    | .error e => .error e
    | .ok p =>
      match decodeLoop palette raw (i + 1) n with
      | .error e => .error e
      | .ok ps => .ok (p :: ps)

/-- `decodeImage(encoded)`. An absent `pixels` is `atob(undefined)`, which fails. The
bytes read off the palette are written with `putImageData`, and the image returned is
loaded from the data URL of that canvas. -/
def decodeImage (P : Canvas2D) (encoded : Encoded) : Except JsError ImageData :=
  match encoded.fallback with
  | some url => _loadImg url
  | none =>
    match encoded.pixels with
    | none => .error .invalidCharacter
    | some pixels =>
      match atob pixels with
      | .error e => .error e
      | .ok raw =>
        match decodeLoop encoded.palette raw 0 4096 with
        | .error e => .error e
        | .ok data => _loadImg (toDataURL (putImageData P data))

/-! ## Layer stacks (`layers.js`) -/

/-- `kind` of a stack. -/
inductive StackKind where
  | background
  | border
  deriving DecidableEq, Repr

/-- `type` of a layer. -/
inductive LayerType where
  | upload
  | generate
  deriving DecidableEq, Repr

/-- The `corners` object; an absent flag is `none`. -/
structure Corners where
  tl : Option Bool := none
  tr : Option Bool := none
  bl : Option Bool := none
  br : Option Bool := none
  deriving DecidableEq, Repr

/-- A layer's `settings` object; an absent key is `none`. -/
structure Settings where
  style : Option JsString := none
  colorMode : Option JsString := none
  colorCount : Option Nat := none
  manualColors : Option (List JsString) := none
  width : Option Nat := none
  corners : Option Corners := none
  alpha : Option ℚ := none
  deriving DecidableEq, Repr

/-- Object spread `{ ...d, ...o }` on corner masks. -/
def Corners.spread (d o : Corners) : Corners :=
  { tl := o.tl <|> d.tl, tr := o.tr <|> d.tr, bl := o.bl <|> d.bl, br := o.br <|> d.br }

/-- Object spread `{ ...d, ...o }` on settings. -/
def Settings.spread (d o : Settings) : Settings :=
  { style := o.style <|> d.style
    colorMode := o.colorMode <|> d.colorMode
    colorCount := o.colorCount <|> d.colorCount
    manualColors := o.manualColors <|> d.manualColors
    width := o.width <|> d.width
    corners := o.corners <|> d.corners
    alpha := o.alpha <|> d.alpha }

/-- A layer of a stack. -/
structure Layer where
  id : Nat
  collapsed : Bool
  type : LayerType
  image : Option ImageData
  settings : Settings
  deriving DecidableEq, Repr

/-- The data of a `LayerStack`. -/
structure LayerStack where
  kind : StackKind
  layers : List Layer
  nextId : Nat
  compiledCanvas : Option ImageData
  deriving DecidableEq, Repr

/-- `new LayerStack(kind)`. -/
def LayerStack.new (kind : StackKind) : LayerStack :=
  { kind := kind, layers := [], nextId := 1, compiledCanvas := none }

/-- `_defaultSettings()`. -/
def _defaultSettings (kind : StackKind) : Settings :=
  match kind with
  | .background =>
    { style := some "bg1".toList, colorMode := some "manual".toList, colorCount := some 2
      manualColors := some ["#1a1a2e".toList, "#16213e".toList, "#0f3460".toList]
      alpha := some 1 }
  | .border =>
    { width := some 3, style := some "solid".toList, colorMode := some "manual".toList
      colorCount := some 1
      manualColors := some ["#ffffff".toList, "#ff0000".toList, "#00ff00".toList]
      corners := some { tl := some true, tr := some true, bl := some true, br := some true }
      alpha := some 1 }

/-- The `overrides` argument of `addLayer`. -/
structure Overrides where
  type : Option LayerType := none
  settings : Option Settings := none
  deriving DecidableEq, Repr

/-- The merged settings computed by `addLayer`. -/
def mergeSettings (defaults : Settings) (overrides : Overrides) : Settings :=
  match overrides.settings with
  | none => defaults
  | some o =>
    let merged := defaults.spread o
    match defaults.corners with
    | none => merged
    | some dc => { merged with corners := some (dc.spread (o.corners.getD {})) }

/-- `addLayer(overrides)`: the new stack and the layer handed back. -/
def addLayer (s : LayerStack) (overrides : Overrides) : LayerStack × Layer :=
  let layer : Layer :=
    { id := s.nextId, collapsed := false, type := overrides.type.getD .upload
      image := none, settings := mergeSettings (_defaultSettings s.kind) overrides }
  ({ s with nextId := s.nextId + 1, layers := s.layers ++ [layer] }, layer)

/-- `clearAllLayers()`. -/
def clearAllLayers (s : LayerStack) : LayerStack :=
  { s with layers := [], nextId := 1, compiledCanvas := none }

/-- The loop of `recompile` over the remaining layers, drawing onto `ctx`. -/
def compileLayers (P : Canvas2D) : List Layer → ImageData → ImageData
  | [], ctx => ctx
  | l :: rest, ctx =>
    match l.image with
    | some img => compileLayers P rest (drawImage P (l.settings.alpha.getD 1) ctx img)
    | none => compileLayers P rest ctx

/-- `recompile()`. -/
def recompile (P : Canvas2D) (s : LayerStack) : LayerStack :=
  { s with compiledCanvas := some (compileLayers P s.layers blankCanvas) }

/-- `setLayerImage(layer, img)`; the layer object is located by its id. -/
def setLayerImage (P : Canvas2D) (s : LayerStack) (layerId : Nat) (img : ImageData) :
    LayerStack :=
  recompile P
    { s with layers := s.layers.map (fun l => if l.id = layerId then { l with image := some img } else l) }

/-- `removeLayer(id)`. -/
def removeLayer (P : Canvas2D) (s : LayerStack) (id : Nat) : LayerStack :=
  match s.layers.findIdx? (fun l => l.id = id) with
  | none => s
  | some idx => recompile P { s with layers := s.layers.eraseIdx idx }

/-! ## Session restore (`save.js`) -/

/-- A serialized layer of a session document. -/
structure SavedLayer where
  type : Option LayerType := none
  settings : Option Settings := none
  imageData : Option Encoded := none
  deriving DecidableEq, Repr

/-- The loop of `restoreStack` over the remaining saved layers. `gen k kind settings`
is what `stack._generateCanvas(settings)` returns for the saved layer at position `k`
(it draws a fresh random seed on every call). The result is the stack as it is
when the loop ends or throws. -/
def restoreLayers (P : Canvas2D) (gen : Nat → StackKind → Settings → Option ImageData) :
    Nat → List SavedLayer → LayerStack → LayerStack × Except JsError Unit
  | _, [], s => (s, .ok ())
  | k, saved :: rest, s =>
    let added := addLayer s { type := saved.type, settings := saved.settings }
    match saved.imageData with
    | none => restoreLayers P gen (k + 1) rest added.1
    | some enc =>
      if enc.regen then
        match gen k added.1.kind added.2.settings with
        | none => restoreLayers P gen (k + 1) rest added.1
        | some canvas =>
          match _loadImg (toDataURL canvas) with
          | .error e => (added.1, .error e)
          | .ok img => restoreLayers P gen (k + 1) rest (setLayerImage P added.1 added.2.id img)
      else
        match decodeImage P enc with
        | .error e => (added.1, .error e)
        | .ok img => restoreLayers P gen (k + 1) rest (setLayerImage P added.1 added.2.id img)

/-- `restoreStack(stack, savedLayers)`. -/
def restoreStack (P : Canvas2D) (gen : Nat → StackKind → Settings → Option ImageData)
    (stack : LayerStack) (savedLayers : List SavedLayer) : LayerStack × Except JsError Unit :=
  match restoreLayers P gen 0 savedLayers (clearAllLayers stack) with
  | (s, .ok _) => (recompile P s, .ok ())
  | (s, .error e) => (s, .error e)

/-- A JSON value as far as the `version` field is concerned (numbers: integers). -/
inductive JsValue where
  | undefined
  | null
  | bool (b : Bool)
  | number (n : Int)
  | string (s : JsString)
  deriving DecidableEq, Repr

/-- String conversion of a value inside a template literal. -/
def JsValue.toJsString : JsValue → JsString
  | .undefined => "undefined".toList
  | .null => "null".toList
  | .bool true => "true".toList
  | .bool false => "false".toList
  | .number n => (toString n).toList
  | .string s => s

/-- The reference palettes `{ base, cool, warm }`, each a list of `[r, g, b]`. -/
structure Palettes where
  base : List (List Nat)
  cool : List (List Nat)
  warm : List (List Nat)
  deriving DecidableEq, Repr

/-- An entry of `state.sourceImages`. -/
structure SourceEntry where
  fileName : JsString
  file : SourceImg
  mode : PlacementMode
  slicing : Bool
  deriving DecidableEq, Repr

/-- An entry of `state.processedCanvases`. -/
structure ProcessedCanvas where
  canvas : ImageData
  filename : JsString
  suffix : JsString
  deriving DecidableEq, Repr

/-- The shared mutable `state` of `state.js`. -/
structure SharedState where
  colorRefImage : Option SourceImg
  savedPalettes : Option Palettes
  sourceImages : List SourceEntry
  processedCanvases : List ProcessedCanvas
  deriving DecidableEq, Repr

/-- The three stacks of `stacks.js` and the shared state. -/
structure App where
  bgStack : LayerStack
  intersectionStack : LayerStack
  overlayStack : LayerStack
  state : SharedState
  deriving DecidableEq, Repr

/-- The `stacks` object of a session document. -/
structure SavedStacks where
  background : List SavedLayer
  intersection : List SavedLayer
  overlay : List SavedLayer
  deriving DecidableEq, Repr

/-- A parsed session document (`layerStacks` is its `stacks` field). -/
structure SessionDoc where
  version : JsValue
  savedAt : JsString
  cycleBackgrounds : Bool
  colorRefPalettes : Option Palettes
  layerStacks : SavedStacks
  deriving DecidableEq, Repr

/-- The message of the version-mismatch error. -/
def versionMessage (version : JsValue) : JsString :=
  "Unsupported save version ".toList ++ version.toJsString ++ " (expected ".toList
    ++ (toString SAVE_VERSION).toList ++ ")".toList

/-- The per-stack generators used by a restore: `_generateCanvas` of each stack. -/
structure Generators where
  bg : Nat → StackKind → Settings → Option ImageData
  intersection : Nat → StackKind → Settings → Option ImageData
  overlay : Nat → StackKind → Settings → Option ImageData

/-- `loadSettings(file, onRestored)` from the parsed document on. The three
`restoreStack` calls of `Promise.all` all run; the first failure in array order is
the one reported. The result is the application state when the call settles. -/
def loadSettings (P : Canvas2D) (gen : Generators) (app : App) (data : SessionDoc) :
    App × Except JsError SessionDoc :=
  if data.version ≠ .number SAVE_VERSION then
    (app, .error (.versionMismatch (versionMessage data.version)))
  else
    let r1 := restoreStack P gen.bg app.bgStack data.layerStacks.background
    let r2 := restoreStack P gen.intersection app.intersectionStack data.layerStacks.intersection
    let r3 := restoreStack P gen.overlay app.overlayStack data.layerStacks.overlay
    let app1 : App :=
      { app with bgStack := r1.1, intersectionStack := r2.1, overlayStack := r3.1 }
    match r1.2, r2.2, r3.2 with
    | .ok _, .ok _, .ok _ =>
      match data.colorRefPalettes with
      | some pal =>
        ({ app1 with state := { app1.state with savedPalettes := some pal, colorRefImage := none } },
          .ok data)
      | none => (app1, .ok data)
    | .error e, _, _ => (app1, .error e)
    | .ok _, .error e, _ => (app1, .error e)
    | .ok _, .ok _, .error e => (app1, .error e)

/-! ## Slice detection (`slicing.js`) -/

/-- The `overlapMap` array of `detectSlices` (a `Uint8Array(4096)`). -/
def overlapMap (bData fData : ImageData) : List Nat :=
  (List.range 4096).map fun pi =>
    if (bData.getD pi Pixel.clear).a > 10 ∧ (fData.getD pi Pixel.clear).a > 200 then 1 else 0

/-- `set.add(v)` on a `Set` kept in insertion order. -/
def setAdd (s : List Nat) (v : Nat) : List Nat := if v ∈ s then s else s ++ [v]

/-- Locals of the flood fill: the shared `visited` array, the `pixels` set being
collected and the work `queue` of `[x, y]` pairs. -/
structure FillState where
  visited : List Nat
  pixels : List Nat
  queue : List (Int × Int)
  deriving DecidableEq, Repr

/-- One iteration of the `while (queue.length)` loop. -/
def fillStep (om : List Nat) (st : FillState) : FillState :=
  match st.queue with
  | [] => st
  | (cx, cy) :: q =>
    if cx < 0 ∨ cx ≥ 64 ∨ cy < 0 ∨ cy ≥ 64 then { st with queue := q }
    else
      let ci := (cy * 64 + cx).toNat
      if st.visited.getD ci 0 ≠ 0 ∨ om.getD ci 0 = 0 then { st with queue := q }
      else
        { visited := st.visited.set ci 1
          pixels := setAdd st.pixels ci
          queue := q ++ [(cx + 1, cy), (cx - 1, cy), (cx, cy + 1), (cx, cy - 1)] }

/-- The `while (queue.length)` loop, at most `fuel` iterations. -/
def floodFill (om : List Nat) : Nat → FillState → FillState
  | 0, st => st
  | fuel + 1, st =>
    match st.queue with
    | [] => st
    | _ :: _ => floodFill om fuel (fillStep om st)

/-- Iterations granted to one flood fill; `floodFill_queue_nil` shows they suffice. -/
def fillFuel : Nat := 5 * 4096 + 1

/-- Locals of the scan: the `visited` array and the `slices` found so far. -/
structure ScanState where
  visited : List Nat
  slices : List (List Nat)
  deriving DecidableEq, Repr

/-- Body of the inner `for` loop at column `x` of row `y`. -/
def scanPixel (om : List Nat) (st : ScanState) (x y : Nat) : ScanState :=
  let idx := y * 64 + x
  if om.getD idx 0 ≠ 1 ∨ st.visited.getD idx 0 ≠ 0 then st
  else
    let filled := floodFill om fillFuel
      { visited := st.visited, pixels := [], queue := [((x : Int), (y : Int))] }
    { visited := filled.visited
      slices := if filled.pixels.length ≥ 3 then st.slices ++ [filled.pixels] else st.slices }

/-- The inner loop `for (x = 0; x < 64; x++)` of row `y`. -/
def scanRow (om : List Nat) (st : ScanState) (y : Nat) : ScanState :=
  (List.range 64).foldl (fun acc x => scanPixel om acc x y) st

/-- The outer loop `for (y = 0; y < 64; y++)`. -/
def scanAll (om : List Nat) : ScanState :=
  (List.range 64).foldl (scanRow om) { visited := List.replicate 4096 0, slices := [] }

/-- Insertion of a slice before the first slice that is not smaller. -/
def insertBySize (s : List Nat) : List (List Nat) → List (List Nat)
  | [] => [s]
  | t :: rest => if s.length ≤ t.length then s :: t :: rest else t :: insertBySize s rest

/-- `slices.sort((a, b) => a.size - b.size)`: `Array.prototype.sort` is a stable
sort, here as insertion sort. -/
def sortBySize : List (List Nat) → List (List Nat)
  | [] => []
  | s :: rest => insertBySize s (sortBySize rest)

/-- `detectSlices(sourceImg, mode)`, reading `intersectionStack.compiledCanvas`. -/
def detectSlices (P : Canvas2D) (intersectionStack : LayerStack) (sourceImg : SourceImg)
    (mode : PlacementMode) : List (List Nat) :=
  match intersectionStack.compiledCanvas with
  | none => []
  | some border =>
    let bData := drawImage P 1 blankCanvas border
    let fData := drawSourceOnCanvas P blankCanvas sourceImg 64 64 mode
    sortBySize (scanAll (overlapMap bData fData)).slices

/-! ## Compositing (`processing.js`) -/

/-- `if (canvas) ctx.drawImage(canvas, 0, 0, 64, 64)`. -/
def drawOptional (P : Canvas2D) (ctx : ImageData) (canvas : Option ImageData) : ImageData :=
  match canvas with
  | some c => drawImage P 1 ctx c
  | none => ctx

/-- `compositeImage`: background, source, intersection, overlay. -/
def compositeImage (P : Canvas2D) (sourceImg : SourceImg) (mode : PlacementMode)
    (bgCanvas intersectionCanvas overlayCanvas : Option ImageData) : ImageData :=
  let c1 := drawOptional P blankCanvas bgCanvas
  let c2 := drawSourceOnCanvas P c1 sourceImg 64 64 mode
  let c3 := drawOptional P c2 intersectionCanvas
  drawOptional P c3 overlayCanvas

/-- The `front` set of `compositeSliced`; `slices[si]` absent is a `TypeError`. -/
def gatherFront (slices : List (List Nat)) : List Nat → List Nat → Except JsError (List Nat)
  | [], front => .ok front
  | si :: rest, front =>
    match slices[si]? with
    | none => .error .typeError
    | some sl => gatherFront slices rest (sl.foldl setAdd front)

/-- The `ovData` buffer of `compositeSliced`: the source pixels of `front`,
transparent elsewhere. -/
def promotedData (fgData : ImageData) (front : List Nat) : ImageData :=
  (List.range 4096).map fun i => if i ∈ front then fgData.getD i Pixel.clear else Pixel.clear

/-- `compositeSliced`. -/
def compositeSliced (P : Canvas2D) (sourceImg : SourceImg) (mode : PlacementMode)
    (slices : List (List Nat)) (checkedIndices : List Nat)
    (bgCanvas intersectionCanvas overlayCanvas : Option ImageData) : Except JsError ImageData :=
  let c1 := drawOptional P blankCanvas bgCanvas
  let c2 := drawSourceOnCanvas P c1 sourceImg 64 64 mode
  let c3 := drawOptional P c2 intersectionCanvas
  let fgData := drawSourceOnCanvas P blankCanvas sourceImg 64 64 mode
  match gatherFront slices checkedIndices [] with
  | .error e => .error e
  | .ok front =>
    let c4 := drawImage P 1 c3 (promotedData fgData front)
    .ok (drawOptional P c4 overlayCanvas)

/-! ## A reference platform

One concrete Canvas 2D: source-over compositing in exact arithmetic, rounded to
bytes, and nearest-neighbour resampling. -/

/-- Rounding of a non-negative rational to the nearest byte. -/
def roundByte (q : ℚ) : Nat := min 255 (⌊q + 1 / 2⌋).toNat

/-- Source-over compositing of one pixel with `globalAlpha = ga`. -/
def sourceOver (ga : ℚ) (d s : Pixel) : Pixel :=
  if s.a = 0 then d
  else
    let sa : ℚ := s.a / 255 * ga
    let da : ℚ := d.a / 255
    let oa : ℚ := sa + da * (1 - sa)
    if oa = 0 then Pixel.clear
    else
      { r := roundByte ((s.r * sa + d.r * da * (1 - sa)) / oa)
        g := roundByte ((s.g * sa + d.g * da * (1 - sa)) / oa)
        b := roundByte ((s.b * sa + d.b * da * (1 - sa)) / oa)
        a := roundByte (oa * 255) }

/-- The source pixel sampled for canvas pixel `i` when the image is drawn into
the rectangle `(dx, dy, dw, dh)`; transparent outside the rectangle. -/
def samplePixel (img : SourceImg) (dx dy dw dh : ℚ) (i : Nat) : Pixel :=
  let x : ℚ := (i % 64 : Nat)
  let y : ℚ := (i / 64 : Nat)
  if dx ≤ x ∧ x < dx + dw ∧ dy ≤ y ∧ y < dy + dh then
    let sx := (⌊(x - dx) * img.width / dw⌋).toNat
    let sy := (⌊(y - dy) * img.height / dh⌋).toNat
    img.pixels.getD (sy * img.width + sx) Pixel.clear
  else Pixel.clear

/-- What a canvas with premultiplied 8-bit storage returns for the bytes `p`: each colour
channel is scaled by the alpha when written and scaled back when read, rounding to the
nearest byte both times; a pixel of alpha 0 reads back as transparent black. -/
def premultipliedStore (p : Pixel) : Pixel :=
  if p.a = 0 then Pixel.clear
  else
    { r := min 255 ((((p.r * p.a + 127) / 255) * 255 + p.a / 2) / p.a)
      g := min 255 ((((p.g * p.a + 127) / 255) * 255 + p.a / 2) / p.a)
      b := min 255 ((((p.b * p.a + 127) / 255) * 255 + p.a / 2) / p.a)
      a := p.a }

/-- The reference platform. -/
def refCanvas : Canvas2D where
  blend := sourceOver
  store := premultipliedStore
  drawScaled := fun ctx img dx dy dw dh =>
    (List.range ctx.length).map fun i =>
      sourceOver 1 (ctx.getD i Pixel.clear) (samplePixel img dx dy dw dh i)

/-! ## Initial application state (`stacks.js`, `state.js`) -/

/-- The initial `state` object. -/
def SharedState.initial : SharedState :=
  { colorRefImage := none, savedPalettes := none, sourceImages := [], processedCanvases := [] }

/-- The three stacks as constructed in `stacks.js`, with the initial shared state. -/
def App.initial : App :=
  { bgStack := LayerStack.new .background
    intersectionStack := LayerStack.new .border
    overlayStack := LayerStack.new .border
    state := SharedState.initial }

/-- Generators that produce nothing. -/
def Generators.none : Generators :=
  { bg := fun _ _ _ => Option.none
    intersection := fun _ _ _ => Option.none
    overlay := fun _ _ _ => Option.none }

/-- A session document with the given version and empty stacks. -/
def SessionDoc.empty (version : JsValue) : SessionDoc :=
  { version := version, savedAt := [], cycleBackgrounds := false, colorRefPalettes := none
    layerStacks := { background := [], intersection := [], overlay := [] } }

/-- The error is the version-mismatch error. -/
def JsError.isVersionMismatch : JsError → Bool
  | .versionMismatch _ => true
  | _ => false

/-- A stack holding two default layers and a compiled canvas. -/
def exampleStack : LayerStack :=
  recompile refCanvas (addLayer (addLayer (LayerStack.new .background) {}).1 {}).1

/-- A saved upload layer whose pixel data cannot be decoded: `pixels` is the base64
text of the single byte 1, and index 1 is no position of the one-entry palette. -/
def undecodableLayer : SavedLayer :=
  { type := some .upload
    imageData := some { palette := some ["00000000".toList], pixels := some "AQ==".toList } }

/-! ## Vocabulary of the slice-detection theorems -/

/-- Pixels `p` and `q` of the 64×64 grid (indices `y * 64 + x`) are 4-neighbours:
same row and adjacent columns, or same column and adjacent rows. -/
def Adjacent (p q : Nat) : Prop :=
  p < 4096 ∧ q < 4096 ∧
    ((p / 64 = q / 64 ∧ (p % 64 + 1 = q % 64 ∨ q % 64 + 1 = p % 64)) ∨
     (p % 64 = q % 64 ∧ (p / 64 + 1 = q / 64 ∨ q / 64 + 1 = p / 64)))

/-- The overlap mask: intersection alpha above 10 and source alpha above 200. -/
def OverlapMask (bData fData : ImageData) (p : Nat) : Prop :=
  p < 4096 ∧ (bData.getD p Pixel.clear).a > 10 ∧ (fData.getD p Pixel.clear).a > 200

/-- `q` is reached from `p` by steps between 4-neighbours, every pixel stepped onto
lying in `M`. -/
def Connected (M : Nat → Prop) (p q : Nat) : Prop :=
  Relation.ReflTransGen (fun u v => Adjacent u v ∧ M v) p q

/-- The component of `p` in `M` has at least three pixels. -/
def AtLeastThree (M : Nat → Prop) (p : Nat) : Prop :=
  ∃ q r, q ≠ p ∧ r ≠ p ∧ q ≠ r ∧ Connected M p q ∧ Connected M p r

/-- Slice `A` starts before slice `B` in the row-major scan: the smallest index of
`A` is below every index of `B`. -/
def StartsBefore (A B : List Nat) : Prop :=
  ∃ m ∈ A, (∀ p ∈ A, m ≤ p) ∧ ∀ q ∈ B, m < q

/-- The pixels marked in an overlap map. -/
def MaskOf (om : List Nat) (p : Nat) : Prop := p < 4096 ∧ om.getD p 0 ≠ 0

/-- The `[x, y]` pair of a pixel index. -/
def coordOf (p : Nat) : Int × Int := (((p % 64 : Nat) : Int), ((p / 64 : Nat) : Int))

/-- The bounds check of the flood fill passes. -/
def InBounds (c : Int × Int) : Prop := 0 ≤ c.1 ∧ c.1 < 64 ∧ 0 ≤ c.2 ∧ c.2 < 64

/-- The index `cy * 64 + cx` of an `[x, y]` pair. -/
def pixelIndex (c : Int × Int) : Nat := (c.2 * 64 + c.1).toNat

/-- The four pairs pushed by the flood fill. -/
def neighbours (c : Int × Int) : List (Int × Int) :=
  [(c.1 + 1, c.2), (c.1 - 1, c.2), (c.1, c.2 + 1), (c.1, c.2 - 1)]

/-- Termination measure of the flood fill. -/
def fillMeasure (st : FillState) : Nat := 5 * st.visited.count 0 + st.queue.length

/-! ## Invariants used by the proofs -/

/-- Invariant of the loop of `encodeImage` once the pixels `pre` are processed. -/
structure EncInv (pre : List Pixel) (st : EncodeState) : Prop where
  nodup : st.palette.Nodup
  size : st.palette.length ≤ 256
  mapNone : ∀ k, mapGet st.paletteMap k = none ↔ k ∉ st.palette
  mapSome : ∀ k i, mapGet st.paletteMap k = some i → st.palette[i]? = some k
  mem : ∀ k, k ∈ st.palette ↔ k ∈ pre.map pixelKey
  order : st.palette.Pairwise (fun a b => firstOccurrence pre a < firstOccurrence pre b)
  idx : List.Forall₂ (fun i p => st.palette[i]? = some (pixelKey p)) st.indices pre

/-- Invariant of one flood fill started at `seed` on the visited array `vis0`. -/
structure FillInv (om vis0 : List Nat) (seed : Nat) (st : FillState) : Prop where
  len : st.visited.length = 4096
  vis : ∀ p, st.visited.getD p 0 ≠ 0 ↔ (vis0.getD p 0 ≠ 0 ∨ p ∈ st.pixels)
  nodup : st.pixels.Nodup
  reach : ∀ p ∈ st.pixels, Connected (MaskOf om) seed p ∧ MaskOf om p ∧ vis0.getD p 0 = 0
  queue : ∀ c ∈ st.queue, InBounds c → MaskOf om (pixelIndex c) →
    Connected (MaskOf om) seed (pixelIndex c)
  frontier : ∀ p ∈ st.pixels, ∀ q, Adjacent p q → MaskOf om q →
    (q ∈ st.pixels ∨ coordOf q ∈ st.queue)
  seedIn : seed ∈ st.pixels ∨ coordOf seed ∈ st.queue

/-- Invariant of the scan once the pixels with index below `n` are processed. -/
structure ScanInv (om : List Nat) (n : Nat) (st : ScanState) : Prop where
  len : st.visited.length = 4096
  sub : ∀ p, st.visited.getD p 0 ≠ 0 → MaskOf om p
  closed : ∀ p q, st.visited.getD p 0 ≠ 0 → Adjacent p q → MaskOf om q →
    st.visited.getD q 0 ≠ 0
  done : ∀ p, p < n → MaskOf om p → st.visited.getD p 0 ≠ 0
  comp : ∀ S ∈ st.slices, S.Nodup ∧ 3 ≤ S.length ∧
    ∀ p ∈ S, st.visited.getD p 0 ≠ 0 ∧ ∀ q, q ∈ S ↔ Connected (MaskOf om) p q
  big : ∀ p, st.visited.getD p 0 ≠ 0 →
    ((∃ S ∈ st.slices, p ∈ S) ↔ AtLeastThree (MaskOf om) p)
  order : st.slices.Pairwise StartsBefore
  seeds : ∀ S ∈ st.slices, ∃ m ∈ S, m < n ∧ ∀ p ∈ S, m ≤ p

/-! ## Cycle compilation and operation sequences (`layers.js`) -/

/-- The loop of `recompileForCycle` over the remaining layers; `k` is the position
of the layer and `gen k kind settings` the outcome of `this._generateCanvas(settings)`
for it (a fresh random seed is drawn on every call): the canvas it returns, or the
error it throws, which ends the loop. -/
def cycleLayers (P : Canvas2D)
    (gen : Nat → StackKind → Settings → Except JsError (Option ImageData))
    (kind : StackKind) : Nat → List Layer → ImageData → Except JsError ImageData
  | _, [], ctx => .ok ctx
  | k, l :: rest, ctx =>
    match l.type with
    | .upload =>
      match l.image with
      | some img =>
        cycleLayers P gen kind (k + 1) rest (drawImage P (l.settings.alpha.getD 1) ctx img)
      | none => cycleLayers P gen kind (k + 1) rest ctx
    | .generate =>
      match gen k kind l.settings with
      | .error e => .error e
      | .ok (some fresh) =>
        cycleLayers P gen kind (k + 1) rest (drawImage P (l.settings.alpha.getD 1) ctx fresh)
      | .ok none => cycleLayers P gen kind (k + 1) rest ctx

/-- `recompileForCycle()`: the stack after the call, and the canvas returned or the
error thrown. -/
def recompileForCycle (P : Canvas2D)
    (gen : Nat → StackKind → Settings → Except JsError (Option ImageData))
    (s : LayerStack) : LayerStack × Except JsError ImageData :=
  (s, cycleLayers P gen s.kind 0 s.layers blankCanvas)

/-- What the layer at position `k` contributes to a cycle compilation: an upload
layer its stored image, a generate layer the freshly generated pattern `fresh k`. -/
def cycleContribution (fresh : Nat → Option ImageData) (k : Nat) (l : Layer) :
    Option ImageData :=
  match l.type with
  | .upload => l.image
  | .generate => fresh k

/-- The layers with their image replaced by their cycle contribution, positions
counted from `k`. -/
def cycleView (fresh : Nat → Option ImageData) : Nat → List Layer → List Layer
  | _, [] => []
  | k, l :: rest =>
    { l with image := cycleContribution fresh k l } :: cycleView fresh (k + 1) rest

/-- A call of one of the mutators of a stack. -/
inductive StackOp where
  | addLayer (overrides : Overrides)
  | removeLayer (id : Nat)
  | setLayerImage (layerId : Nat) (img : ImageData)
  | clearAllLayers
  | recompile

/-- The stack after one mutator call. -/
def applyOp (P : Canvas2D) (s : LayerStack) : StackOp → LayerStack
  | .addLayer overrides => (addLayer s overrides).1
  | .removeLayer id => removeLayer P s id
  | .setLayerImage layerId img => setLayerImage P s layerId img
  | .clearAllLayers => clearAllLayers s
  | .recompile => recompile P s

/-- The stack after a sequence of mutator calls. -/
def applyOps (P : Canvas2D) (s : LayerStack) (ops : List StackOp) : LayerStack :=
  ops.foldl (applyOp P) s

/-- The compiled canvas is the composite of the current layers (an absent canvas
counting as the transparent buffer). -/
def Fresh (P : Canvas2D) (s : LayerStack) : Prop :=
  s.compiledCanvas.getD blankCanvas = compileLayers P s.layers blankCanvas

/-- The ids of the layers are strictly increasing in list order, at least 1 and
below `nextId`. -/
def IdsOrdered (s : LayerStack) : Prop :=
  (s.layers.map Layer.id).Pairwise (fun a b => a < b) ∧
    ∀ l ∈ s.layers, 1 ≤ l.id ∧ l.id < s.nextId

/-! ## Colours of a layer (`colors.js`, `layers.js`) -/

/-- An `[r, g, b]` colour. -/
structure Rgb where
  r : Nat
  g : Nat
  b : Nat
  deriving DecidableEq, Repr

/-- `[255, 255, 255]`. -/
def Rgb.white : Rgb := ⟨255, 255, 255⟩

/-- The character class `[a-f\d]` under the `i` flag. -/
def isHexDigit (ch : Char) : Bool := (hexVal ch).isSome

/-- `parseInt(pair, 16)` for a captured group of two hexadecimal digits. -/
def parseHexPair (a b : Char) : Nat := ((parseInt16 [a, b]).getD 0).toNat

/-- `hexToRgb(hex)`: the pattern `^#?([a-f\d]{2})([a-f\d]{2})([a-f\d]{2})$` with the
`i` flag, white when it does not match. -/
def hexToRgb (hex : JsString) : Rgb :=
  let body := match hex with
    | '#' :: t => t
    | _ => hex
  match body with
  | [r1, r2, g1, g2, b1, b2] =>
    if isHexDigit r1 && isHexDigit r2 && isHexDigit g1 && isHexDigit g2
        && isHexDigit b1 && isHexDigit b2 then
      ⟨parseHexPair r1 r2, parseHexPair g1 g2, parseHexPair b1 b2⟩
    else Rgb.white
  | _ => Rgb.white

/-- `Boolean(v)` for an array entry that is a string or absent. -/
def truthyString (v : Option JsString) : Bool :=
  match v with
  | some (_ :: _) => true
  | _ => false

/-- The array built by `_resolveColors` before `.filter(Boolean)`. -/
def candidateColors (manualColors : List JsString) (colorCount : Option Nat) :
    List (Option JsString) :=
  [manualColors[0]?,
   if 2 ≤ colorCount.getD 0 then manualColors[1]? else none,
   if 3 ≤ colorCount.getD 0 then manualColors[2]? else none]

/-- `_resolveColors(s, rng)`; an absent `manualColors` is a `TypeError`. The
settings object is only read. -/
def _resolveColors (s : Settings) : Except JsError (List Rgb) :=
  match s.manualColors with
  | none => .error .typeError
  | some manualColors =>
    let colors := (candidateColors manualColors s.colorCount).filterMap
      (fun v => if truthyString v then v else none)
    if colors.length = 0 then .ok [Rgb.white] else .ok (colors.map hexToRgb)

/-! ## Painting primitives (`borders.js`, `backgrounds.js`)

Generators paint a fresh 64×64 canvas with `fillRect` calls. Positions are
integers; a pixel outside the canvas is clipped away. -/

/-- Pixel stored by a fill with the opaque style `rgb(r,g,b)`: each channel is
clamped to a byte and the alpha is 255. -/
def Rgb.toPixel (color : Rgb) : Pixel :=
  ⟨min color.r 255, min color.g 255, min color.b 255, 255⟩

/-- Buffer index of canvas position `(x, y)`; `none` outside the canvas. -/
def canvasIndex (x y : Int) : Option Nat :=
  if 0 ≤ x ∧ x < 64 ∧ 0 ≤ y ∧ y < 64 then some (y.toNat * 64 + x.toNat) else none

/-- `ctx.fillRect(x, y, 1, 1)` where the current fill style turns a destination pixel
`d` into `f d`. -/
def fillPx (f : Pixel → Pixel) (ctx : ImageData) (x y : Int) : ImageData :=
  match canvasIndex x y with
  | some i => ctx.set i (f (ctx.getD i Pixel.clear))
  | none => ctx

/-- `px(ctx, x, y)` with `ctx.fillStyle` set to the opaque colour `color`. -/
def px (ctx : ImageData) (color : Rgb) (x y : Int) : ImageData :=
  fillPx (fun _ => color.toPixel) ctx x y

/-- `for (let i = a; i < b; i += step) body` as a fold over the values `i` takes. -/
def forLoop {σ : Type} (a b step : Nat) (body : σ → Nat → σ) (init : σ) : σ :=
  (List.range' a ((b - a + step - 1) / step) step).foldl body init

/-- The same loop with a body that may throw. -/
def forLoopE {σ : Type} (a b step : Nat) (body : σ → Nat → Except JsError σ) (init : σ) :
    Except JsError σ :=
  (List.range' a ((b - a + step - 1) / step) step).foldlM body init

/-- `ctx.fillRect(x, y, w, h)` with the opaque colour `color`. -/
def fillRect (ctx : ImageData) (color : Rgb) (x y : Int) (w h : Nat) : ImageData :=
  forLoop 0 h 1 (fun ctx dy => forLoop 0 w 1 (fun ctx dx => px ctx color (x + dx) (y + dy)) ctx)
    ctx

/-- Truthiness of a corner flag. -/
def cornerOn (flag : Option Bool) : Bool := flag.getD false

/-- `colors[i] || fallback` for an array of colour triples. -/
def colorOr (colors : List Rgb) (i : Nat) (fallback : Rgb) : Rgb :=
  (colors.get? i).getD fallback

/-- `isBorderPx(x, y, w)`. -/
def isBorderPx (x y w : Nat) : Bool :=
  decide ((x : Int) < w ∨ (x : Int) ≥ 64 - w ∨ (y : Int) < w ∨ (y : Int) ≥ 64 - w)

/-- `solidBorder(ctx, color, w)`. A loop bound `64-w` below zero gives no iteration, as
does its truncation to 0. -/
def solidBorder (ctx : ImageData) (color : Rgb) (w : Nat) : ImageData :=
  let ctx1 := forLoop 0 64 1 (fun ctx x =>
    forLoop 0 w 1 (fun ctx y => px (px ctx color x y) color x (64 - w + y)) ctx) ctx
  forLoop w (64 - w) 1 (fun ctx y =>
    forLoop 0 w 1 (fun ctx x => px (px ctx color x y) color (64 - w + x) y) ctx) ctx1

/-! ## Classic border styles -/

/-- `dashedBorder(ctx, color, w)`. The inner loop `dx < dash && x+dx < 64` runs `dx`
from 0 up to the smaller of the two bounds. -/
def dashedBorder (ctx : ImageData) (color : Rgb) (w : Nat) : ImageData :=
  let dash := 8
  let gap := 4
  let ctx1 := forLoop 0 64 (dash + gap) (fun ctx x =>
    forLoop 0 w 1 (fun ctx y =>
      forLoop 0 (min dash (64 - x)) 1 (fun ctx dx =>
        px (px ctx color (x + dx) y) color (x + dx) (64 - w + y)) ctx) ctx) ctx
  forLoop w (64 - w) (dash + gap) (fun ctx y =>
    forLoop 0 w 1 (fun ctx x =>
      forLoop 0 (min dash (64 - w - y)) 1 (fun ctx dy =>
        px (px ctx color x (y + dy)) color (64 - w + x) (y + dy)) ctx) ctx) ctx1

/-- `dottedBorder(ctx, color, w)`. -/
def dottedBorder (ctx : ImageData) (color : Rgb) (w : Nat) : ImageData :=
  let sp := 6
  let ctx1 := forLoop sp (64 - sp) sp (fun ctx x =>
    forLoop 0 w 1 (fun ctx y => px (px ctx color x y) color x (63 - y)) ctx) ctx
  forLoop sp (64 - sp) sp (fun ctx y =>
    forLoop 0 w 1 (fun ctx x => px (px ctx color x y) color (63 - x) y) ctx) ctx1

/-- `checkerBorder(ctx, colors, w)`. -/
def checkerBorder (ctx : ImageData) (colors : List Rgb) (w : Nat) : ImageData :=
  let c1 := colorOr colors 0 ⟨255, 255, 255⟩
  let c2 := colorOr colors 1 ⟨200, 200, 200⟩
  forLoop 0 64 1 (fun ctx x => forLoop 0 64 1 (fun ctx y =>
    if !isBorderPx x y w then ctx
    else px ctx (if (x + y) % 2 = 0 then c1 else c2) x y) ctx) ctx

/-- `shadowBorder(ctx, color, w)`: the shadow is painted with `rgba(0,0,0,0.5)`, which the
canvas composes onto the destination, two pixels down and right; the solid border goes
on top. -/
def shadowBorder (P : Canvas2D) (ctx : ImageData) (color : Rgb) (w : Nat) : ImageData :=
  let shade := fillPx (fun d => P.blend 1 d ⟨0, 0, 0, 128⟩)
  let ctx1 := forLoop 0 64 1 (fun ctx x =>
    forLoop 0 w 1 (fun ctx y =>
      shade (shade ctx (x + 2) (y + 2)) (x + 2) (64 - w + y + 2)) ctx) ctx
  let ctx2 := forLoop w (64 - w) 1 (fun ctx y =>
    forLoop 0 w 1 (fun ctx x =>
      shade (shade ctx (x + 2) (y + 2)) (64 - w + x + 2) (y + 2)) ctx) ctx1
  solidBorder ctx2 color w

/-- `multiRingBorder(ctx, colors, w)`; `rpc = Math.ceil(w / 3)`. -/
def multiRingBorder (ctx : ImageData) (colors : List Rgb) (w : Nat) : ImageData :=
  let rc0 := colorOr colors 0 ⟨255, 255, 255⟩
  let rc1 := colorOr colors 1 ⟨200, 200, 200⟩
  let rc2 := colorOr colors 2 ⟨150, 150, 150⟩
  let rpc := (w + 2) / 3
  forLoop 0 w 1 (fun ctx ring =>
    let k := ring / rpc % 3
    let col := if k = 0 then rc0 else if k = 1 then rc1 else rc2
    let ctx1 := forLoop 0 64 1 (fun ctx x =>
      px (px ctx col x ring) col x (64 - w + ring)) ctx
    forLoop (ring + 1) (64 - w + ring) 1 (fun ctx y =>
      px (px ctx col ring y) col (64 - w + ring) y) ctx1) ctx

/-- `dotDashBorder(ctx, colors, w)` with its two local passes. -/
def dotDashBorder (ctx : ImageData) (colors : List Rgb) (w : Nat) : ImageData :=
  let c1 := colorOr colors 0 ⟨255, 255, 255⟩
  let c2 := colorOr colors 1 ⟨200, 200, 200⟩
  let dot := 3
  let dash := 6
  let gap := 3
  let pat := dot + gap + dash + gap
  let rowPass := fun (ctx : ImageData) (x y : Nat) =>
    let ctx1 := forLoop 0 (min dot (64 - x)) 1 (fun ctx dx =>
      px (px ctx c1 (x + dx) y) c1 (x + dx) (64 - w + y)) ctx
    forLoop (dot + gap) (min (dot + gap + dash) (64 - x)) 1 (fun ctx dx =>
      px (px ctx c2 (x + dx) y) c2 (x + dx) (64 - w + y)) ctx1
  let colPass := fun (ctx : ImageData) (x y : Nat) =>
    let ctx1 := forLoop 0 (min dot (64 - w - y)) 1 (fun ctx dy =>
      px (px ctx c1 x (y + dy)) c1 (64 - w + x) (y + dy)) ctx
    forLoop (dot + gap) (min (dot + gap + dash) (64 - w - y)) 1 (fun ctx dy =>
      px (px ctx c2 x (y + dy)) c2 (64 - w + x) (y + dy)) ctx1
  let ctx1 := forLoop 0 64 pat (fun ctx x => forLoop 0 w 1 (fun ctx y => rowPass ctx x y) ctx)
    ctx
  forLoop w (64 - w) pat (fun ctx y => forLoop 0 w 1 (fun ctx x => colPass ctx x y) ctx) ctx1

/-! ## Pixel-art border styles -/

/-- `pxBracket(ctx, colors, w, corners)`. -/
def pxBracket (ctx : ImageData) (colors : List Rgb) (w : Nat) (corners : Corners) :
    ImageData :=
  let col := colorOr colors 0 ⟨255, 255, 255⟩
  let mid := w / 2
  let ctx1 := forLoop w (64 - w) 1 (fun ctx x => px (px ctx col x mid) col x (63 - mid)) ctx
  let ctx2 := forLoop w (64 - w) 1 (fun ctx y => px (px ctx col mid y) col (63 - mid) y) ctx1
  let corner := fun (ctx : ImageData) (ox oy : Int) =>
    forLoop 0 w 1 (fun ctx dx =>
      forLoop 0 w 1 (fun ctx dy => px ctx col (ox + dx) (oy + dy)) ctx) ctx
  let ctx3 := if cornerOn corners.tl then corner ctx2 0 0 else ctx2
  let ctx4 := if cornerOn corners.tr then corner ctx3 (64 - w) 0 else ctx3
  let ctx5 := if cornerOn corners.bl then corner ctx4 0 (64 - w) else ctx4
  if cornerOn corners.br then corner ctx5 (64 - w) (64 - w) else ctx5

/-- `pxChamfer(ctx, colors, w, corners)`. -/
def pxChamfer (ctx : ImageData) (colors : List Rgb) (w : Nat) (corners : Corners) :
    ImageData :=
  let col := colorOr colors 0 ⟨255, 255, 255⟩
  forLoop 0 64 1 (fun ctx x => forLoop 0 64 1 (fun ctx y =>
    let xi : Int := x
    let yi : Int := y
    let wi : Int := w
    if !isBorderPx x y w then ctx
    else if cornerOn corners.tl ∧ xi < wi ∧ yi < wi ∧ xi + yi < wi - 1 then ctx
    else if cornerOn corners.tr ∧ xi ≥ 64 - wi ∧ yi < wi ∧ (63 - xi) + yi < wi - 1 then ctx
    else if cornerOn corners.bl ∧ xi < wi ∧ yi ≥ 64 - wi ∧ xi + (63 - yi) < wi - 1 then ctx
    else if cornerOn corners.br ∧ xi ≥ 64 - wi ∧ yi ≥ 64 - wi ∧
        (63 - xi) + (63 - yi) < wi - 1 then ctx
    else px ctx col x y) ctx) ctx

/-- `pxRivet(ctx, colors, w, corners)`; the rivet colour is
`colors[1] || colors[0] || [255,220,0]`. -/
def pxRivet (ctx : ImageData) (colors : List Rgb) (w : Nat) (corners : Corners) :
    ImageData :=
  let ctx0 := solidBorder ctx (colorOr colors 0 ⟨255, 255, 255⟩) w
  let rc := colorOr colors 1 (colorOr colors 0 ⟨255, 220, 0⟩)
  let rs := min (w + 1) 5
  let ctx1 := if cornerOn corners.tl then fillRect ctx0 rc 0 0 rs rs else ctx0
  let ctx2 := if cornerOn corners.tr then fillRect ctx1 rc (64 - rs) 0 rs rs else ctx1
  let ctx3 := if cornerOn corners.bl then fillRect ctx2 rc 0 (64 - rs) rs rs else ctx2
  if cornerOn corners.br then fillRect ctx3 rc (64 - rs) (64 - rs) rs rs else ctx3

/-- `pxOpen(ctx, colors, w, corners)`. -/
def pxOpen (ctx : ImageData) (colors : List Rgb) (w : Nat) (corners : Corners) :
    ImageData :=
  let col := colorOr colors 0 ⟨255, 255, 255⟩
  forLoop 0 64 1 (fun ctx x => forLoop 0 64 1 (fun ctx y =>
    let xi : Int := x
    let yi : Int := y
    let wi : Int := w
    if !isBorderPx x y w then ctx
    else if cornerOn corners.tl ∧ xi < wi ∧ yi < wi then ctx
    else if cornerOn corners.tr ∧ xi ≥ 64 - wi ∧ yi < wi then ctx
    else if cornerOn corners.bl ∧ xi < wi ∧ yi ≥ 64 - wi then ctx
    else if cornerOn corners.br ∧ xi ≥ 64 - wi ∧ yi ≥ 64 - wi then ctx
    else px ctx col x y) ctx) ctx

/-- `pxPip(ctx, colors, w, corners)`; `ps = Math.max(2, Math.floor(w*0.55))` and
`off = Math.floor((w-ps)/2)`. -/
def pxPip (ctx : ImageData) (colors : List Rgb) (w : Nat) (corners : Corners) :
    ImageData :=
  let ctx0 := solidBorder ctx (colorOr colors 0 ⟨255, 255, 255⟩) w
  let pc := colorOr colors 1 ⟨0, 0, 0⟩
  let ps := max 2 (w * 55 / 100)
  let off : Int := ((w : Int) - ps) / 2
  let ctx1 := if cornerOn corners.tl then fillRect ctx0 pc off off ps ps else ctx0
  let ctx2 := if cornerOn corners.tr then fillRect ctx1 pc (64 - w + off) off ps ps else ctx1
  let ctx3 := if cornerOn corners.bl then fillRect ctx2 pc off (64 - w + off) ps ps else ctx2
  if cornerOn corners.br then fillRect ctx3 pc (64 - w + off) (64 - w + off) ps ps else ctx3

/-- `pxDouble(ctx, colors, w)`. -/
def pxDouble (ctx : ImageData) (colors : List Rgb) (w : Nat) : ImageData :=
  let c1 := colorOr colors 0 ⟨255, 255, 255⟩
  let c2 := colorOr colors 1 c1
  let ctx1 := forLoop 0 64 1 (fun ctx x => px (px ctx c1 x 0) c1 x 63) ctx
  let ctx2 := forLoop 1 63 1 (fun ctx y => px (px ctx c1 0 y) c1 63 y) ctx1
  if w ≥ 3 then
    let inner := w - 1
    let ctx3 := forLoop inner (64 - inner) 1 (fun ctx x =>
      px (px ctx c2 x inner) c2 x (63 - inner)) ctx2
    forLoop (inner + 1) (63 - inner) 1 (fun ctx y =>
      px (px ctx c2 inner y) c2 (63 - inner) y) ctx3
  else ctx2

/-- `pxStitch(ctx, colors, w)`. -/
def pxStitch (ctx : ImageData) (colors : List Rgb) (w : Nat) : ImageData :=
  let c1 := colorOr colors 0 ⟨255, 255, 255⟩
  let c2 := colorOr colors 1 c1
  let ctx1 := forLoop 0 64 1 (fun ctx x => forLoop 0 w 1 (fun ctx y =>
    if (x + y) % 2 = 0 then
      let col := if y % 2 = 0 then c1 else c2
      px (px ctx col x y) col x (63 - y)
    else ctx) ctx) ctx
  forLoop 0 w 1 (fun ctx x => forLoop w (64 - w) 1 (fun ctx y =>
    if (x + y) % 2 = 0 then
      let col := if x % 2 = 0 then c1 else c2
      px (px ctx col x y) col (63 - x) y
    else ctx) ctx) ctx1

/-- `pxZigzag(ctx, colors, w)`; `period / 2 = 2`. -/
def pxZigzag (ctx : ImageData) (colors : List Rgb) (w : Nat) : ImageData :=
  let c1 := colorOr colors 0 ⟨255, 255, 255⟩
  let c2 := colorOr colors 1 c1
  let ctx1 := forLoop 0 64 1 (fun ctx x =>
    let t : Nat := if x / 2 % 2 = 0 then 0 else 1
    let h : Int := max 1 ((w : Int) - 1 + t)
    let col := if t ≠ 0 then c2 else c1
    forLoop 0 h.toNat 1 (fun ctx y => px (px ctx col x y) col x (63 - y)) ctx) ctx
  forLoop w (64 - w) 1 (fun ctx y =>
    let t : Nat := if y / 2 % 2 = 0 then 0 else 1
    let ww : Int := max 1 ((w : Int) - 1 + t)
    let col := if t ≠ 0 then c2 else c1
    forLoop 0 ww.toNat 1 (fun ctx x => px (px ctx col x y) col (63 - x) y) ctx) ctx1

/-- `pxBrick(ctx, colors, w)`. -/
def pxBrick (ctx : ImageData) (colors : List Rgb) (w : Nat) : ImageData :=
  let c1 := colorOr colors 0 ⟨255, 255, 255⟩
  let c2 := colorOr colors 1 ⟨160, 100, 60⟩
  forLoop 0 64 1 (fun ctx x => forLoop 0 64 1 (fun ctx y =>
    if !isBorderPx x y w then ctx
    else
      let row := y / 2
      let offset := row % 2 * 4
      px ctx (if y % 2 = 1 ∨ (x + offset) % 8 = 7 then c2 else c1) x y) ctx) ctx

/-! ## Colour index arithmetic

Numbers are rationals; `none` stands for `NaN`. The remainder operator keeps the sign of
its left operand and gives `NaN` for a zero divisor. Rounding of the float operators is
not modelled; the transcendental functions are a parameter. -/

/-- The functions of `Math` that the generators use on non-integers. -/
structure JsMath where
  sin : ℚ → ℚ
  cos : ℚ → ℚ
  sqrt : ℚ → ℚ
  atan2 : ℚ → ℚ → ℚ

/-- `a % n` for an integer (or `NaN`) `a` and an array length `n`. -/
def jsMod (a : Option Int) (n : Nat) : Option Int :=
  match a with
  | none => none
  | some v => if n = 0 then none else some (v.tmod n)

/-- `const c = colors[i]` followed by the read of `c[0]`: an index that is `NaN`,
negative or at least `colors.length` gives `undefined`, whose read throws. -/
def colorAt (colors : List Rgb) (i : Option Int) : Except JsError Rgb :=
  match i with
  | some (Int.ofNat k) =>
    match colors.get? k with
    | some col => .ok col
    | none => .error .typeError
  | _ => .error .typeError

/-! ## Math-pattern border styles -/

/-- Number of `rng()` calls `patternBorder` makes for one border pixel. -/
def patternDraws (type : JsString) : Nat :=
  if type = "axial".toList then 1 else 0

/-- The value of `ci` after the `switch (type)` of `patternBorder` at pixel `(x, y)`,
`draw` being the value of the `rng()` call of style `axial`. -/
def patternIndex (M : JsMath) (type : JsString) (n x y : Nat) (draw : ℚ) : Option Int :=
  let cx : ℚ := 63 / 2
  let cy : ℚ := 63 / 2
  if type = "constant".toList then some 0
  else if type = "axial".toList then
    let ax := ⌊draw * 3⌋
    if ax = 0 then jsMod (some y) n else if ax = 1 then jsMod (some x) n
    else jsMod (some ((x : Int) + y)) n
  else if type = "parity".toList then jsMod (some ((x : Int) + y)) n
  else if type = "xor".toList then jsMod (some ((x ^^^ y : Nat) : Int)) n
  else if type = "radial".toList then
    jsMod (some ⌊M.sqrt (((x : ℚ) - cx) ^ 2 + ((y : ℚ) - cy) ^ 2)⌋) n
  else if type = "manhattan".toList then
    jsMod (some ⌊|(x : ℚ) - cx| + |(y : ℚ) - cy|⌋) n
  else if type = "edge".toList then
    jsMod (some ((min (min x y) (min (63 - x) (63 - y)) : Nat) : Int)) n
  else if type = "sawtooth".toList then
    jsMod (some (((min (min x y) (min (63 - x) (63 - y)) + x + y : Nat)) : Int)) n
  else if type = "bitplane".toList then
    if n = 2 then some ((((x >>> 1) &&& 1) ^^^ ((y >>> 2) &&& 1) : Nat) : Int)
    else jsMod (some ((((x &&& 1) + 2 * ((y >>> 1) &&& 1) : Nat)) : Int)) n
  else if type = "prime".toList then jsMod (some (((x % 3) * (y % 5) : Nat) : Int)) n
  else some 0

/-- `patternBorder(ctx, colors, w, type, rng)`. The state of the loops is the buffer
and the number of `rng()` calls made so far; `rng k` is the value of call number `k`. -/
def patternBorder (M : JsMath) (ctx : ImageData) (colors : List Rgb) (w : Nat)
    (type : JsString) (rng : Nat → ℚ) : Except JsError ImageData :=
  let n := colors.length
  (forLoopE 0 64 1 (fun st x => forLoopE 0 64 1 (fun (st : ImageData × Nat) y =>
    if !isBorderPx x y w then .ok st
    else
      let ci := patternIndex M type n x y (rng st.2)
      match colorAt colors (jsMod ci n) with
      | .ok col => .ok (px st.1 col x y, st.2 + patternDraws type)
      | .error e => .error e) st) (ctx, 0)).map Prod.fst

/-! ## Dispatcher -/

/-- `createSimpleBorder(colors, width, style, rng, corners)`: a cleared 64×64 canvas
painted by the function the `switch (style)` selects. -/
def createSimpleBorder (P : Canvas2D) (M : JsMath) (colors : List Rgb) (width : Nat)
    (style : JsString) (rng : Nat → ℚ) (corners : Corners) : Except JsError ImageData :=
  let ctx := blankCanvas
  let c0 := colorOr colors 0 ⟨255, 255, 255⟩
  if style = "solid".toList then .ok (solidBorder ctx c0 width)
  else if style = "dashed".toList then .ok (dashedBorder ctx c0 width)
  else if style = "dotted".toList then .ok (dottedBorder ctx c0 width)
  else if style = "checkerboard".toList then .ok (checkerBorder ctx colors width)
  else if style = "shadow".toList then .ok (shadowBorder P ctx c0 width)
  else if style = "multiring".toList then .ok (multiRingBorder ctx colors width)
  else if style = "dotdash".toList then .ok (dotDashBorder ctx colors width)
  else if style = "px-bracket".toList then .ok (pxBracket ctx colors width corners)
  else if style = "px-chamfer".toList then .ok (pxChamfer ctx colors width corners)
  else if style = "px-rivet".toList then .ok (pxRivet ctx colors width corners)
  else if style = "px-open".toList then .ok (pxOpen ctx colors width corners)
  else if style = "px-pip".toList then .ok (pxPip ctx colors width corners)
  else if style = "px-double".toList then .ok (pxDouble ctx colors width)
  else if style = "px-stitch".toList then .ok (pxStitch ctx colors width)
  else if style = "px-zigzag".toList then .ok (pxZigzag ctx colors width)
  else if style = "px-brick".toList then .ok (pxBrick ctx colors width)
  else patternBorder M ctx colors width style rng

/-! ## Background patterns (`backgrounds.js`) -/

/-- The local function `hash(x, y, s)` of `createBackgroundPattern`. -/
def bgHash (M : JsMath) (x y s : ℚ) : ℚ :=
  let v := M.sin (x * (129898 / 10000) + y * (78233 / 1000) + s * (37719 / 1000))
    * (437585453 / 10000)
  v - ⌊v⌋

/-- Number of `rng()` calls `createBackgroundPattern` makes for one pixel. -/
def bgDraws (patternType : JsString) : Nat :=
  if patternType = "bg1".toList then 1
  else if patternType = "bg2".toList then 1
  else if patternType = "bg3".toList then 3
  else if patternType = "bg4".toList then 3
  else if patternType = "bg5".toList then 2
  else if patternType = "bg6".toList then 4
  else if patternType = "bg7".toList then 1
  else if patternType = "bg8".toList then 1
  else if patternType = "bg9".toList then 1
  else if patternType = "bg10".toList then 1
  else 0

/-- The value of `ci` after the `switch (patternType)` of `createBackgroundPattern` at
pixel `(x, y)` for `n` colours; `draw j` is the value of the `j`-th `rng()` call made for
this pixel, in evaluation order. In `bg12` the quotient by `16/n` is 0 for `n = 0`, as
is the quotient by `Infinity`. -/
def bgIndex (M : JsMath) (patternType : JsString) (n x y : Nat) (draw : Nat → ℚ) :
    Option Int :=
  let nx : ℚ := ((x : ℚ) - 63 / 2) / 32
  let ny : ℚ := ((y : ℚ) - 63 / 2) / 32
  let r := M.sqrt (nx * nx + ny * ny)
  let theta := M.atan2 ny nx
  let seed := fun (j : Nat) => (⌊draw j * 1000⌋ : Int)
  let pick := fun (v : ℚ) (other : Option Int) =>
    if n = 2 then some (if v > 0 then 1 else 0) else other
  if patternType = "bg1".toList then
    let v := bgHash M ((x / 8 : Nat) : ℚ) ((y / 8 : Nat) : ℚ) (seed 0) / 4294967296
    some ⌊v * n⌋
  else if patternType = "bg2".toList then
    let N : Int := 3 + (seed 0).tmod 6
    let v := |M.cos (N * theta)| + r
    jsMod (some ⌊v * n⌋) n
  else if patternType = "bg3".toList then
    let A : Int := 3 + ⌊draw 0 * 4⌋
    let B : Int := 3 + ⌊draw 1 * 4⌋
    let v := M.sin (nx * A + ny * B + seed 2)
    pick v (jsMod (some ⌊(v + 1) * (3 / 2)⌋) n)
  else if patternType = "bg4".toList then
    let v := bgHash M (x + bgHash M y 0 (seed 0) * 16) (y + bgHash M x 0 (seed 1) * 16)
      (seed 2) / 4294967296
    some ⌊v * n⌋
  else if patternType = "bg5".toList then
    let k : Int := 4 + (seed 0).tmod 5
    let v := M.sin (theta * k + r * 6 + bgHash M x y (seed 1) * 2)
    pick v (jsMod (some ⌊(v + 2) / (13 / 10)⌋) n)
  else if patternType = "bg6".toList then
    let A : Int := 3 + ⌊draw 0 * 4⌋
    let B : Int := 3 + ⌊draw 1 * 4⌋
    let v := M.sin (nx * A + seed 2) + M.cos (ny * B - seed 3)
    pick v (jsMod (some ⌊(v + 2) / (3 / 2)⌋) n)
  else if patternType = "bg7".toList then
    let v := r + bgHash M x y (seed 0) * (8 / 100)
    jsMod (some ⌊v * n⌋) n
  else if patternType = "bg8".toList then
    let k : Int := 4 + (seed 0).tmod 5
    let v := theta + r * k
    jsMod (some ⌊v * n⌋) n
  else if patternType = "bg9".toList then
    let nv : Int := 4 + (seed 0).tmod 5
    let v := M.cos (nv * theta)
    pick v (jsMod (some ⌊(v + 1) * (3 / 2)⌋) n)
  else if patternType = "bg10".toList then
    let v := bgHash M x y (seed 0) / 4294967296
    if n = 2 then some (if v > 92 / 100 then 1 else 0)
    else if v > 97 / 100 then some 2 else if v > 92 / 100 then some 1 else some 0
  else if patternType = "bg11".toList then
    let gx := x % 8
    let gy := y % 8
    if gx = 0 ∨ gy = 0 then jsMod (some 1) n else some 0
  else if patternType = "bg12".toList then
    jsMod (some ⌊(((x + y) % 16 : Nat) : ℚ) / (16 / n)⌋) n
  else if patternType = "bg13".toList then
    let dx : Int := (x % 8 : Nat) - 4
    let dy : Int := (y % 8 : Nat) - 4
    if dx * dx + dy * dy ≤ 4 then jsMod (some 1) n else some 0
  else some 0

/-- `createBackgroundPattern(colors, patternType, rng)`. The state of the loops is the
buffer and the number of `rng()` calls made so far; `rng k` is the value of call
number `k`. -/
def createBackgroundPattern (M : JsMath) (colors : List Rgb) (patternType : JsString)
    (rng : Nat → ℚ) : Except JsError ImageData :=
  let n := colors.length
  (forLoopE 0 64 1 (fun st x => forLoopE 0 64 1 (fun (st : ImageData × Nat) y =>
    let ci := bgIndex M patternType n x y (fun j => rng (st.2 + j))
    match colorAt colors (jsMod ci colors.length) with
    | .ok col => .ok (px st.1 col x y, st.2 + bgDraws patternType)
    | .error e => .error e) st) (blankCanvas, 0)).map Prod.fst

/-! ## A rational stand-in for `Math`

Used to evaluate the generators on concrete inputs: `π` is 355/113, the square root is
an integer root of the argument scaled by `2^40`, the arc tangent and the sine are
the usual quadratic approximations. -/

/-- Integer square root by bisection on the bits below `2^k`. -/
def sqrtBits : Nat → Nat → Nat → Nat
  | 0, _, acc => acc
  | k + 1, m, acc => if (acc + 2 ^ k) * (acc + 2 ^ k) ≤ m then sqrtBits k m (acc + 2 ^ k)
    else sqrtBits k m acc

/-- Square root, rounded down to a multiple of `2^-20`. -/
def refSqrt (q : ℚ) : ℚ := (sqrtBits 48 ⌊q * 2 ^ 40⌋.toNat 0 : ℚ) / 2 ^ 20

/-- Rational value used for `π`. -/
def refPi : ℚ := 355 / 113

/-- Arc tangent of `t` for `0 ≤ t`. -/
def refAtanPos (t : ℚ) : ℚ :=
  if t ≤ 1 then t * (refPi / 4 + 273 / 1000 * (1 - t))
  else refPi / 2 - (1 / t) * (refPi / 4 + 273 / 1000 * (1 - 1 / t))

/-- Arc tangent. -/
def refAtan (t : ℚ) : ℚ := if 0 ≤ t then refAtanPos t else - refAtanPos (- t)

/-- The angle `atan2(y, x)`. -/
def refAtan2 (y x : ℚ) : ℚ :=
  if 0 < x then refAtan (y / x)
  else if x < 0 then (if 0 ≤ y then refAtan (y / x) + refPi else refAtan (y / x) - refPi)
  else if 0 < y then refPi / 2 else if y < 0 then - (refPi / 2) else 0

/-- Sine: the argument is reduced to `[0, 2π)` and Bhaskara's formula is applied to each
half period. -/
def refSin (t : ℚ) : ℚ :=
  let u := t - 2 * refPi * ⌊t / (2 * refPi)⌋
  let half := fun (s : ℚ) => 16 * s * (refPi - s) / (5 * refPi ^ 2 - 4 * s * (refPi - s))
  if u ≤ refPi then half u else - half (u - refPi)

/-- The stand-in for `Math`. -/
def refMath : JsMath where
  sin := refSin
  cos := fun t => refSin (t + refPi / 2)
  sqrt := refSqrt
  atan2 := refAtan2

/-! ## Vocabulary of the generator properties -/

/-- Pixel `(x, y)` lies in one of the four `s`×`s` squares at the corners of the canvas. -/
def InCornerSquare (s x y : Nat) : Prop := (x < s ∨ x ≥ 64 - s) ∧ (y < s ∨ y ≥ 64 - s)

instance (s x y : Nat) : Decidable (InCornerSquare s x y) := by
  unfold InCornerSquare; infer_instance

/-- Two buffers have the same length and hold the same pixel at every index outside
`S`. -/
def AgreeOff (S : Nat → Prop) (b1 b2 : ImageData) : Prop :=
  b1.length = b2.length ∧ ∀ i, ¬ S i → b1[i]? = b2[i]?

/-- The border styles that take the corner mask. -/
def cornerStyles : List JsString :=
  ["px-bracket".toList, "px-chamfer".toList, "px-rivet".toList, "px-open".toList,
    "px-pip".toList]

/-- The classic and pixel-art border styles, the cases of the `switch` of
`createSimpleBorder`. -/
def namedBorderStyles : List JsString :=
  ["solid".toList, "dashed".toList, "dotted".toList, "checkerboard".toList,
    "shadow".toList, "multiring".toList, "dotdash".toList, "px-bracket".toList,
    "px-chamfer".toList, "px-rivet".toList, "px-open".toList, "px-pip".toList,
    "px-double".toList, "px-stitch".toList, "px-zigzag".toList, "px-brick".toList]

/-- A corner mask with every flag set. -/
def Corners.all : Corners := { tl := some true, tr := some true, bl := some true, br := some true }

/-- Buffer index `i` belongs to a pixel in one of the four corner squares of side `s`. -/
def InCornerIndex (s i : Nat) : Prop := InCornerSquare s (i % 64) (i / 64)

/-! ## Seeded generator (`colors.js`) -/

/-- `x | 0`: conversion of an integer to a signed 32-bit integer. -/
def toInt32 (x : Int) : Int := (x + 2147483648) % 4294967296 - 2147483648

/-- One round of the loop of `createSeededRNG`:
`h = ((h << 5) - h) + seed.charCodeAt(i); h |= 0`. The shift wraps to 32 bits, the
subtraction and the addition are exact. -/
def seedRound (h : Int) (ch : Char) : Int := toInt32 (toInt32 (h * 32) - h + ch.toNat)

/-- The value of `h` when the loop of `createSeededRNG` ends. -/
def seedHash (seed : JsString) : Int := seed.foldl seedRound 0

/-- The state update of the closure returned by `createSeededRNG`:
`h = (h * 9301 + 49297) % 233280`, with the remainder of JavaScript. -/
def rngStep (h : Int) : Int := (h * 9301 + 49297).tmod 233280

/-- The state `h` of the closure after `k` calls. -/
def rngState (seed : JsString) : Nat → Int
  | 0 => seedHash seed
  | k + 1 => rngStep (rngState seed k)

/-- `createSeededRNG(seed)` as the stream of the values returned: `createSeededRNG seed k`
is what call number `k` (counted from 0) returns, `h / 233280` after the update. -/
def createSeededRNG (seed : JsString) : Nat → ℚ :=
  fun k => (rngState seed (k + 1) : ℚ) / 233280

/-- Sum of the character codes of a string. -/
def charCodeSum (seed : JsString) : Int := (seed.map (fun ch => (ch.toNat : Int))).sum

/-- The polynomial `c₀·31ⁿ⁻¹ + … + cₙ₋₁` of the character codes, without wrapping. -/
def polyHash (seed : JsString) : Int := seed.foldl (fun h ch => 31 * h + ch.toNat) 0

/-! ## Stack serialization (`save.js`) -/

/-- `layer.settings.alpha || 1`: an absent alpha and the alpha 0 are falsy. -/
def alphaOrOne (alpha : Option ℚ) : ℚ :=
  match alpha with
  | some a => if a = 0 then 1 else a
  | none => 1

/-- The body of the loop of `serializeStack` for one layer. The image of an upload
layer is drawn on a fresh 64×64 canvas and read back by `encodeImage`; the pixels read
are the pixels of the image. -/
def serializeLayer (layer : Layer) : Except JsError SavedLayer :=
  let settings : Settings :=
    { layer.settings with alpha := some (alphaOrOne layer.settings.alpha) }
  match layer.type with
  | .generate =>
    .ok { type := some layer.type, settings := some settings
          imageData := some { regen := true } }
  | .upload =>
    match layer.image with
    | some img =>
      match encodeImage img with
      | .ok enc => .ok { type := some layer.type, settings := some settings
                         imageData := some enc }
      | .error e => .error e
    | none => .ok { type := some layer.type, settings := some settings, imageData := none }

/-- The loop of `serializeStack` over the remaining layers. -/
def serializeLayers : List Layer → Except JsError (List SavedLayer)
  | [] => .ok []
  | layer :: rest =>
    match serializeLayer layer with
    | .error e => .error e
    | .ok entry =>
      match serializeLayers rest with
      | .error e => .error e
      | .ok out => .ok (entry :: out)

/-- `serializeStack(stack)`. -/
def serializeStack (stack : LayerStack) : Except JsError (List SavedLayer) :=
  serializeLayers stack.layers

/-- A border stack with one generate layer whose alpha slider is at 0. -/
def alphaZeroStack : LayerStack :=
  (addLayer (LayerStack.new .border)
    { type := some .generate, settings := some { alpha := some 0 } }).1

/-- The settings hold every key that `addLayer` fills in for a stack of kind `kind`:
merging them over the defaults gives them back. -/
def SettingsComplete (kind : StackKind) (s : Settings) : Prop :=
  mergeSettings (_defaultSettings kind) { settings := some s } = s

/-- The image data of a saved layer can be restored: it is absent, the regenerate
marker, or pixel data that `decodeImage` decodes. -/
def Restorable (P : Canvas2D) (e : SavedLayer) : Prop :=
  ∀ enc, e.imageData = some enc → enc.regen = false → ∃ img, decodeImage P enc = .ok img

/-! ## Batch processing (`processing.js`, `slicing.js`)

The DOM updates (status text, progress bar, the grid elements) are left out; the canvases
handed to `addToGrid` are recorded. The user of the slice modal is a parameter. -/

/-- An element of `modalData`. -/
structure SliceSelection where
  img : SourceImg
  filename : JsString
  mode : PlacementMode
  slices : List (List Nat)
  checkStates : List Bool
  deriving DecidableEq, Repr

/-- The `modalData` built by `showSliceModal`: the slices of every entry, all checked. -/
def initialModalData (P : Canvas2D) (intersectionStack : LayerStack)
    (slicingEntries : List SourceEntry) : List SliceSelection :=
  slicingEntries.map fun e =>
    let slices := detectSlices P intersectionStack e.file e.mode
    { img := e.file, filename := e.fileName, mode := e.mode, slices := slices
      checkStates := List.replicate slices.length true }

/-- `showSliceModal(slicingEntries)`: what the promise resolves to. The user sees the
modal data and either cancels (`none`, the promise resolves to `null`) or confirms with
check boxes toggled: `user data = some choice` makes check box `idx` of entry `j` have
the state `choice j idx`. -/
def showSliceModal (P : Canvas2D) (intersectionStack : LayerStack)
    (slicingEntries : List SourceEntry)
    (user : List SliceSelection → Option (Nat → Nat → Bool)) : Option (List SliceSelection) :=
  let modalData := initialModalData P intersectionStack slicingEntries
  match user modalData with
  | none => none
  | some choice =>
    some (modalData.enum.map fun (j, d) =>
      { d with checkStates := (List.range d.checkStates.length).map (choice j) })

/-- `checkStates.map((v, si) => v ? si : -1).filter(si => si >= 0)`. -/
def checkedIndices (checkStates : List Bool) : List Nat :=
  (checkStates.enum.filter (fun p => p.2)).map Prod.fst

/-- What one call of `processImages` leaves behind: the application state, the canvases
composited and handed to `addToGrid` during the call, in order, and the error thrown,
if any. -/
structure ProcessOutcome where
  app : App
  composited : List ProcessedCanvas
  error : Option JsError
  deriving DecidableEq, Repr

/-- The loop of `processImages` over the remaining loaded entries. `i` is the position
of the entry, `j` the number of slicing entries before it, `done` the content of
`state.processedCanvases`. `genAt i` is the outcome of `_generateCanvas` during iteration
`i` (a fresh seed is drawn on every call); an error it throws ends the call. The selection of a slicing entry is looked up
in the map built from `result`; an absent one makes the destructuring throw. -/
def processLoop (P : Canvas2D)
    (genAt : Nat → Nat → StackKind → Settings → Except JsError (Option ImageData))
    (app : App) (cycleBackgrounds : Bool) (result : Option (List SliceSelection)) :
    Nat → Nat → List SourceEntry → List ProcessedCanvas → List ProcessedCanvas × Option JsError
  | _, _, [], done => (done, none)
  | i, j, entry :: rest, done =>
    let bg : Except JsError (Option ImageData) :=
      if cycleBackgrounds then (recompileForCycle P (genAt i) app.bgStack).2.map some
      else .ok app.bgStack.compiledCanvas
    match bg with
    | .error e => (done, some e)
    | .ok bgCanvas =>
    let base := compositeImage P entry.file entry.mode bgCanvas
      app.intersectionStack.compiledCanvas app.overlayStack.compiledCanvas
    match entry.slicing, result with
    | true, some res =>
      match res[j]? with
      | none => (done, some .typeError)
      | some sel =>
        let done1 := done ++ [{ canvas := base, filename := entry.fileName
                                suffix := "_base".toList }]
        let checkedIdx := checkedIndices sel.checkStates
        if checkedIdx.length > 0 then
          match compositeSliced P entry.file entry.mode sel.slices checkedIdx bgCanvas
              app.intersectionStack.compiledCanvas app.overlayStack.compiledCanvas with
          | .error e => (done1, some e)
          | .ok comp =>
            processLoop P genAt app cycleBackgrounds result (i + 1) (j + 1) rest
              (done1 ++ [{ canvas := comp, filename := entry.fileName
                           suffix := "_slices_front".toList }])
        else processLoop P genAt app cycleBackgrounds result (i + 1) (j + 1) rest done1
    | _, _ =>
      processLoop P genAt app cycleBackgrounds result (i + 1) (if entry.slicing then j + 1 else j)
        rest (done ++ [{ canvas := base, filename := entry.fileName, suffix := [] }])

/-- `processImages(cycleBackgrounds)`. The files of `state.sourceImages` are taken as
loaded. Every canvas pushed to `state.processedCanvases` is also handed to `addToGrid`. -/
def processImages (P : Canvas2D)
    (genAt : Nat → Nat → StackKind → Settings → Except JsError (Option ImageData))
    (user : List SliceSelection → Option (Nat → Nat → Bool)) (app : App)
    (cycleBackgrounds : Bool) : ProcessOutcome :=
  if app.state.sourceImages.length = 0 then { app := app, composited := [], error := none }
  else
    let loadedEntries := app.state.sourceImages
    let slicingEntries := loadedEntries.filter (fun e => e.slicing)
    let run := fun (result : Option (List SliceSelection)) =>
      let out := processLoop P genAt app cycleBackgrounds result 0 0 loadedEntries []
      ({ app := { app with state := { app.state with processedCanvases := out.1 } }
         composited := out.1, error := out.2 } : ProcessOutcome)
    if slicingEntries.length > 0 then
      match showSliceModal P app.intersectionStack slicingEntries user with
      | none => { app := app, composited := [], error := none }
      | some result => run (some result)
    else run none

/-- An application state with one queued source image that has slicing enabled and one
canvas left from an earlier batch. -/
def slicingApp : App :=
  { App.initial with
    state := { SharedState.initial with
      sourceImages := [{ fileName := "a.png".toList, file := ⟨1, 1, [⟨9, 9, 9, 255⟩]⟩
                         mode := .center, slicing := true }]
      processedCanvases := [{ canvas := blankCanvas, filename := "old.png".toList
                              suffix := [] }] } }

/-! ## Array accesses of the scan (`slicing.js`)

A record of what the scan of `detectSlices` does to its arrays, kept next to the
functions above: the state is computed by `fillStep`, `floodFill` and `scanPixel`
themselves, the record follows the same tests. -/

/-- The accesses made so far: `reads` holds, for every read of `overlapMap` or `visited`,
the `[x, y]` pair and the index used; `marks` the indices `ci` of the executions of
`visited[ci] = 1`, in order; `unfinished` counts the flood fills whose queue was not
empty when their iterations ran out. -/
structure AccessLog where
  reads : List ((Int × Int) × Nat)
  marks : List Nat
  unfinished : Nat
  deriving DecidableEq, Repr

/-- The accesses of one iteration of the `while (queue.length)` loop in state `st`: the
bounds test reads nothing; past it `visited[ci]` (and `overlapMap[ci]`) is read, and
`visited[ci] = 1` is executed when the pixel is taken. -/
def logStep (om : List Nat) (st : FillState) (log : AccessLog) : AccessLog :=
  match st.queue with
  | [] => log
  | (cx, cy) :: _ =>
    if cx < 0 ∨ cx ≥ 64 ∨ cy < 0 ∨ cy ≥ 64 then log
    else
      let ci := (cy * 64 + cx).toNat
      let log1 := { log with reads := log.reads ++ [((cx, cy), ci)] }
      if st.visited.getD ci 0 ≠ 0 ∨ om.getD ci 0 = 0 then log1
      else { log1 with marks := log1.marks ++ [ci] }

/-- The accesses of `floodFill om fuel st`. -/
def fillLog (om : List Nat) : Nat → FillState → AccessLog → AccessLog
  | 0, st, log =>
    match st.queue with
    | [] => log
    | _ :: _ => { log with unfinished := log.unfinished + 1 }
  | fuel + 1, st, log =>
    match st.queue with
    | [] => log
    | _ :: _ => fillLog om fuel (fillStep om st) (logStep om st log)

/-- Body of the inner `for` loop with its accesses: `overlapMap[idx]` (and `visited[idx]`)
is read, then the flood fill runs if the pixel starts a slice. -/
def scanPixelLogged (om : List Nat) (sl : ScanState × AccessLog) (x y : Nat) :
    ScanState × AccessLog :=
  let idx := y * 64 + x
  let log1 := { sl.2 with reads := sl.2.reads ++ [(((x : Int), (y : Int)), idx)] }
  (scanPixel om sl.1 x y,
    if om.getD idx 0 ≠ 1 ∨ sl.1.visited.getD idx 0 ≠ 0 then log1
    else fillLog om fillFuel
      { visited := sl.1.visited, pixels := [], queue := [((x : Int), (y : Int))] } log1)

/-- The inner loop of row `y` with its accesses. -/
def scanRowLogged (om : List Nat) (sl : ScanState × AccessLog) (y : Nat) :
    ScanState × AccessLog :=
  (List.range 64).foldl (fun acc x => scanPixelLogged om acc x y) sl

/-- The whole scan with its accesses. -/
def scanAllLogged (om : List Nat) : ScanState × AccessLog :=
  (List.range 64).foldl (scanRowLogged om)
    ({ visited := List.replicate 4096 0, slices := [] }, { reads := [], marks := [], unfinished := 0 })

/-- The record is consistent with the `visited` array `vis`: the array has 4096 entries,
no fill ran out of iterations, no index was marked twice, every marked index is set in
`vis`, and every read used a pair inside the grid and its index. -/
structure LogInv (vis : List Nat) (log : AccessLog) : Prop where
  len : vis.length = 4096
  finished : log.unfinished = 0
  nodup : log.marks.Nodup
  marked : ∀ m ∈ log.marks, vis.getD m 0 ≠ 0
  inside : ∀ r ∈ log.reads, InBounds r.1 ∧ r.2 = pixelIndex r.1 ∧ r.2 < 4096

/-! ## Colour utilities (`colors.js`)

Numbers are doubles (see `toDouble`): every `+`, `-`, `*`, `/` of the source is the
rounded operation, a decimal literal is the double nearest to it, and `%`, `Math.min`,
`Math.max`, `Math.round` are exact. A colour `[r, g, b]` is a triple of integers. -/

/-- A colour array `[r, g, b]`. -/
abbrev RgbTriple := Int × Int × Int

/-- `x % m` on numbers: the remainder has the sign of `x` (and is exact on doubles). -/
def jsRemQ (x m : ℚ) : ℚ := x - m * (if 0 ≤ x / m then ⌊x / m⌋ else ⌈x / m⌉)

/-- `Math.round(x)`. -/
def jsRound (x : ℚ) : Int := ⌊x + 1 / 2⌋

/-- `hslToRgb(h, s, l)`. -/
def hslToRgb (h s l : ℚ) : RgbTriple :=
  let s := fdiv s 100
  let l := fdiv l 100
  let k := fun (n : ℚ) => jsRemQ (fadd n (fdiv h 30)) 12
  let a := fmul s (min l (fsub 1 l))
  let f := fun (n : ℚ) =>
    fsub l (fmul a (max (-1) (min (fsub (k n) 3) (min (fsub 9 (k n)) 1))))
  (jsRound (fmul 255 (f 0)), jsRound (fmul 255 (f 8)), jsRound (fmul 255 (f 4)))

/-- `rgbToHsl(r, g, b)`: the array `[h, s * 100, l * 100]`. The `switch (max)` takes
the first of the cases `r`, `g`, `b` that equals `max`. -/
def rgbToHsl (r g b : ℚ) : ℚ × ℚ × ℚ :=
  let r := fdiv r 255
  let g := fdiv g 255
  let b := fdiv b 255
  let mx := max r (max g b)
  let mn := min r (min g b)
  let l := fdiv (fadd mx mn) 2
  if mx = mn then (0, fmul 0 100, fmul l 100)
  else
    let d := fsub mx mn
    let s := if l > 1 / 2 then fdiv d (fsub (fsub 2 mx) mn) else fdiv d (fadd mx mn)
    let h :=
      if mx = r then fmul (fadd (fdiv (fsub g b) d) (if g < b then 6 else 0)) 60
      else if mx = g then fmul (fadd (fdiv (fsub b r) d) (if b < r then 2 else 0)) 60
      else fmul (fadd (fdiv (fsub r g) d) (if r < g then 4 else 0)) 60
    (h, fmul s 100, fmul l 100)

/-- `generateComplementaryPalette(baseColors, type)`. -/
def generateComplementaryPalette (baseColors : List RgbTriple) (type : JsString) :
    List RgbTriple :=
  baseColors.map fun color =>
    let hsl := rgbToHsl color.1 color.2.1 color.2.2
    if type = "cool".toList then
      let newHue := jsRemQ (fadd hsl.1 30) 360
      let newSat := max 35 (fmul hsl.2.1 (toDouble (85 / 100)))
      let newLight := min 72 (fadd (fmul hsl.2.2 (toDouble (115 / 100))) 5)
      hslToRgb newHue newSat newLight
    else if type = "warm".toList then
      let newHue := jsRemQ (fadd (fsub hsl.1 30) 360) 360
      let newSat := min 95 (fadd (fmul hsl.2.1 (toDouble (13 / 10))) 10)
      let newLight := max 30 (fmul hsl.2.2 (toDouble (92 / 100)))
      hslToRgb newHue newSat newLight
    else color

/-- The names returned by `getHueBucket`. -/
inductive HueBucket where
  | red
  | orange
  | yellow
  | green
  | cyan
  | blue
  | purple
  deriving DecidableEq, Repr

/-- `isNeutralColor(r, g, b)`. -/
def isNeutralColor (r g b : Nat) : Bool :=
  let mx := max r (max g b)
  let mn := min r (min g b)
  let diff := mx - mn
  let saturation : ℚ := if mx > 0 then (diff : ℚ) / mx else 0
  let brightness : ℚ := ((r + g + b : Nat) : ℚ) / 3
  let isVeryLight := decide (mx > 220 ∧ mn > 190)
  decide (saturation < 20 / 100) || decide (brightness < 25) || isVeryLight

/-- `getHue(r, g, b)`. -/
def getHue (r g b : Nat) : ℚ :=
  let mx := max r (max g b)
  let mn := min r (min g b)
  let delta : ℚ := ((mx : Int) - mn : Int)
  if mx - mn = 0 then 0
  else
    let hue : ℚ :=
      if mx = r then (((g : ℚ) - b) / delta + (if g < b then 6 else 0)) * 60
      else if mx = g then (((b : ℚ) - r) / delta + (if b < r then 2 else 0)) * 60
      else (((r : ℚ) - g) / delta + (if r < g then 4 else 0)) * 60
    if hue < 0 then hue + 360 else hue

/-- `getHueBucket(hue)`. -/
def getHueBucket (hue : ℚ) : HueBucket :=
  if hue ≥ 0 ∧ hue < 30 then .red
  else if hue ≥ 30 ∧ hue < 60 then .orange
  else if hue ≥ 60 ∧ hue < 120 then .yellow
  else if hue ≥ 120 ∧ hue < 180 then .green
  else if hue ≥ 180 ∧ hue < 240 then .cyan
  else if hue ≥ 240 ∧ hue < 300 then .blue
  else if hue ≥ 300 ∧ hue < 360 then .purple
  else .red

/-- The key of a pixel in `colorMap`: the text `bucket,R,G,B` with the channels rounded
to multiples of 16, kept as its four components (the text determines them and
`Number(parts[i])` reads the channels back). -/
structure ColorKey where
  bucket : HueBucket
  r : Nat
  g : Nat
  b : Nat
  deriving DecidableEq, Repr

/-- `Math.round(v / 16) * 16` for a byte `v`. -/
def quantize16 (v : Nat) : Nat := (v + 8) / 16 * 16

/-- The pixel passes the filters of `extractDominantColors`: alpha above 64 and not a
neutral colour. -/
def survives (p : Pixel) : Bool := decide (p.a > 64) && !isNeutralColor p.r p.g p.b

/-- The `key` of a pixel. -/
def colorKeyOf (p : Pixel) : ColorKey :=
  { bucket := getHueBucket (getHue p.r p.g p.b)
    r := quantize16 p.r, g := quantize16 p.g, b := quantize16 p.b }

/-- `colorMap.set(key, (colorMap.get(key) || 0) + 1)` on a `Map` kept as the list of its
entries in insertion order. -/
def mapIncr : List (ColorKey × Nat) → ColorKey → List (ColorKey × Nat)
  | [], key => [(key, 1)]
  | (k, n) :: rest, key => if k = key then (k, n + 1) :: rest else (k, n) :: mapIncr rest key

/-- The counting loop of `extractDominantColors`. -/
def countColors (data : ImageData) : List (ColorKey × Nat) :=
  data.foldl (fun m p => if survives p then mapIncr m (colorKeyOf p) else m) []

/-- Insertion of an entry before the first entry that has no larger count. -/
def insertByCount (e : ColorKey × Nat) : List (ColorKey × Nat) → List (ColorKey × Nat)
  | [] => [e]
  | t :: rest => if e.2 ≥ t.2 then e :: t :: rest else t :: insertByCount e rest

/-- `entries.sort((a, b) => b[1] - a[1])`: a stable sort by descending count, here as
insertion sort. -/
def sortByCount : List (ColorKey × Nat) → List (ColorKey × Nat)
  | [] => []
  | e :: rest => insertByCount e (sortByCount rest)

/-- The colour `[Number(parts[1]), Number(parts[2]), Number(parts[3])]` of a key. -/
def ColorKey.toTriple (k : ColorKey) : RgbTriple := ((k.r : Int), (k.g : Int), (k.b : Int))

/-- The `defaults` of `extractDominantColors`: gray-blue, tan, mint green. -/
def defaultPalette : List RgbTriple := [(100, 100, 120), (200, 150, 100), (150, 200, 150)]

/-- The loop `while (sorted.length < maxColors) sorted.push(defaults[sorted.length])`,
at most `fuel` iterations; an entry `none` is `undefined`. -/
def padDefaults (maxColors : Nat) : Nat → List (Option RgbTriple) → List (Option RgbTriple)
  | 0, sorted => sorted
  | fuel + 1, sorted =>
    if sorted.length < maxColors then
      padDefaults maxColors fuel (sorted ++ [defaultPalette[sorted.length]?])
    else sorted

/-- `extractDominantColors(img, maxColors)`, `data` being the 64×64 pixels read back
after the image is drawn; an entry `none` of the result is `undefined`. The padding loop
adds one entry per iteration, so `maxColors` iterations suffice. -/
def extractDominantColors (data : ImageData) (maxColors : Nat) : List (Option RgbTriple) :=
  let sorted := ((sortByCount (countColors data)).take maxColors).map
    (fun e => some e.1.toTriple)
  padDefaults maxColors maxColors sorted

/-- A grey base colour. -/
def greyTriple : RgbTriple := (128, 128, 128)

/-- What the counting loop has built once the pixels `pre` are processed: no key occurs
twice, and the entries are the keys of the surviving pixels with the number of surviving
pixels of that key. -/
structure CountInv (pre : List Pixel) (m : List (ColorKey × Nat)) : Prop where
  nodup : (m.map Prod.fst).Nodup
  count : ∀ k n, (k, n) ∈ m ↔
    (n = pre.countP (fun p => survives p && decide (colorKeyOf p = k)) ∧ 0 < n)

/-! ## Pattern generation of a stack (`layers.js`) -/

/-- `_generateCanvas(s)` of a stack of kind `kind`: the canvas returned (never `null`) or
the error thrown; `seed` is the string `generateSeed()` returns for the call. The keys
`style`, `width` and `corners` are present in the settings of every layer, since
`addLayer` merges the defaults of the kind; an absent `style` selects no case of the
`switch`, an absent `width` and absent `corners` are read as 0 and as the empty mask. -/
def _generateCanvas (P : Canvas2D) (M : JsMath) (kind : StackKind) (s : Settings)
    (seed : JsString) : Except JsError (Option ImageData) :=
  match _resolveColors s with
  | .error e => .error e
  | .ok colors =>
    match kind with
    | .background =>
      (createBackgroundPattern M colors (s.style.getD []) (createSeededRNG seed)).map some
    | .border =>
      (createSimpleBorder P M colors (s.width.getD 0) (s.style.getD [])
        (createSeededRNG seed) (s.corners.getD {})).map some

/-- A background stack with one generate layer of style `bg8`; the other settings are
the defaults of the kind, two colours among them. -/
def bg8Stack : LayerStack :=
  (addLayer (LayerStack.new .background)
    { type := some .generate, settings := some { style := some "bg8".toList } }).1

/-! ## Example buffers -/

/-- A buffer filled with one half-transparent colour that no canvas with premultiplied
storage returns. -/
def halfAlphaBuffer : ImageData := List.replicate 4096 ⟨200, 100, 50, 128⟩

/-- A buffer of two colours, one half-transparent and one opaque, both of which a
canvas with premultiplied storage returns as written. -/
def twoColourBuffer : ImageData :=
  List.replicate 2048 ⟨199, 100, 50, 128⟩ ++ List.replicate 2048 ⟨255, 0, 0, 255⟩

/-- An intersection canvas with three opaque bars in the top row: pixels 0 to 3,
10 to 12 and 20 to 22. -/
def barsCanvas : ImageData :=
  (List.range 4096).map fun i =>
    if i < 4 ∨ (10 ≤ i ∧ i < 13) ∨ (20 ≤ i ∧ i < 23) then ⟨255, 255, 255, 255⟩
    else Pixel.clear

/-- A border stack whose compiled canvas is `barsCanvas`. -/
def barsStack : LayerStack :=
  { LayerStack.new .border with compiledCanvas := some barsCanvas }

/-! # Verification -/

/-! ### Base64 and character codes -/

theorem toNat_ofNat_byte (n : Nat) (h : n < 256) : (Char.ofNat (n % 65536)).toNat = n := by
  have h1 : n % 65536 = n := Nat.mod_eq_of_lt (by omega)
  rw [h1]
  unfold Char.ofNat
  have hv : n.isValidChar := Or.inl (by omega)
  simp only [hv, dite_true]
  rfl

theorem charCodeAt_fromCharCode (l : List Nat) (hl : ∀ v ∈ l, v < 256) (i : Nat) :
    charCodeAt (fromCharCode l) i = l[i]? := by
  unfold charCodeAt fromCharCode
  simp only [List.getElem?_map, Option.map_map]
  cases h : l[i]? with
  | none => rfl
  | some v =>
    have hv : v ∈ l := List.getElem?_mem h
    simp [toNat_ofNat_byte v (hl v hv)]

theorem map_toNat_fromCharCode (l : List Nat) (hl : ∀ v ∈ l, v < 256) :
    (fromCharCode l).map Char.toNat = l := by
  unfold fromCharCode
  rw [List.map_map]
  conv_rhs => rw [← List.map_id l]
  apply List.map_congr_left
  intro v hv
  simp [toNat_ofNat_byte v (hl v hv)]

theorem b64Bytes_b64Sextets (bs : List Nat) (h : ∀ v ∈ bs, v < 256) :
    b64Bytes (b64Sextets bs) = bs := by
  induction bs using b64Sextets.induct with
  | case1 a b c rest ih =>
    have ha := h a (by simp); have hb := h b (by simp); have hc := h c (by simp)
    have hr : ∀ v ∈ rest, v < 256 := fun v hv => h v (by simp [hv])
    simp only [b64Sextets, b64Bytes, ih hr]
    congr 1
    · omega
    congr 1
    · omega
    congr 1
    · omega
  | case2 a b =>
    have ha := h a (by simp); have hb := h b (by simp)
    simp only [b64Sextets, b64Bytes]
    congr 1
    · omega
    congr 1
    · omega
  | case3 a =>
    have ha := h a (by simp)
    simp only [b64Sextets, b64Bytes]
    congr 1
    · omega
  | case4 => rfl

theorem b64Sextets_lt (bs : List Nat) (h : ∀ v ∈ bs, v < 256) :
    ∀ s ∈ b64Sextets bs, s < 64 := by
  induction bs using b64Sextets.induct with
  | case1 a b c rest ih =>
    have ha := h a (by simp); have hb := h b (by simp); have hc := h c (by simp)
    have hr : ∀ v ∈ rest, v < 256 := fun v hv => h v (by simp [hv])
    intro s hs
    simp only [b64Sextets, List.mem_cons] at hs
    rcases hs with rfl | rfl | rfl | rfl | hs
    · omega
    · omega
    · omega
    · omega
    · exact ih hr s hs
  | case2 a b =>
    have ha := h a (by simp); have hb := h b (by simp)
    intro s hs
    simp only [b64Sextets, List.mem_cons, List.mem_singleton, List.not_mem_nil, or_false] at hs
    rcases hs with rfl | rfl | rfl <;> omega
  | case3 a =>
    have ha := h a (by simp)
    intro s hs
    simp only [b64Sextets, List.mem_cons, List.mem_singleton, List.not_mem_nil, or_false] at hs
    rcases hs with rfl | rfl <;> omega
  | case4 => intro s hs; simp [b64Sextets] at hs

theorem b64Sextets_length (bs : List Nat) :
    (b64Sextets bs).length + (3 - bs.length % 3) % 3 = 4 * ((bs.length + 2) / 3) := by
  induction bs using b64Sextets.induct with
  | case1 a b c rest ih =>
    simp only [b64Sextets, List.length_cons]
    omega
  | case2 a b => simp [b64Sextets]
  | case3 a => simp [b64Sextets]
  | case4 => simp [b64Sextets]

end BadgesBeDone
namespace BadgesBeDone

set_option maxRecDepth 100000 in
theorem b64Val_b64Char : ∀ v, v < 64 →
    b64Val (b64Char v) = some v ∧ b64Char v ≠ '=' ∧ isAsciiWhitespace (b64Char v) = false := by
  decide

theorem b64Values_map_b64Char (ss : List Nat) (h : ∀ s ∈ ss, s < 64) :
    b64Values (ss.map b64Char) = some ss := by
  induction ss with
  | nil => rfl
  | cons s rest ih =>
    have h1 := (b64Val_b64Char s (h s (by simp))).1
    have h2 := ih (fun v hv => h v (by simp [hv]))
    simp only [List.map_cons, b64Values, h1, h2]

theorem stripPadding_of_no_pad (s : JsString) (h : ∀ c ∈ s, c ≠ '=') : stripPadding s = s := by
  unfold stripPadding
  split
  · split
    · next t heq =>
      have : '=' ∈ s := by
        rw [← List.mem_reverse, heq]; simp
      exact absurd rfl (h _ this)
    · next t _ heq =>
      have : '=' ∈ s := by
        rw [← List.mem_reverse, heq]; simp
      exact absurd rfl (h _ this)
    · rfl
  · rfl

theorem stripPadding_append (s : JsString) (k : Nat) (hk : k ≤ 2)
    (hlen : (s.length + k) % 4 = 0) (h : ∀ c ∈ s, c ≠ '=') :
    stripPadding (s ++ List.replicate k '=') = s := by
  have hk' : k = 0 ∨ k = 1 ∨ k = 2 := by omega
  rcases hk' with rfl | rfl | rfl
  · simpa using stripPadding_of_no_pad s h
  · unfold stripPadding
    have hl : (s ++ List.replicate 1 '=').length % 4 = 0 := by simpa using hlen
    rw [if_pos hl]
    have hr : (s ++ List.replicate 1 '=').reverse = '=' :: s.reverse := by simp [List.replicate]
    rw [hr]
    split
    · next t heq =>
      have h2 : s.reverse = '=' :: t := by simpa using heq
      have : '=' ∈ s := by rw [← List.mem_reverse, h2]; simp
      exact absurd rfl (h _ this)
    · next t _ heq =>
      have h2 : s.reverse = t := by simpa using heq
      rw [← h2]; simp
    · next h1 h2 => exact absurd rfl (h2 s.reverse)
  · unfold stripPadding
    have hl : (s ++ List.replicate 2 '=').length % 4 = 0 := by simpa using hlen
    rw [if_pos hl]
    have hr : (s ++ List.replicate 2 '=').reverse = '=' :: '=' :: s.reverse := by
      simp [List.replicate]
    rw [hr]
    simp

theorem atob_btoa (idx : List Nat) (h : ∀ v ∈ idx, v < 256) :
    ∃ px, btoa (fromCharCode idx) = .ok px ∧ atob px = .ok (fromCharCode idx) := by
  have hall : (fromCharCode idx).all (fun c => decide (c.toNat ≤ 255)) = true := by
    rw [List.all_eq_true]
    intro c hc
    unfold fromCharCode at hc
    rw [List.mem_map] at hc
    obtain ⟨v, hv, rfl⟩ := hc
    have := toNat_ofNat_byte v (h v hv)
    have := h v hv
    simp only [decide_eq_true_eq]; omega
  have hmap := map_toNat_fromCharCode idx h
  have hlenf : (fromCharCode idx).length = idx.length := by simp [fromCharCode]
  refine ⟨_, by unfold btoa; rw [if_pos hall], ?_⟩
  rw [hmap, hlenf]
  set enc := (b64Sextets idx).map b64Char with henc
  set k := (3 - idx.length % 3) % 3 with hk
  have hlt := b64Sextets_lt idx h
  have hne : ∀ c ∈ enc, c ≠ '=' := by
    intro c hc
    rw [henc, List.mem_map] at hc
    obtain ⟨v, hv, rfl⟩ := hc
    exact (b64Val_b64Char v (hlt v hv)).2.1
  have hws : ∀ c ∈ enc ++ List.replicate k '=', (!isAsciiWhitespace c) = true := by
    intro c hc
    rw [List.mem_append] at hc
    rcases hc with hc | hc
    · rw [henc, List.mem_map] at hc
      obtain ⟨v, hv, rfl⟩ := hc
      simp [(b64Val_b64Char v (hlt v hv)).2.2]
    · rw [List.mem_replicate] at hc
      rw [hc.2]; decide
  have hlen := b64Sextets_length idx
  have hlenenc : enc.length = (b64Sextets idx).length := by simp [henc]
  unfold atob
  simp only
  rw [List.filter_eq_self.mpr hws]
  rw [stripPadding_append enc k (by omega) (by rw [hlenenc]; omega) hne]
  have h4 : ¬ enc.length % 4 = 1 := by rw [hlenenc]; omega
  rw [if_neg h4, henc, b64Values_map_b64Char _ hlt]
  simp only [b64Bytes_b64Sextets idx h]

/-! ### Hexadecimal keys -/

set_option maxRecDepth 100000 in
theorem hexByte_roundtrip : ∀ n, n < 256 →
    (padStart (toString16 n) 2 '0').length = 2 ∧
    toUint8Clamped (parseInt16 (padStart (toString16 n) 2 '0')) = n := by
  decide

/-- The pixel that the loop of `decodeImage` reads off a palette entry. -/
theorem decode_pixelKey (p : Pixel) (hp : p.IsByte) :
    (⟨toUint8Clamped (parseInt16 (slice (pixelKey p) 0 2)),
      toUint8Clamped (parseInt16 (slice (pixelKey p) 2 4)),
      toUint8Clamped (parseInt16 (slice (pixelKey p) 4 6)),
      toUint8Clamped (parseInt16 (slice (pixelKey p) 6 8))⟩ : Pixel) = p := by
  obtain ⟨hr, hg, hb, ha⟩ := hp
  obtain ⟨lr, vr⟩ := hexByte_roundtrip p.r hr
  obtain ⟨lg, vg⟩ := hexByte_roundtrip p.g hg
  obtain ⟨lb, vb⟩ := hexByte_roundtrip p.b hb
  obtain ⟨la, va⟩ := hexByte_roundtrip p.a ha
  obtain ⟨r1, r2, er⟩ := List.length_eq_two.mp lr
  obtain ⟨g1, g2, eg⟩ := List.length_eq_two.mp lg
  obtain ⟨b1, b2, eb⟩ := List.length_eq_two.mp lb
  obtain ⟨a1, a2, ea⟩ := List.length_eq_two.mp la
  have hk : pixelKey p = [r1, r2, g1, g2, b1, b2, a1, a2] := by
    unfold pixelKey; rw [er, eg, eb, ea]; rfl
  rw [er] at vr; rw [eg] at vg; rw [eb] at vb; rw [ea] at va
  rw [hk]
  have s1 : slice [r1, r2, g1, g2, b1, b2, a1, a2] 0 2 = [r1, r2] := rfl
  have s2 : slice [r1, r2, g1, g2, b1, b2, a1, a2] 2 4 = [g1, g2] := rfl
  have s3 : slice [r1, r2, g1, g2, b1, b2, a1, a2] 4 6 = [b1, b2] := rfl
  have s4 : slice [r1, r2, g1, g2, b1, b2, a1, a2] 6 8 = [a1, a2] := rfl
  rw [s1, s2, s3, s4, vr, vg, vb, va]

theorem pixelKey_injOn (p q : Pixel) (hp : p.IsByte) (hq : q.IsByte)
    (h : pixelKey p = pixelKey q) : p = q := by
  rw [← decode_pixelKey p hp, ← decode_pixelKey q hq, h]

/-! ### The loop of `encodeImage` -/

theorem EncInv.encInit : EncInv [] ⟨[], [], []⟩ where
  nodup := List.nodup_nil
  size := by simp
  mapNone := by intro k; simp [mapGet]
  mapSome := by intro k i h; simp [mapGet] at h
  mem := by intro k; simp
  order := List.Pairwise.nil
  idx := List.Forall₂.nil

theorem firstOccurrence_lt {pre : List Pixel} {k : JsString} (h : k ∈ pre.map pixelKey) :
    firstOccurrence pre k < pre.length := by
  unfold firstOccurrence
  rw [List.findIdx_lt_length]
  rw [List.mem_map] at h
  obtain ⟨q, hq, rfl⟩ := h
  exact ⟨q, hq, by simp⟩

theorem firstOccurrence_append_of_mem {pre : List Pixel} {k : JsString}
    (h : k ∈ pre.map pixelKey) (l : List Pixel) :
    firstOccurrence (pre ++ l) k = firstOccurrence pre k := by
  have := firstOccurrence_lt h
  unfold firstOccurrence at this ⊢
  rw [List.findIdx_append, if_pos this]

theorem firstOccurrence_append_of_not_mem {pre : List Pixel} {k : JsString}
    (h : k ∉ pre.map pixelKey) (l : List Pixel) :
    pre.length ≤ firstOccurrence (pre ++ l) k := by
  have hn : ¬ firstOccurrence pre k < pre.length := by
    unfold firstOccurrence
    rw [List.findIdx_lt_length]
    rintro ⟨q, hq, hqk⟩
    exact h (List.mem_map.mpr ⟨q, hq, by simpa using hqk⟩)
  unfold firstOccurrence at hn ⊢
  rw [List.findIdx_append, if_neg hn]
  omega

/-- A pixel whose key is already in the palette. -/
theorem EncInv.step_known {pre : List Pixel} {st : EncodeState} (inv : EncInv pre st)
    (p : Pixel) (v : Nat) (hget : mapGet st.paletteMap (pixelKey p) = some v) :
    EncInv (pre ++ [p]) { st with indices := st.indices ++ [v % 256] } := by
  have hv := inv.mapSome _ _ hget
  have hk : pixelKey p ∈ st.palette := List.getElem?_mem hv
  have hlt : v < st.palette.length := by
    by_contra hcon
    rw [List.getElem?_eq_none (by omega)] at hv
    exact absurd hv (by simp)
  have hmod : v % 256 = v := Nat.mod_eq_of_lt (lt_of_lt_of_le hlt inv.size)
  have hpre : pixelKey p ∈ pre.map pixelKey := (inv.mem _).mp hk
  have hmem : ∀ a ∈ st.palette, a ∈ pre.map pixelKey := fun a ha => (inv.mem a).mp ha
  refine ⟨inv.nodup, inv.size, inv.mapNone, inv.mapSome, ?_, ?_, ?_⟩
  · intro k
    rw [inv.mem k, List.map_append, List.mem_append]
    constructor
    · exact Or.inl
    · rintro (h | h)
      · exact h
      · simp only [List.map_cons, List.map_nil, List.mem_singleton] at h
        rw [h]; exact hpre
  · refine List.Pairwise.imp_of_mem ?_ inv.order
    intro a b ha hb hab
    rw [firstOccurrence_append_of_mem (hmem a ha), firstOccurrence_append_of_mem (hmem b hb)]
    exact hab
  · rw [hmod]
    exact List.rel_append inv.idx (List.Forall₂.cons hv List.Forall₂.nil)

/-- A pixel whose key is new, with room left in the palette. -/
theorem EncInv.step_new {pre : List Pixel} {st : EncodeState} (inv : EncInv pre st)
    (p : Pixel) (hk : pixelKey p ∉ st.palette) (hroom : st.palette.length < 256) :
    EncInv (pre ++ [p])
      { paletteMap := (pixelKey p, st.palette.length) :: st.paletteMap
        palette := st.palette ++ [pixelKey p]
        indices := st.indices ++ [st.palette.length % 256] } := by
  have hpre : pixelKey p ∉ pre.map pixelKey := fun h => hk ((inv.mem _).mpr h)
  have hmem : ∀ a ∈ st.palette, a ∈ pre.map pixelKey := fun a ha => (inv.mem a).mp ha
  have hlast : (st.palette ++ [pixelKey p])[st.palette.length]? = some (pixelKey p) := by
    rw [List.getElem?_append_right (le_refl _)]; simp
  have hkeep : ∀ (i : Nat) (k : JsString), st.palette[i]? = some k → (st.palette ++ [pixelKey p])[i]? = some k := by
    intro i k hq
    have hi : i < st.palette.length := by
      by_contra hcon
      rw [List.getElem?_eq_none (by omega)] at hq
      exact absurd hq (by simp)
    rw [List.getElem?_append_left hi]; exact hq
  refine ⟨?_, ?_, ?_, ?_, ?_, ?_, ?_⟩
  · refine List.Nodup.append inv.nodup (List.nodup_singleton _) ?_
    intro a ha hb
    rw [List.mem_singleton] at hb
    exact hk (hb ▸ ha)
  · simp only [List.length_append, List.length_singleton]; omega
  · intro k
    by_cases hkk : pixelKey p = k
    · subst hkk
      simp [mapGet]
    · have hkk' : ¬ k = pixelKey p := fun h => hkk h.symm
      simp only [mapGet, if_neg hkk, List.mem_append, List.mem_singleton, hkk', or_false]
      exact inv.mapNone k
  · intro k i hget
    by_cases hkk : pixelKey p = k
    · subst hkk
      simp only [mapGet, if_true, Option.some.injEq] at hget
      subst hget
      exact hlast
    · simp only [mapGet, if_neg hkk] at hget
      exact hkeep i k (inv.mapSome k i hget)
  · intro k
    simp only [List.mem_append, List.mem_singleton, List.map_append, List.map_cons,
      List.map_nil, inv.mem k]
  · rw [List.pairwise_append]
    refine ⟨?_, List.pairwise_singleton _ _, ?_⟩
    · refine List.Pairwise.imp_of_mem ?_ inv.order
      intro a b ha hb hab
      rw [firstOccurrence_append_of_mem (hmem a ha),
        firstOccurrence_append_of_mem (hmem b hb)]
      exact hab
    · intro a ha b hb
      rw [List.mem_singleton] at hb
      subst hb
      rw [firstOccurrence_append_of_mem (hmem a ha)]
      have h1 := firstOccurrence_lt (hmem a ha)
      have h2 := firstOccurrence_append_of_not_mem hpre [p]
      omega
  · have hmod : st.palette.length % 256 = st.palette.length := Nat.mod_eq_of_lt hroom
    rw [hmod]
    exact List.rel_append (List.Forall₂.imp (fun i q hq => hkeep i _ hq) inv.idx)
      (List.Forall₂.cons hlast List.Forall₂.nil)

/-- The loop falls back exactly when the keys seen overall exceed 256, and
otherwise ends in a state satisfying the invariant for the whole buffer. -/
theorem encodeLoop_spec (rest : List Pixel) :
    ∀ (pre : List Pixel) (st : EncodeState), EncInv pre st →
      (encodeLoop rest st = none ∧ 256 < ((pre ++ rest).map pixelKey).toFinset.card) ∨
      (∃ st', encodeLoop rest st = some st' ∧ EncInv (pre ++ rest) st' ∧
        ((pre ++ rest).map pixelKey).toFinset.card ≤ 256) := by
  induction rest with
  | nil =>
    intro pre st inv
    right
    refine ⟨st, rfl, by simpa using inv, ?_⟩
    have : (pre.map pixelKey).toFinset = st.palette.toFinset := by
      ext k; simp only [List.mem_toFinset]; exact (inv.mem k).symm
    rw [List.append_nil, this, List.toFinset_card_of_nodup inv.nodup]
    exact inv.size
  | cons p rest ih =>
    intro pre st inv
    have happ : pre ++ p :: rest = (pre ++ [p]) ++ rest := by simp
    cases hget : mapGet st.paletteMap (pixelKey p) with
    | some v =>
      have h := ih (pre ++ [p]) _ (inv.step_known p v hget)
      rw [happ]
      simp only [encodeLoop, hget]
      exact h
    | none =>
      have hk : pixelKey p ∉ st.palette := (inv.mapNone _).mp hget
      by_cases hroom : st.palette.length < 256
      · have h := ih (pre ++ [p]) _ (inv.step_new p hk hroom)
        rw [happ]
        simp only [encodeLoop, hget, ge_iff_le, if_neg (not_le.mpr hroom)]
        exact h
      · left
        refine ⟨by simp only [encodeLoop, hget, ge_iff_le, if_pos (not_lt.mp hroom)], ?_⟩
        have hsub : insert (pixelKey p) st.palette.toFinset
            ⊆ ((pre ++ p :: rest).map pixelKey).toFinset := by
          intro k hkm
          rw [Finset.mem_insert] at hkm
          rw [List.mem_toFinset, List.map_append, List.mem_append]
          rcases hkm with rfl | hkm
          · right; simp
          · left; exact (inv.mem k).mp (List.mem_toFinset.mp hkm)
        have hcard := Finset.card_le_card hsub
        rw [Finset.card_insert_of_not_mem (by simpa using hk),
          List.toFinset_card_of_nodup inv.nodup] at hcard
        omega

theorem card_keys_eq (raw : List Pixel) (hb : ∀ p ∈ raw, p.IsByte) :
    (raw.map pixelKey).toFinset.card = raw.toFinset.card := by
  have himg : (raw.map pixelKey).toFinset = raw.toFinset.image pixelKey := by
    ext k; simp
  rw [himg]
  apply Finset.card_image_of_injOn
  intro p hp q hq h
  exact pixelKey_injOn p q (hb p (by simpa using hp)) (hb q (by simpa using hq)) h

/-! ### The loop of `decodeImage` -/

theorem forall₂_mem_left {α β : Type} {R : α → β → Prop} {l₁ : List α} {l₂ : List β}
    (h : List.Forall₂ R l₁ l₂) : ∀ a ∈ l₁, ∃ b ∈ l₂, R a b := by
  induction h with
  | nil => intro a ha; simp at ha
  | cons hab _ ih =>
    intro a ha
    rw [List.mem_cons] at ha
    rcases ha with rfl | ha
    · exact ⟨_, List.mem_cons_self _ _, hab⟩
    · obtain ⟨b, hb, hr⟩ := ih a ha
      exact ⟨b, List.mem_cons_of_mem _ hb, hr⟩

theorem indices_lt_palette {pal : List JsString} {idx : List Nat} {raw : List Pixel}
    (h : List.Forall₂ (fun i p => pal[i]? = some (pixelKey p)) idx raw) :
    ∀ v ∈ idx, v < pal.length := by
  intro v hv
  obtain ⟨p, _, hp⟩ := forall₂_mem_left h v hv
  by_contra hcon
  rw [List.getElem?_eq_none (by omega)] at hp
  exact absurd hp (by simp)

/-- The decoding loop rebuilds the pixels the indices were computed from. -/
theorem decodeLoop_ok (pal : List JsString) (idx : List Nat) (raw : List Pixel)
    (hidx : List.Forall₂ (fun i p => pal[i]? = some (pixelKey p)) idx raw)
    (hb : ∀ p ∈ raw, p.IsByte) (hsmall : ∀ v ∈ idx, v < 256) :
    ∀ n i, i + n ≤ raw.length →
      decodeLoop (some pal) (fromCharCode idx) i n = .ok ((raw.drop i).take n) := by
  obtain ⟨hlen, hget⟩ := List.forall₂_iff_get.mp hidx
  intro n
  induction n with
  | zero => intro i _; simp [decodeLoop]
  | succ n ih =>
    intro i hi
    have hir : i < raw.length := by omega
    have hii : i < idx.length := by omega
    have hR := hget i hii hir
    simp only [List.get_eq_getElem] at hR
    have hcode : charCodeAt (fromCharCode idx) i = some idx[i] := by
      rw [charCodeAt_fromCharCode idx hsmall, List.getElem?_eq_getElem hii]
    have hpx : decodePixel (some pal) (fromCharCode idx) i = .ok raw[i] := by
      simp only [decodePixel, hcode, hR]
      rw [decode_pixelKey raw[i] (hb _ (List.getElem_mem _))]
    have hdrop : raw.drop i = raw[i] :: raw.drop (i + 1) := List.drop_eq_getElem_cons hir
    simp only [decodeLoop, hpx, ih (i + 1) (by omega)]
    rw [hdrop, List.take_succ_cons]

/-- What `encodeImage` returns on a buffer with at most 256 colours, with the
facts about its palette and indices used by the codec theorems. -/
theorem encodeImage_indexed (raw : ImageData) (hb : ∀ p ∈ raw, p.IsByte)
    (hcol : raw.toFinset.card ≤ 256) :
    ∃ st pixels, encodeLoop raw ⟨[], [], []⟩ = some st ∧ EncInv raw st ∧
      encodeImage raw = .ok { palette := some st.palette, pixels := some pixels } ∧
      atob pixels = .ok (fromCharCode st.indices) ∧
      (∀ v ∈ st.indices, v < st.palette.length) := by
  rcases encodeLoop_spec raw [] _ EncInv.encInit with ⟨_, hbig⟩ | ⟨st, hst, inv, _⟩
  · rw [List.nil_append, card_keys_eq raw hb] at hbig
    omega
  · rw [List.nil_append] at inv
    have hlt := indices_lt_palette inv.idx
    have hsmall : ∀ v ∈ st.indices, v < 256 := fun v hv =>
      lt_of_lt_of_le (hlt v hv) inv.size
    obtain ⟨px, hpx, hat⟩ := atob_btoa st.indices hsmall
    refine ⟨st, px, hst, inv, ?_, hat, hlt⟩
    simp only [encodeImage, hst, hpx]

/-- What `encodeImage` returns on a buffer with more than 256 colours. -/
theorem encodeImage_fallback (raw : ImageData) (hb : ∀ p ∈ raw, p.IsByte)
    (hcol : 256 < raw.toFinset.card) :
    encodeImage raw = .ok { fallback := some (toDataURL raw) } := by
  rcases encodeLoop_spec raw [] _ EncInv.encInit with ⟨hnone, _⟩ | ⟨st, _, _, hsmall⟩
  · simp only [encodeImage, hnone]
  · rw [List.nil_append, card_keys_eq raw hb] at hsmall
    omega

/-- Decoding what `encodeImage` returns: the bytes of `raw` are read off the palette
and written to a canvas, so the image decoded is `raw` as the canvas keeps it. -/
theorem decode_encode (P : Canvas2D) (raw : ImageData) (hlen : raw.length = 4096)
    (hbytes : ∀ p ∈ raw, p.IsByte) (hcol : raw.toFinset.card ≤ 256) :
    ∃ palette pixels rawStr,
      encodeImage raw = .ok { palette := some palette, pixels := some pixels } ∧
      decodeImage P { palette := some palette, pixels := some pixels }
        = .ok (putImageData P raw) ∧
      atob pixels = .ok rawStr ∧
      ∀ i, i < 4096 → ∃ idx, charCodeAt rawStr i = some idx ∧ idx < palette.length := by
  obtain ⟨st, px, _, inv, henc, hat, hlt⟩ := encodeImage_indexed raw hbytes hcol
  have hsmall : ∀ v ∈ st.indices, v < 256 := fun v hv =>
    lt_of_lt_of_le (hlt v hv) inv.size
  have hilen : st.indices.length = 4096 := by rw [inv.idx.length_eq, hlen]
  refine ⟨st.palette, px, fromCharCode st.indices, henc, ?_, hat, ?_⟩
  · have hloop := decodeLoop_ok st.palette st.indices raw inv.idx hbytes hsmall 4096 0
      (by omega)
    rw [List.drop_zero, List.take_of_length_le (by omega)] at hloop
    simp only [decodeImage, hat, hloop, _loadImg, toDataURL]
  · intro i hi
    have hii : i < st.indices.length := by omega
    refine ⟨st.indices[i], ?_, hlt _ (List.getElem_mem _)⟩
    rw [charCodeAt_fromCharCode st.indices hsmall, List.getElem?_eq_getElem hii]

/-- Writing a buffer to a canvas gives the buffer back exactly when the canvas keeps
every pixel of it as written. -/
theorem putImageData_eq_self (P : Canvas2D) (raw : ImageData) :
    putImageData P raw = raw ↔ ∀ p ∈ raw, P.store p = p := by
  unfold putImageData
  induction raw with
  | nil => simp
  | cons p rest ih =>
    rw [List.map_cons, List.cons.injEq, ih]
    simp

/-- The channel written and read back by a premultiplying canvas: reading, writing and
reading again changes nothing more. -/
theorem premultiplied_channel (a c : Nat) (ha : a < 256) (hc : c < 256) (hpos : 0 < a) :
    min 255 ((((min 255 ((((c * a + 127) / 255) * 255 + a / 2) / a) * a + 127) / 255)
        * 255 + a / 2) / a)
      = min 255 ((((c * a + 127) / 255) * 255 + a / 2) / a) := by
  have hs : c * a ≤ 255 * a := Nat.mul_le_mul_right a (by omega)
  generalize c * a = s at hs
  have hm : (s + 127) / 255 ≤ a := by omega
  generalize (s + 127) / 255 = m at hm
  have h1 : (m * 255 + a / 2) / a * a ≤ m * 255 + a / 2 := Nat.div_mul_le_self _ _
  have h2 : m * 255 + a / 2 < (m * 255 + a / 2) / a * a + a := Nat.lt_div_mul_add hpos
  have h3 : (m * 255 + a / 2) / a < 256 := Nat.div_lt_of_lt_mul (by omega)
  generalize hq0 : (m * 255 + a / 2) / a = q at h1 h2 h3
  have hq : min 255 q = q := by omega
  rw [hq]
  generalize q * a = t at h1 h2
  have ht : (t + 127) / 255 = m := by omega
  rw [ht, hq0, hq]

/-- A canvas with premultiplied storage keeps every pixel it returns: storing is
idempotent on byte pixels. -/
theorem premultipliedStore_idem (p : Pixel) (hp : p.IsByte) :
    premultipliedStore (premultipliedStore p) = premultipliedStore p := by
  obtain ⟨hr, hg, hb, ha⟩ := hp
  by_cases h0 : p.a = 0
  · simp [premultipliedStore, h0, Pixel.clear]
  · have hpos : 0 < p.a := Nat.pos_of_ne_zero h0
    simp only [premultipliedStore, if_neg h0]
    rw [premultiplied_channel p.a p.r ha hr hpos, premultiplied_channel p.a p.g ha hg hpos,
      premultiplied_channel p.a p.b ha hb hpos]

/-- A canvas with premultiplied storage keeps every opaque byte pixel as written. -/
theorem premultipliedStore_opaque (p : Pixel) (hp : p.IsByte) (ha : p.a = 255) :
    premultipliedStore p = p := by
  obtain ⟨hr, hg, hb, _⟩ := hp
  obtain ⟨r, g, b, a⟩ := p
  simp only at hr hg hb ha
  subst ha
  simp only [premultipliedStore]
  rw [if_neg (by decide)]
  congr 1 <;> omega

/-- **C1** (counterexample) The round trip is not byte-identical for every buffer. On
the reference canvas, which keeps its pixels with premultiplied alpha, the buffer filled
with the half-transparent colour `(200, 100, 50, 128)` (one colour, palette key
`c8643280`) is encoded as a palette, and decoding gives the buffer filled with
`(199, 100, 50, 128)`. -/
theorem codec_round_trip_premultiplied :
    halfAlphaBuffer.length = 4096 ∧ (∀ p ∈ halfAlphaBuffer, p.IsByte) ∧
    halfAlphaBuffer.toFinset.card ≤ 256 ∧
    pixelKey ⟨200, 100, 50, 128⟩ = "c8643280".toList ∧
    ∃ palette pixels,
      encodeImage halfAlphaBuffer = .ok { palette := some palette, pixels := some pixels } ∧
      decodeImage refCanvas { palette := some palette, pixels := some pixels }
        = .ok (List.replicate 4096 ⟨199, 100, 50, 128⟩) ∧
      decodeImage refCanvas { palette := some palette, pixels := some pixels }
        ≠ .ok halfAlphaBuffer := by
  have hlen : halfAlphaBuffer.length = 4096 := List.length_replicate _ _
  have hbytes : ∀ p ∈ halfAlphaBuffer, p.IsByte := by
    intro p hp
    rw [halfAlphaBuffer, List.mem_replicate] at hp
    rw [hp.2]; decide
  have hcol : halfAlphaBuffer.toFinset.card ≤ 256 := by
    rw [halfAlphaBuffer, List.toFinset_replicate_of_ne_zero (by decide)]
    simp
  obtain ⟨palette, pixels, _, henc, hdec, _, _⟩ :=
    decode_encode refCanvas halfAlphaBuffer hlen hbytes hcol
  have hput : putImageData refCanvas halfAlphaBuffer
      = List.replicate 4096 ⟨199, 100, 50, 128⟩ := by
    unfold putImageData halfAlphaBuffer
    rw [List.map_replicate]
    rfl
  rw [hput] at hdec
  refine ⟨hlen, hbytes, hcol, by decide, palette, pixels, henc, hdec, ?_⟩
  rw [hdec]
  intro h
  have h1 := Except.ok.inj h
  have hm : (⟨199, 100, 50, 128⟩ : Pixel) ∈ halfAlphaBuffer := by
    rw [← h1]; exact List.mem_replicate.mpr ⟨by decide, rfl⟩
  rw [halfAlphaBuffer, List.mem_replicate] at hm
  exact absurd hm.2 (by decide)

/-- **C1** (amended) Codec round trip. For every 64×64 RGBA buffer `raw` (4096 byte
pixels) with at most 256 distinct RGBA values, `encodeImage` returns a `{palette, pixels}`
object, every index decoded from `pixels` (all 4096 of them) is a valid position in the
palette, and `decodeImage` applied to the object rebuilds `raw` as the canvas keeps it:
pixel by pixel what the canvas holds after `putImageData` wrote the pixel of `raw`. The
result is byte-identical to `raw` if and only if the canvas keeps every pixel of `raw`
as written. -/
theorem codec_round_trip (P : Canvas2D) (raw : ImageData) (hlen : raw.length = 4096)
    (hbytes : ∀ p ∈ raw, p.IsByte) (hcol : raw.toFinset.card ≤ 256) :
    ∃ palette pixels rawStr,
      encodeImage raw = .ok { palette := some palette, pixels := some pixels } ∧
      decodeImage P { palette := some palette, pixels := some pixels }
        = .ok (raw.map P.store) ∧
      (decodeImage P { palette := some palette, pixels := some pixels } = .ok raw ↔
        ∀ p ∈ raw, P.store p = p) ∧
      atob pixels = .ok rawStr ∧
      ∀ i, i < 4096 → ∃ idx, charCodeAt rawStr i = some idx ∧ idx < palette.length := by
  obtain ⟨palette, pixels, rawStr, henc, hdec, hat, hidx⟩ :=
    decode_encode P raw hlen hbytes hcol
  refine ⟨palette, pixels, rawStr, henc, hdec, ?_, hat, hidx⟩
  rw [hdec, ← putImageData_eq_self]
  constructor
  · intro h; exact Except.ok.inj h
  · intro h; rw [h]

/-- **C1** (instance) The buffer `twoColourBuffer` on the reference canvas: a
half-transparent and an opaque colour, both kept as written, so the round trip is
byte-identical. -/
theorem codec_round_trip_witness :
    twoColourBuffer.length = 4096 ∧ (∀ p ∈ twoColourBuffer, p.IsByte) ∧
    twoColourBuffer.toFinset.card ≤ 256 ∧
    ∃ palette pixels,
      encodeImage twoColourBuffer = .ok { palette := some palette, pixels := some pixels } ∧
      decodeImage refCanvas { palette := some palette, pixels := some pixels }
        = .ok twoColourBuffer := by
  have hmem : ∀ p ∈ twoColourBuffer,
      p = ⟨199, 100, 50, 128⟩ ∨ p = ⟨255, 0, 0, 255⟩ := by
    intro p hp
    rw [twoColourBuffer, List.mem_append, List.mem_replicate, List.mem_replicate] at hp
    rcases hp with hp | hp
    · exact Or.inl hp.2
    · exact Or.inr hp.2
  have hlen : twoColourBuffer.length = 4096 := by
    rw [twoColourBuffer, List.length_append, List.length_replicate, List.length_replicate]
  have hbytes : ∀ p ∈ twoColourBuffer, p.IsByte := by
    intro p hp
    rcases hmem p hp with rfl | rfl <;> decide
  have hcol : twoColourBuffer.toFinset.card ≤ 256 := by
    rw [twoColourBuffer, List.toFinset_append,
      List.toFinset_replicate_of_ne_zero (by decide),
      List.toFinset_replicate_of_ne_zero (by decide)]
    exact le_trans (Finset.card_union_le _ _) (by simp)
  have hstable : ∀ p ∈ twoColourBuffer, refCanvas.store p = p := by
    intro p hp
    rcases hmem p hp with rfl | rfl <;> decide
  obtain ⟨palette, pixels, _, henc, _, hiff, _, _⟩ :=
    codec_round_trip refCanvas twoColourBuffer hlen hbytes hcol
  exact ⟨hlen, hbytes, hcol, palette, pixels, henc, hiff.mpr hstable⟩

/-- **C2** `encodeImage` chooses its encoding by colour count. For every 64×64 RGBA
buffer it returns the raster fallback (a snapshot of the buffer) if and only if the
buffer has more than 256 distinct RGBA values; otherwise it returns a palette of at
most 256 pairwise distinct keys, exactly the keys of the buffer's pixels, ordered by
first occurrence in the row-major scan, with exactly 4096 indices, each smaller than
the palette length. -/
theorem encodeImage_by_colour_count (raw : ImageData) (hlen : raw.length = 4096)
    (hbytes : ∀ p ∈ raw, p.IsByte) :
    ∃ enc, encodeImage raw = .ok enc ∧
      (enc.fallback.isSome = true ↔ 256 < raw.toFinset.card) ∧
      (256 < raw.toFinset.card → enc = { fallback := some (toDataURL raw) }) ∧
      (raw.toFinset.card ≤ 256 → ∃ palette pixels idx,
        enc = { palette := some palette, pixels := some pixels } ∧
        atob pixels = .ok (fromCharCode idx) ∧
        palette.length ≤ 256 ∧ palette.Nodup ∧
        (∀ k, k ∈ palette ↔ ∃ p ∈ raw, pixelKey p = k) ∧
        (∀ (i j : Nat) (a b : JsString), i < j → palette[i]? = some a → palette[j]? = some b →
          firstOccurrence raw a < firstOccurrence raw b) ∧
        idx.length = 4096 ∧ ∀ v ∈ idx, v < palette.length) := by
  by_cases hcol : 256 < raw.toFinset.card
  · refine ⟨_, encodeImage_fallback raw hbytes hcol, by simpa using hcol, fun _ => rfl, ?_⟩
    intro h; omega
  · have hcol' : raw.toFinset.card ≤ 256 := by omega
    obtain ⟨st, px, _, inv, henc, hat, hlt⟩ := encodeImage_indexed raw hbytes hcol'
    refine ⟨_, henc, by simpa using hcol', fun h => absurd h hcol, fun _ => ?_⟩
    refine ⟨st.palette, px, st.indices, rfl, hat, inv.size, inv.nodup, ?_, ?_, ?_, hlt⟩
    · intro k
      rw [inv.mem k, List.mem_map]
    · intro i j a b hij ha hb
      obtain ⟨hi, rfl⟩ := List.getElem?_eq_some.mp ha
      obtain ⟨hj, rfl⟩ := List.getElem?_eq_some.mp hb
      exact (List.pairwise_iff_getElem.mp inv.order) i j hi hj hij
    · rw [inv.idx.length_eq, hlen]

/-- Witness of `encodeImage_by_colour_count`: the fully transparent buffer. -/
theorem encodeImage_by_colour_count_witness :
    ∃ enc, encodeImage blankCanvas = .ok enc ∧
      (enc.fallback.isSome = true ↔ 256 < blankCanvas.toFinset.card) :=
  (encodeImage_by_colour_count blankCanvas (List.length_replicate _ _)
    (by
      intro p hp
      rw [blankCanvas, List.mem_replicate] at hp
      rw [hp.2]; decide)).imp fun _ h => ⟨h.1, h.2.1⟩

/-! ### Version check of `loadSettings` -/

theorem decodePixel_error {pal : Option (List JsString)} {raw : JsString} {i : Nat} {e : JsError}
    (h : decodePixel pal raw i = .error e) : e.isVersionMismatch = false := by
  unfold decodePixel at h
  split at h
  · cases h; rfl
  · split at h
    · cases h; rfl
    · split at h
      · cases h; rfl
      · cases h

theorem decodeLoop_error {pal : Option (List JsString)} {raw : JsString} :
    ∀ (n i : Nat) {e : JsError}, decodeLoop pal raw i n = .error e →
      e.isVersionMismatch = false := by
  intro n
  induction n with
  | zero => intro i e h; simp [decodeLoop] at h
  | succ n ih =>
    intro i e h
    simp only [decodeLoop] at h
    split at h
    · next e' he =>
      cases h
      exact decodePixel_error he
    · split at h
      · next e' he =>
        cases h
        exact ih (i + 1) he
      · cases h

theorem _loadImg_error {src : DataURL} {e : JsError} (h : _loadImg src = .error e) :
    e.isVersionMismatch = false := by
  unfold _loadImg at h
  split at h
  · cases h
  · cases h; rfl

theorem atob_error {s : JsString} {e : JsError} (h : atob s = .error e) :
    e.isVersionMismatch = false := by
  unfold atob at h
  simp only at h
  split at h
  · cases h; rfl
  · split at h
    · cases h; rfl
    · cases h

theorem decodeImage_error {P : Canvas2D} {enc : Encoded} {e : JsError}
    (h : decodeImage P enc = .error e) :
    e.isVersionMismatch = false := by
  unfold decodeImage at h
  split at h
  · exact _loadImg_error h
  · split at h
    · cases h; rfl
    · split at h
      · next e' he => cases h; exact atob_error he
      · split at h
        · next e' he => cases h; exact decodeLoop_error _ _ he
        · exact _loadImg_error h

theorem restoreLayers_error (P : Canvas2D) (gen : Nat → StackKind → Settings → Option ImageData)
    (saved : List SavedLayer) :
    ∀ (k : Nat) (s : LayerStack) {e : JsError},
      (restoreLayers P gen k saved s).2 = .error e → e.isVersionMismatch = false := by
  induction saved with
  | nil => intro k s e h; simp [restoreLayers] at h
  | cons sv rest ih =>
    intro k s e h
    simp only [restoreLayers] at h
    split at h
    · exact ih _ _ h
    · split at h
      · split at h
        · exact ih _ _ h
        · split at h
          · next e' he => cases h; exact _loadImg_error he
          · exact ih _ _ h
      · split at h
        · next e' he => cases h; exact decodeImage_error he
        · exact ih _ _ h

theorem restoreStack_error (P : Canvas2D) (gen : Nat → StackKind → Settings → Option ImageData)
    (stack : LayerStack) (saved : List SavedLayer) {e : JsError}
    (h : (restoreStack P gen stack saved).2 = .error e) : e.isVersionMismatch = false := by
  unfold restoreStack at h
  split at h
  · cases h
  · next s e' he =>
    cases h
    exact restoreLayers_error P gen saved 0 _ (by rw [he])

theorem loadSettings_of_mismatch (P : Canvas2D) (gen : Generators) (app : App)
    (data : SessionDoc) (h : data.version ≠ .number SAVE_VERSION) :
    loadSettings P gen app data
      = (app, .error (.versionMismatch (versionMessage data.version))) := by
  unfold loadSettings
  rw [if_pos h]

theorem loadSettings_of_match (P : Canvas2D) (gen : Generators) (app : App)
    (data : SessionDoc) (h : data.version = .number SAVE_VERSION) {e : JsError}
    (he : (loadSettings P gen app data).2 = .error e) : e.isVersionMismatch = false := by
  unfold loadSettings at he
  rw [if_neg (not_not.mpr h)] at he
  simp only at he
  split at he
  · split at he <;> cases he
  · next e' h1 => cases he; exact restoreStack_error _ _ _ _ h1
  · next e' _ h2 => cases he; exact restoreStack_error _ _ _ _ h2
  · next e' _ _ h3 => cases he; exact restoreStack_error _ _ _ _ h3

/-- **C3** `loadSettings` rejects by version. For every parsed session document the
call fails with the version-mismatch error if and only if the document's `version`
is not exactly `SAVE_VERSION` (2); the message of that error is
`Unsupported save version <version> (expected 2)`, which contains both the
document's version and the expected version. -/
theorem loadSettings_rejects_by_version (P : Canvas2D) (gen : Generators) (app : App)
    (data : SessionDoc) :
    ((∃ msg, (loadSettings P gen app data).2 = .error (.versionMismatch msg))
        ↔ data.version ≠ .number SAVE_VERSION) ∧
    (∀ msg, (loadSettings P gen app data).2 = .error (.versionMismatch msg) →
        msg = versionMessage data.version) ∧
    data.version.toJsString <:+: versionMessage data.version ∧
    (toString SAVE_VERSION).toList <:+: versionMessage data.version ∧
    SAVE_VERSION = 2 := by
  refine ⟨⟨?_, ?_⟩, ?_, ?_, ?_, rfl⟩
  · rintro ⟨msg, hmsg⟩ heq
    have := loadSettings_of_match P gen app data heq hmsg
    simp [JsError.isVersionMismatch] at this
  · intro h
    exact ⟨_, by rw [loadSettings_of_mismatch P gen app data h]⟩
  · intro msg hmsg
    by_cases h : data.version = .number SAVE_VERSION
    · have := loadSettings_of_match P gen app data h hmsg
      simp [JsError.isVersionMismatch] at this
    · rw [loadSettings_of_mismatch P gen app data h] at hmsg
      simp only [Except.error.injEq, JsError.versionMismatch.injEq] at hmsg
      exact hmsg.symm
  · exact ⟨"Unsupported save version ".toList,
      " (expected ".toList ++ (toString SAVE_VERSION).toList ++ ")".toList,
      by simp [versionMessage]⟩
  · exact ⟨"Unsupported save version ".toList ++ data.version.toJsString
      ++ " (expected ".toList, ")".toList, by simp [versionMessage]⟩

/-- Witness of `loadSettings_rejects_by_version`: a document of version 1. -/
theorem loadSettings_rejects_by_version_witness :
    ∃ msg, (loadSettings refCanvas Generators.none App.initial
      (SessionDoc.empty (.number 1))).2 = .error (.versionMismatch msg) :=
  (loadSettings_rejects_by_version refCanvas Generators.none App.initial
    (SessionDoc.empty (.number 1))).1.mpr (by decide)

/-- **C4** Atomicity on version mismatch. Given a document whose version differs from
`SAVE_VERSION`, `loadSettings` fails with the version-mismatch error and the whole
application state (the three stacks with their layers, `nextId` and
`compiledCanvas`, and the shared state with `colorRefImage`, `savedPalettes`,
`sourceImages` and `processedCanvases`) is exactly as before the call. -/
theorem loadSettings_mismatch_atomic (P : Canvas2D) (gen : Generators) (app : App)
    (data : SessionDoc) (h : data.version ≠ .number SAVE_VERSION) :
    (loadSettings P gen app data).1 = app ∧
    (loadSettings P gen app data).2
      = .error (.versionMismatch (versionMessage data.version)) := by
  rw [loadSettings_of_mismatch P gen app data h]
  exact ⟨rfl, rfl⟩

/-- Witness of `loadSettings_mismatch_atomic`: version `SAVE_VERSION - 1`. -/
theorem loadSettings_mismatch_atomic_witness :
    (loadSettings refCanvas Generators.none App.initial
      (SessionDoc.empty (.number (SAVE_VERSION - 1)))).1 = App.initial ∧
    (loadSettings refCanvas Generators.none App.initial
      (SessionDoc.empty (.number (SAVE_VERSION - 1)))).2
      = .error (.versionMismatch (versionMessage (.number (SAVE_VERSION - 1)))) :=
  loadSettings_mismatch_atomic refCanvas Generators.none App.initial
    (SessionDoc.empty (.number (SAVE_VERSION - 1))) (by decide)

/-! ### Failure of `restoreStack` -/

theorem setLayerImage_shape (P : Canvas2D) (s : LayerStack) (id : Nat) (img : ImageData) :
    (setLayerImage P s id img).layers.length = s.layers.length ∧
    (setLayerImage P s id img).nextId = s.nextId := by
  simp [setLayerImage, recompile]

theorem addLayer_shape (s : LayerStack) (o : Overrides) :
    (addLayer s o).1.layers.length = s.layers.length + 1 ∧
    (addLayer s o).1.nextId = s.nextId + 1 ∧
    (addLayer s o).1.layers.getLast? = some (addLayer s o).2 ∧
    (addLayer s o).2.image = none := by
  simp [addLayer]

/-- A successful run of the restore loop adds one layer per saved layer. -/
theorem restoreLayers_shape (P : Canvas2D)
    (gen : Nat → StackKind → Settings → Option ImageData) (saved : List SavedLayer) :
    ∀ (k : Nat) (s : LayerStack), (restoreLayers P gen k saved s).2 = .ok () →
      (restoreLayers P gen k saved s).1.layers.length = s.layers.length + saved.length ∧
      (restoreLayers P gen k saved s).1.nextId = s.nextId + saved.length := by
  induction saved with
  | nil => intro k s _; simp [restoreLayers]
  | cons sv rest ih =>
    intro k s h
    have ha := addLayer_shape s { type := sv.type, settings := sv.settings }
    cases hi : sv.imageData with
    | none =>
      simp only [restoreLayers, hi] at h ⊢
      have := ih _ _ h
      simp only [List.length_cons]; omega
    | some enc =>
      cases hregen : enc.regen with
      | true =>
        cases hg : gen k (addLayer s { type := sv.type, settings := sv.settings }).1.kind
            (addLayer s { type := sv.type, settings := sv.settings }).2.settings with
        | none =>
          simp only [restoreLayers, hi, hregen, if_true, hg] at h ⊢
          have := ih _ _ h
          simp only [List.length_cons]; omega
        | some canvas =>
          simp only [restoreLayers, hi, hregen, if_true, hg, _loadImg, toDataURL] at h ⊢
          have := ih _ _ h
          have hs := setLayerImage_shape P
            (addLayer s { type := sv.type, settings := sv.settings }).1
            (addLayer s { type := sv.type, settings := sv.settings }).2.id canvas
          simp only [List.length_cons]; omega
      | false =>
        cases hd : decodeImage P enc with
        | error e' =>
          simp [restoreLayers, hi, hregen, hd] at h
        | ok img =>
          simp only [restoreLayers, hi, hregen, hd] at h ⊢
          have := ih _ _ h
          have hs := setLayerImage_shape P
            (addLayer s { type := sv.type, settings := sv.settings }).1
            (addLayer s { type := sv.type, settings := sv.settings }).2.id img
          simp only [List.length_cons] at this ⊢
          simp only [Bool.false_eq_true, if_false] at this h ⊢
          omega

/-- Where a failing run of the restore loop stops. -/
theorem restoreLayers_failure (P : Canvas2D)
    (gen : Nat → StackKind → Settings → Option ImageData) (saved : List SavedLayer) :
    ∀ (k0 : Nat) (s : LayerStack) (e : JsError),
      (restoreLayers P gen k0 saved s).2 = .error e →
      ∃ (k : Nat) (sv : SavedLayer) (enc : Encoded),
        saved[k]? = some sv ∧ sv.imageData = some enc ∧ enc.regen = false ∧
        decodeImage P enc = .error e ∧
        (restoreLayers P gen k0 (saved.take k) s).2 = .ok () ∧
        (restoreLayers P gen k0 saved s).1
          = (addLayer (restoreLayers P gen k0 (saved.take k) s).1
              { type := sv.type, settings := sv.settings }).1 := by
  induction saved with
  | nil => intro k0 s e h; simp [restoreLayers] at h
  | cons sv rest ih =>
    intro k0 s e h
    simp only [restoreLayers] at h
    split at h
    · next hnone =>
      obtain ⟨k, sv', enc, h1, h2, h3, h4, h5, h6⟩ := ih _ _ e h
      refine ⟨k + 1, sv', enc, by simpa using h1, h2, h3, h4, ?_, ?_⟩
      · simpa only [List.take_succ_cons, restoreLayers, hnone] using h5
      · simpa only [List.take_succ_cons, restoreLayers, hnone] using h6
    · next enc0 hsome =>
      split at h
      · next hregen =>
        split at h
        · next hg =>
          obtain ⟨k, sv', enc, h1, h2, h3, h4, h5, h6⟩ := ih _ _ e h
          refine ⟨k + 1, sv', enc, by simpa using h1, h2, h3, h4, ?_, ?_⟩
          · simpa only [List.take_succ_cons, restoreLayers, hsome, hregen, if_true, hg]
              using h5
          · simpa only [List.take_succ_cons, restoreLayers, hsome, hregen, if_true, hg]
              using h6
        · next canvas hg =>
          simp only [_loadImg, toDataURL] at h
          obtain ⟨k, sv', enc, h1, h2, h3, h4, h5, h6⟩ := ih _ _ e h
          refine ⟨k + 1, sv', enc, by simpa using h1, h2, h3, h4, ?_, ?_⟩
          · simpa only [List.take_succ_cons, restoreLayers, hsome, hregen, if_true, hg,
              _loadImg, toDataURL] using h5
          · simpa only [List.take_succ_cons, restoreLayers, hsome, hregen, if_true, hg,
              _loadImg, toDataURL] using h6
      · next hregen =>
        have hregen' : enc0.regen = false := by simpa using hregen
        split at h
        · next e' hd =>
          simp only [Except.error.injEq] at h
          subst h
          refine ⟨0, sv, enc0, by simp, hsome, hregen', hd, by simp [restoreLayers], ?_⟩
          simp only [List.take_zero, restoreLayers, hsome, hd, hregen']
          simp
        · next img hd =>
          obtain ⟨k, sv', enc, h1, h2, h3, h4, h5, h6⟩ := ih _ _ e h
          refine ⟨k + 1, sv', enc, by simpa using h1, h2, h3, h4, ?_, ?_⟩
          · simpa only [List.take_succ_cons, restoreLayers, hsome, hregen', hd] using h5
          · simpa only [List.take_succ_cons, restoreLayers, hsome, hregen', hd] using h6

/-- **C5** (counterexample) A failed restore is partially applied. Restoring a saved
layer whose pixel index is no position of its palette into a stack of two layers with a
compiled canvas fails with a `TypeError`, and afterwards the stack holds one layer
instead of two, `nextId` is 2 instead of 3 and `compiledCanvas` is absent instead of
the compiled buffer. -/
theorem restoreStack_failure_not_atomic :
    (restoreStack refCanvas (fun _ _ _ => none) exampleStack [undecodableLayer]).2
      = .error .typeError ∧
    (restoreStack refCanvas (fun _ _ _ => none) exampleStack [undecodableLayer]).1.layers.length
      = 1 ∧
    exampleStack.layers.length = 2 ∧
    (restoreStack refCanvas (fun _ _ _ => none) exampleStack [undecodableLayer]).1.nextId = 2 ∧
    exampleStack.nextId = 3 ∧
    (restoreStack refCanvas (fun _ _ _ => none) exampleStack [undecodableLayer]).1.compiledCanvas
      = none ∧
    exampleStack.compiledCanvas = some blankCanvas := by
  refine ⟨rfl, rfl, rfl, rfl, rfl, rfl, rfl⟩

/-- **C5** (amended) State of a stack after a failed restore. If `restoreStack` fails,
the failure is the decoding of the image data of some saved layer `k` (an upload
layer's encoded pixels), every saved layer before `k` was restored successfully,
and the stack is left cleared and refilled: it holds the layers restored from the
saved layers before `k` followed by a new layer for `k` without image, so it has
`k + 1` layers and `nextId = k + 2`. -/
theorem restoreStack_failure_state (P : Canvas2D)
    (gen : Nat → StackKind → Settings → Option ImageData) (stack : LayerStack)
    (saved : List SavedLayer) (e : JsError)
    (h : (restoreStack P gen stack saved).2 = .error e) :
    ∃ (k : Nat) (sv : SavedLayer) (enc : Encoded),
      saved[k]? = some sv ∧ sv.imageData = some enc ∧ enc.regen = false ∧
      decodeImage P enc = .error e ∧
      (restoreLayers P gen 0 (saved.take k) (clearAllLayers stack)).2 = .ok () ∧
      (restoreStack P gen stack saved).1
        = (addLayer (restoreLayers P gen 0 (saved.take k) (clearAllLayers stack)).1
            { type := sv.type, settings := sv.settings }).1 ∧
      (restoreStack P gen stack saved).1.layers.length = k + 1 ∧
      (restoreStack P gen stack saved).1.nextId = k + 2 ∧
      ((restoreStack P gen stack saved).1.layers.getLast?).map Layer.image = some none := by
  have hfail : (restoreLayers P gen 0 saved (clearAllLayers stack)).2 = .error e ∧
      (restoreStack P gen stack saved).1
        = (restoreLayers P gen 0 saved (clearAllLayers stack)).1 := by
    unfold restoreStack at h ⊢
    split at h
    · cases h
    · next s e' he =>
      cases h
      rw [he]
      exact ⟨rfl, rfl⟩
  obtain ⟨k, sv, enc, h1, h2, h3, h4, h5, h6⟩ :=
    restoreLayers_failure P gen saved 0 (clearAllLayers stack) e hfail.1
  have hk : k < saved.length := by
    by_contra hcon
    rw [List.getElem?_eq_none (by omega)] at h1
    cases h1
  have hshape := restoreLayers_shape P gen (saved.take k) 0 (clearAllLayers stack) h5
  have hadd := addLayer_shape (restoreLayers P gen 0 (saved.take k) (clearAllLayers stack)).1
    { type := sv.type, settings := sv.settings }
  have hlen : (saved.take k).length = k := by
    rw [List.length_take]; omega
  have hclear : (clearAllLayers stack).layers.length = 0 ∧ (clearAllLayers stack).nextId = 1 := by
    simp [clearAllLayers]
  refine ⟨k, sv, enc, h1, h2, h3, h4, h5, hfail.2.trans h6, ?_, ?_, ?_⟩
  · rw [hfail.2, h6]; omega
  · rw [hfail.2, h6]; omega
  · rw [hfail.2, h6, hadd.2.2.1, Option.map_some', hadd.2.2.2]

/-- Witness of `restoreStack_failure_state`: the undecodable layer restored into
the example stack. -/
theorem restoreStack_failure_state_witness :
    ∃ (k : Nat) (sv : SavedLayer) (enc : Encoded),
      [undecodableLayer][k]? = some sv ∧ sv.imageData = some enc ∧ enc.regen = false ∧
      decodeImage refCanvas enc = .error .typeError ∧
      (restoreLayers refCanvas (fun _ _ _ => none) 0 ([undecodableLayer].take k)
        (clearAllLayers exampleStack)).2 = .ok () ∧
      (restoreStack refCanvas (fun _ _ _ => none) exampleStack [undecodableLayer]).1
        = (addLayer (restoreLayers refCanvas (fun _ _ _ => none) 0
            ([undecodableLayer].take k) (clearAllLayers exampleStack)).1
            { type := sv.type, settings := sv.settings }).1 ∧
      (restoreStack refCanvas (fun _ _ _ => none) exampleStack
        [undecodableLayer]).1.layers.length = k + 1 ∧
      (restoreStack refCanvas (fun _ _ _ => none) exampleStack [undecodableLayer]).1.nextId
        = k + 2 ∧
      ((restoreStack refCanvas (fun _ _ _ => none) exampleStack
        [undecodableLayer]).1.layers.getLast?).map Layer.image = some none :=
  restoreStack_failure_state refCanvas (fun _ _ _ => none) exampleStack [undecodableLayer]
    .typeError rfl

/-! ### Drawing -/

theorem length_drawImage (P : Canvas2D) (ga : ℚ) (d s : ImageData) :
    (drawImage P ga d s).length = d.length := by
  induction d generalizing s with
  | nil => simp [drawImage]
  | cons x d ih =>
    cases s with
    | nil => simp [drawImage]
    | cons y s => simp [drawImage, ih]

theorem getElem?_drawImage (P : Canvas2D) (ga : ℚ) (d s : ImageData) (i : Nat) :
    (drawImage P ga d s)[i]?
      = (d[i]?).map (fun x => match s[i]? with
          | some y => P.blend ga x y
          | none => x) := by
  induction d generalizing s i with
  | nil => simp [drawImage]
  | cons x d ih =>
    cases s with
    | nil => cases i <;> simp [drawImage]
    | cons y s =>
      cases i with
      | zero => simp [drawImage]
      | succ i => simp [drawImage, ih]

theorem drawImage_transparent (P : Canvas2D) (hP : P.TransparentIsNoOp) (ga : ℚ)
    (d s : ImageData) (hs : ∀ p ∈ s, p.a = 0) : drawImage P ga d s = d := by
  induction d generalizing s with
  | nil => simp [drawImage]
  | cons x d ih =>
    cases s with
    | nil => simp [drawImage]
    | cons y s =>
      simp only [drawImage]
      rw [hP ga x y (hs y (by simp)), ih s (fun p hp => hs p (by simp [hp]))]

theorem blankCanvas_length : blankCanvas.length = 4096 := List.length_replicate _ _

theorem blankCanvas_alpha : ∀ p ∈ blankCanvas, p.a = 0 := by
  intro p hp
  rw [blankCanvas, List.mem_replicate] at hp
  rw [hp.2]; rfl

/-! ### `recompile` without images -/

theorem compileLayers_without_images (P : Canvas2D) (layers : List Layer)
    (h : ∀ l ∈ layers, l.image = none) (ctx : ImageData) :
    compileLayers P layers ctx = ctx := by
  induction layers generalizing ctx with
  | nil => rfl
  | cons l rest ih =>
    have hl : l.image = none := h l (by simp)
    simp only [compileLayers, hl]
    exact ih (fun l' hl' => h l' (by simp [hl'])) ctx

/-- **C10** `recompile` on a stack that has no layers, or whose layers all have no
image, completes (it is a total function) and sets `compiledCanvas` to a 64×64 buffer
(4096 pixels) in which every pixel has alpha 0; layers and `nextId` are untouched. -/
theorem recompile_without_images (P : Canvas2D) (s : LayerStack)
    (h : ∀ l ∈ s.layers, l.image = none) :
    ∃ c, (recompile P s).compiledCanvas = some c ∧ c.length = 4096 ∧
      (∀ p ∈ c, p.a = 0) ∧
      (recompile P s).layers = s.layers ∧ (recompile P s).nextId = s.nextId := by
  refine ⟨blankCanvas, ?_, blankCanvas_length, blankCanvas_alpha, rfl, rfl⟩
  simp only [recompile, compileLayers_without_images P s.layers h]

/-- Witness of `recompile_without_images`: a stack with two image-less layers. -/
theorem recompile_without_images_witness :
    ∃ c, (recompile refCanvas
        (addLayer (addLayer (LayerStack.new .background) {}).1 {}).1).compiledCanvas = some c ∧
      c.length = 4096 ∧ (∀ p ∈ c, p.a = 0) ∧
      (recompile refCanvas (addLayer (addLayer (LayerStack.new .background) {}).1 {}).1).layers
        = (addLayer (addLayer (LayerStack.new .background) {}).1 {}).1.layers ∧
      (recompile refCanvas (addLayer (addLayer (LayerStack.new .background) {}).1 {}).1).nextId
        = (addLayer (addLayer (LayerStack.new .background) {}).1 {}).1.nextId :=
  recompile_without_images refCanvas (addLayer (addLayer (LayerStack.new .background) {}).1 {}).1
    (by
      intro l hl
      simp only [addLayer, LayerStack.new, List.nil_append, List.cons_append, List.mem_cons,
        List.mem_singleton, List.not_mem_nil, or_false] at hl
      rcases hl with rfl | rfl <;> rfl)

/-! ### The reference platform -/

theorem refCanvas_transparentIsNoOp : refCanvas.TransparentIsNoOp := by
  intro ga d s hs
  show sourceOver ga d s = d
  unfold sourceOver
  rw [if_pos hs]

/-! ### Compositing -/

theorem mem_foldl_setAdd (sl front : List Nat) (i : Nat) :
    i ∈ sl.foldl setAdd front ↔ i ∈ front ∨ i ∈ sl := by
  induction sl generalizing front with
  | nil => simp
  | cons p sl ih =>
    rw [List.foldl_cons, ih]
    unfold setAdd
    by_cases hp : p ∈ front
    · rw [if_pos hp]
      constructor
      · rintro (h | h)
        · exact Or.inl h
        · exact Or.inr (List.mem_cons_of_mem _ h)
      · rintro (h | h)
        · exact Or.inl h
        · rw [List.mem_cons] at h
          rcases h with rfl | h
          · exact Or.inl hp
          · exact Or.inr h
    · rw [if_neg hp]
      simp only [List.mem_append, List.mem_singleton, List.mem_cons]
      tauto

theorem gatherFront_ok (slices : List (List Nat)) (checked : List Nat)
    (hidx : ∀ si ∈ checked, si < slices.length) :
    ∀ front, ∃ fr, gatherFront slices checked front = .ok fr ∧
      ∀ i, i ∈ fr ↔ i ∈ front ∨ ∃ si ∈ checked, ∃ sl, slices[si]? = some sl ∧ i ∈ sl := by
  induction checked with
  | nil => intro front; exact ⟨front, rfl, by simp⟩
  | cons si rest ih =>
    intro front
    have hsi : si < slices.length := hidx si (by simp)
    have hget : slices[si]? = some slices[si] := List.getElem?_eq_getElem hsi
    obtain ⟨fr, hfr, hmem⟩ := ih (fun s hs => hidx s (by simp [hs]))
      (slices[si].foldl setAdd front)
    refine ⟨fr, by simp only [gatherFront, hget, hfr], ?_⟩
    intro i
    rw [hmem i, mem_foldl_setAdd]
    constructor
    · rintro ((h | h) | ⟨s, hs, sl, hsl, hi⟩)
      · exact Or.inl h
      · exact Or.inr ⟨si, by simp, _, hget, h⟩
      · exact Or.inr ⟨s, by simp [hs], sl, hsl, hi⟩
    · rintro (h | ⟨s, hs, sl, hsl, hi⟩)
      · exact Or.inl (Or.inl h)
      · rw [List.mem_cons] at hs
        rcases hs with rfl | hs
        · rw [hget] at hsl
          cases hsl
          exact Or.inl (Or.inr hi)
        · exact Or.inr ⟨s, hs, sl, hsl, hi⟩

theorem getElem?_promotedData (fg : ImageData) (front : List Nat) (i : Nat) :
    (promotedData fg front)[i]?
      = if i < 4096 then some (if i ∈ front then fg.getD i Pixel.clear else Pixel.clear)
        else none := by
  unfold promotedData
  rw [List.getElem?_map]
  by_cases hi : i < 4096
  · rw [List.getElem?_range hi, if_pos hi]; rfl
  · rw [List.getElem?_eq_none (by simp; omega), if_neg hi]; rfl

/-- Drawing the promoted pixels changes no pixel outside `front`. -/
theorem getElem?_draw_promoted (P : Canvas2D) (hP : P.TransparentIsNoOp)
    (ctx fg : ImageData) (front : List Nat) (i : Nat) (hi : i ∉ front) :
    (drawImage P 1 ctx (promotedData fg front))[i]? = ctx[i]? := by
  rw [getElem?_drawImage, getElem?_promotedData]
  cases hc : ctx[i]? with
  | none => rfl
  | some x =>
    by_cases h : i < 4096
    · simp only [if_pos h, if_neg hi, Option.map_some']
      rw [hP 1 x Pixel.clear rfl]
    · simp only [if_neg h, Option.map_some']

theorem getElem?_drawOptional_congr (P : Canvas2D) (ctx ctx2 : ImageData)
    (canvas : Option ImageData) (i : Nat) (h : ctx[i]? = ctx2[i]?) :
    (drawOptional P ctx canvas)[i]? = (drawOptional P ctx2 canvas)[i]? := by
  cases canvas with
  | none => exact h
  | some cv => simp only [drawOptional, getElem?_drawImage, h]

/-- **C9** Compositing non-interference. On a platform where drawing a fully
transparent pixel changes nothing, for every source image, placement mode,
background, intersection and overlay buffer, every list of slices and every list of
promoted indices into it, `compositeSliced` returns a buffer that equals the buffer
of `compositeImage` at every pixel belonging to no promoted slice; with no promoted
index the two buffers are equal. -/
theorem compositeSliced_agrees_off_promoted (P : Canvas2D) (hP : P.TransparentIsNoOp)
    (sourceImg : SourceImg) (mode : PlacementMode) (slices : List (List Nat))
    (checkedIndices : List Nat) (bgCanvas intersectionCanvas overlayCanvas : Option ImageData)
    (hidx : ∀ si ∈ checkedIndices, si < slices.length) :
    ∃ out,
      compositeSliced P sourceImg mode slices checkedIndices bgCanvas intersectionCanvas
        overlayCanvas = .ok out ∧
      (∀ i : Nat, (∀ si ∈ checkedIndices, ∀ sl, slices[si]? = some sl → i ∉ sl) →
        out[i]? = (compositeImage P sourceImg mode bgCanvas intersectionCanvas
          overlayCanvas)[i]?) ∧
      (checkedIndices = [] →
        out = compositeImage P sourceImg mode bgCanvas intersectionCanvas overlayCanvas) := by
  obtain ⟨fr, hfr, hmem⟩ := gatherFront_ok slices checkedIndices hidx []
  have hpoint : ∀ i : Nat, (∀ si ∈ checkedIndices, ∀ sl, slices[si]? = some sl → i ∉ sl) →
      (drawOptional P (drawImage P 1
          (drawOptional P (drawSourceOnCanvas P (drawOptional P blankCanvas bgCanvas)
            sourceImg 64 64 mode) intersectionCanvas)
          (promotedData (drawSourceOnCanvas P blankCanvas sourceImg 64 64 mode) fr))
        overlayCanvas)[i]?
      = (compositeImage P sourceImg mode bgCanvas intersectionCanvas overlayCanvas)[i]? := by
    intro i hi
    have hnot : i ∉ fr := by
      rw [hmem i]
      rintro (h | ⟨si, hsi, sl, hsl, hin⟩)
      · simp at h
      · exact hi si hsi sl hsl hin
    unfold compositeImage
    exact getElem?_drawOptional_congr P _ _ overlayCanvas i
      (getElem?_draw_promoted P hP _ _ fr i hnot)
  refine ⟨_, by simp only [compositeSliced, hfr], hpoint, ?_⟩
  intro hnil
  apply List.ext_getElem?
  intro i
  apply hpoint i
  intro si hsi
  rw [hnil] at hsi
  simp at hsi

/-- Witness of `compositeSliced_agrees_off_promoted`: one slice, promoted, on the
reference platform. -/
theorem compositeSliced_agrees_off_promoted_witness :
    ∃ out,
      compositeSliced refCanvas ⟨1, 1, [⟨9, 9, 9, 255⟩]⟩ .resize [[0, 1, 64]] [0] none
        (some blankCanvas) none = .ok out ∧
      (∀ i : Nat, (∀ si ∈ [0], ∀ sl, [[0, 1, 64]][si]? = some sl → i ∉ sl) →
        out[i]? = (compositeImage refCanvas ⟨1, 1, [⟨9, 9, 9, 255⟩]⟩ .resize none
          (some blankCanvas) none)[i]?) ∧
      (([0] : List Nat) = [] →
        out = compositeImage refCanvas ⟨1, 1, [⟨9, 9, 9, 255⟩]⟩ .resize none
          (some blankCanvas) none) :=
  compositeSliced_agrees_off_promoted refCanvas refCanvas_transparentIsNoOp
    ⟨1, 1, [⟨9, 9, 9, 255⟩]⟩ .resize [[0, 1, 64]] [0] none (some blankCanvas) none
    (by decide)

/-! ### Slice detection on a transparent intersection -/

theorem overlapMap_getD (bData fData : ImageData) (i : Nat) :
    (overlapMap bData fData).getD i 0
      = if i < 4096 ∧ (bData.getD i Pixel.clear).a > 10 ∧ (fData.getD i Pixel.clear).a > 200
        then 1 else 0 := by
  unfold overlapMap
  rw [List.getD_eq_getElem?_getD, List.getElem?_map]
  by_cases hi : i < 4096
  · rw [List.getElem?_range hi]
    simp only [Option.map_some', Option.getD_some, hi, true_and]
  · rw [List.getElem?_eq_none (by simp; omega)]
    simp [hi]

theorem foldl_of_fixed {α β : Type} (f : α → β → α) (a : α) (l : List β)
    (h : ∀ x ∈ l, f a x = a) : l.foldl f a = a := by
  induction l with
  | nil => rfl
  | cons x l ih =>
    rw [List.foldl_cons, h x (by simp)]
    exact ih (fun y hy => h y (by simp [hy]))

/-- An overlap map without any 1 yields no slice. -/
theorem scanAll_of_no_overlap (om : List Nat) (h : ∀ i, om.getD i 0 ≠ 1) :
    (scanAll om).slices = [] := by
  have hpix : ∀ (st : ScanState) (x y : Nat), scanPixel om st x y = st := by
    intro st x y
    unfold scanPixel
    simp only
    rw [if_pos (Or.inl (h _))]
  have hrow : ∀ (st : ScanState) (y : Nat), scanRow om st y = st := by
    intro st y
    exact foldl_of_fixed _ st _ (fun x _ => hpix st x y)
  unfold scanAll
  rw [foldl_of_fixed _ _ _ (fun y _ => hrow _ y)]

/-- **C8** On a platform where drawing a fully transparent pixel changes nothing,
`detectSlices` returns the empty sequence for every source image and placement mode
whenever the compiled intersection buffer is absent or every one of its pixels has
alpha 0. -/
theorem detectSlices_transparent_intersection (P : Canvas2D) (hP : P.TransparentIsNoOp)
    (intersectionStack : LayerStack) (sourceImg : SourceImg) (mode : PlacementMode)
    (h : intersectionStack.compiledCanvas = none ∨
      ∃ border, intersectionStack.compiledCanvas = some border ∧ ∀ p ∈ border, p.a = 0) :
    detectSlices P intersectionStack sourceImg mode = [] := by
  rcases h with h | ⟨border, h, halpha⟩
  · simp only [detectSlices, h]
  · simp only [detectSlices, h]
    rw [scanAll_of_no_overlap]
    · rfl
    · intro i
      rw [overlapMap_getD, drawImage_transparent P hP 1 blankCanvas border halpha]
      have hb : (blankCanvas.getD i Pixel.clear).a = 0 := by
        rw [List.getD_eq_getElem?_getD]
        cases hg : blankCanvas[i]? with
        | none => rfl
        | some p => exact blankCanvas_alpha p (List.getElem?_mem hg)
      rw [hb]
      simp

/-- Witness of `detectSlices_transparent_intersection`: a stack whose compiled
canvas is the fully transparent buffer, on the reference platform. -/
theorem detectSlices_transparent_intersection_witness :
    detectSlices refCanvas exampleStack ⟨1, 1, [⟨9, 9, 9, 255⟩]⟩ .center = [] :=
  detectSlices_transparent_intersection refCanvas refCanvas_transparentIsNoOp exampleStack
    ⟨1, 1, [⟨9, 9, 9, 255⟩]⟩ .center (Or.inr ⟨blankCanvas, rfl, blankCanvas_alpha⟩)

/-! ### The pixel grid -/

theorem pixelIndex_coordOf (p : Nat) (hp : p < 4096) : pixelIndex (coordOf p) = p := by
  unfold pixelIndex coordOf
  simp only
  omega

theorem inBounds_coordOf (p : Nat) (hp : p < 4096) : InBounds (coordOf p) := by
  unfold InBounds coordOf
  simp only
  omega

theorem coordOf_pixelIndex (c : Int × Int) (hc : InBounds c) :
    pixelIndex c < 4096 ∧ coordOf (pixelIndex c) = c := by
  obtain ⟨cx, cy⟩ := c
  unfold InBounds at hc
  simp only at hc
  unfold coordOf pixelIndex
  simp only
  refine ⟨by omega, ?_⟩
  ext
  · simp only; omega
  · simp only; omega

theorem coordOf_eq_imp (p : Nat) (hp : p < 4096) (c : Int × Int) (h : coordOf p = c) :
    InBounds c ∧ pixelIndex c = p := by
  subst h
  exact ⟨inBounds_coordOf p hp, pixelIndex_coordOf p hp⟩

theorem Adjacent.swap {p q : Nat} (h : Adjacent p q) : Adjacent q p := by
  unfold Adjacent at h ⊢
  omega

theorem Adjacent.lt_left {p q : Nat} (h : Adjacent p q) : p < 4096 := h.1

theorem Adjacent.lt_right {p q : Nat} (h : Adjacent p q) : q < 4096 := h.2.1

/-- A 4-neighbour of the pixel at `c` sits at one of the four pushed pairs. -/
theorem coordOf_mem_neighbours (c : Int × Int) (hc : InBounds c) (q : Nat)
    (h : Adjacent (pixelIndex c) q) : coordOf q ∈ neighbours c := by
  obtain ⟨cx, cy⟩ := c
  unfold InBounds at hc
  simp only at hc
  unfold Adjacent pixelIndex at h
  simp only at h
  unfold neighbours coordOf
  simp only [List.mem_cons, Prod.mk.injEq, List.mem_singleton, List.not_mem_nil, or_false]
  omega

/-- A pushed pair that passes the bounds check is a 4-neighbour. -/
theorem adjacent_of_mem_neighbours (c d : Int × Int) (hc : InBounds c) (hd : InBounds d)
    (h : d ∈ neighbours c) : Adjacent (pixelIndex c) (pixelIndex d) := by
  obtain ⟨cx, cy⟩ := c
  obtain ⟨dx, dy⟩ := d
  unfold InBounds at hc hd
  simp only at hc hd
  unfold neighbours at h
  simp only [List.mem_cons, Prod.mk.injEq, List.mem_singleton, List.not_mem_nil, or_false] at h
  unfold Adjacent pixelIndex
  simp only
  omega

/-! ### Connectivity -/

theorem Connected.refl (M : Nat → Prop) (p : Nat) : Connected M p p :=
  Relation.ReflTransGen.refl

theorem Connected.trans {M : Nat → Prop} {p q r : Nat} (h1 : Connected M p q)
    (h2 : Connected M q r) : Connected M p r :=
  Relation.ReflTransGen.trans h1 h2

theorem Connected.extend {M : Nat → Prop} {p q r : Nat} (h1 : Connected M p q)
    (h2 : Adjacent q r) (h3 : M r) : Connected M p r :=
  Relation.ReflTransGen.tail h1 ⟨h2, h3⟩

/-- Every pixel reached from a mask pixel is a mask pixel. -/
theorem Connected.mask {M : Nat → Prop} {p q : Nat} (h : Connected M p q) (hp : M p) : M q := by
  induction h with
  | refl => exact hp
  | tail _ hstep _ => exact hstep.2

/-- Connectivity from a mask pixel is symmetric. -/
theorem Connected.reverse {M : Nat → Prop} {p q : Nat} (h : Connected M p q) (hp : M p) :
    Connected M q p := by
  induction h with
  | refl => exact Relation.ReflTransGen.refl
  | tail hpu hstep ih =>
    have hu := Connected.mask hpu hp
    exact Relation.ReflTransGen.head ⟨hstep.1.swap, hu⟩ ih

/-- A set closed under mask-neighbours contains everything reached from it. -/
theorem Connected.closed {M V : Nat → Prop} (hcl : ∀ p q, V p → Adjacent p q → M q → V q)
    {p q : Nat} (h : Connected M p q) (hp : V p) : V q := by
  induction h with
  | refl => exact hp
  | tail _ hstep ih => exact hcl _ _ ih hstep.1 hstep.2

/-! ### One step of the flood fill -/

theorem getD_set_eq (l : List Nat) (i v d : Nat) (h : i < l.length) :
    (l.set i v).getD i d = v := by
  rw [List.getD_eq_getElem?_getD, List.getElem?_set_self h]
  rfl

theorem getD_set_ne (l : List Nat) (i j v d : Nat) (h : i ≠ j) :
    (l.set i v).getD j d = l.getD j d := by
  rw [List.getD_eq_getElem?_getD, List.getD_eq_getElem?_getD, List.getElem?_set_ne h]

theorem count_zero_set (l : List Nat) (i : Nat) (h : i < l.length) (h0 : l.getD i 0 = 0) :
    (l.set i 1).count 0 + 1 = l.count 0 := by
  have hget : l[i] = 0 := by
    rw [List.getD_eq_getElem?_getD, List.getElem?_eq_getElem h] at h0
    simpa using h0
  have hpos : 0 < l.count 0 := by
    rw [List.count_pos_iff]
    rw [← hget]
    exact List.getElem_mem _
  rw [List.count_set 1 0 l i h, hget]
  simp only [beq_self_eq_true, if_true]
  have : ((1 : Nat) == 0) = false := rfl
  rw [this]
  simp only [Bool.false_eq_true, if_false]
  omega

theorem fillStep_nil (om : List Nat) (st : FillState) (hq : st.queue = []) :
    fillStep om st = st := by
  unfold fillStep
  rw [hq]

theorem fillStep_skip (om : List Nat) (st : FillState) (c : Int × Int) (q : List (Int × Int))
    (hq : st.queue = c :: q)
    (h : ¬ InBounds c ∨ st.visited.getD (pixelIndex c) 0 ≠ 0 ∨ om.getD (pixelIndex c) 0 = 0) :
    fillStep om st = { st with queue := q } := by
  obtain ⟨cx, cy⟩ := c
  unfold fillStep
  rw [hq]
  simp only
  by_cases hb : cx < 0 ∨ cx ≥ 64 ∨ cy < 0 ∨ cy ≥ 64
  · rw [if_pos hb]
  · rw [if_neg hb]
    have hin : InBounds (cx, cy) := by
      unfold InBounds; simp only; omega
    rcases h with h | h
    · exact absurd hin h
    · rw [if_pos (by simpa [pixelIndex] using h)]

theorem fillStep_visit (om : List Nat) (st : FillState) (c : Int × Int) (q : List (Int × Int))
    (hq : st.queue = c :: q) (hin : InBounds c)
    (hv : st.visited.getD (pixelIndex c) 0 = 0) (hm : om.getD (pixelIndex c) 0 ≠ 0) :
    fillStep om st =
      { visited := st.visited.set (pixelIndex c) 1
        pixels := setAdd st.pixels (pixelIndex c)
        queue := q ++ neighbours c } := by
  obtain ⟨cx, cy⟩ := c
  unfold fillStep
  rw [hq]
  simp only
  have hb : ¬ (cx < 0 ∨ cx ≥ 64 ∨ cy < 0 ∨ cy ≥ 64) := by
    unfold InBounds at hin; simp only at hin; omega
  rw [if_neg hb]
  have hc : ¬ (st.visited.getD ((cy * 64 + cx).toNat) 0 ≠ 0 ∨ om.getD ((cy * 64 + cx).toNat) 0 = 0) := by
    unfold pixelIndex at hv hm
    simp only at hv hm
    rintro (h | h)
    · exact h hv
    · exact hm h
  rw [if_neg hc]
  rfl

/-- Each step of a fill with a non-empty queue lowers the measure. -/
theorem fillStep_measure (om : List Nat) (st : FillState) (hlen : st.visited.length = 4096)
    (hq : st.queue ≠ []) :
    fillMeasure (fillStep om st) < fillMeasure st ∧
    (fillStep om st).visited.length = 4096 := by
  cases hqq : st.queue with
  | nil => exact absurd hqq hq
  | cons c q =>
    by_cases h : ¬ InBounds c ∨ st.visited.getD (pixelIndex c) 0 ≠ 0
        ∨ om.getD (pixelIndex c) 0 = 0
    · rw [fillStep_skip om st c q hqq h]
      unfold fillMeasure
      simp only [hqq, List.length_cons]
      exact ⟨by omega, hlen⟩
    · have hin : InBounds c := by
        by_contra hcon; exact h (Or.inl hcon)
      have hv : st.visited.getD (pixelIndex c) 0 = 0 := by
        by_contra hcon; exact h (Or.inr (Or.inl hcon))
      have hm : om.getD (pixelIndex c) 0 ≠ 0 := by
        intro hcon; exact h (Or.inr (Or.inr hcon))
      rw [fillStep_visit om st c q hqq hin hv hm]
      have hci : pixelIndex c < st.visited.length := by
        rw [hlen]; exact (coordOf_pixelIndex c hin).1
      have hcount := count_zero_set st.visited (pixelIndex c) hci hv
      unfold fillMeasure
      simp only [hqq, List.length_cons, List.length_append, neighbours, List.length_set,
        List.length_nil]
      exact ⟨by omega, hlen⟩

/-- With fuel at least the measure, the fill ends with an empty queue. -/
theorem floodFill_queue_nil (om : List Nat) :
    ∀ (fuel : Nat) (st : FillState), st.visited.length = 4096 → fillMeasure st ≤ fuel →
      (floodFill om fuel st).queue = [] := by
  intro fuel
  induction fuel with
  | zero =>
    intro st _ hm
    unfold fillMeasure at hm
    simp only [floodFill]
    exact List.length_eq_zero.mp (by omega)
  | succ fuel ih =>
    intro st hlen hm
    cases hq : st.queue with
    | nil =>
      simp only [floodFill, hq]
    | cons c q =>
      have hne : st.queue ≠ [] := by rw [hq]; simp
      have hstep := fillStep_measure om st hlen hne
      have : floodFill om (fuel + 1) st = floodFill om fuel (fillStep om st) := by
        conv_lhs => unfold floodFill
        simp only [hq]
      rw [this]
      exact ih _ hstep.2 (by omega)

/-! ### Invariant of the flood fill -/

/-- Nothing reached from the seed was visited before the fill. -/
theorem not_visited_of_connected (om vis0 : List Nat) (seed : Nat)
    (hseedM : MaskOf om seed) (hseedV : vis0.getD seed 0 = 0)
    (hcl : ∀ p q, vis0.getD p 0 ≠ 0 → Adjacent p q → MaskOf om q → vis0.getD q 0 ≠ 0)
    (q : Nat) (h : Connected (MaskOf om) seed q) : vis0.getD q 0 = 0 := by
  by_contra hcon
  have hback := Connected.reverse h hseedM
  exact (Connected.closed (V := fun p => vis0.getD p 0 ≠ 0) hcl hback hcon) hseedV

theorem FillInv.drop_head {om vis0 : List Nat} {seed : Nat} {st : FillState}
    (inv : FillInv om vis0 seed st) (hseedM : MaskOf om seed)
    (c : Int × Int) (q : List (Int × Int)) (hq : st.queue = c :: q)
    (hdrop : ∀ p, p < 4096 → coordOf p = c → MaskOf om p → p ∈ st.pixels) :
    FillInv om vis0 seed { st with queue := q } := by
  refine ⟨inv.len, inv.vis, inv.nodup, inv.reach, ?_, ?_, ?_⟩
  · intro d hd
    exact inv.queue d (by rw [hq]; exact List.mem_cons_of_mem _ hd)
  · intro p hp r hadj hr
    rcases inv.frontier p hp r hadj hr with h | h
    · exact Or.inl h
    · rw [hq, List.mem_cons] at h
      rcases h with h | h
      · exact Or.inl (hdrop r hadj.lt_right h hr)
      · exact Or.inr h
  · rcases inv.seedIn with h | h
    · exact Or.inl h
    · rw [hq, List.mem_cons] at h
      rcases h with h | h
      · exact Or.inl (hdrop seed hseedM.1 h hseedM)
      · exact Or.inr h

theorem FillInv.visit {om vis0 : List Nat} {seed : Nat} {st : FillState}
    (inv : FillInv om vis0 seed st)
    (c : Int × Int) (q : List (Int × Int)) (hq : st.queue = c :: q) (hin : InBounds c)
    (hv : st.visited.getD (pixelIndex c) 0 = 0) (hm : om.getD (pixelIndex c) 0 ≠ 0) :
    FillInv om vis0 seed
      { visited := st.visited.set (pixelIndex c) 1
        pixels := setAdd st.pixels (pixelIndex c)
        queue := q ++ neighbours c } := by
  have hci : pixelIndex c < 4096 := (coordOf_pixelIndex c hin).1
  have hcoord : coordOf (pixelIndex c) = c := (coordOf_pixelIndex c hin).2
  have hM : MaskOf om (pixelIndex c) := ⟨hci, hm⟩
  have hnotin : pixelIndex c ∉ st.pixels := by
    intro hmem
    exact ((inv.vis (pixelIndex c)).mpr (Or.inr hmem)) hv
  have hadd : setAdd st.pixels (pixelIndex c) = st.pixels ++ [pixelIndex c] := by
    unfold setAdd; rw [if_neg hnotin]
  have hconn : Connected (MaskOf om) seed (pixelIndex c) :=
    inv.queue c (by rw [hq]; exact List.mem_cons_self _ _) hin hM
  have hv0 : vis0.getD (pixelIndex c) 0 = 0 := by
    by_contra hcon
    exact ((inv.vis (pixelIndex c)).mpr (Or.inl hcon)) hv
  rw [hadd]
  refine ⟨?_, ?_, ?_, ?_, ?_, ?_, ?_⟩
  · simp only [List.length_set]; exact inv.len
  · intro p
    simp only [List.mem_append, List.mem_singleton]
    by_cases hp : pixelIndex c = p
    · subst hp
      rw [getD_set_eq _ _ _ _ (by rw [inv.len]; exact hci)]
      simp
    · rw [getD_set_ne _ _ _ _ _ hp, inv.vis p]
      constructor
      · rintro (h | h)
        · exact Or.inl h
        · exact Or.inr (Or.inl h)
      · rintro (h | h | h)
        · exact Or.inl h
        · exact Or.inr h
        · exact absurd h.symm hp
  · exact List.Nodup.append inv.nodup (List.nodup_singleton _)
      (by
        intro a ha hb
        rw [List.mem_singleton] at hb
        exact hnotin (hb ▸ ha))
  · intro p hp
    rw [List.mem_append, List.mem_singleton] at hp
    rcases hp with hp | hp
    · exact inv.reach p hp
    · subst hp
      exact ⟨hconn, hM, hv0⟩
  · intro d hd hdin hdM
    rw [List.mem_append] at hd
    rcases hd with hd | hd
    · exact inv.queue d (by rw [hq]; exact List.mem_cons_of_mem _ hd) hdin hdM
    · exact hconn.extend (adjacent_of_mem_neighbours c d hin hdin hd) hdM
  · intro p hp r hadj hr
    rw [List.mem_append, List.mem_singleton] at hp
    simp only [List.mem_append, List.mem_singleton]
    rcases hp with hp | hp
    · rcases inv.frontier p hp r hadj hr with h | h
      · exact Or.inl (Or.inl h)
      · rw [hq, List.mem_cons] at h
        rcases h with h | h
        · left; right
          have := (coordOf_eq_imp r hadj.lt_right c h).2
          exact this.symm
        · exact Or.inr (Or.inl h)
    · subst hp
      exact Or.inr (Or.inr (coordOf_mem_neighbours c hin r hadj))
  · simp only [List.mem_append, List.mem_singleton]
    rcases inv.seedIn with h | h
    · exact Or.inl (Or.inl h)
    · rw [hq, List.mem_cons] at h
      rcases h with h | h
      · left; right
        by_cases hs : seed < 4096
        · exact ((coordOf_eq_imp seed hs c h).2).symm
        · -- the seed is a grid pixel because it equals a pair passing the bounds check
          exfalso
          have hb := hin
          rw [← h] at hb
          unfold InBounds coordOf at hb
          simp only at hb
          omega
      · exact Or.inr (Or.inl h)

/-- The invariant is kept by every step. -/
theorem FillInv.keepStep {om vis0 : List Nat} {seed : Nat} {st : FillState}
    (inv : FillInv om vis0 seed st) (hseedM : MaskOf om seed)
    (hseedV : vis0.getD seed 0 = 0)
    (hcl : ∀ p q, vis0.getD p 0 ≠ 0 → Adjacent p q → MaskOf om q → vis0.getD q 0 ≠ 0) :
    FillInv om vis0 seed (fillStep om st) := by
  cases hq : st.queue with
  | nil => rw [fillStep_nil om st hq]; exact inv
  | cons c q =>
    by_cases h : ¬ InBounds c ∨ st.visited.getD (pixelIndex c) 0 ≠ 0
        ∨ om.getD (pixelIndex c) 0 = 0
    · rw [fillStep_skip om st c q hq h]
      apply inv.drop_head hseedM c q hq
      intro p hp hpc hpM
      obtain ⟨hin, hidx⟩ := coordOf_eq_imp p hp c hpc
      rcases h with h | h | h
      · exact absurd hin h
      · rw [hidx] at h
        rcases (inv.vis p).mp h with hv0 | hmem
        · have hconn := inv.queue c (by rw [hq]; exact List.mem_cons_self _ _) hin
            (by rw [hidx]; exact hpM)
          rw [hidx] at hconn
          exact absurd (not_visited_of_connected om vis0 seed hseedM hseedV hcl p hconn) hv0
        · exact hmem
      · rw [hidx] at h
        exact absurd h hpM.2
    · have hin : InBounds c := by
        by_contra hcon; exact h (Or.inl hcon)
      have hv : st.visited.getD (pixelIndex c) 0 = 0 := by
        by_contra hcon; exact h (Or.inr (Or.inl hcon))
      have hm : om.getD (pixelIndex c) 0 ≠ 0 := by
        intro hcon; exact h (Or.inr (Or.inr hcon))
      rw [fillStep_visit om st c q hq hin hv hm]
      exact inv.visit c q hq hin hv hm

theorem FillInv.floodFill {om vis0 : List Nat} {seed : Nat}
    (hseedM : MaskOf om seed) (hseedV : vis0.getD seed 0 = 0)
    (hcl : ∀ p q, vis0.getD p 0 ≠ 0 → Adjacent p q → MaskOf om q → vis0.getD q 0 ≠ 0) :
    ∀ (fuel : Nat) (st : FillState), FillInv om vis0 seed st →
      FillInv om vis0 seed (BadgesBeDone.floodFill om fuel st) := by
  intro fuel
  induction fuel with
  | zero => intro st inv; exact inv
  | succ fuel ih =>
    intro st inv
    cases hq : st.queue with
    | nil =>
      have : BadgesBeDone.floodFill om (fuel + 1) st = st := by
        conv_lhs => unfold BadgesBeDone.floodFill
        simp only [hq]
      rw [this]; exact inv
    | cons c q =>
      have : BadgesBeDone.floodFill om (fuel + 1) st
          = BadgesBeDone.floodFill om fuel (fillStep om st) := by
        conv_lhs => unfold BadgesBeDone.floodFill
        simp only [hq]
      rw [this]
      exact ih _ (inv.keepStep hseedM hseedV hcl)

/-- Once the queue is empty, the collected pixels are exactly the pixels reached
from the seed. -/
theorem FillInv.pixels_eq {om vis0 : List Nat} {seed : Nat} {st : FillState}
    (inv : FillInv om vis0 seed st) (hq : st.queue = []) (q : Nat) :
    q ∈ st.pixels ↔ Connected (MaskOf om) seed q := by
  constructor
  · intro h; exact (inv.reach q h).1
  · intro h
    induction h with
    | refl =>
      rcases inv.seedIn with h | h
      · exact h
      · rw [hq] at h; simp at h
    | tail _ hstep ih =>
      rcases inv.frontier _ ih _ hstep.1 hstep.2 with h | h
      · exact h
      · rw [hq] at h; simp at h

/-! ### Invariant of the scan -/

theorem component_of_seed {M : Nat → Prop} {L : List Nat} {s : Nat} (hs : M s)
    (hL : ∀ q, q ∈ L ↔ Connected M s q) :
    ∀ p ∈ L, ∀ q, q ∈ L ↔ Connected M p q := by
  intro p hp q
  have hsp : Connected M s p := (hL p).mp hp
  have hps : Connected M p s := hsp.reverse hs
  rw [hL q]
  exact ⟨fun h => hps.trans h, fun h => hsp.trans h⟩

theorem atLeastThree_of_length {M : Nat → Prop} {L : List Nat} (hnd : L.Nodup)
    (hlen : 3 ≤ L.length) (p : Nat) (hp : p ∈ L) (hL : ∀ q, q ∈ L → Connected M p q) :
    AtLeastThree M p := by
  have hcard : L.toFinset.card = L.length := List.toFinset_card_of_nodup hnd
  have hp' : p ∈ L.toFinset := List.mem_toFinset.mpr hp
  have herase : (L.toFinset.erase p).card = L.toFinset.card - 1 := Finset.card_erase_of_mem hp'
  have h2 : 1 < (L.toFinset.erase p).card := by omega
  obtain ⟨q, hq, r, hr, hqr⟩ := Finset.one_lt_card.mp h2
  rw [Finset.mem_erase, List.mem_toFinset] at hq hr
  exact ⟨q, r, hq.1, hr.1, hqr, hL q hq.2, hL r hr.2⟩

theorem length_of_atLeastThree {M : Nat → Prop} {L : List Nat} (hnd : L.Nodup) (p : Nat)
    (hL : ∀ q, Connected M p q → q ∈ L) (h : AtLeastThree M p) : 3 ≤ L.length := by
  obtain ⟨q, r, hqp, hrp, hqr, hq, hr⟩ := h
  have hcard : L.toFinset.card = L.length := List.toFinset_card_of_nodup hnd
  have h3 : ({p, q, r} : Finset Nat).card = 3 :=
    Finset.card_eq_three.mpr ⟨p, q, r, fun h => hqp h.symm, fun h => hrp h.symm, hqr, rfl⟩
  have hsub : ({p, q, r} : Finset Nat) ⊆ L.toFinset := by
    intro a ha
    simp only [Finset.mem_insert, Finset.mem_singleton] at ha
    rw [List.mem_toFinset]
    rcases ha with rfl | rfl | rfl
    · exact hL _ (Connected.refl M _)
    · exact hL _ hq
    · exact hL _ hr
  have := Finset.card_le_card hsub
  omega

theorem ScanInv.scanInit (om : List Nat) :
    ScanInv om 0 { visited := List.replicate 4096 0, slices := [] } := by
  have hz : ∀ p, (List.replicate 4096 (0 : Nat)).getD p 0 = 0 := by
    intro p
    rw [List.getD_eq_getElem?_getD, List.getElem?_replicate]
    split <;> rfl
  refine ⟨List.length_replicate _ _, ?_, ?_, ?_, ?_, ?_, List.Pairwise.nil, ?_⟩
  · intro p hp; exact absurd (hz p) hp
  · intro p q hp; exact absurd (hz p) hp
  · intro p hp; omega
  · intro S hS; simp at hS
  · intro p hp; exact absurd (hz p) hp
  · intro S hS; simp at hS

/-- The body of the inner loop keeps the invariant and advances the scan by one
pixel. -/
theorem ScanInv.scanPixel {om : List Nat} (hom : ∀ p, om.getD p 0 = 0 ∨ om.getD p 0 = 1)
    {n : Nat} {st : ScanState} (inv : ScanInv om n st) (x y : Nat) (hx : x < 64)
    (hy : y < 64) (hn : n = y * 64 + x) :
    ScanInv om (n + 1) (BadgesBeDone.scanPixel om st x y) := by
  have hn4 : n < 4096 := by omega
  by_cases hskip : om.getD n 0 ≠ 1 ∨ st.visited.getD n 0 ≠ 0
  · have heq : BadgesBeDone.scanPixel om st x y = st := by
      unfold BadgesBeDone.scanPixel
      simp only [← hn]
      rw [if_pos hskip]
    rw [heq]
    refine ⟨inv.len, inv.sub, inv.closed, ?_, inv.comp, inv.big, inv.order, ?_⟩
    · intro p hp hM
      by_cases hpn : p < n
      · exact inv.done p hpn hM
      · have : p = n := by omega
        subst this
        rcases hskip with h | h
        · rcases hom p with h0 | h1
          · exact absurd h0 hM.2
          · exact absurd h1 h
        · exact h
    · intro S hS
      obtain ⟨m, hm, hlt, hmin⟩ := inv.seeds S hS
      exact ⟨m, hm, by omega, hmin⟩
  · have hom1 : om.getD n 0 = 1 := by
      by_contra hcon; exact hskip (Or.inl hcon)
    have hv0 : st.visited.getD n 0 = 0 := by
      by_contra hcon; exact hskip (Or.inr hcon)
    have hseedM : MaskOf om n := ⟨hn4, by rw [hom1]; decide⟩
    have hcoord : coordOf n = ((x : Int), (y : Int)) := by
      unfold coordOf
      ext
      · simp only; omega
      · simp only; omega
    have hidx : pixelIndex ((x : Int), (y : Int)) = n := by
      rw [← hcoord]; exact pixelIndex_coordOf n hn4
    have hinit : FillInv om st.visited n
        { visited := st.visited, pixels := [], queue := [((x : Int), (y : Int))] } := by
      refine ⟨inv.len, ?_, List.nodup_nil, ?_, ?_, ?_, ?_⟩
      · intro p; simp
      · intro p hp; simp at hp
      · intro c hc _ _
        rw [List.mem_singleton] at hc
        subst hc
        rw [hidx]
        exact Connected.refl _ _
      · intro p hp; simp at hp
      · right; rw [hcoord]; simp
    have hmeasure : fillMeasure
        { visited := st.visited, pixels := [], queue := [((x : Int), (y : Int))] }
        ≤ fillFuel := by
      unfold fillMeasure fillFuel
      have := List.count_le_length (0 : Nat) st.visited
      rw [inv.len] at this
      simp only [List.length_singleton]
      omega
    have hfin := FillInv.floodFill hseedM hv0 inv.closed fillFuel _ hinit
    have hqnil := floodFill_queue_nil om fillFuel _ inv.len hmeasure
    have hL := hfin.pixels_eq hqnil
    have hcomp := component_of_seed hseedM hL
    have hnL : n ∈ (floodFill om fillFuel
        { visited := st.visited, pixels := [], queue := [((x : Int), (y : Int))] }).pixels :=
      (hL n).mpr (Connected.refl _ _)
    have heq : BadgesBeDone.scanPixel om st x y =
        { visited := (floodFill om fillFuel
            { visited := st.visited, pixels := [], queue := [((x : Int), (y : Int))] }).visited
          slices := if (floodFill om fillFuel
              { visited := st.visited, pixels := [], queue := [((x : Int), (y : Int))] }).pixels.length ≥ 3
            then st.slices ++ [(floodFill om fillFuel
              { visited := st.visited, pixels := [], queue := [((x : Int), (y : Int))] }).pixels]
            else st.slices } := by
      unfold BadgesBeDone.scanPixel
      simp only [← hn]
      rw [if_neg hskip]
    rw [heq]
    generalize floodFill om fillFuel
      { visited := st.visited, pixels := [], queue := [((x : Int), (y : Int))] } = filled
      at hfin hqnil hL hcomp hnL
    have hge : ∀ q ∈ filled.pixels, n ≤ q := by
      intro q hq
      by_contra hcon
      have hr := hfin.reach q hq
      exact (inv.done q (by omega) hr.2.1) hr.2.2
    have hold : ∀ S ∈ st.slices, ∀ p ∈ S, p ∉ filled.pixels := by
      intro S hS p hp hpL
      exact ((inv.comp S hS).2.2 p hp).1 (hfin.reach p hpL).2.2
    have hmemslices : ∀ S, S ∈ (if filled.pixels.length ≥ 3 then st.slices ++ [filled.pixels]
        else st.slices) ↔ S ∈ st.slices ∨ (3 ≤ filled.pixels.length ∧ S = filled.pixels) := by
      intro S
      by_cases h3 : filled.pixels.length ≥ 3
      · rw [if_pos h3, List.mem_append, List.mem_singleton]
        constructor
        · rintro (h | h)
          · exact Or.inl h
          · exact Or.inr ⟨h3, h⟩
        · rintro (h | ⟨_, h⟩)
          · exact Or.inl h
          · exact Or.inr h
      · rw [if_neg h3]
        constructor
        · exact Or.inl
        · rintro (h | ⟨h, _⟩)
          · exact h
          · exact absurd h h3
    refine ⟨hfin.len, ?_, ?_, ?_, ?_, ?_, ?_, ?_⟩
    · intro p hp
      rcases (hfin.vis p).mp hp with h | h
      · exact inv.sub p h
      · exact (hfin.reach p h).2.1
    · intro p q hp hadj hq
      rcases (hfin.vis p).mp hp with h | h
      · exact (hfin.vis q).mpr (Or.inl (inv.closed p q h hadj hq))
      · exact (hfin.vis q).mpr (Or.inr ((hL q).mpr (((hL p).mp h).extend hadj hq)))
    · intro p hp hM
      by_cases hpn : p < n
      · exact (hfin.vis p).mpr (Or.inl (inv.done p hpn hM))
      · have : p = n := by omega
        subst this
        exact (hfin.vis p).mpr (Or.inr hnL)
    · intro S hS
      rcases (hmemslices S).mp hS with h | ⟨h3, rfl⟩
      · obtain ⟨hnd, hlen, hall⟩ := inv.comp S h
        exact ⟨hnd, hlen, fun p hp =>
          ⟨(hfin.vis p).mpr (Or.inl (hall p hp).1), (hall p hp).2⟩⟩
      · exact ⟨hfin.nodup, h3, fun p hp =>
          ⟨(hfin.vis p).mpr (Or.inr hp), hcomp p hp⟩⟩
    · intro p hp
      rcases (hfin.vis p).mp hp with h | h
      · rw [← inv.big p h]
        constructor
        · rintro ⟨S, hS, hpS⟩
          rcases (hmemslices S).mp hS with hS' | ⟨_, rfl⟩
          · exact ⟨S, hS', hpS⟩
          · exact absurd (hfin.reach p hpS).2.2 h
        · rintro ⟨S, hS, hpS⟩
          exact ⟨S, (hmemslices S).mpr (Or.inl hS), hpS⟩
      · constructor
        · rintro ⟨S, hS, hpS⟩
          rcases (hmemslices S).mp hS with hS' | ⟨h3, rfl⟩
          · exact absurd h (hold S hS' p hpS)
          · exact atLeastThree_of_length hfin.nodup h3 p h
              (fun q hq => (hcomp p h q).mp hq)
        · intro hbig
          have h3 := length_of_atLeastThree hfin.nodup p
            (fun q hq => (hcomp p h q).mpr hq) hbig
          exact ⟨filled.pixels, (hmemslices _).mpr (Or.inr ⟨h3, rfl⟩), h⟩
    · by_cases h3 : filled.pixels.length ≥ 3
      · rw [if_pos h3, List.pairwise_append]
        refine ⟨inv.order, List.pairwise_singleton _ _, ?_⟩
        intro A hA B hB
        rw [List.mem_singleton] at hB
        subst hB
        obtain ⟨m, hm, hlt, hmin⟩ := inv.seeds A hA
        exact ⟨m, hm, hmin, fun q hq => lt_of_lt_of_le hlt (hge q hq)⟩
      · rw [if_neg h3]; exact inv.order
    · intro S hS
      rcases (hmemslices S).mp hS with h | ⟨_, rfl⟩
      · obtain ⟨m, hm, hlt, hmin⟩ := inv.seeds S h
        exact ⟨m, hm, by omega, hmin⟩
      · exact ⟨n, hnL, by omega, hge⟩

/-! ### The two loops of the scan -/

theorem ScanInv.scanRow {om : List Nat} (hom : ∀ p, om.getD p 0 = 0 ∨ om.getD p 0 = 1)
    {st : ScanState} (y : Nat) (hy : y < 64) (inv : ScanInv om (y * 64) st) :
    ScanInv om ((y + 1) * 64) (BadgesBeDone.scanRow om st y) := by
  have hk : ∀ k, k ≤ 64 → ScanInv om (y * 64 + k)
      ((List.range k).foldl (fun acc x => BadgesBeDone.scanPixel om acc x y) st) := by
    intro k
    induction k with
    | zero =>
      intro _
      simp only [List.range_zero, List.foldl_nil, Nat.add_zero]
      exact inv
    | succ k ih =>
      intro hk
      rw [List.range_succ, List.foldl_append]
      simp only [List.foldl_cons, List.foldl_nil]
      exact (ih (by omega)).scanPixel hom k y (by omega) hy rfl
  have := hk 64 (le_refl _)
  have he : (y + 1) * 64 = y * 64 + 64 := by omega
  rw [he]
  exact this

theorem ScanInv.scanAll {om : List Nat} (hom : ∀ p, om.getD p 0 = 0 ∨ om.getD p 0 = 1) :
    ScanInv om 4096 (BadgesBeDone.scanAll om) := by
  have hk : ∀ k, k ≤ 64 → ScanInv om (k * 64)
      ((List.range k).foldl (BadgesBeDone.scanRow om)
        { visited := List.replicate 4096 0, slices := [] }) := by
    intro k
    induction k with
    | zero =>
      intro _
      simp only [List.range_zero, List.foldl_nil, Nat.zero_mul]
      exact ScanInv.scanInit om
    | succ k ih =>
      intro hk
      rw [List.range_succ, List.foldl_append]
      simp only [List.foldl_cons, List.foldl_nil]
      exact (ih (by omega)).scanRow hom k (by omega)
  exact hk 64 (le_refl _)

theorem overlapMap_values (bData fData : ImageData) (p : Nat) :
    (overlapMap bData fData).getD p 0 = 0 ∨ (overlapMap bData fData).getD p 0 = 1 := by
  rw [overlapMap_getD]
  split
  · exact Or.inr rfl
  · exact Or.inl rfl

theorem maskOf_overlapMap (bData fData : ImageData) :
    MaskOf (overlapMap bData fData) = OverlapMask bData fData := by
  funext p
  apply propext
  unfold MaskOf OverlapMask
  rw [overlapMap_getD]
  constructor
  · rintro ⟨hp, h⟩
    by_cases hc : p < 4096 ∧ (bData.getD p Pixel.clear).a > 10
        ∧ (fData.getD p Pixel.clear).a > 200
    · exact hc
    · rw [if_neg hc] at h; exact absurd rfl h
  · intro h
    exact ⟨h.1, by rw [if_pos h]; decide⟩

/-! ### The stable sort -/

theorem mem_insertBySize (s : List Nat) (l : List (List Nat)) (t : List Nat) :
    t ∈ insertBySize s l ↔ t = s ∨ t ∈ l := by
  induction l with
  | nil => simp [insertBySize]
  | cons u rest ih =>
    unfold insertBySize
    split
    · simp
    · rw [List.mem_cons, ih, List.mem_cons]
      tauto

theorem mem_sortBySize (l : List (List Nat)) (t : List Nat) : t ∈ sortBySize l ↔ t ∈ l := by
  induction l with
  | nil => simp [sortBySize]
  | cons s rest ih =>
    rw [sortBySize, mem_insertBySize, ih, List.mem_cons]

theorem perm_insertBySize (s : List Nat) (l : List (List Nat)) :
    (insertBySize s l).Perm (s :: l) := by
  induction l with
  | nil => exact List.Perm.refl _
  | cons u rest ih =>
    unfold insertBySize
    split
    · exact List.Perm.refl _
    · exact (List.Perm.cons u ih).trans (List.Perm.swap s u rest)

theorem perm_sortBySize (l : List (List Nat)) : (sortBySize l).Perm l := by
  induction l with
  | nil => exact List.Perm.refl _
  | cons s rest ih =>
    rw [sortBySize]
    exact (perm_insertBySize s _).trans (List.Perm.cons s ih)

/-- Sorted by size, ties in the order given by `R`. -/
theorem pairwise_insertBySize (R : List Nat → List Nat → Prop) (s : List Nat)
    (l : List (List Nat))
    (hl : l.Pairwise (fun A B => A.length ≤ B.length ∧ (A.length = B.length → R A B)))
    (hs : ∀ B ∈ l, R s B) :
    (insertBySize s l).Pairwise
      (fun A B => A.length ≤ B.length ∧ (A.length = B.length → R A B)) := by
  induction l with
  | nil => simp [insertBySize]
  | cons u rest ih =>
    rw [List.pairwise_cons] at hl
    unfold insertBySize
    split
    · next hle =>
      rw [List.pairwise_cons]
      refine ⟨?_, List.pairwise_cons.mpr hl⟩
      intro B hB
      refine ⟨?_, fun _ => hs B hB⟩
      rw [List.mem_cons] at hB
      rcases hB with rfl | hB
      · exact hle
      · exact le_trans hle (hl.1 B hB).1
    · next hle =>
      rw [List.pairwise_cons]
      refine ⟨?_, ih hl.2 (fun B hB => hs B (List.mem_cons_of_mem _ hB))⟩
      intro B hB
      rw [mem_insertBySize] at hB
      rcases hB with rfl | hB
      · exact ⟨by omega, fun h => absurd h (by omega)⟩
      · exact hl.1 B hB

theorem pairwise_sortBySize (R : List Nat → List Nat → Prop) (l : List (List Nat))
    (hl : l.Pairwise R) :
    (sortBySize l).Pairwise
      (fun A B => A.length ≤ B.length ∧ (A.length = B.length → R A B)) := by
  induction l with
  | nil => simp [sortBySize]
  | cons s rest ih =>
    rw [List.pairwise_cons] at hl
    rw [sortBySize]
    exact pairwise_insertBySize R s _ (ih hl.2)
      (fun B hB => hl.1 B ((mem_sortBySize rest B).mp hB))

/-- A path inside the mask from a pixel of a component stays inside that component. -/
theorem connected_within {M : Nat → Prop} {S : List Nat} {p : Nat}
    (hS : ∀ q, q ∈ S ↔ Connected M p q) {q : Nat} (h : Connected M p q) :
    Connected (fun v => v ∈ S) p q := by
  induction h with
  | refl => exact Connected.refl _ _
  | tail hpu hstep ih =>
    exact Connected.extend ih hstep.1 ((hS _).mpr (Connected.extend hpu hstep.1 hstep.2))

/-- What the scan returns, before sorting. -/
theorem scanAll_spec (bData fData : ImageData) :
    ScanInv (overlapMap bData fData) 4096 (scanAll (overlapMap bData fData)) :=
  ScanInv.scanAll (overlapMap_values bData fData)

theorem disjoint_of_scanInv {om : List Nat} {n : Nat} {st : ScanState}
    (inv : ScanInv om n st) : st.slices.Pairwise List.Disjoint := by
  refine List.Pairwise.imp_of_mem ?_ inv.order
  intro A B hA hB hAB p hpA hpB
  obtain ⟨m, hm, _, hlt⟩ := hAB
  have h1 : Connected (MaskOf om) p m := (((inv.comp A hA).2.2 p hpA).2 m).mp hm
  have h2 : m ∈ B := (((inv.comp B hB).2.2 p hpB).2 m).mpr h1
  exact absurd (hlt m h2) (lt_irrefl _)

/-- The sorted slices of a finished scan are the components of at least three
pixels of the mask. -/
theorem sorted_slices_spec {om : List Nat} {st : ScanState} (inv : ScanInv om 4096 st) :
    (∀ S ∈ sortBySize st.slices,
      S ≠ [] ∧ S.Nodup ∧ 3 ≤ S.length ∧
      (∀ p ∈ S, MaskOf om p) ∧
      (∀ p ∈ S, ∀ q, q ∈ S ↔ Connected (MaskOf om) p q) ∧
      (∀ p ∈ S, ∀ q ∈ S, Connected (fun v => v ∈ S) p q) ∧
      (∀ p ∈ S, ∀ q, Adjacent p q → MaskOf om q → q ∈ S)) ∧
    (sortBySize st.slices).Pairwise List.Disjoint ∧
    (∀ p, MaskOf om p →
      ((∃ S ∈ sortBySize st.slices, p ∈ S) ↔ AtLeastThree (MaskOf om) p)) := by
  refine ⟨?_, ?_, ?_⟩
  · intro S hS
    rw [mem_sortBySize] at hS
    obtain ⟨hnd, hlen, hall⟩ := inv.comp S hS
    refine ⟨?_, hnd, hlen, ?_, ?_, ?_, ?_⟩
    · intro h; rw [h] at hlen; simp at hlen
    · intro p hp; exact inv.sub p (hall p hp).1
    · intro p hp; exact (hall p hp).2
    · intro p hp q hq
      exact connected_within (hall p hp).2 (((hall p hp).2 q).mp hq)
    · intro p hp q hadj hq
      exact ((hall p hp).2 q).mpr (Connected.extend (Connected.refl _ _) hadj hq)
  · exact (List.Perm.pairwise_iff (fun {a b} (h : List.Disjoint a b) => h.symm)
      (perm_sortBySize st.slices)).mpr (disjoint_of_scanInv inv)
  · intro p hp
    have hv := inv.done p hp.1 hp
    rw [← inv.big p hv]
    constructor
    · rintro ⟨S, hS, hpS⟩
      exact ⟨S, (mem_sortBySize _ _).mp hS, hpS⟩
    · rintro ⟨S, hS, hpS⟩
      exact ⟨S, (mem_sortBySize _ _).mpr hS, hpS⟩

/-- On a platform where a draw onto a blank canvas keeps the alpha of the source,
the mask read off the detector's canvas is the mask of the compiled intersection
canvas itself. -/
theorem overlapMask_drawn_border (P : Canvas2D)
    (hP : ∀ s : Pixel, (P.blend 1 Pixel.clear s).a = s.a) (border fData : ImageData) (p : Nat) :
    OverlapMask (drawImage P 1 blankCanvas border) fData p ↔ OverlapMask border fData p := by
  unfold OverlapMask
  have halpha : p < 4096 →
      ((drawImage P 1 blankCanvas border).getD p Pixel.clear).a
        = (border.getD p Pixel.clear).a := by
    intro hp
    rw [List.getD_eq_getElem?_getD, List.getD_eq_getElem?_getD, getElem?_drawImage]
    have hblank : blankCanvas[p]? = some Pixel.clear := by
      unfold blankCanvas
      rw [List.getElem?_replicate, if_pos hp]
    rw [hblank]
    cases hb : border[p]? with
    | none => rfl
    | some s => exact hP s
  constructor
  · rintro ⟨hp, h1, h2⟩
    exact ⟨hp, by rw [← halpha hp]; exact h1, h2⟩
  · rintro ⟨hp, h1, h2⟩
    exact ⟨hp, by rw [halpha hp]; exact h1, h2⟩

/-- **C6** `detectSlices` returns exactly the large connected components of the
overlap mask. With `bData` the compiled intersection canvas as drawn on the
detector's canvas, `fData` the source as drawn by `drawSourceOnCanvas`, and the mask
true at `p` iff the alpha of `bData` at `p` exceeds 10 and the alpha of `fData` at
`p` exceeds 200: every returned slice is a duplicate-free, non-empty list of at
least 3 mask pixels; it is the whole 4-connected component of each of its pixels
(so it is connected inside itself and maximal: a mask pixel next to a slice pixel
is in the slice); the returned slices are pairwise disjoint; and a mask pixel
belongs to a returned slice if and only if its component has at least 3 pixels.
Where drawing onto a blank canvas keeps the alpha of the source, the alpha of
`bData` is the alpha of the compiled intersection canvas itself. -/
theorem detectSlices_components (P : Canvas2D) (intersectionStack : LayerStack)
    (border : ImageData) (hb : intersectionStack.compiledCanvas = some border)
    (sourceImg : SourceImg) (mode : PlacementMode) :
    (∀ S ∈ detectSlices P intersectionStack sourceImg mode,
      S ≠ [] ∧ S.Nodup ∧ 3 ≤ S.length ∧
      (∀ p ∈ S, OverlapMask (drawImage P 1 blankCanvas border)
        (drawSourceOnCanvas P blankCanvas sourceImg 64 64 mode) p) ∧
      (∀ p ∈ S, ∀ q, q ∈ S ↔ Connected (OverlapMask (drawImage P 1 blankCanvas border)
        (drawSourceOnCanvas P blankCanvas sourceImg 64 64 mode)) p q) ∧
      (∀ p ∈ S, ∀ q ∈ S, Connected (fun v => v ∈ S) p q) ∧
      (∀ p ∈ S, ∀ q, Adjacent p q → OverlapMask (drawImage P 1 blankCanvas border)
        (drawSourceOnCanvas P blankCanvas sourceImg 64 64 mode) q → q ∈ S)) ∧
    (detectSlices P intersectionStack sourceImg mode).Pairwise List.Disjoint ∧
    (∀ p, OverlapMask (drawImage P 1 blankCanvas border)
        (drawSourceOnCanvas P blankCanvas sourceImg 64 64 mode) p →
      ((∃ S ∈ detectSlices P intersectionStack sourceImg mode, p ∈ S) ↔
        AtLeastThree (OverlapMask (drawImage P 1 blankCanvas border)
          (drawSourceOnCanvas P blankCanvas sourceImg 64 64 mode)) p)) ∧
    ((∀ s : Pixel, (P.blend 1 Pixel.clear s).a = s.a) →
      ∀ p, OverlapMask (drawImage P 1 blankCanvas border)
          (drawSourceOnCanvas P blankCanvas sourceImg 64 64 mode) p ↔
        OverlapMask border (drawSourceOnCanvas P blankCanvas sourceImg 64 64 mode) p) := by
  rw [← and_assoc, ← and_assoc]
  refine ⟨?_, fun hP p => overlapMask_drawn_border P hP border _ p⟩
  rw [and_assoc]
  have inv := scanAll_spec (drawImage P 1 blankCanvas border)
    (drawSourceOnCanvas P blankCanvas sourceImg 64 64 mode)
  have hout : detectSlices P intersectionStack sourceImg mode
      = sortBySize (scanAll (overlapMap (drawImage P 1 blankCanvas border)
          (drawSourceOnCanvas P blankCanvas sourceImg 64 64 mode))).slices := by
    simp only [detectSlices, hb]
  rw [hout, ← maskOf_overlapMap]
  exact sorted_slices_spec inv

/-- Witness of `detectSlices_components`: the example stack on the reference
platform. -/
theorem detectSlices_components_witness :
    (detectSlices refCanvas exampleStack ⟨1, 1, [⟨9, 9, 9, 255⟩]⟩ .resize).Pairwise
      List.Disjoint :=
  (detectSlices_components refCanvas exampleStack blankCanvas rfl
    ⟨1, 1, [⟨9, 9, 9, 255⟩]⟩ .resize).2.1

/-- **C7** `detectSlices` orders its result deterministically. With the overlap map
built from a compiled intersection canvas, the returned sequence is a reordering of the
slices the scan found (none is lost, none is added), which the scan lists by first
pixel in row-major order; every mask pixel whose component has at least 3 pixels
lies in a returned slice. The returned sequence is sorted by ascending pixel count, and
of two slices with the same pixel count the one that comes first is the one whose
smallest index `y * 64 + x` is lower (its smallest index is below every index of the
other). Without a compiled intersection canvas the result is empty. The result is a
function of the compiled intersection canvas, the source image and the mode alone. -/
theorem detectSlices_order (P : Canvas2D) (intersectionStack : LayerStack)
    (sourceImg : SourceImg) (mode : PlacementMode) :
    (∀ border : ImageData, intersectionStack.compiledCanvas = some border →
      (detectSlices P intersectionStack sourceImg mode).Perm
        (scanAll (overlapMap (drawImage P 1 blankCanvas border)
          (drawSourceOnCanvas P blankCanvas sourceImg 64 64 mode))).slices ∧
      (scanAll (overlapMap (drawImage P 1 blankCanvas border)
          (drawSourceOnCanvas P blankCanvas sourceImg 64 64 mode))).slices.Pairwise
        StartsBefore ∧
      (∀ p, OverlapMask (drawImage P 1 blankCanvas border)
          (drawSourceOnCanvas P blankCanvas sourceImg 64 64 mode) p →
        AtLeastThree (OverlapMask (drawImage P 1 blankCanvas border)
          (drawSourceOnCanvas P blankCanvas sourceImg 64 64 mode)) p →
        ∃ S ∈ detectSlices P intersectionStack sourceImg mode, p ∈ S)) ∧
    (intersectionStack.compiledCanvas = none →
      detectSlices P intersectionStack sourceImg mode = []) ∧
    (detectSlices P intersectionStack sourceImg mode).Pairwise
      (fun A B => A.length ≤ B.length ∧ (A.length = B.length → StartsBefore A B)) ∧
    (∀ other : LayerStack, other.compiledCanvas = intersectionStack.compiledCanvas →
      detectSlices P other sourceImg mode
        = detectSlices P intersectionStack sourceImg mode) := by
  refine ⟨?_, ?_, ?_, ?_⟩
  · intro border hb
    have inv := scanAll_spec (drawImage P 1 blankCanvas border)
      (drawSourceOnCanvas P blankCanvas sourceImg 64 64 mode)
    have hout : detectSlices P intersectionStack sourceImg mode
        = sortBySize (scanAll (overlapMap (drawImage P 1 blankCanvas border)
            (drawSourceOnCanvas P blankCanvas sourceImg 64 64 mode))).slices := by
      simp only [detectSlices, hb]
    refine ⟨?_, inv.order, ?_⟩
    · rw [hout]; exact perm_sortBySize _
    · intro p hp h3
      rw [hout]
      rw [← maskOf_overlapMap] at hp h3
      exact ((sorted_slices_spec inv).2.2 p hp).mpr h3
  · intro hb
    simp only [detectSlices, hb]
  · cases hb : intersectionStack.compiledCanvas with
    | none => simp only [detectSlices, hb]; exact List.Pairwise.nil
    | some border =>
      simp only [detectSlices, hb]
      exact pairwise_sortBySize StartsBefore _ (scanAll_spec _ _).order
  · intro other h
    simp only [detectSlices, h]

/-- The overlap map of `barsCanvas` under an opaque source: the three bars. -/
theorem bars_overlapMap :
    overlapMap (drawImage refCanvas 1 blankCanvas barsCanvas)
      (drawSourceOnCanvas refCanvas blankCanvas ⟨1, 1, [⟨9, 9, 9, 255⟩]⟩ 64 64 .resize)
      = (List.range 4096).map fun i =>
          if i < 4 ∨ (10 ≤ i ∧ i < 13) ∨ (20 ≤ i ∧ i < 23) then 1 else 0 := by
  have hsrc : ∀ pi, pi < 23 →
      ((drawSourceOnCanvas refCanvas blankCanvas ⟨1, 1, [⟨9, 9, 9, 255⟩]⟩ 64 64
        .resize).getD pi Pixel.clear).a > 200 := by
    decide!
  have hwhite : sourceOver 1 Pixel.clear ⟨255, 255, 255, 255⟩ = ⟨255, 255, 255, 255⟩ := by
    decide!
  unfold overlapMap
  apply List.map_congr_left
  intro pi hpi
  have hlt : pi < 4096 := List.mem_range.mp hpi
  have hblank : blankCanvas[pi]? = some Pixel.clear := by
    unfold blankCanvas
    rw [List.getElem?_replicate, if_pos hlt]
  have hbars : barsCanvas[pi]?
      = some (if pi < 4 ∨ (10 ≤ pi ∧ pi < 13) ∨ (20 ≤ pi ∧ pi < 23)
          then ⟨255, 255, 255, 255⟩ else Pixel.clear) := by
    unfold barsCanvas
    rw [List.getElem?_map, List.getElem?_range hlt]
    rfl
  have hb : (drawImage refCanvas 1 blankCanvas barsCanvas).getD pi Pixel.clear
      = sourceOver 1 Pixel.clear (if pi < 4 ∨ (10 ≤ pi ∧ pi < 13) ∨ (20 ≤ pi ∧ pi < 23)
          then ⟨255, 255, 255, 255⟩ else Pixel.clear) := by
    rw [List.getD_eq_getElem?_getD, getElem?_drawImage, hblank, hbars]
    rfl
  rw [hb]
  by_cases hc : pi < 4 ∨ (10 ≤ pi ∧ pi < 13) ∨ (20 ≤ pi ∧ pi < 23)
  · rw [if_pos hc, if_pos hc, hwhite]
    rw [if_pos ⟨by decide, hsrc pi (by omega)⟩]
  · rw [if_neg hc, if_neg hc]
    have : sourceOver 1 Pixel.clear Pixel.clear = Pixel.clear := rfl
    rw [this]
    rw [if_neg (by intro h; exact absurd h.1 (by decide))]

set_option maxRecDepth 1000000 in
/-- The scan of the three bars: only the top row holds mask pixels. -/
theorem bars_scan :
    (scanAll ((List.range 4096).map fun i =>
        if i < 4 ∨ (10 ≤ i ∧ i < 13) ∨ (20 ≤ i ∧ i < 23) then 1 else 0)).slices
      = [[0, 1, 2, 3], [10, 11, 12], [20, 21, 22]] := by
  have hrow0 : (scanRow ((List.range 4096).map fun i =>
      if i < 4 ∨ (10 ≤ i ∧ i < 13) ∨ (20 ≤ i ∧ i < 23) then 1 else 0)
        { visited := List.replicate 4096 0, slices := [] } 0).slices
        = [[0, 1, 2, 3], [10, 11, 12], [20, 21, 22]] := by decide!
  generalize hom : ((List.range 4096).map fun i =>
      if i < 4 ∨ (10 ≤ i ∧ i < 13) ∨ (20 ≤ i ∧ i < 23) then 1 else 0) = om at *
  have hget : ∀ idx, 64 ≤ idx → om.getD idx 0 ≠ 1 := by
    intro idx hidx
    rw [← hom, List.getD_eq_getElem?_getD, List.getElem?_map]
    by_cases hlt : idx < 4096
    · rw [List.getElem?_range hlt]
      simp only [Option.map_some', Option.getD_some]
      rw [if_neg (by omega)]
      decide
    · rw [List.getElem?_eq_none (by simp; omega)]
      simp
  have hpix : ∀ (st : ScanState) (x y : Nat), 1 ≤ y → scanPixel om st x y = st := by
    intro st x y hy
    unfold scanPixel
    simp only
    rw [if_pos (Or.inl (hget _ (by omega)))]
  have hrow : ∀ (st : ScanState) (y : Nat), 1 ≤ y → scanRow om st y = st := by
    intro st y hy
    exact foldl_of_fixed _ st _ (fun x _ => hpix st x y hy)
  unfold scanAll
  rw [show List.range 64 = 0 :: (List.range 63).map Nat.succ from List.range_succ_eq_map 63,
    List.foldl_cons]
  rw [foldl_of_fixed _ _ _ (fun y hy => hrow _ y (by
    obtain ⟨z, _, rfl⟩ := List.mem_map.mp hy
    omega))]
  exact hrow0

/-- **C7** (instance) The stack `barsStack`, whose compiled canvas has three bars in the
top row, and an opaque source: the scan finds the bars at pixels 0 to 3, 10 to 12 and
20 to 22 in this order, and the result lists the two bars of 3 pixels first, the one
starting at pixel 10 before the one starting at pixel 20, and the bar of 4 pixels
last. -/
theorem detectSlices_order_witness :
    detectSlices refCanvas barsStack ⟨1, 1, [⟨9, 9, 9, 255⟩]⟩ .resize
      = [[10, 11, 12], [20, 21, 22], [0, 1, 2, 3]] ∧
    (scanAll (overlapMap (drawImage refCanvas 1 blankCanvas barsCanvas)
      (drawSourceOnCanvas refCanvas blankCanvas ⟨1, 1, [⟨9, 9, 9, 255⟩]⟩ 64 64 .resize))).slices
      = [[0, 1, 2, 3], [10, 11, 12], [20, 21, 22]] ∧
    ([[10, 11, 12], [20, 21, 22], [0, 1, 2, 3]] : List (List Nat)).Perm
      [[0, 1, 2, 3], [10, 11, 12], [20, 21, 22]] ∧
    ([[10, 11, 12], [20, 21, 22], [0, 1, 2, 3]] : List (List Nat)).Pairwise
      (fun A B => A.length ≤ B.length ∧ (A.length = B.length → StartsBefore A B)) := by
  have h := detectSlices_order refCanvas barsStack ⟨1, 1, [⟨9, 9, 9, 255⟩]⟩ .resize
  have e2 : (scanAll (overlapMap (drawImage refCanvas 1 blankCanvas barsCanvas)
      (drawSourceOnCanvas refCanvas blankCanvas ⟨1, 1, [⟨9, 9, 9, 255⟩]⟩ 64 64
        .resize))).slices = [[0, 1, 2, 3], [10, 11, 12], [20, 21, 22]] := by
    rw [bars_overlapMap]; exact bars_scan
  have e : detectSlices refCanvas barsStack ⟨1, 1, [⟨9, 9, 9, 255⟩]⟩ .resize
      = [[10, 11, 12], [20, 21, 22], [0, 1, 2, 3]] := by
    have : detectSlices refCanvas barsStack ⟨1, 1, [⟨9, 9, 9, 255⟩]⟩ .resize
        = sortBySize (scanAll (overlapMap (drawImage refCanvas 1 blankCanvas barsCanvas)
            (drawSourceOnCanvas refCanvas blankCanvas ⟨1, 1, [⟨9, 9, 9, 255⟩]⟩ 64 64
              .resize))).slices := rfl
    rw [this, e2]
    decide
  have h1 := (h.1 barsCanvas rfl).1
  have h3 := h.2.2.1
  rw [e] at h3
  rw [e, e2] at h1
  exact ⟨e, e2, h1, h3⟩

/-! ### `recompile`, freshness and layer ids -/

/-- **C11** `recompile` is idempotent. For every stack state, a second `recompile`
right after a first one leaves the stack exactly as the first one left it: the same
`compiledCanvas` (byte-identical), and neither call changes the layers (their
images and settings included), `nextId` or the kind. -/
theorem recompile_idempotent (P : Canvas2D) (s : LayerStack) :
    recompile P (recompile P s) = recompile P s ∧
    (recompile P (recompile P s)).compiledCanvas = (recompile P s).compiledCanvas ∧
    (recompile P s).layers = s.layers ∧ (recompile P s).nextId = s.nextId ∧
    (recompile P s).kind = s.kind ∧
    (recompile P (recompile P s)).layers = s.layers ∧
    (recompile P (recompile P s)).nextId = s.nextId := by
  refine ⟨rfl, rfl, rfl, rfl, rfl, rfl, rfl⟩

theorem compileLayers_append (P : Canvas2D) (l1 l2 : List Layer) (ctx : ImageData) :
    compileLayers P (l1 ++ l2) ctx = compileLayers P l2 (compileLayers P l1 ctx) := by
  induction l1 generalizing ctx with
  | nil => rfl
  | cons l rest ih =>
    simp only [List.cons_append, compileLayers]
    cases l.image with
    | none => exact ih ctx
    | some img => exact ih _

theorem fresh_recompile (P : Canvas2D) (s : LayerStack) : Fresh P (recompile P s) := by
  simp [Fresh, recompile]

theorem fresh_applyOp (P : Canvas2D) (s : LayerStack) (h : Fresh P s) (op : StackOp) :
    Fresh P (applyOp P s op) := by
  cases op with
  | addLayer o =>
    unfold Fresh at h ⊢
    simp only [applyOp, addLayer]
    rw [compileLayers_append, ← h]
    simp [compileLayers]
  | removeLayer id =>
    simp only [applyOp, removeLayer]
    split
    · exact h
    · exact fresh_recompile P _
  | setLayerImage id img => exact fresh_recompile P _
  | clearAllLayers => simp [Fresh, applyOp, clearAllLayers, compileLayers]
  | recompile => exact fresh_recompile P _

theorem fresh_applyOps (P : Canvas2D) (ops : List StackOp) :
    ∀ s, Fresh P s → Fresh P (applyOps P s ops) := by
  induction ops with
  | nil => intro s h; exact h
  | cons op rest ih =>
    intro s h
    exact ih _ (fresh_applyOp P s h op)

/-- **C12** Compiled-buffer freshness is an invariant of the stack operations.
Starting from a newly constructed stack of either kind, after any sequence of
`addLayer`, `removeLayer`, `setLayerImage`, `clearAllLayers` (and `recompile`)
calls, `compiledCanvas`, an absent one counting as the fully transparent buffer,
equals the alpha-composite in list order (first layer bottommost) of the images of
the current layers, each at its alpha. -/
theorem compiledCanvas_fresh (P : Canvas2D) (kind : StackKind) (ops : List StackOp) :
    (applyOps P (LayerStack.new kind) ops).compiledCanvas.getD blankCanvas
      = compileLayers P (applyOps P (LayerStack.new kind) ops).layers blankCanvas :=
  fresh_applyOps P ops _ (by simp [Fresh, LayerStack.new, compileLayers])

/-! ### `recompileForCycle` -/

/-- When the generator calls of the loop return, `fresh` naming what they return, the
loop composes the cycle contributions of the layers. -/
theorem cycleLayers_eq_compile (P : Canvas2D)
    (gen : Nat → StackKind → Settings → Except JsError (Option ImageData)) (kind : StackKind)
    (fresh : Nat → Option ImageData) (layers : List Layer) :
    ∀ (k : Nat) (ctx : ImageData),
      (∀ (i : Nat) (l : Layer), layers[i]? = some l → l.type = .generate →
        gen (k + i) kind l.settings = .ok (fresh (k + i))) →
      cycleLayers P gen kind k layers ctx
        = .ok (compileLayers P (cycleView fresh k layers) ctx) := by
  induction layers with
  | nil => intro k ctx _; rfl
  | cons l rest ih =>
    intro k ctx hgen
    have hrest : ∀ (i : Nat) (l' : Layer), rest[i]? = some l' → l'.type = .generate →
        gen (k + 1 + i) kind l'.settings = .ok (fresh (k + 1 + i)) := by
      intro i l' hl' ht
      have := hgen (i + 1) l' (by simpa using hl') ht
      rwa [show k + (i + 1) = k + 1 + i by omega] at this
    simp only [cycleLayers, cycleView, compileLayers, cycleContribution]
    cases ht : l.type with
    | upload =>
      simp only
      cases l.image with
      | none => exact ih _ _ hrest
      | some img => exact ih _ _ hrest
    | generate =>
      have h0 := hgen 0 l (by simp) ht
      rw [Nat.add_zero] at h0
      simp only [h0]
      cases fresh k with
      | none => exact ih _ _ hrest
      | some img => exact ih _ _ hrest

theorem cycleView_getElem? (fresh : Nat → Option ImageData) (layers : List Layer) :
    ∀ (k i : Nat), (cycleView fresh k layers)[i]?
      = (layers[i]?).map (fun l => { l with image := cycleContribution fresh (k + i) l }) := by
  induction layers with
  | nil => intro k i; simp [cycleView]
  | cons l rest ih =>
    intro k i
    cases i with
    | zero => simp [cycleView]
    | succ i =>
      simp only [cycleView, List.getElem?_cons_succ, ih]
      have : k + 1 + i = k + (i + 1) := by omega
      rw [this]

/-- The loop ends with the error of the first generator call that throws. -/
theorem cycleLayers_throws (P : Canvas2D)
    (gen : Nat → StackKind → Settings → Except JsError (Option ImageData)) (kind : StackKind)
    (layers : List Layer) :
    ∀ (k : Nat) (ctx : ImageData) (i : Nat) (l : Layer) (e : JsError),
      layers[i]? = some l → l.type = .generate → gen (k + i) kind l.settings = .error e →
      (∀ (j : Nat) (l' : Layer), j < i → layers[j]? = some l' → l'.type = .generate →
        ∃ r, gen (k + j) kind l'.settings = .ok r) →
      cycleLayers P gen kind k layers ctx = .error e := by
  induction layers with
  | nil => intro k ctx i l e hl; simp at hl
  | cons l0 rest ih =>
    intro k ctx i l e hl ht he hbefore
    cases i with
    | zero =>
      simp only [List.getElem?_cons_zero, Option.some.injEq] at hl
      subst hl
      rw [Nat.add_zero] at he
      simp only [cycleLayers, ht, he]
    | succ i =>
      simp only [List.getElem?_cons_succ] at hl
      have he' : gen (k + 1 + i) kind l.settings = .error e := by
        rwa [show k + (i + 1) = k + 1 + i by omega] at he
      have hb' : ∀ (j : Nat) (l' : Layer), j < i → rest[j]? = some l' → l'.type = .generate →
          ∃ r, gen (k + 1 + j) kind l'.settings = .ok r := by
        intro j l' hj hl' ht'
        have := hbefore (j + 1) l' (by omega) (by simpa using hl') ht'
        rwa [show k + (j + 1) = k + 1 + j by omega] at this
      simp only [cycleLayers]
      cases ht0 : l0.type with
      | upload =>
        simp only
        cases l0.image with
        | none => exact ih _ _ i l e hl ht he' hb'
        | some img => exact ih _ _ i l e hl ht he' hb'
      | generate =>
        obtain ⟨r, hr⟩ := hbefore 0 l0 (by omega) (by simp) ht0
        rw [Nat.add_zero] at hr
        simp only [hr]
        cases r with
        | none => exact ih _ _ i l e hl ht he' hb'
        | some img => exact ih _ _ i l e hl ht he' hb'

/-- `recompileForCycle` has no effect on the stack, and when its generator calls return
it returns a standalone buffer. For every stack state the stack after the call is the
stack before it (`compiledCanvas`, the layers with their images, types and settings, and
`nextId`), whether the call returns or throws. When the generator call of every generate
layer returns, `fresh i` being what it returns for the layer at position `i`, the canvas
returned is the composite, at the layers' alphas, of the layers in which the layer at
position `i` contributes its stored image if it is an upload layer and the freshly
generated pattern `fresh i` if it is a generate layer, whatever image a generate layer
stores. -/
theorem recompileForCycle_frame (P : Canvas2D)
    (gen : Nat → StackKind → Settings → Except JsError (Option ImageData)) (s : LayerStack) :
    (recompileForCycle P gen s).1 = s ∧
    (∀ fresh : Nat → Option ImageData,
      (∀ (i : Nat) (l : Layer), s.layers[i]? = some l → l.type = .generate →
        gen i s.kind l.settings = .ok (fresh i)) →
      (recompileForCycle P gen s).2
        = .ok (compileLayers P (cycleView fresh 0 s.layers) blankCanvas) ∧
      (∀ i : Nat, (cycleView fresh 0 s.layers)[i]?
        = (s.layers[i]?).map (fun l => { l with image :=
            match l.type with
            | .upload => l.image
            | .generate => fresh i }))) := by
  refine ⟨rfl, fun fresh hgen => ⟨?_, ?_⟩⟩
  · exact cycleLayers_eq_compile P gen s.kind fresh s.layers 0 blankCanvas
      (fun i l hl ht => by rw [Nat.zero_add]; exact hgen i l hl ht)
  · intro i
    rw [cycleView_getElem?]
    simp only [Nat.zero_add]
    rfl

/-! ### `removeLayer` -/

theorem findIdx?_split (p : Layer → Bool) (layers : List Layer) :
    (layers.findIdx? p = none ∧ ∀ l ∈ layers, p l = false) ∨
    (∃ idx pre l post, layers.findIdx? p = some idx ∧ layers = pre ++ l :: post ∧
      p l = true ∧ (∀ x ∈ pre, p x = false) ∧ layers.eraseIdx idx = pre ++ post) := by
  induction layers with
  | nil => left; simp
  | cons a rest ih =>
    by_cases ha : p a = true
    · right
      exact ⟨0, [], a, rest, by simp [List.findIdx?_cons, ha], rfl, ha, by simp, rfl⟩
    · have ha' : p a = false := by simpa using ha
      rcases ih with ⟨hnone, hall⟩ | ⟨idx, pre, l, post, hidx, hsplit, hl, hpre, herase⟩
      · left
        refine ⟨by simp [List.findIdx?_cons, ha', hnone], ?_⟩
        intro l hl
        rw [List.mem_cons] at hl
        rcases hl with rfl | hl
        · exact ha'
        · exact hall l hl
      · right
        refine ⟨idx + 1, a :: pre, l, post, ?_, by rw [hsplit]; rfl, hl, ?_, ?_⟩
        · simp [List.findIdx?_cons, ha', hidx]
        · intro x hx
          rw [List.mem_cons] at hx
          rcases hx with rfl | hx
          · exact ha'
          · exact hpre x hx
        · simp [List.eraseIdx_cons_succ, herase]

/-- **C14** `removeLayer(id)` removes by identity. If no layer has that id the stack
is unchanged (layers and `compiledCanvas` included). If a layer has that id, the
layers split as `pre ++ l :: post` with `l` the first layer of that id, the new
list is `pre ++ post` (every other layer kept, in the same relative order), which
is the old list without the layers of that id when ids are pairwise distinct, and
`compiledCanvas` is the composite of the remaining layers; `nextId` is kept. -/
theorem removeLayer_by_identity (P : Canvas2D) (s : LayerStack) (id : Nat) :
    ((∀ l ∈ s.layers, l.id ≠ id) → removeLayer P s id = s) ∧
    ((∃ l ∈ s.layers, l.id = id) →
      ∃ pre l post, s.layers = pre ++ l :: post ∧ l.id = id ∧ (∀ x ∈ pre, x.id ≠ id) ∧
        (removeLayer P s id).layers = pre ++ post ∧
        (removeLayer P s id).compiledCanvas
          = some (compileLayers P (pre ++ post) blankCanvas) ∧
        (removeLayer P s id).nextId = s.nextId ∧
        ((s.layers.map Layer.id).Nodup →
          (removeLayer P s id).layers = s.layers.filter (fun x => decide (x.id ≠ id)))) := by
  rcases findIdx?_split (fun l => decide (l.id = id)) s.layers with
    ⟨hnone, hall⟩ | ⟨idx, pre, l, post, hidx, hsplit, hl, hpre, herase⟩
  · constructor
    · intro _
      simp only [removeLayer, hnone]
    · rintro ⟨l, hl, hid⟩
      have := hall l hl
      simp [hid] at this
  · have hlid : l.id = id := by simpa using hl
    have hpre' : ∀ x ∈ pre, x.id ≠ id := by
      intro x hx; simpa using hpre x hx
    constructor
    · intro hno
      exact absurd hlid (hno l (by rw [hsplit]; simp))
    · intro _
      refine ⟨pre, l, post, hsplit, hlid, hpre', ?_, ?_, ?_, ?_⟩
      · simp only [removeLayer, hidx, recompile, herase]
      · simp only [removeLayer, hidx, recompile, herase]
      · simp only [removeLayer, hidx, recompile]
      · intro hnd
        simp only [removeLayer, hidx, recompile, herase]
        rw [hsplit] at hnd ⊢
        rw [List.map_append, List.map_cons, List.nodup_append] at hnd
        obtain ⟨_, hnd2, hdisj⟩ := hnd
        rw [List.nodup_cons] at hnd2
        have hpost : ∀ x ∈ post, x.id ≠ id := by
          intro x hx hxid
          apply hnd2.1
          rw [hlid, ← hxid]
          exact List.mem_map_of_mem _ hx
        rw [List.filter_append, List.filter_cons]
        have h1 : List.filter (fun x => decide (x.id ≠ id)) pre = pre :=
          List.filter_eq_self.mpr (fun x hx => by simpa using hpre' x hx)
        have h2 : List.filter (fun x => decide (x.id ≠ id)) post = post :=
          List.filter_eq_self.mpr (fun x hx => by simpa using hpost x hx)
        rw [h1, h2]
        simp [hlid]

/-- Witness of `removeLayer_by_identity`: the first of two layers is removed. -/
theorem removeLayer_by_identity_witness :
    ∃ pre l post, exampleStack.layers = pre ++ l :: post ∧ l.id = 1 ∧
      (∀ x ∈ pre, x.id ≠ 1) ∧
      (removeLayer refCanvas exampleStack 1).layers = pre ++ post ∧
      (removeLayer refCanvas exampleStack 1).compiledCanvas
        = some (compileLayers refCanvas (pre ++ post) blankCanvas) ∧
      (removeLayer refCanvas exampleStack 1).nextId = exampleStack.nextId ∧
      ((exampleStack.layers.map Layer.id).Nodup →
        (removeLayer refCanvas exampleStack 1).layers
          = exampleStack.layers.filter (fun x => decide (x.id ≠ 1))) :=
  (removeLayer_by_identity refCanvas exampleStack 1).2
    ⟨(addLayer (LayerStack.new .background) {}).2, by decide, rfl⟩

/-- **C15** `addLayer` merges settings with a deep-merged corner mask. For a border
stack and every `overrides.settings`, the new layer is appended as the last element
with the other layers unchanged, it gets the id `nextId`, every top-level setting
is the override's if the override has it and the band default otherwise, and
`settings.corners` has all four flags, each the override's flag where the override's
corner mask has it and the default `true` otherwise. -/
theorem addLayer_merges_settings (s : LayerStack) (hs : s.kind = .border)
    (type : Option LayerType) (os : Settings) :
    (addLayer s { type := type, settings := some os }).1.layers
      = s.layers ++ [(addLayer s { type := type, settings := some os }).2] ∧
    (addLayer s { type := type, settings := some os }).2.id = s.nextId ∧
    (addLayer s { type := type, settings := some os }).2.settings.style
      = some (os.style.getD "solid".toList) ∧
    (addLayer s { type := type, settings := some os }).2.settings.colorMode
      = some (os.colorMode.getD "manual".toList) ∧
    (addLayer s { type := type, settings := some os }).2.settings.colorCount
      = some (os.colorCount.getD 1) ∧
    (addLayer s { type := type, settings := some os }).2.settings.manualColors
      = some (os.manualColors.getD ["#ffffff".toList, "#ff0000".toList, "#00ff00".toList]) ∧
    (addLayer s { type := type, settings := some os }).2.settings.width
      = some (os.width.getD 3) ∧
    (addLayer s { type := type, settings := some os }).2.settings.alpha
      = some (os.alpha.getD 1) ∧
    (addLayer s { type := type, settings := some os }).2.settings.corners
      = some { tl := some (((os.corners.getD {}).tl).getD true)
               tr := some (((os.corners.getD {}).tr).getD true)
               bl := some (((os.corners.getD {}).bl).getD true)
               br := some (((os.corners.getD {}).br).getD true) } := by
  refine ⟨rfl, rfl, ?_, ?_, ?_, ?_, ?_, ?_, ?_⟩
  · simp only [addLayer, mergeSettings, hs, _defaultSettings, Settings.spread]
    cases os.style <;> rfl
  · simp only [addLayer, mergeSettings, hs, _defaultSettings, Settings.spread]
    cases os.colorMode <;> rfl
  · simp only [addLayer, mergeSettings, hs, _defaultSettings, Settings.spread]
    cases os.colorCount <;> rfl
  · simp only [addLayer, mergeSettings, hs, _defaultSettings, Settings.spread]
    cases os.manualColors <;> rfl
  · simp only [addLayer, mergeSettings, hs, _defaultSettings, Settings.spread]
    cases os.width <;> rfl
  · simp only [addLayer, mergeSettings, hs, _defaultSettings, Settings.spread]
    cases os.alpha <;> rfl
  · simp only [addLayer, mergeSettings, hs, _defaultSettings, Settings.spread, Corners.spread]
    cases os.corners with
    | none => rfl
    | some oc =>
      obtain ⟨tl, tr, bl, br⟩ := oc
      cases tl <;> cases tr <;> cases bl <;> cases br <;> rfl

/-- Witness of `addLayer_merges_settings`: a border stack, an override that only
clears the top-left corner. -/
theorem addLayer_merges_settings_witness :
    (addLayer (LayerStack.new .border)
        { type := none, settings := some { corners := some { tl := some false } } }).2.settings.corners
      = some { tl := some false, tr := some true, bl := some true, br := some true } :=
  (addLayer_merges_settings (LayerStack.new .border) rfl none
    { corners := some { tl := some false } }).2.2.2.2.2.2.2.2

/-! ### Layer ids -/

theorem idsOrdered_recompile (P : Canvas2D) (s : LayerStack) (h : IdsOrdered s) :
    IdsOrdered (recompile P s) := h

theorem idsOrdered_applyOp (P : Canvas2D) (s : LayerStack) (h : IdsOrdered s)
    (hn : 1 ≤ s.nextId) (op : StackOp) :
    IdsOrdered (applyOp P s op) ∧ 1 ≤ (applyOp P s op).nextId := by
  obtain ⟨hpair, hrange⟩ := h
  cases op with
  | addLayer o =>
    refine ⟨⟨?_, ?_⟩, ?_⟩
    · simp only [applyOp, addLayer, List.map_append, List.map_cons, List.map_nil]
      rw [List.pairwise_append]
      refine ⟨hpair, List.pairwise_singleton _ _, ?_⟩
      intro a ha b hb
      rw [List.mem_singleton] at hb
      rw [List.mem_map] at ha
      obtain ⟨l, hl, rfl⟩ := ha
      rw [hb]
      exact (hrange l hl).2
    · intro l hl
      simp only [applyOp, addLayer, List.mem_append, List.mem_singleton] at hl ⊢
      rcases hl with hl | rfl
      · have := hrange l hl
        omega
      · simp only; omega
    · simp only [applyOp, addLayer]; omega
  | removeLayer id =>
    simp only [applyOp, removeLayer]
    split
    · exact ⟨⟨hpair, hrange⟩, hn⟩
    · next idx _ =>
      have hsub : (s.layers.eraseIdx idx).Sublist s.layers := List.eraseIdx_sublist _ _
      refine ⟨⟨?_, ?_⟩, hn⟩
      · exact List.Pairwise.sublist (hsub.map Layer.id) hpair
      · intro l hl
        exact hrange l (hsub.subset hl)
  | setLayerImage id img =>
    refine ⟨⟨?_, ?_⟩, hn⟩
    · simp only [applyOp, setLayerImage, recompile, List.map_map]
      have : (Layer.id ∘ fun l => if l.id = id then { l with image := some img } else l)
          = Layer.id := by
        funext l
        simp only [Function.comp]
        split <;> rfl
      rw [this]
      exact hpair
    · intro l hl
      simp only [applyOp, setLayerImage, recompile, List.mem_map] at hl
      obtain ⟨l0, hl0, rfl⟩ := hl
      have := hrange l0 hl0
      split <;> exact this
  | clearAllLayers =>
    refine ⟨⟨?_, ?_⟩, ?_⟩
    · simp [applyOp, clearAllLayers]
    · intro l hl; simp [applyOp, clearAllLayers] at hl
    · simp [applyOp, clearAllLayers]
  | recompile => exact ⟨⟨hpair, hrange⟩, hn⟩

theorem idsOrdered_applyOps (P : Canvas2D) (ops : List StackOp) :
    ∀ s, IdsOrdered s → 1 ≤ s.nextId → IdsOrdered (applyOps P s ops) := by
  induction ops with
  | nil => intro s h _; exact h
  | cons op rest ih =>
    intro s h hn
    have := idsOrdered_applyOp P s h hn op
    exact ih _ this.1 this.2

/-- **C16** Layer ids are unique and monotonic. In every stack state reached from a
new stack by `addLayer`, `removeLayer` and `clearAllLayers` (also `setLayerImage`
and `recompile`), the ids of the layers are strictly increasing in list order,
hence pairwise distinct, and every id is at least 1 and strictly below `nextId`. -/
theorem layer_ids_ordered (P : Canvas2D) (kind : StackKind) (ops : List StackOp) :
    ((applyOps P (LayerStack.new kind) ops).layers.map Layer.id).Pairwise (fun a b => a < b) ∧
    ((applyOps P (LayerStack.new kind) ops).layers.map Layer.id).Nodup ∧
    (∀ l ∈ (applyOps P (LayerStack.new kind) ops).layers,
      1 ≤ l.id ∧ l.id < (applyOps P (LayerStack.new kind) ops).nextId) := by
  have h := idsOrdered_applyOps P ops (LayerStack.new kind)
    ⟨by simp [LayerStack.new], by intro l hl; simp [LayerStack.new] at hl⟩
    (by simp [LayerStack.new])
  exact ⟨h.1, h.1.imp (fun hab => Nat.ne_of_lt hab), h.2⟩

/-! ### `_resolveColors` -/

theorem hexToRgb_empty : hexToRgb [] = Rgb.white := rfl

/-- **C17** `colorCount` bounds the colours consulted. For every settings object
with three manual colours `m0, m1, m2` and `colorCount = c` in {1, 2, 3},
`_resolveColors` returns at most `c` colours, which form, in order, a sublist of
`hexToRgb` of the first `c` manual colours; with `c = 1` the result is exactly
`[hexToRgb m0]`, whatever `m1` and `m2` are. The function only reads the settings:
`manualColors` stays as it is. -/
theorem resolveColors_bounded (s : Settings) (m0 m1 m2 : JsString) (cnt : Nat)
    (hm : s.manualColors = some [m0, m1, m2]) (hc : s.colorCount = some cnt)
    (hrange : 1 ≤ cnt ∧ cnt ≤ 3) :
    ∃ cols, _resolveColors s = .ok cols ∧ cols.length ≤ cnt ∧
      cols.Sublist (([m0, m1, m2].take cnt).map hexToRgb) ∧
      (cnt = 1 → cols = [hexToRgb m0]) := by
  have hcases : cnt = 1 ∨ cnt = 2 ∨ cnt = 3 := by omega
  have key : _resolveColors s =
      if ((candidateColors [m0, m1, m2] (some cnt)).filterMap
          (fun v => if truthyString v then v else none)).length = 0
      then .ok [Rgb.white]
      else .ok (((candidateColors [m0, m1, m2] (some cnt)).filterMap
          (fun v => if truthyString v then v else none)).map hexToRgb) := by
    simp only [_resolveColors, hm, hc]
  rw [key]
  rcases hcases with rfl | rfl | rfl
  · cases m0 with
    | nil =>
      exact ⟨[Rgb.white], rfl, by simp, by simp [hexToRgb_empty], fun _ => rfl⟩
    | cons a t =>
      exact ⟨[hexToRgb (a :: t)], rfl, by simp, by simp, fun _ => rfl⟩
  · cases m0 with
    | nil =>
      cases m1 with
      | nil => exact ⟨[Rgb.white], rfl, by simp, by simp [hexToRgb_empty], fun h => by omega⟩
      | cons a1 t1 =>
        exact ⟨[hexToRgb (a1 :: t1)], rfl, by simp, by simp, fun h => by omega⟩
    | cons a t =>
      cases m1 with
      | nil => exact ⟨[hexToRgb (a :: t)], rfl, by simp, by simp, fun h => by omega⟩
      | cons a1 t1 =>
        exact ⟨[hexToRgb (a :: t), hexToRgb (a1 :: t1)], rfl, by simp, by simp,
          fun h => by omega⟩
  · cases m0 with
    | nil =>
      cases m1 with
      | nil =>
        cases m2 with
        | nil =>
          exact ⟨[Rgb.white], rfl, by simp, by simp [hexToRgb_empty], fun h => by omega⟩
        | cons a2 t2 =>
          exact ⟨[hexToRgb (a2 :: t2)], rfl, by simp, by simp, fun h => by omega⟩
      | cons a1 t1 =>
        cases m2 with
        | nil => exact ⟨[hexToRgb (a1 :: t1)], rfl, by simp, by simp, fun h => by omega⟩
        | cons a2 t2 =>
          exact ⟨[hexToRgb (a1 :: t1), hexToRgb (a2 :: t2)], rfl, by simp, by simp,
            fun h => by omega⟩
    | cons a t =>
      cases m1 with
      | nil =>
        cases m2 with
        | nil => exact ⟨[hexToRgb (a :: t)], rfl, by simp, by simp, fun h => by omega⟩
        | cons a2 t2 =>
          exact ⟨[hexToRgb (a :: t), hexToRgb (a2 :: t2)], rfl, by simp, by simp,
            fun h => by omega⟩
      | cons a1 t1 =>
        cases m2 with
        | nil =>
          exact ⟨[hexToRgb (a :: t), hexToRgb (a1 :: t1)], rfl, by simp, by simp,
            fun h => by omega⟩
        | cons a2 t2 =>
          exact ⟨[hexToRgb (a :: t), hexToRgb (a1 :: t1), hexToRgb (a2 :: t2)], rfl,
            by simp, by simp, fun h => by omega⟩

/-- Witness of `resolveColors_bounded`: three colours supplied, `colorCount` 1. -/
theorem resolveColors_bounded_witness :
    ∃ cols,
      _resolveColors
        { colorCount := some 1,
          manualColors := some ["#102030".toList, "#ff0000".toList, "#00ff00".toList] }
        = .ok cols ∧ cols.length ≤ 1 ∧
      cols.Sublist ((["#102030".toList, "#ff0000".toList, "#00ff00".toList].take 1).map hexToRgb) ∧
      (1 = 1 → cols = [hexToRgb "#102030".toList]) :=
  resolveColors_bounded _ "#102030".toList "#ff0000".toList "#00ff00".toList 1 rfl rfl
    (by decide)

/-! ## Loops and frames of the painting primitives -/

/-- The values the loop variable takes lie between the bounds. -/
theorem mem_loopRange {a b step k : Nat}
    (h : k ∈ List.range' a ((b - a + step - 1) / step) step) : a ≤ k ∧ k < b := by
  obtain ⟨i, hi, rfl⟩ := List.mem_range'.1 h
  rcases Nat.eq_zero_or_pos step with h0 | hpos
  · subst h0; simp at hi
  · have h1 : (i + 1) * step ≤ b - a + step - 1 := (Nat.le_div_iff_mul_le hpos).1 hi
    have h2 : (i + 1) * step = step * i + step := by ring
    constructor
    · exact Nat.le_add_right _ _
    · omega

/-- Invariant rule for a loop. -/
theorem forLoop_inv {σ : Type} (I : σ → Prop) (a b step : Nat) (body : σ → Nat → σ)
    (init : σ) (h0 : I init) (hstep : ∀ s k, a ≤ k → k < b → I s → I (body s k)) :
    I (forLoop a b step body init) := by
  unfold forLoop
  have key : ∀ (l : List Nat), (∀ k ∈ l, a ≤ k ∧ k < b) → ∀ s, I s → I (l.foldl body s) := by
    intro l
    induction l with
    | nil => intro _ s hs; exact hs
    | cons k rest ih =>
      intro hl s hs
      have hk := hl k (List.mem_cons_self _ _)
      exact ih (fun j hj => hl j (List.mem_cons_of_mem _ hj)) _ (hstep s k hk.1 hk.2 hs)
  exact key _ (fun k hk => mem_loopRange hk) init h0

/-- Relational rule for two runs of a loop over the same range. -/
theorem forLoop_rel {σ τ : Type} (R : σ → τ → Prop) (a b step : Nat) (f : σ → Nat → σ)
    (g : τ → Nat → τ) (s : σ) (t : τ) (h0 : R s t)
    (hstep : ∀ s t k, a ≤ k → k < b → R s t → R (f s k) (g t k)) :
    R (forLoop a b step f s) (forLoop a b step g t) := by
  unfold forLoop
  have key : ∀ (l : List Nat), (∀ k ∈ l, a ≤ k ∧ k < b) → ∀ s t, R s t →
      R (l.foldl f s) (l.foldl g t) := by
    intro l
    induction l with
    | nil => intro _ s t hs; exact hs
    | cons k rest ih =>
      intro hl s t hs
      have hk := hl k (List.mem_cons_self _ _)
      exact ih (fun j hj => hl j (List.mem_cons_of_mem _ hj)) _ _ (hstep s t k hk.1 hk.2 hs)
  exact key _ (fun k hk => mem_loopRange hk) s t h0

theorem AgreeOff.same (S : Nat → Prop) (b : ImageData) : AgreeOff S b b :=
  ⟨rfl, fun _ _ => rfl⟩

theorem AgreeOff.flip {S : Nat → Prop} {b1 b2 : ImageData} (h : AgreeOff S b1 b2) :
    AgreeOff S b2 b1 :=
  ⟨h.1.symm, fun i hi => (h.2 i hi).symm⟩

theorem AgreeOff.chain {S : Nat → Prop} {b1 b2 b3 : ImageData} (h : AgreeOff S b1 b2)
    (h' : AgreeOff S b2 b3) : AgreeOff S b1 b3 :=
  ⟨h.1.trans h'.1, fun i hi => (h.2 i hi).trans (h'.2 i hi)⟩

/-- A position on the canvas has natural coordinates below 64 and index `y * 64 + x`. -/
theorem canvasIndex_some {x y : Int} {i : Nat} (h : canvasIndex x y = some i) :
    ∃ a b : Nat, x = a ∧ y = b ∧ a < 64 ∧ b < 64 ∧ i = b * 64 + a := by
  unfold canvasIndex at h
  split at h
  · rename_i hc
    refine ⟨x.toNat, y.toNat, ?_, ?_, ?_, ?_, ?_⟩
    · omega
    · omega
    · omega
    · omega
    · simpa using h.symm
  · cases h

/-- Index of a position with natural coordinates on the canvas. -/
theorem canvasIndex_nat {x y : Nat} (hx : x < 64) (hy : y < 64) :
    canvasIndex x y = some (y * 64 + x) := by
  unfold canvasIndex
  rw [if_pos (by omega)]
  simp

/-- Painting one pixel keeps the length of the buffer. -/
theorem fillPx_length (f : Pixel → Pixel) (ctx : ImageData) (x y : Int) :
    (fillPx f ctx x y).length = ctx.length := by
  unfold fillPx
  split <;> simp

/-- Painting a pixel inside `S` changes nothing outside `S`. -/
theorem fillPx_frame (S : Nat → Prop) (f : Pixel → Pixel) (ctx : ImageData) (x y : Int)
    (h : ∀ i, canvasIndex x y = some i → S i) : AgreeOff S (fillPx f ctx x y) ctx := by
  refine ⟨fillPx_length f ctx x y, fun j hj => ?_⟩
  unfold fillPx
  split
  · rename_i i hi
    have hne : i ≠ j := fun hij => hj (hij ▸ h i hi)
    exact List.getElem?_set_ne hne
  · rfl

/-- Painting the same pixel with the same fill in two buffers that agree outside `S`
keeps them agreeing outside `S`. -/
theorem agreeOff_fillPx (S : Nat → Prop) (f : Pixel → Pixel) (b1 b2 : ImageData) (x y : Int)
    (h : AgreeOff S b1 b2) : AgreeOff S (fillPx f b1 x y) (fillPx f b2 x y) := by
  refine ⟨by rw [fillPx_length, fillPx_length]; exact h.1, fun j hj => ?_⟩
  unfold fillPx
  split
  · rename_i i hi
    by_cases hij : i = j
    · subst hij
      have hget : b1.getD i Pixel.clear = b2.getD i Pixel.clear := by
        rw [List.getD_eq_getElem?_getD, List.getD_eq_getElem?_getD, h.2 i hj]
      rw [List.getElem?_set_self', List.getElem?_set_self', hget, h.2 i hj]
    · rw [List.getElem?_set_ne hij, List.getElem?_set_ne hij]
      exact h.2 j hj
  · exact h.2 j hj

/-- A loop whose every step changes nothing outside `S` changes nothing outside `S`. -/
theorem forLoop_frame (S : Nat → Prop) (a b step : Nat) (body : ImageData → Nat → ImageData)
    (init : ImageData) (h : ∀ s k, a ≤ k → k < b → AgreeOff S (body s k) s) :
    AgreeOff S (forLoop a b step body init) init :=
  forLoop_inv (fun s => AgreeOff S s init) a b step body init (AgreeOff.same S init)
    (fun s k h1 h2 hs => (h s k h1 h2).chain hs)

/-- Filling a rectangle that lies inside `S` changes nothing outside `S`. -/
theorem fillRect_frame (S : Nat → Prop) (ctx : ImageData) (color : Rgb) (x y : Int)
    (w h : Nat)
    (hin : ∀ dx dy : Nat, dx < w → dy < h → ∀ i, canvasIndex (x + dx) (y + dy) = some i → S i) :
    AgreeOff S (fillRect ctx color x y w h) ctx := by
  unfold fillRect
  refine forLoop_frame S _ _ _ _ _ (fun s dy _ hdy => ?_)
  refine forLoop_frame S _ _ _ _ _ (fun s' dx _ hdx => ?_)
  exact fillPx_frame S _ _ _ _ (hin dx dy hdx hdy)

/-! ## Colour index of the generators (`backgrounds.js`, `borders.js`) -/

/-- A throwing fold whose body only ever throws `e` only ever throws `e`. -/
theorem foldlM_error_eq {σ α : Type} (f : σ → α → Except JsError σ) (e : JsError)
    (hall : ∀ s a e', f s a = .error e' → e' = e) :
    ∀ (l : List α) (s : σ) (e' : JsError), l.foldlM f s = .error e' → e' = e := by
  intro l
  induction l with
  | nil => intro s e' h; simp [pure, Except.pure] at h
  | cons a rest ih =>
    intro s e' h
    rw [List.foldlM_cons] at h
    cases hfa : f s a with
    | error e1 =>
      rw [hfa] at h
      have h1 : e1 = e' := by simpa [bind, Except.bind] using h
      exact h1 ▸ hall s a e1 hfa
    | ok s1 =>
      rw [hfa] at h
      exact ih s1 e' (by simpa [bind, Except.bind] using h)

/-- A throwing fold throws as soon as its body throws at one element of the list,
whatever the state. -/
theorem foldlM_error_of_mem {σ α : Type} (f : σ → α → Except JsError σ) (e : JsError)
    (hall : ∀ s a e', f s a = .error e' → e' = e) (k : α) (hk : ∀ s, f s k = .error e) :
    ∀ (l : List α), k ∈ l → ∀ s, l.foldlM f s = .error e := by
  intro l
  induction l with
  | nil => intro h; simp at h
  | cons a rest ih =>
    intro hmem s
    rw [List.foldlM_cons]
    cases hfa : f s a with
    | error e1 =>
      rw [hall s a e1 hfa]; rfl
    | ok s1 =>
      show rest.foldlM f s1 = .error e
      rcases List.mem_cons.1 hmem with h | h
      · subst h; rw [hk s] at hfa; cases hfa
      · exact ih h s1

/-- A loop whose body only ever throws `e` only ever throws `e`. -/
theorem forLoopE_error_eq {σ : Type} (a b step : Nat) (f : σ → Nat → Except JsError σ)
    (e : JsError) (hall : ∀ s k e', f s k = .error e' → e' = e) (s : σ) (e' : JsError)
    (h : forLoopE a b step f s = .error e') : e' = e :=
  foldlM_error_eq f e hall _ s e' h

/-- A loop throws as soon as its body throws at one value of the loop variable,
whatever the state. -/
theorem forLoopE_error {σ : Type} (a b step : Nat) (f : σ → Nat → Except JsError σ)
    (e : JsError) (hall : ∀ s k e', f s k = .error e' → e' = e) (k : Nat)
    (hk : ∀ s, f s k = .error e)
    (hmem : k ∈ List.range' a ((b - a + step - 1) / step) step) (s : σ) :
    forLoopE a b step f s = .error e :=
  foldlM_error_of_mem f e hall k hk _ hmem s

/-- Reading a colour at a negative index throws. -/
theorem colorAt_neg (colors : List Rgb) (z : Int) (hz : z < 0) :
    colorAt colors (some z) = .error .typeError := by
  cases z with
  | ofNat k => exact absurd hz (by simp)
  | negSucc k => rfl

/-- The only error of a colour read is the `TypeError`. -/
theorem colorAt_error (colors : List Rgb) (i : Option Int) (e : JsError)
    (h : colorAt colors i = .error e) : e = .typeError := by
  unfold colorAt at h
  split at h
  · split at h
    · cases h
    · cases h; rfl
  · cases h; rfl

/-- Style `bg8` at pixel `(31, 31)`: the angle is about `-3π/4` and the radius is small,
so `v = theta + r*k` lies in `[-2.36, -2.11]` and the index after both remainders is
negative for two or three colours. -/
theorem bgIndex_bg8_center (M : JsMath) (n : Nat) (draw : Nat → ℚ)
    (hθ : -236 / 100 ≤ M.atan2 (-1 / 64) (-1 / 64) ∧ M.atan2 (-1 / 64) (-1 / 64) ≤ -235 / 100)
    (hr : 0 ≤ M.sqrt (1 / 2048) ∧ M.sqrt (1 / 2048) ≤ 3 / 100)
    (hd : 0 ≤ draw 0 ∧ draw 0 < 1) (hn : n = 2 ∨ n = 3) :
    ∃ z : Int, z < 0 ∧ jsMod (bgIndex M "bg8".toList n 31 31 draw) n = some z := by
  have hidx : bgIndex M "bg8".toList n 31 31 draw
      = jsMod (some ⌊(M.atan2 (-1 / 64) (-1 / 64)
          + M.sqrt (1 / 2048) * ((4 + (⌊draw 0 * 1000⌋ : Int).tmod 5 : Int) : ℚ)) * n⌋) n := by
    unfold bgIndex
    rw [if_neg (by decide), if_neg (by decide), if_neg (by decide), if_neg (by decide),
      if_neg (by decide), if_neg (by decide), if_neg (by decide), if_pos rfl]
    norm_num
  rw [hidx]
  set θ := M.atan2 (-1 / 64) (-1 / 64) with hθdef
  set r := M.sqrt (1 / 2048) with hrdef
  set kd : Int := ⌊draw 0 * 1000⌋ with hkd
  have hkd0 : 0 ≤ kd := Int.floor_nonneg.2 (by nlinarith [hd.1])
  have hk1 : 0 ≤ kd.tmod 5 := by
    rw [Int.tmod_eq_emod hkd0 (by norm_num)]; exact Int.emod_nonneg _ (by norm_num)
  have hk2 : kd.tmod 5 < 5 := by
    rw [Int.tmod_eq_emod hkd0 (by norm_num)]; exact Int.emod_lt_of_pos _ (by norm_num)
  set k : Int := 4 + kd.tmod 5 with hk
  have hk4 : (4 : ℚ) ≤ (k : ℚ) := by have : (4 : Int) ≤ k := by omega
                                     exact_mod_cast this
  have hk8 : (k : ℚ) ≤ 8 := by have : k ≤ (8 : Int) := by omega
                               exact_mod_cast this
  have hrk0 : 0 ≤ r * (k : ℚ) := mul_nonneg hr.1 (by linarith)
  have hrk1 : r * (k : ℚ) ≤ 24 / 100 := by nlinarith [hr.1, hr.2]
  rcases hn with rfl | rfl
  · have hfl : ⌊(θ + r * (k : ℚ)) * ((2 : Nat) : ℚ)⌋ = -5 := by
      rw [Int.floor_eq_iff]; push_cast; constructor <;> nlinarith [hθ.1, hθ.2]
    rw [hfl]
    exact ⟨-1, by decide, by decide⟩
  · have h1 : -8 ≤ ⌊(θ + r * (k : ℚ)) * ((3 : Nat) : ℚ)⌋ := by
      rw [Int.le_floor]; push_cast; nlinarith [hθ.1, hθ.2]
    have h2 : ⌊(θ + r * (k : ℚ)) * ((3 : Nat) : ℚ)⌋ < -6 := by
      rw [Int.floor_lt]; push_cast; nlinarith [hθ.1, hθ.2]
    have h3 : ⌊(θ + r * (k : ℚ)) * ((3 : Nat) : ℚ)⌋ = -8 ∨
        ⌊(θ + r * (k : ℚ)) * ((3 : Nat) : ℚ)⌋ = -7 := by omega
    rcases h3 with h3 | h3
    · rw [h3]; exact ⟨-2, by decide, by decide⟩
    · rw [h3]; exact ⟨-1, by decide, by decide⟩

/-- Style `bg8` with two or three colours ends in a `TypeError`: the loop reaches pixel
`(31, 31)`, where the remainder is negative. -/
theorem bg8_typeError (M : JsMath) (colors : List Rgb) (rng : Nat → ℚ)
    (hθ : -236 / 100 ≤ M.atan2 (-1 / 64) (-1 / 64) ∧ M.atan2 (-1 / 64) (-1 / 64) ≤ -235 / 100)
    (hr : 0 ≤ M.sqrt (1 / 2048) ∧ M.sqrt (1 / 2048) ≤ 3 / 100)
    (hrng : ∀ k, 0 ≤ rng k ∧ rng k < 1)
    (hn : colors.length = 2 ∨ colors.length = 3) :
    createBackgroundPattern M colors "bg8".toList rng = .error .typeError := by
  have hinner : ∀ (x : Nat) (s : ImageData × Nat) (y : Nat) (e' : JsError),
      (match colorAt colors (jsMod (bgIndex M "bg8".toList colors.length x y
          (fun j => rng (s.2 + j))) colors.length) with
        | .ok col => (.ok (px s.1 col x y, s.2 + bgDraws "bg8".toList) :
            Except JsError (ImageData × Nat))
        | .error e => .error e) = .error e' → e' = .typeError := by
    intro x s y e' h
    split at h
    · cases h
    · rename_i e heq
      cases h
      exact colorAt_error _ _ _ heq
  have hmem : (31 : Nat) ∈ List.range' 0 ((64 - 0 + 1 - 1) / 1) 1 := by decide
  simp only [createBackgroundPattern]
  rw [forLoopE_error 0 64 1 _ .typeError _ 31 _ hmem]
  · rfl
  · intro s x e' h
    exact forLoopE_error_eq 0 64 1 _ .typeError (hinner x) _ _ h
  · intro s
    refine forLoopE_error 0 64 1 _ .typeError (hinner 31) 31 ?_ hmem s
    intro st
    obtain ⟨z, hz, hidx⟩ := bgIndex_bg8_center M colors.length (fun j => rng (st.2 + j))
      hθ hr (hrng _) hn
    simp only [hidx, colorAt_neg colors z hz]


/-- **C18** (failing input) Style `bg8` with two or three colours throws. On a platform
whose `atan2(-1/64, -1/64)` is about `-3π/4` and whose `sqrt(1/2048)` is about 0.022,
for every stream of `rng` values in `[0, 1)` the call
`createBackgroundPattern(colors, 'bg8', rng)` ends in a `TypeError`: at pixel `(31, 31)`
the index `ci % colors.length` is negative, so the colour read is `undefined`. -/
theorem createBackgroundPattern_bg8_throws (M : JsMath) (colors : List Rgb) (rng : Nat → ℚ)
    (hθ : -236 / 100 ≤ M.atan2 (-1 / 64) (-1 / 64) ∧ M.atan2 (-1 / 64) (-1 / 64) ≤ -235 / 100)
    (hr : 0 ≤ M.sqrt (1 / 2048) ∧ M.sqrt (1 / 2048) ≤ 3 / 100)
    (hrng : ∀ k, 0 ≤ rng k ∧ rng k < 1)
    (hn : colors.length = 2 ∨ colors.length = 3) :
    createBackgroundPattern M colors "bg8".toList rng = .error .typeError :=
  bg8_typeError M colors rng hθ hr hrng hn

/-- The stand-in `refMath` meets the two bounds used for style `bg8`. -/
theorem refMath_center_bounds :
    (-236 / 100 ≤ refMath.atan2 (-1 / 64) (-1 / 64) ∧
      refMath.atan2 (-1 / 64) (-1 / 64) ≤ -235 / 100) ∧
    (0 ≤ refMath.sqrt (1 / 2048) ∧ refMath.sqrt (1 / 2048) ≤ 3 / 100) := by
  have hs1 : ⌊((1 : ℚ) / 2048 * 2 ^ 40)⌋ = 536870912 := by
    rw [Int.floor_eq_iff]; norm_num
  have hs2 : sqrtBits 48 (536870912 : Int).toNat 0 = 23170 := by rfl
  have hs3 : refMath.sqrt (1 / 2048) = 23170 / 2 ^ 20 := by
    show refSqrt (1 / 2048) = _
    unfold refSqrt
    rw [hs1, hs2]
    norm_num
  have hθ : -236 / 100 ≤ refMath.atan2 (-1 / 64) (-1 / 64) ∧
      refMath.atan2 (-1 / 64) (-1 / 64) ≤ -235 / 100 := by
    simp only [refMath, refAtan2, refAtan, refAtanPos, refPi]; norm_num
  have hr : 0 ≤ refMath.sqrt (1 / 2048) ∧ refMath.sqrt (1 / 2048) ≤ 3 / 100 := by
    rw [hs3]; norm_num
  exact ⟨hθ, hr⟩

/-- **C18** (instance) The stand-in `refMath` meets the two bounds, and with it style `bg8`
throws for the colours red and blue and the constant stream `1/2`. -/
theorem createBackgroundPattern_bg8_throws_witness :
    (-236 / 100 ≤ refMath.atan2 (-1 / 64) (-1 / 64) ∧
      refMath.atan2 (-1 / 64) (-1 / 64) ≤ -235 / 100) ∧
    (0 ≤ refMath.sqrt (1 / 2048) ∧ refMath.sqrt (1 / 2048) ≤ 3 / 100) ∧
    createBackgroundPattern refMath [⟨255, 0, 0⟩, ⟨0, 0, 255⟩] "bg8".toList (fun _ => 1 / 2)
      = .error .typeError :=
  ⟨refMath_center_bounds.1, refMath_center_bounds.2,
    createBackgroundPattern_bg8_throws refMath _ _ refMath_center_bounds.1
      refMath_center_bounds.2 (fun k => by norm_num) (Or.inl rfl)⟩

/-! ## Frames of the corner-aware styles (`borders.js`) -/

/-- A position `(a, b)` in a corner square of side `s` has its index in the corner set. -/
theorem inCornerIndex_of {s a b : Nat} (ha : a < 64) (h : InCornerSquare s a b) :
    InCornerIndex s (b * 64 + a) := by
  unfold InCornerIndex
  have h1 : (b * 64 + a) % 64 = a := by omega
  have h2 : (b * 64 + a) / 64 = b := by omega
  rw [h1, h2]; exact h

/-- The square painted at a corner origin by `pxBracket` lies in the corner squares. -/
theorem corner_frame (ctx : ImageData) (col : Rgb) (w : Nat) (ox oy : Int)
    (hox : ox = 0 ∨ ox = 64 - (w : Int)) (hoy : oy = 0 ∨ oy = 64 - (w : Int)) :
    AgreeOff (InCornerIndex w)
      (forLoop 0 w 1 (fun ctx dx =>
        forLoop 0 w 1 (fun ctx dy => px ctx col (ox + dx) (oy + dy)) ctx) ctx) ctx := by
  refine forLoop_frame _ _ _ _ _ _ (fun s dx _ hdx => ?_)
  refine forLoop_frame _ _ _ _ _ _ (fun s' dy _ hdy => ?_)
  refine fillPx_frame _ _ _ _ _ (fun i hi => ?_)
  obtain ⟨a, b, ha, hb, ha64, hb64, rfl⟩ := canvasIndex_some hi
  refine inCornerIndex_of ha64 ⟨?_, ?_⟩
  · rcases hox with h | h <;> omega
  · rcases hoy with h | h <;> omega

/-- The corner mask of `pxBracket` acts inside the corner squares of side `w`. -/
theorem pxBracket_frame (ctx : ImageData) (colors : List Rgb) (w : Nat) (m : Corners) :
    AgreeOff (InCornerIndex w) (pxBracket ctx colors w m) (pxBracket ctx colors w {}) := by
  have step : ∀ (flag : Bool) (b : ImageData) (col : Rgb) (ox oy : Int),
      (ox = 0 ∨ ox = 64 - (w : Int)) → (oy = 0 ∨ oy = 64 - (w : Int)) →
      AgreeOff (InCornerIndex w)
        (if flag then forLoop 0 w 1 (fun ctx dx =>
          forLoop 0 w 1 (fun ctx dy => px ctx col (ox + dx) (oy + dy)) ctx) b else b) b := by
    intro flag b col ox oy hox hoy
    cases flag
    · exact AgreeOff.same _ _
    · exact corner_frame b col w ox oy hox hoy
  simp only [pxBracket]
  refine (step _ _ _ _ _ (Or.inr rfl) (Or.inr rfl)).chain ?_
  refine (step _ _ _ _ _ (Or.inl rfl) (Or.inr rfl)).chain ?_
  refine (step _ _ _ _ _ (Or.inr rfl) (Or.inl rfl)).chain ?_
  refine (step _ _ _ _ _ (Or.inl rfl) (Or.inl rfl)).chain ?_
  exact AgreeOff.same _ _

/-- An optional `fillRect` inside `S` changes nothing outside `S`. -/
theorem optional_fillRect_frame (S : Nat → Prop) (flag : Bool) (ctx : ImageData)
    (color : Rgb) (x y : Int) (w h : Nat)
    (hin : ∀ dx dy : Nat, dx < w → dy < h → ∀ i, canvasIndex (x + dx) (y + dy) = some i → S i) :
    AgreeOff S (if flag then fillRect ctx color x y w h else ctx) ctx := by
  cases flag
  · exact AgreeOff.same _ _
  · exact fillRect_frame S ctx color x y w h hin

/-- The corner mask of `pxRivet` acts inside the corner squares of side `min (w+1) 5`. -/
theorem pxRivet_frame (ctx : ImageData) (colors : List Rgb) (w : Nat) (m : Corners) :
    AgreeOff (InCornerIndex (min (w + 1) 5)) (pxRivet ctx colors w m)
      (pxRivet ctx colors w {}) := by
  have hin : ∀ (x y : Int), (x = 0 ∨ x = 64 - ((min (w + 1) 5 : Nat) : Int)) →
      (y = 0 ∨ y = 64 - ((min (w + 1) 5 : Nat) : Int)) →
      ∀ dx dy : Nat, dx < min (w + 1) 5 → dy < min (w + 1) 5 →
      ∀ i, canvasIndex (x + dx) (y + dy) = some i → InCornerIndex (min (w + 1) 5) i := by
    intro x y hx hy dx dy hdx hdy i hi
    obtain ⟨a, b, ha, hb, ha64, hb64, rfl⟩ := canvasIndex_some hi
    refine inCornerIndex_of ha64 ⟨?_, ?_⟩
    · rcases hx with h | h <;> omega
    · rcases hy with h | h <;> omega
  simp only [pxRivet]
  refine (optional_fillRect_frame _ _ _ _ _ _ _ _
    (hin _ _ (Or.inr (by push_cast; rfl)) (Or.inr (by push_cast; rfl)))).chain ?_
  refine (optional_fillRect_frame _ _ _ _ _ _ _ _
    (hin _ _ (Or.inl rfl) (Or.inr (by push_cast; rfl)))).chain ?_
  refine (optional_fillRect_frame _ _ _ _ _ _ _ _
    (hin _ _ (Or.inr (by push_cast; rfl)) (Or.inl rfl))).chain ?_
  refine (optional_fillRect_frame _ _ _ _ _ _ _ _
    (hin _ _ (Or.inl rfl) (Or.inl rfl))).chain ?_
  exact AgreeOff.same _ _

/-- The corner mask of `pxPip` acts inside the corner squares of side `w`, for `w ≥ 2`. -/
theorem pxPip_frame (ctx : ImageData) (colors : List Rgb) (w : Nat) (hw : 2 ≤ w)
    (m : Corners) :
    AgreeOff (InCornerIndex w) (pxPip ctx colors w m) (pxPip ctx colors w {}) := by
  have hin : ∀ (x y : Int),
      (x = ((w : Int) - ((max 2 (w * 55 / 100) : Nat) : Int)) / 2 ∨
        x = 64 - (w : Int) + ((w : Int) - ((max 2 (w * 55 / 100) : Nat) : Int)) / 2) →
      (y = ((w : Int) - ((max 2 (w * 55 / 100) : Nat) : Int)) / 2 ∨
        y = 64 - (w : Int) + ((w : Int) - ((max 2 (w * 55 / 100) : Nat) : Int)) / 2) →
      ∀ dx dy : Nat, dx < max 2 (w * 55 / 100) → dy < max 2 (w * 55 / 100) →
      ∀ i, canvasIndex (x + dx) (y + dy) = some i → InCornerIndex w i := by
    intro x y hx hy dx dy hdx hdy i hi
    obtain ⟨a, b, ha, hb, ha64, hb64, rfl⟩ := canvasIndex_some hi
    refine inCornerIndex_of ha64 ⟨?_, ?_⟩
    · rcases hx with h | h <;> omega
    · rcases hy with h | h <;> omega
  simp only [pxPip]
  refine (optional_fillRect_frame _ _ _ _ _ _ _ _
    (hin _ _ (Or.inr rfl) (Or.inr rfl))).chain ?_
  refine (optional_fillRect_frame _ _ _ _ _ _ _ _
    (hin _ _ (Or.inl rfl) (Or.inr rfl))).chain ?_
  refine (optional_fillRect_frame _ _ _ _ _ _ _ _
    (hin _ _ (Or.inr rfl) (Or.inl rfl))).chain ?_
  refine (optional_fillRect_frame _ _ _ _ _ _ _ _
    (hin _ _ (Or.inl rfl) (Or.inl rfl))).chain ?_
  exact AgreeOff.same _ _

/-- Painting one pixel in two buffers that agree outside `S`. -/
theorem agreeOff_px (S : Nat → Prop) (col : Rgb) (b1 b2 : ImageData) (x y : Int)
    (h : AgreeOff S b1 b2) : AgreeOff S (px b1 col x y) (px b2 col x y) :=
  agreeOff_fillPx S _ b1 b2 x y h

/-- Painting one pixel of `S`. -/
theorem px_frame (S : Nat → Prop) (col : Rgb) (ctx : ImageData) (x y : Int)
    (h : ∀ i, canvasIndex x y = some i → S i) : AgreeOff S (px ctx col x y) ctx :=
  fillPx_frame S _ ctx x y h

/-- The corner mask of `pxOpen` acts inside the corner squares of side `w`. -/
theorem pxOpen_frame (ctx : ImageData) (colors : List Rgb) (w : Nat) (m1 m2 : Corners) :
    AgreeOff (InCornerIndex w) (pxOpen ctx colors w m1) (pxOpen ctx colors w m2) := by
  simp only [pxOpen]
  refine forLoop_rel _ 0 64 1 _ _ _ _ (AgreeOff.same _ _) (fun s t x _ hx hst => ?_)
  refine forLoop_rel _ 0 64 1 _ _ _ _ hst (fun s t y _ hy hst => ?_)
  by_cases hS : InCornerSquare w x y
  · have hidx : ∀ i, canvasIndex (x : Int) (y : Int) = some i → InCornerIndex w i := by
      intro i hi
      rw [canvasIndex_nat hx hy] at hi
      cases hi
      exact inCornerIndex_of hx hS
    have hl := px_frame (InCornerIndex w) (colorOr colors 0 ⟨255, 255, 255⟩) s x y hidx
    have hr := px_frame (InCornerIndex w) (colorOr colors 0 ⟨255, 255, 255⟩) t x y hidx
    split_ifs <;>
      first
        | exact hst
        | exact hl.chain hst
        | exact hst.chain hr.flip
        | exact (hl.chain hst).chain hr.flip
  · have e1 : ¬ ((x : Int) < w ∧ (y : Int) < w) := fun h =>
      hS ⟨Or.inl (by omega), Or.inl (by omega)⟩
    have e2 : ¬ ((x : Int) ≥ 64 - w ∧ (y : Int) < w) := fun h =>
      hS ⟨Or.inr (by omega), Or.inl (by omega)⟩
    have e3 : ¬ ((x : Int) < w ∧ (y : Int) ≥ 64 - w) := fun h =>
      hS ⟨Or.inl (by omega), Or.inr (by omega)⟩
    have e4 : ¬ ((x : Int) ≥ 64 - w ∧ (y : Int) ≥ 64 - w) := fun h =>
      hS ⟨Or.inr (by omega), Or.inr (by omega)⟩
    simp only [e1, e2, e3, e4, and_false, if_false]
    split_ifs
    · exact hst
    · exact agreeOff_px _ _ _ _ _ _ hst

/-- The corner mask of `pxChamfer` acts inside the corner squares of side `w`. -/
theorem pxChamfer_frame (ctx : ImageData) (colors : List Rgb) (w : Nat) (m1 m2 : Corners) :
    AgreeOff (InCornerIndex w) (pxChamfer ctx colors w m1) (pxChamfer ctx colors w m2) := by
  simp only [pxChamfer]
  refine forLoop_rel _ 0 64 1 _ _ _ _ (AgreeOff.same _ _) (fun s t x _ hx hst => ?_)
  refine forLoop_rel _ 0 64 1 _ _ _ _ hst (fun s t y _ hy hst => ?_)
  by_cases hS : InCornerSquare w x y
  · have hidx : ∀ i, canvasIndex (x : Int) (y : Int) = some i → InCornerIndex w i := by
      intro i hi
      rw [canvasIndex_nat hx hy] at hi
      cases hi
      exact inCornerIndex_of hx hS
    have hl := px_frame (InCornerIndex w) (colorOr colors 0 ⟨255, 255, 255⟩) s x y hidx
    have hr := px_frame (InCornerIndex w) (colorOr colors 0 ⟨255, 255, 255⟩) t x y hidx
    split_ifs <;>
      first
        | exact hst
        | exact hl.chain hst
        | exact hst.chain hr.flip
        | exact (hl.chain hst).chain hr.flip
  · have e1 : ¬ ((x : Int) < w ∧ (y : Int) < w ∧ (x : Int) + y < w - 1) := fun h =>
      hS ⟨Or.inl (by omega), Or.inl (by omega)⟩
    have e2 : ¬ ((x : Int) ≥ 64 - w ∧ (y : Int) < w ∧ (63 - (x : Int)) + y < w - 1) := fun h =>
      hS ⟨Or.inr (by omega), Or.inl (by omega)⟩
    have e3 : ¬ ((x : Int) < w ∧ (y : Int) ≥ 64 - w ∧ (x : Int) + (63 - y) < w - 1) := fun h =>
      hS ⟨Or.inl (by omega), Or.inr (by omega)⟩
    have e4 : ¬ ((x : Int) ≥ 64 - w ∧ (y : Int) ≥ 64 - w ∧
        (63 - (x : Int)) + (63 - y) < w - 1) := fun h =>
      hS ⟨Or.inr (by omega), Or.inr (by omega)⟩
    simp only [e1, e2, e3, e4, and_false, if_false]
    split_ifs
    · exact hst
    · exact agreeOff_px _ _ _ _ _ _ hst

/-! ## The corner mask (`borders.js`) -/

/-- Two buffers that agree outside the corner set hold the same pixel at every position
outside the corner squares. -/
theorem agreeOff_getD {s : Nat} {b1 b2 : ImageData} (h : AgreeOff (InCornerIndex s) b1 b2)
    (x y : Nat) (hx : x < 64) (hS : ¬ InCornerSquare s x y) :
    b1.getD (y * 64 + x) Pixel.clear = b2.getD (y * 64 + x) Pixel.clear := by
  have hidx : ¬ InCornerIndex s (y * 64 + x) := by
    unfold InCornerIndex
    have h1 : (y * 64 + x) % 64 = x := by omega
    have h2 : (y * 64 + x) / 64 = y := by omega
    rw [h1, h2]; exact hS
  rw [List.getD_eq_getElem?_getD, List.getD_eq_getElem?_getD, h.2 _ hidx]

set_option maxRecDepth 100000 in
/-- **C20** (counterexample) The rivets of `px-rivet` reach outside the `w`×`w` corner
squares. For width 2 and the colours red and blue, pixel `(2, 0)` lies outside the four
2×2 corner squares, yet it is blue (a rivet) under the mask with every corner set and
red (the border) under the empty mask. -/
theorem pxRivet_mask_outside_squares :
    ∃ b1 b2,
      createSimpleBorder refCanvas refMath [⟨255, 0, 0⟩, ⟨0, 0, 255⟩] 2 "px-rivet".toList
        (fun _ => 0) Corners.all = .ok b1 ∧
      createSimpleBorder refCanvas refMath [⟨255, 0, 0⟩, ⟨0, 0, 255⟩] 2 "px-rivet".toList
        (fun _ => 0) {} = .ok b2 ∧
      ¬ ((2 < 2 ∨ 2 ≥ 64 - 2) ∧ (0 < 2 ∨ 0 ≥ 64 - 2)) ∧
      b1.getD (0 * 64 + 2) Pixel.clear = ⟨0, 0, 255, 255⟩ ∧
      b2.getD (0 * 64 + 2) Pixel.clear = ⟨255, 0, 0, 255⟩ ∧
      b1.getD (0 * 64 + 2) Pixel.clear ≠ b2.getD (0 * 64 + 2) Pixel.clear := by
  refine ⟨_, _, rfl, rfl, by decide, by decide!, by decide!, by decide!⟩

/-- **C20** (amended) The corner mask acts only near the corners. For every corner-aware
border style, width `w` in 2..5, colour list and two corner masks, both calls of
`createSimpleBorder` return a buffer, and the two buffers hold the same pixel at every
position outside the four corner squares of side `w`; for `px-rivet` the squares have
side `min (w + 1) 5`, the size of its rivets. -/
theorem corner_mask_frame (P : Canvas2D) (M : JsMath) (colors : List Rgb) (w : Nat)
    (rng : Nat → ℚ) (style : JsString) (hs : style ∈ cornerStyles)
    (hw : 2 ≤ w ∧ w ≤ 5) (m1 m2 : Corners) :
    ∃ b1 b2,
      createSimpleBorder P M colors w style rng m1 = .ok b1 ∧
      createSimpleBorder P M colors w style rng m2 = .ok b2 ∧
      ∀ x y, x < 64 → y < 64 →
        ¬ InCornerSquare (if style = "px-rivet".toList then min (w + 1) 5 else w) x y →
        b1.getD (y * 64 + x) Pixel.clear = b2.getD (y * 64 + x) Pixel.clear := by
  simp only [cornerStyles, List.mem_cons, List.mem_singleton, List.not_mem_nil, or_false] at hs
  rcases hs with rfl | rfl | rfl | rfl | rfl
  · refine ⟨pxBracket blankCanvas colors w m1, pxBracket blankCanvas colors w m2, rfl, rfl,
      fun x y hx _ hS => ?_⟩
    rw [if_neg (by decide)] at hS
    exact agreeOff_getD ((pxBracket_frame _ _ _ m1).chain (pxBracket_frame _ _ _ m2).flip)
      x y hx hS
  · refine ⟨pxChamfer blankCanvas colors w m1, pxChamfer blankCanvas colors w m2, rfl, rfl,
      fun x y hx _ hS => ?_⟩
    rw [if_neg (by decide)] at hS
    exact agreeOff_getD (pxChamfer_frame _ _ _ m1 m2) x y hx hS
  · refine ⟨pxRivet blankCanvas colors w m1, pxRivet blankCanvas colors w m2, rfl, rfl,
      fun x y hx _ hS => ?_⟩
    rw [if_pos rfl] at hS
    exact agreeOff_getD ((pxRivet_frame _ _ _ m1).chain (pxRivet_frame _ _ _ m2).flip)
      x y hx hS
  · refine ⟨pxOpen blankCanvas colors w m1, pxOpen blankCanvas colors w m2, rfl, rfl,
      fun x y hx _ hS => ?_⟩
    rw [if_neg (by decide)] at hS
    exact agreeOff_getD (pxOpen_frame _ _ _ m1 m2) x y hx hS
  · refine ⟨pxPip blankCanvas colors w m1, pxPip blankCanvas colors w m2, rfl, rfl,
      fun x y hx _ hS => ?_⟩
    rw [if_neg (by decide)] at hS
    exact agreeOff_getD ((pxPip_frame _ _ _ hw.1 m1).chain (pxPip_frame _ _ _ hw.1 m2).flip)
      x y hx hS

/-- **C20** (instance) Style `px-pip`, width 3, on the reference platform, for the mask
with every corner set and the empty mask. -/
theorem corner_mask_frame_witness :
    "px-pip".toList ∈ cornerStyles ∧ (2 ≤ 3 ∧ 3 ≤ 5) ∧
    ∃ b1 b2,
      createSimpleBorder refCanvas refMath [⟨255, 0, 0⟩, ⟨0, 0, 255⟩] 3 "px-pip".toList
        (fun _ => 0) Corners.all = .ok b1 ∧
      createSimpleBorder refCanvas refMath [⟨255, 0, 0⟩, ⟨0, 0, 255⟩] 3 "px-pip".toList
        (fun _ => 0) {} = .ok b2 ∧
      ∀ x y, x < 64 → y < 64 →
        ¬ InCornerSquare (if "px-pip".toList = "px-rivet".toList then min (3 + 1) 5 else 3) x y →
        b1.getD (y * 64 + x) Pixel.clear = b2.getD (y * 64 + x) Pixel.clear :=
  ⟨by decide, by decide,
    corner_mask_frame refCanvas refMath [⟨255, 0, 0⟩, ⟨0, 0, 255⟩] 3 (fun _ => 0)
      "px-pip".toList (by decide) (by decide) Corners.all {}⟩

/-! ## Empty colour list -/

/-- With no colours every background style throws: the index is `ci % 0`, which is
`NaN`, at the first pixel. -/
theorem createBackgroundPattern_nil (M : JsMath) (patternType : JsString) (rng : Nat → ℚ) :
    createBackgroundPattern M [] patternType rng = .error .typeError := by
  have hbody : ∀ (x : Nat) (s : ImageData × Nat) (y : Nat),
      (match colorAt [] (jsMod (bgIndex M patternType ([] : List Rgb).length x y
          (fun j => rng (s.2 + j))) ([] : List Rgb).length) with
        | .ok col => (.ok (px s.1 col x y, s.2 + bgDraws patternType) :
            Except JsError (ImageData × Nat))
        | .error e => .error e) = .error .typeError := by
    intro x s y
    have h0 : jsMod (bgIndex M patternType ([] : List Rgb).length x y
        (fun j => rng (s.2 + j))) ([] : List Rgb).length = none := by
      unfold jsMod; split <;> simp
    rw [h0]; rfl
  have hmem : (0 : Nat) ∈ List.range' 0 ((64 - 0 + 1 - 1) / 1) 1 := by decide
  simp only [createBackgroundPattern]
  rw [forLoopE_error 0 64 1 _ .typeError _ 0 _ hmem]
  · rfl
  · intro s x e' h
    refine forLoopE_error_eq 0 64 1 _ .typeError (fun s y e' h => ?_) _ _ h
    have h1 := (hbody x s y).symm.trans h
    cases h1; rfl
  · intro s
    exact forLoopE_error 0 64 1 _ .typeError
      (fun s y e' h => by have h1 := (hbody 0 s y).symm.trans h; cases h1; rfl) 0
      (fun s => hbody 0 s 0) hmem s

set_option maxRecDepth 100000 in
/-- **C19** (counterexample) With an empty colour list not every generator completes
and not every substituted colour is white: background style `bg11` and the math-pattern
border style `parity` end in a `TypeError`, and `checkerboard` paints pixel `(1, 0)`,
where it uses the second colour, with `[200,200,200]`. -/
theorem empty_colors_not_white :
    createBackgroundPattern refMath [] "bg11".toList (fun _ => 0) = .error .typeError ∧
    createSimpleBorder refCanvas refMath [] 2 "parity".toList (fun _ => 0) {}
      = .error .typeError ∧
    ∃ b, createSimpleBorder refCanvas refMath [] 2 "checkerboard".toList (fun _ => 0) {}
        = .ok b ∧
      b.getD (0 * 64 + 1) Pixel.clear = ⟨200, 200, 200, 255⟩ := by
  refine ⟨createBackgroundPattern_nil _ _ _, by decide!, _, rfl, by decide!⟩

/-- **C19** (amended) Empty colour list in `createSimpleBorder`. For each of the sixteen
classic and pixel-art styles, every width and every corner mask, the call with an empty
colour list returns a buffer, and it is the buffer returned for the one-colour list
`[[255,255,255]]`: white stands in for the first colour and each style keeps its own
fallback for a second or third colour. For `px-rivet` it is the buffer returned for
`[[255,255,255],[255,220,0]]`, whose rivets have the fallback colour `[255,220,0]`. -/
theorem createSimpleBorder_empty_colors (P : Canvas2D) (M : JsMath) (w : Nat)
    (rng : Nat → ℚ) (corners : Corners) (style : JsString) (hs : style ∈ namedBorderStyles) :
    ∃ b,
      createSimpleBorder P M [] w style rng corners = .ok b ∧
      createSimpleBorder P M
          (if style = "px-rivet".toList then [⟨255, 255, 255⟩, ⟨255, 220, 0⟩]
            else [⟨255, 255, 255⟩])
          w style rng corners = .ok b := by
  simp only [namedBorderStyles, List.mem_cons, List.mem_singleton, List.not_mem_nil,
    or_false] at hs
  rcases hs with rfl | rfl | rfl | rfl | rfl | rfl | rfl | rfl | rfl | rfl | rfl | rfl | rfl |
    rfl | rfl | rfl
  all_goals exact ⟨_, rfl, rfl⟩

/-- **C19** (instance) Style `multiring`, width 3, on the reference platform. -/
theorem createSimpleBorder_empty_colors_witness :
    "multiring".toList ∈ namedBorderStyles ∧
    ∃ b,
      createSimpleBorder refCanvas refMath [] 3 "multiring".toList (fun _ => 0) {} = .ok b ∧
      createSimpleBorder refCanvas refMath
          (if "multiring".toList = "px-rivet".toList then [⟨255, 255, 255⟩, ⟨255, 220, 0⟩]
            else [⟨255, 255, 255⟩])
          3 "multiring".toList (fun _ => 0) {} = .ok b :=
  ⟨by decide,
    createSimpleBorder_empty_colors refCanvas refMath 3 (fun _ => 0) {} "multiring".toList
      (by decide)⟩

/-! ## Colour index of the remaining styles -/

/-- A non-negative index reduced by a positive length is a position of the array. -/
theorem jsMod_of_nonneg (ci : Option Int) (n : Nat) (hn : 1 ≤ n)
    (h : ∃ v, ci = some v ∧ 0 ≤ v) :
    ∃ v, jsMod ci n = some v ∧ 0 ≤ v ∧ v < n := by
  obtain ⟨v, rfl, hv⟩ := h
  refine ⟨v.tmod n, ?_, Int.tmod_nonneg _ hv, Int.tmod_lt_of_pos _ (by omega)⟩
  show (if n = 0 then none else some (v.tmod n)) = _
  rw [if_neg (by omega)]

/-- Form of `jsMod_of_nonneg` for the branches of the index functions. -/
theorem jsMod_nonneg (v : Int) (n : Nat) (hn : 1 ≤ n) (hv : 0 ≤ v) :
    ∃ w, jsMod (some v) n = some w ∧ 0 ≤ w := by
  obtain ⟨w, h1, h2, _⟩ := jsMod_of_nonneg (some v) n hn ⟨v, rfl, hv⟩
  exact ⟨w, h1, h2⟩

/-- The value of `hash` lies in `[0, 1)`. -/
theorem bgHash_range (M : JsMath) (x y s : ℚ) : 0 ≤ bgHash M x y s ∧ bgHash M x y s < 1 := by
  unfold bgHash
  constructor
  · have := Int.floor_le (M.sin (x * (129898 / 10000) + y * (78233 / 1000) + s * (37719 / 1000))
      * (437585453 / 10000))
    simp only; linarith
  · have := Int.lt_floor_add_one
      (M.sin (x * (129898 / 10000) + y * (78233 / 1000) + s * (37719 / 1000))
      * (437585453 / 10000))
    simp only; linarith

/-- Every math-pattern border style leaves a non-negative `ci`. -/
theorem patternIndex_nonneg (M : JsMath) (hsqrt : ∀ q, 0 ≤ M.sqrt q) (type : JsString)
    (n x y : Nat) (hn : 1 ≤ n) (draw : ℚ) :
    ∃ v, patternIndex M type n x y draw = some v ∧ 0 ≤ v := by
  have key : ∀ (P : Option Int → Prop), (∀ v : Int, 0 ≤ v → P (some v)) →
      (∀ v : Int, 0 ≤ v → P (jsMod (some v) n)) → P (patternIndex M type n x y draw) := by
    intro P h1 h2
    have hman : (0 : ℚ) ≤ |(x : ℚ) - 63 / 2| + |(y : ℚ) - 63 / 2| :=
      add_nonneg (abs_nonneg _) (abs_nonneg _)
    unfold patternIndex
    simp only
    by_cases c1 : type = "constant".toList
    · rw [if_pos c1]; exact h1 _ (le_refl _)
    rw [if_neg c1]
    by_cases c2 : type = "axial".toList
    · rw [if_pos c2]
      by_cases a0 : ⌊draw * 3⌋ = 0
      · rw [if_pos a0]; exact h2 _ (Int.ofNat_nonneg _)
      rw [if_neg a0]
      by_cases a1 : ⌊draw * 3⌋ = 1
      · rw [if_pos a1]; exact h2 _ (Int.ofNat_nonneg _)
      rw [if_neg a1]
      exact h2 _ (Int.add_nonneg (Int.ofNat_nonneg _) (Int.ofNat_nonneg _))
    rw [if_neg c2]
    by_cases c3 : type = "parity".toList
    · rw [if_pos c3]
      exact h2 _ (Int.add_nonneg (Int.ofNat_nonneg _) (Int.ofNat_nonneg _))
    rw [if_neg c3]
    by_cases c4 : type = "xor".toList
    · rw [if_pos c4]; exact h2 _ (Int.ofNat_nonneg _)
    rw [if_neg c4]
    by_cases c5 : type = "radial".toList
    · rw [if_pos c5]; exact h2 _ (Int.floor_nonneg.2 (hsqrt _))
    rw [if_neg c5]
    by_cases c6 : type = "manhattan".toList
    · rw [if_pos c6]; exact h2 _ (Int.floor_nonneg.2 hman)
    rw [if_neg c6]
    by_cases c7 : type = "edge".toList
    · rw [if_pos c7]; exact h2 _ (Int.ofNat_nonneg _)
    rw [if_neg c7]
    by_cases c8 : type = "sawtooth".toList
    · rw [if_pos c8]; exact h2 _ (Int.ofNat_nonneg _)
    rw [if_neg c8]
    by_cases c9 : type = "bitplane".toList
    · rw [if_pos c9]
      by_cases n2 : n = 2
      · rw [if_pos n2]; exact h1 _ (Int.ofNat_nonneg _)
      rw [if_neg n2]; exact h2 _ (Int.ofNat_nonneg _)
    rw [if_neg c9]
    by_cases c10 : type = "prime".toList
    · rw [if_pos c10]; exact h2 _ (Int.ofNat_nonneg _)
    rw [if_neg c10]
    exact h1 _ (le_refl _)
  exact key (fun o => ∃ v, o = some v ∧ 0 ≤ v) (fun v hv => ⟨v, rfl, hv⟩)
    (fun v hv => jsMod_nonneg v n hn hv)

/-- A truth value as a number is not negative. -/
theorem ite_one_zero_nonneg (c : Prop) [Decidable c] : (0 : Int) ≤ if c then 1 else 0 := by
  by_cases h : c
  · rw [if_pos h]; decide
  · rw [if_neg h]

/-- Every background style other than `bg8` leaves a non-negative `ci`, on a platform
whose sine and cosine are at least -1 and whose square root is not negative. -/
theorem bgIndex_nonneg (M : JsMath) (hsin : ∀ t, -1 ≤ M.sin t) (hcos : ∀ t, -1 ≤ M.cos t)
    (hsqrt : ∀ q, 0 ≤ M.sqrt q) (patternType : JsString) (hne : patternType ≠ "bg8".toList)
    (n x y : Nat) (hn : 1 ≤ n) (draw : Nat → ℚ) :
    ∃ v, bgIndex M patternType n x y draw = some v ∧ 0 ≤ v := by
  have key : ∀ (P : Option Int → Prop), (∀ v : Int, 0 ≤ v → P (some v)) →
      (∀ v : Int, 0 ≤ v → P (jsMod (some v) n)) →
      P (bgIndex M patternType n x y draw) := by
    intro P h1 h2
    have hn0 : (0 : ℚ) ≤ (n : ℚ) := Nat.cast_nonneg n
    have hhash : ∀ a b s, (0 : ℚ) ≤ bgHash M a b s / 4294967296 * n := fun a b s =>
      mul_nonneg (div_nonneg (bgHash_range M a b s).1 (by norm_num)) hn0
    have hA : ∀ a : ℚ, -1 ≤ a → (0 : ℚ) ≤ (a + 1) * (3 / 2) := fun a ha =>
      mul_nonneg (by linarith) (by norm_num)
    have hB : ∀ a : ℚ, -1 ≤ a → (0 : ℚ) ≤ (a + 2) / (13 / 10) := fun a ha =>
      div_nonneg (by linarith) (by norm_num)
    have hC : ∀ a b : ℚ, -1 ≤ a → -1 ≤ b → (0 : ℚ) ≤ (a + b + 2) / (3 / 2) := fun a b ha hb =>
      div_nonneg (by linarith) (by norm_num)
    unfold bgIndex
    simp only
    by_cases c1 : patternType = "bg1".toList
    · rw [if_pos c1]; exact h1 _ (Int.floor_nonneg.2 (hhash _ _ _))
    rw [if_neg c1]
    by_cases c2 : patternType = "bg2".toList
    · rw [if_pos c2]
      exact h2 _ (Int.floor_nonneg.2 (mul_nonneg (add_nonneg (abs_nonneg _) (hsqrt _)) hn0))
    rw [if_neg c2]
    by_cases c3 : patternType = "bg3".toList
    · rw [if_pos c3]
      by_cases n2 : n = 2
      · rw [if_pos n2]; exact h1 _ (ite_one_zero_nonneg _)
      rw [if_neg n2]; exact h2 _ (Int.floor_nonneg.2 (hA _ (hsin _)))
    rw [if_neg c3]
    by_cases c4 : patternType = "bg4".toList
    · rw [if_pos c4]; exact h1 _ (Int.floor_nonneg.2 (hhash _ _ _))
    rw [if_neg c4]
    by_cases c5 : patternType = "bg5".toList
    · rw [if_pos c5]
      by_cases n2 : n = 2
      · rw [if_pos n2]; exact h1 _ (ite_one_zero_nonneg _)
      rw [if_neg n2]; exact h2 _ (Int.floor_nonneg.2 (hB _ (hsin _)))
    rw [if_neg c5]
    by_cases c6 : patternType = "bg6".toList
    · rw [if_pos c6]
      by_cases n2 : n = 2
      · rw [if_pos n2]; exact h1 _ (ite_one_zero_nonneg _)
      rw [if_neg n2]; exact h2 _ (Int.floor_nonneg.2 (hC _ _ (hsin _) (hcos _)))
    rw [if_neg c6]
    by_cases c7 : patternType = "bg7".toList
    · rw [if_pos c7]
      exact h2 _ (Int.floor_nonneg.2 (mul_nonneg (add_nonneg (hsqrt _)
        (mul_nonneg (bgHash_range M _ _ _).1 (by norm_num))) hn0))
    rw [if_neg c7, if_neg hne]
    by_cases c9 : patternType = "bg9".toList
    · rw [if_pos c9]
      by_cases n2 : n = 2
      · rw [if_pos n2]; exact h1 _ (ite_one_zero_nonneg _)
      rw [if_neg n2]; exact h2 _ (Int.floor_nonneg.2 (hA _ (hcos _)))
    rw [if_neg c9]
    by_cases c10 : patternType = "bg10".toList
    · rw [if_pos c10]
      by_cases n2 : n = 2
      · rw [if_pos n2]; exact h1 _ (ite_one_zero_nonneg _)
      rw [if_neg n2]
      by_cases v1 : bgHash M x y ⌊draw 0 * 1000⌋ / 4294967296 > 97 / 100
      · rw [if_pos v1]; exact h1 _ (by decide)
      rw [if_neg v1]
      by_cases v2 : bgHash M x y ⌊draw 0 * 1000⌋ / 4294967296 > 92 / 100
      · rw [if_pos v2]; exact h1 _ (by decide)
      rw [if_neg v2]; exact h1 _ (le_refl _)
    rw [if_neg c10]
    by_cases c11 : patternType = "bg11".toList
    · rw [if_pos c11]
      by_cases g : x % 8 = 0 ∨ y % 8 = 0
      · rw [if_pos g]; exact h2 _ (by decide)
      rw [if_neg g]; exact h1 _ (le_refl _)
    rw [if_neg c11]
    by_cases c12 : patternType = "bg12".toList
    · rw [if_pos c12]
      exact h2 _ (Int.floor_nonneg.2 (div_nonneg (Nat.cast_nonneg _)
        (div_nonneg (by norm_num) hn0)))
    rw [if_neg c12]
    by_cases c13 : patternType = "bg13".toList
    · rw [if_pos c13]
      by_cases g : (((x % 8 : Nat) : Int) - 4) * (((x % 8 : Nat) : Int) - 4)
          + (((y % 8 : Nat) : Int) - 4) * (((y % 8 : Nat) : Int) - 4) ≤ 4
      · rw [if_pos g]; exact h2 _ (by decide)
      rw [if_neg g]; exact h1 _ (le_refl _)
    rw [if_neg c13]
    exact h1 _ (le_refl _)
  exact key (fun o => ∃ v, o = some v ∧ 0 ≤ v) (fun v hv => ⟨v, rfl, hv⟩)
    (fun v hv => jsMod_nonneg v n hn hv)

/-- Colour-index bounding for the styles that keep it. On a platform whose sine and cosine
are at least -1 and whose square root is not negative, for every positive number `n` of
colours, every pixel and all `rng` values, the index `ci % n` that `patternBorder` (any
style) and `createBackgroundPattern` (any style but `bg8`) use to read `colors` is a
position of the array, and the colour read succeeds. -/
theorem colorIndex_bounded (M : JsMath) (hsin : ∀ t, -1 ≤ M.sin t) (hcos : ∀ t, -1 ≤ M.cos t)
    (hsqrt : ∀ q, 0 ≤ M.sqrt q) (colors : List Rgb) (hn : 1 ≤ colors.length) (x y : Nat) :
    (∀ (type : JsString) (draw : ℚ), ∃ i : Nat, i < colors.length ∧
      jsMod (patternIndex M type colors.length x y draw) colors.length = some (i : Int) ∧
      ∃ col, colors[i]? = some col ∧
        colorAt colors (jsMod (patternIndex M type colors.length x y draw) colors.length)
          = .ok col) ∧
    (∀ (patternType : JsString) (draw : Nat → ℚ), patternType ≠ "bg8".toList →
      ∃ i : Nat, i < colors.length ∧
      jsMod (bgIndex M patternType colors.length x y draw) colors.length = some (i : Int) ∧
      ∃ col, colors[i]? = some col ∧
        colorAt colors (jsMod (bgIndex M patternType colors.length x y draw) colors.length)
          = .ok col) := by
  have fin : ∀ ci : Option Int, (∃ v, ci = some v ∧ 0 ≤ v) →
      ∃ i : Nat, i < colors.length ∧ jsMod ci colors.length = some (i : Int) ∧
      ∃ col, colors[i]? = some col ∧ colorAt colors (jsMod ci colors.length) = .ok col := by
    intro ci h
    obtain ⟨v, hv, h0, hlt⟩ := jsMod_of_nonneg ci colors.length hn h
    obtain ⟨i, rfl⟩ := Int.eq_ofNat_of_zero_le h0
    have hi : i < colors.length := by exact_mod_cast hlt
    refine ⟨i, hi, hv, colors[i], List.getElem?_eq_getElem hi, ?_⟩
    rw [hv]
    show (match colors.get? i with
      | some col => Except.ok col
      | none => Except.error JsError.typeError) = _
    rw [List.get?_eq_getElem?, List.getElem?_eq_getElem hi]
  exact ⟨fun type draw => fin _ (patternIndex_nonneg M hsqrt type _ x y hn draw),
    fun patternType draw hne => fin _ (bgIndex_nonneg M hsin hcos hsqrt patternType hne _ x y hn draw)⟩

/-- With one colour style `bg8` reads `colors[0]` too: every remainder by 1 is 0. -/
theorem bgIndex_bg8_one (M : JsMath) (x y : Nat) (draw : Nat → ℚ) :
    jsMod (bgIndex M "bg8".toList 1 x y draw) 1 = some 0 := by
  unfold bgIndex
  rw [if_neg (by decide), if_neg (by decide), if_neg (by decide), if_neg (by decide),
    if_neg (by decide), if_neg (by decide), if_neg (by decide), if_pos rfl]
  simp [jsMod]

/-! ## Seeded generator -/

/-- The 32-bit wrap only depends on the value modulo `2^32`. -/
theorem toInt32_round (h h' : Int) (c : Int) (hh : toInt32 h = toInt32 h') :
    toInt32 (toInt32 (h * 32) - h + c) = toInt32 (31 * h' + c) ∧
    toInt32 (31 * h + c) = toInt32 (31 * h' + c) := by
  unfold toInt32 at *
  constructor <;> omega

/-- The loop of `createSeededRNG` computes the polynomial hash wrapped to 32 bits. -/
theorem seedHash_eq_polyHash (seed : JsString) : seedHash seed = toInt32 (polyHash seed) := by
  have key : ∀ (l : List Char) (h h' : Int), toInt32 h = h → h = toInt32 h' →
      l.foldl seedRound h = toInt32 (l.foldl (fun a ch => 31 * a + ch.toNat) h') := by
    intro l
    induction l with
    | nil => intro h h' _ h2; exact h2
    | cons ch rest ih =>
      intro h h' h1 h2
      simp only [List.foldl_cons]
      refine ih _ _ ?_ ?_
      · unfold seedRound toInt32; omega
      · unfold seedRound
        exact (toInt32_round h h' _ (h1.trans h2)).1
  exact key seed 0 0 (by decide) (by decide)

/-- A state in `0..233279` is followed by a state in `0..233279`. -/
theorem rngStep_range (h : Int) (h0 : 0 ≤ h) : 0 ≤ rngStep h ∧ rngStep h < 233280 := by
  unfold rngStep
  have hn : (0 : Int) ≤ h * 9301 + 49297 := by omega
  exact ⟨Int.tmod_nonneg _ hn, Int.tmod_lt_of_pos _ (by decide)⟩

/-- For a seed whose hash is not negative every state after a draw is in `0..233279`
and every value drawn is in `[0, 1)`. -/
theorem createSeededRNG_range_of_nonneg (seed : JsString) (h0 : 0 ≤ seedHash seed) (k : Nat) :
    (0 ≤ rngState seed (k + 1) ∧ rngState seed (k + 1) < 233280) ∧
    (0 ≤ createSeededRNG seed k ∧ createSeededRNG seed k < 1) := by
  have hstate : ∀ j, 0 ≤ rngState seed j := by
    intro j
    induction j with
    | zero => exact h0
    | succ j ih => exact (rngStep_range _ ih).1
  have hr := rngStep_range _ (hstate k)
  refine ⟨hr, ?_, ?_⟩
  · unfold createSeededRNG
    exact div_nonneg (by exact_mod_cast hr.1) (by norm_num)
  · unfold createSeededRNG
    rw [div_lt_one (by norm_num)]
    exact_mod_cast hr.2

/-- **C21** (failing input) The seeded generator leaves `[0, 1)`. For the seed `1z141z3`,
the base-36 text of `4294967295` that `generateSeed` returns for that random word, the
hash is the negative 32-bit number `-217350882`, the state after the first draw is
`-52025` and the first value returned is `-52025/233280`, which is negative; the
second and third are negative too. -/
theorem createSeededRNG_negative :
    seedHash "1z141z3".toList = -217350882 ∧
    rngState "1z141z3".toList 1 = -52025 ∧
    createSeededRNG "1z141z3".toList 0 = -52025 / 233280 ∧
    createSeededRNG "1z141z3".toList 0 < 0 ∧
    createSeededRNG "1z141z3".toList 1 < 0 ∧
    createSeededRNG "1z141z3".toList 2 < 0 := by
  have h0 : seedHash "1z141z3".toList = -217350882 := by decide
  have h1 : rngState "1z141z3".toList 1 = -52025 := by
    show rngStep (seedHash "1z141z3".toList) = _
    rw [h0]; decide
  have h2 : rngState "1z141z3".toList 2 = -12508 := by
    show rngStep (rngState "1z141z3".toList 1) = _
    rw [h1]; decide
  have h3 : rngState "1z141z3".toList 3 = -114171 := by
    show rngStep (rngState "1z141z3".toList 2) = _
    rw [h2]; decide
  refine ⟨h0, h1, ?_, ?_, ?_, ?_⟩
  · unfold createSeededRNG; rw [h1]; norm_num
  · unfold createSeededRNG; rw [h1]; norm_num
  · unfold createSeededRNG; rw [h2]; norm_num
  · unfold createSeededRNG; rw [h3]; norm_num

/-- **C22** (counterexample) The seed is not the sum of the character codes. The strings
`ab` and `ba` have the same sum of character codes, 195, but the initial states are
3105 and 3135, neither of them 195, and the first values drawn differ. -/
theorem seed_is_not_char_sum :
    charCodeSum "ab".toList = 195 ∧ charCodeSum "ba".toList = 195 ∧
    rngState "ab".toList 0 = 3105 ∧ rngState "ba".toList 0 = 3135 ∧
    createSeededRNG "ab".toList 0 = 2182 / 233280 ∧
    createSeededRNG "ba".toList 0 = 47932 / 233280 ∧
    createSeededRNG "ab".toList 0 ≠ createSeededRNG "ba".toList 0 := by
  have a0 : rngState "ab".toList 0 = 3105 := by decide
  have b0 : rngState "ba".toList 0 = 3135 := by decide
  have a1 : rngState "ab".toList 1 = 2182 := by
    show rngStep (rngState "ab".toList 0) = _
    rw [a0]; decide
  have b1 : rngState "ba".toList 1 = 47932 := by
    show rngStep (rngState "ba".toList 0) = _
    rw [b0]; decide
  refine ⟨by decide, by decide, a0, b0, ?_, ?_, ?_⟩
  · unfold createSeededRNG; rw [a1]; norm_num
  · unfold createSeededRNG; rw [b1]; norm_num
  · unfold createSeededRNG; rw [a1, b1]; norm_num

/-- **C22** (amended) `createSeededRNG` seeds its generator with the 32-bit hash of the
seed string: the state before the first draw is the polynomial
`c₀·31ⁿ⁻¹ + … + cₙ₋₁` of the character codes wrapped to a signed 32-bit integer, and
two seed strings with the same hash produce identical output streams. -/
theorem createSeededRNG_hash_seeded (s1 s2 : JsString) (h : seedHash s1 = seedHash s2) :
    rngState s1 0 = toInt32 (polyHash s1) ∧
    (-2147483648 ≤ rngState s1 0 ∧ rngState s1 0 < 2147483648) ∧
    (∀ k, rngState s1 k = rngState s2 k) ∧
    (∀ k, createSeededRNG s1 k = createSeededRNG s2 k) := by
  have hst : ∀ k, rngState s1 k = rngState s2 k := by
    intro k
    induction k with
    | zero => exact h
    | succ k ih => show rngStep _ = rngStep _; rw [ih]
  refine ⟨seedHash_eq_polyHash s1, ?_, hst, fun k => ?_⟩
  · show -2147483648 ≤ seedHash s1 ∧ seedHash s1 < 2147483648
    rw [seedHash_eq_polyHash]; unfold toInt32; omega
  · unfold createSeededRNG; rw [hst]

/-- **C22** (instance) The strings `Aa` and `BB` have the same hash, 2112. -/
theorem createSeededRNG_hash_seeded_witness :
    seedHash "Aa".toList = seedHash "BB".toList ∧
    rngState "Aa".toList 0 = toInt32 (polyHash "Aa".toList) ∧
    (-2147483648 ≤ rngState "Aa".toList 0 ∧ rngState "Aa".toList 0 < 2147483648) ∧
    (∀ k, rngState "Aa".toList k = rngState "BB".toList k) ∧
    (∀ k, createSeededRNG "Aa".toList k = createSeededRNG "BB".toList k) :=
  ⟨by decide, createSeededRNG_hash_seeded "Aa".toList "BB".toList (by decide)⟩

/-! ## Cycle compilation with a throwing generator (`layers.js`) -/

/-- **C13** (failing input) `recompileForCycle` throws when a generator call throws. If
the layer at position `i` is a generate layer whose `_generateCanvas` call throws `e`,
and the calls for the generate layers before it return, then `recompileForCycle` ends
with the error `e` instead of returning a buffer; the stack is left as it was. -/
theorem recompileForCycle_throws (P : Canvas2D)
    (gen : Nat → StackKind → Settings → Except JsError (Option ImageData)) (s : LayerStack)
    (i : Nat) (l : Layer) (e : JsError)
    (hl : s.layers[i]? = some l) (ht : l.type = .generate)
    (he : gen i s.kind l.settings = .error e)
    (hbefore : ∀ (j : Nat) (l' : Layer), j < i → s.layers[j]? = some l' →
      l'.type = .generate → ∃ r, gen j s.kind l'.settings = .ok r) :
    (recompileForCycle P gen s).2 = .error e ∧ (recompileForCycle P gen s).1 = s := by
  refine ⟨?_, rfl⟩
  exact cycleLayers_throws P gen s.kind s.layers 0 blankCanvas i l e hl ht
    (by rw [Nat.zero_add]; exact he)
    (fun j l' hj hl' ht' => by rw [Nat.zero_add]; exact hbefore j l' hj hl' ht')

/-- **C13** (instance) The stack `bg8Stack`: one generate layer of style `bg8` with the
default two colours of a background stack. With the seed `abc`, whose hash is not
negative, `_generateCanvas` throws a `TypeError` on the stand-in platform, and so does
`recompileForCycle`. -/
theorem recompileForCycle_throws_witness :
    ∃ l : Layer, bg8Stack.layers[0]? = some l ∧ l.type = .generate ∧
      l.settings.style = some "bg8".toList ∧ l.settings.colorCount = some 2 ∧
      _generateCanvas refCanvas refMath bg8Stack.kind l.settings "abc".toList
        = .error .typeError ∧
      (recompileForCycle refCanvas
        (fun _ kind s => _generateCanvas refCanvas refMath kind s "abc".toList) bg8Stack).2
        = .error .typeError ∧
      (recompileForCycle refCanvas
        (fun _ kind s => _generateCanvas refCanvas refMath kind s "abc".toList) bg8Stack).1
        = bg8Stack := by
  have hgen : _generateCanvas refCanvas refMath bg8Stack.kind
      (addLayer (LayerStack.new .background)
        { type := some .generate, settings := some { style := some "bg8".toList } }).2.settings
      "abc".toList = .error .typeError := by
    have hcol : _resolveColors (addLayer (LayerStack.new .background)
        { type := some .generate, settings := some { style := some "bg8".toList } }).2.settings
        = .ok [hexToRgb "#1a1a2e".toList, hexToRgb "#16213e".toList] := by decide
    have hthrow := bg8_typeError refMath
      [hexToRgb "#1a1a2e".toList, hexToRgb "#16213e".toList] (createSeededRNG "abc".toList)
      refMath_center_bounds.1 refMath_center_bounds.2
      (fun k => (createSeededRNG_range_of_nonneg "abc".toList (by decide) k).2) (Or.inl rfl)
    unfold _generateCanvas
    rw [hcol]
    show (createBackgroundPattern refMath _ "bg8".toList (createSeededRNG "abc".toList)).map some
      = _
    rw [hthrow]
    rfl
  obtain ⟨h1, h2⟩ := recompileForCycle_throws refCanvas
    (fun _ kind s => _generateCanvas refCanvas refMath kind s "abc".toList) bg8Stack 0
    (addLayer (LayerStack.new .background)
      { type := some .generate, settings := some { style := some "bg8".toList } }).2
    .typeError rfl rfl hgen (fun j l' hj => absurd hj (by omega))
  exact ⟨_, rfl, rfl, rfl, rfl, hgen, h1, h2⟩

/-! ## Rounding to doubles -/

theorem pow2_eq_zpow (e : Int) : pow2 e = (2 : ℚ) ^ e := by
  unfold pow2
  split
  · next h =>
    conv_rhs => rw [← Int.toNat_of_nonneg h]
    rw [zpow_natCast]; push_cast; rfl
  · next h =>
    have h' : (0 : Int) ≤ -e := by omega
    have : e = - ((-e).toNat : Int) := by rw [Int.toNat_of_nonneg h']; ring
    conv_rhs => rw [this]
    rw [zpow_neg, zpow_natCast]; push_cast; rw [one_div]

theorem pow2_pos (e : Int) : 0 < pow2 e := by
  rw [pow2_eq_zpow]; positivity

theorem pow2_succ (e : Int) : pow2 (e + 1) = 2 * pow2 e := by
  rw [pow2_eq_zpow, pow2_eq_zpow, zpow_add_one₀ (by norm_num)]; ring

theorem pow2_le_pow2 {a b : Int} (h : a ≤ b) : pow2 a ≤ pow2 b := by
  rw [pow2_eq_zpow, pow2_eq_zpow]
  exact zpow_le_zpow_right₀ (by norm_num) h

theorem pow2_lt_pow2_iff {a b : Int} : pow2 a < pow2 b ↔ a < b := by
  rw [pow2_eq_zpow, pow2_eq_zpow]
  exact zpow_lt_zpow_iff_right₀ (by norm_num)

theorem pow2_split (e : Int) : pow2 e = 2 ^ 52 * pow2 (e - 52) := by
  rw [pow2_eq_zpow, pow2_eq_zpow, zpow_sub₀ (by norm_num : (2 : ℚ) ≠ 0)]
  field_simp
  ring

theorem bitLength_zero (fuel : Nat) : bitLength fuel 0 = 0 := by
  cases fuel <;> simp [bitLength]

theorem bitLength_spec : ∀ (fuel n : Nat), n < 2 ^ fuel →
    n < 2 ^ bitLength fuel n ∧ (0 < n → 2 ^ bitLength fuel n ≤ 2 * n) := by
  intro fuel
  induction fuel with
  | zero =>
    intro n hn
    have : n = 0 := by simpa using hn
    subst this
    simp [bitLength]
  | succ fuel ih =>
    intro n hn
    by_cases h0 : n = 0
    · subst h0; simp [bitLength]
    · have hhalf : n / 2 < 2 ^ fuel := by
        rw [pow_succ] at hn; omega
      obtain ⟨h1, h2⟩ := ih (n / 2) hhalf
      simp only [bitLength, if_neg h0]
      rw [pow_succ]
      refine ⟨by omega, fun _ => ?_⟩
      by_cases hz : n / 2 = 0
      · rw [hz, bitLength_zero]; omega
      · have := h2 (by omega); omega

/-- The binary exponent brackets a positive number. -/
theorem binExp_spec (q : ℚ) (hq : 0 < q) :
    pow2 (binExp q) ≤ q ∧ q < pow2 (binExp q + 1) := by
  have hnum : 0 < q.num := Rat.num_pos.mpr hq
  obtain ⟨n, hn⟩ : ∃ n : Nat, q.num = n := ⟨q.num.toNat, (Int.toNat_of_nonneg hnum.le).symm⟩
  have hn0 : 0 < n := by omega
  have hd0 : 0 < q.den := q.den_pos
  have hq' : q = (n : ℚ) / (q.den : ℚ) := by
    conv_lhs => rw [← Rat.num_div_den q, hn]
    push_cast; rfl
  have htn : q.num.toNat = n := by omega
  unfold binExp
  simp only [htn]
  generalize q.den = d at *
  obtain ⟨a1, a2⟩ := bitLength_spec n n (Nat.lt_two_pow n)
  obtain ⟨b1, b2⟩ := bitLength_spec d d (Nat.lt_two_pow d)
  have a2 := a2 hn0
  have b2 := b2 hd0
  have hnq : (0 : ℚ) < n := by exact_mod_cast hn0
  have hdq : (0 : ℚ) < d := by exact_mod_cast hd0
  have a1q : (n : ℚ) < 2 ^ bitLength n n := by exact_mod_cast a1
  have a2q : (2 : ℚ) ^ bitLength n n ≤ 2 * n := by exact_mod_cast a2
  have b1q : (d : ℚ) < 2 ^ bitLength d d := by exact_mod_cast b1
  have b2q : (2 : ℚ) ^ bitLength d d ≤ 2 * d := by exact_mod_cast b2
  have hk : pow2 ((bitLength n n : Int) - (bitLength d d : Int))
      = (2 : ℚ) ^ bitLength n n / 2 ^ bitLength d d := by
    rw [pow2_eq_zpow, zpow_sub₀ (by norm_num), zpow_natCast, zpow_natCast]
  have hA : (0 : ℚ) < 2 ^ bitLength n n := by positivity
  have hB : (0 : ℚ) < 2 ^ bitLength d d := by positivity
  -- `2^(k-1) ≤ q < 2^(k+1)`
  have hlow : pow2 ((bitLength n n : Int) - (bitLength d d : Int) - 1) ≤ q := by
    have : pow2 ((bitLength n n : Int) - (bitLength d d : Int))
        = 2 * pow2 ((bitLength n n : Int) - (bitLength d d : Int) - 1) := by
      rw [← pow2_succ]; congr 1; ring
    have h2 : pow2 ((bitLength n n : Int) - (bitLength d d : Int)) ≤ 2 * q := by
      rw [hk, hq', div_le_iff₀ hB]
      calc (2 : ℚ) ^ bitLength n n ≤ 2 * n := a2q
        _ = 2 * (n / d) * d := by field_simp
        _ ≤ 2 * (n / d) * 2 ^ bitLength d d := by
          apply mul_le_mul_of_nonneg_left b1q.le; positivity
    linarith
  have hhigh : q < pow2 ((bitLength n n : Int) - (bitLength d d : Int) + 1) := by
    rw [pow2_succ, hk, hq', div_lt_iff₀ hdq]
    calc (n : ℚ) < 2 ^ bitLength n n := a1q
      _ = 2 ^ bitLength n n / 2 ^ bitLength d d * 2 ^ bitLength d d := by
        field_simp
      _ ≤ 2 ^ bitLength n n / 2 ^ bitLength d d * (2 * d) := by
        apply mul_le_mul_of_nonneg_left b2q; positivity
      _ = 2 * (2 ^ bitLength n n / 2 ^ bitLength d d) * d := by ring
  split
  · next h => exact ⟨h, hhigh⟩
  · next h =>
    refine ⟨hlow, ?_⟩
    rw [sub_add_cancel]
    exact lt_of_not_le h

/-- The binary exponent is the only exponent that brackets the number. -/
theorem binExp_unique (q : ℚ) (e : Int) (h1 : pow2 e ≤ q) (h2 : q < pow2 (e + 1)) :
    binExp q = e := by
  have hq : 0 < q := lt_of_lt_of_le (pow2_pos e) h1
  obtain ⟨s1, s2⟩ := binExp_spec q hq
  have r1 : binExp q < e + 1 := pow2_lt_pow2_iff.mp (lt_of_le_of_lt s1 h2)
  have r2 : e < binExp q + 1 := pow2_lt_pow2_iff.mp (lt_of_le_of_lt h1 s2)
  omega

theorem roundHalfEven_sub (m : ℚ) :
    (roundHalfEven m : ℚ) - m ≤ 1 / 2 ∧ m - (roundHalfEven m : ℚ) ≤ 1 / 2 := by
  have h1 := Int.floor_le m
  have h2 := Int.lt_floor_add_one m
  unfold roundHalfEven
  split
  · constructor <;> linarith
  · split
    · push_cast; constructor <;> linarith
    · split
      · constructor <;> linarith
      · push_cast; constructor <;> linarith

theorem roundHalfEven_mono {a b : ℚ} (h : a ≤ b) : roundHalfEven a ≤ roundHalfEven b := by
  rcases h.lt_or_eq with h | h
  · have ha := (roundHalfEven_sub a).1
    have hb := (roundHalfEven_sub b).2
    have : (roundHalfEven a : ℚ) < roundHalfEven b + 1 := by linarith
    have : roundHalfEven a < roundHalfEven b + 1 := by exact_mod_cast this
    omega
  · rw [h]

theorem roundHalfEven_intCast (n : Int) : roundHalfEven (n : ℚ) = n := by
  unfold roundHalfEven
  rw [Int.floor_intCast]
  simp

/-- The scaled significand of a positive number lies between `2^52` and `2^53`. -/
theorem significand_range (q : ℚ) (hq : 0 < q) :
    (2 : ℚ) ^ 52 ≤ q / pow2 (binExp q - 52) ∧ q / pow2 (binExp q - 52) < 2 ^ 53 := by
  obtain ⟨s1, s2⟩ := binExp_spec q hq
  have hu := pow2_pos (binExp q - 52)
  have e1 : pow2 (binExp q) = 2 ^ 52 * pow2 (binExp q - 52) := by
    exact pow2_split _
  have e2 : pow2 (binExp q + 1) = 2 ^ 53 * pow2 (binExp q - 52) := by
    rw [pow2_succ, e1]; ring
  rw [le_div_iff₀ hu, div_lt_iff₀ hu]
  exact ⟨by rw [← e1]; exact s1, by rw [← e2]; exact s2⟩

/-- Rounding keeps a positive number inside its binade and moves it by at most half a
unit in the last place. -/
theorem roundPos_spec (q : ℚ) (hq : 0 < q) :
    pow2 (binExp q) ≤ roundPos q ∧ roundPos q ≤ pow2 (binExp q + 1) ∧
    roundPos q - q ≤ pow2 (binExp q - 52) / 2 ∧ q - roundPos q ≤ pow2 (binExp q - 52) / 2 := by
  obtain ⟨m1, m2⟩ := significand_range q hq
  have hu := pow2_pos (binExp q - 52)
  have e1 : pow2 (binExp q) = 2 ^ 52 * pow2 (binExp q - 52) := by
    exact pow2_split _
  have e2 : pow2 (binExp q + 1) = 2 ^ 53 * pow2 (binExp q - 52) := by
    rw [pow2_succ, e1]; ring
  have r1 : (2 : Int) ^ 52 ≤ roundHalfEven (q / pow2 (binExp q - 52)) := by
    have := roundHalfEven_mono m1
    have c : ((2 : ℚ) ^ 52) = (((2 : Int) ^ 52 : Int) : ℚ) := by norm_num
    rw [c, roundHalfEven_intCast] at this
    exact this
  have r2 : roundHalfEven (q / pow2 (binExp q - 52)) ≤ (2 : Int) ^ 53 := by
    have := roundHalfEven_mono m2.le
    have c : ((2 : ℚ) ^ 53) = (((2 : Int) ^ 53 : Int) : ℚ) := by norm_num
    rw [c, roundHalfEven_intCast] at this
    exact this
  have r1q : (2 : ℚ) ^ 52 ≤ (roundHalfEven (q / pow2 (binExp q - 52)) : ℚ) := by
    exact_mod_cast r1
  have r2q : (roundHalfEven (q / pow2 (binExp q - 52)) : ℚ) ≤ (2 : ℚ) ^ 53 := by
    exact_mod_cast r2
  obtain ⟨d1, d2⟩ := roundHalfEven_sub (q / pow2 (binExp q - 52))
  have hq' : q = q / pow2 (binExp q - 52) * pow2 (binExp q - 52) := by field_simp
  unfold roundPos
  refine ⟨?_, ?_, ?_, ?_⟩
  · rw [e1]; exact mul_le_mul_of_nonneg_right r1q hu.le
  · rw [e2]; exact mul_le_mul_of_nonneg_right r2q hu.le
  · have := mul_le_mul_of_nonneg_right d1 hu.le
    nlinarith [hq']
  · have := mul_le_mul_of_nonneg_right d2 hu.le
    nlinarith [hq']

theorem toDouble_pos {q : ℚ} (hq : 0 < q) : 0 < toDouble q := by
  unfold toDouble
  rw [if_pos hq]
  exact lt_of_lt_of_le (pow2_pos _) (roundPos_spec q hq).1

theorem toDouble_neg (q : ℚ) : toDouble (-q) = - toDouble q := by
  unfold toDouble
  rcases lt_trichotomy q 0 with h | h | h
  · rw [if_pos (by linarith : 0 < -q), if_neg (by linarith : ¬ 0 < q), if_pos h]
    simp
  · subst h; simp
  · rw [if_neg (by linarith : ¬ 0 < -q), if_pos (by linarith : -q < 0), if_pos h]
    simp

theorem toDouble_zero : toDouble 0 = 0 := by
  simp [toDouble]

theorem toDouble_nonneg {q : ℚ} (hq : 0 ≤ q) : 0 ≤ toDouble q := by
  rcases hq.lt_or_eq with h | h
  · exact (toDouble_pos h).le
  · rw [← h, toDouble_zero]

theorem toDouble_mono_pos {a b : ℚ} (ha : 0 < a) (h : a ≤ b) : toDouble a ≤ toDouble b := by
  have hb : 0 < b := lt_of_lt_of_le ha h
  unfold toDouble
  rw [if_pos ha, if_pos hb]
  obtain ⟨a1, a2⟩ := binExp_spec a ha
  obtain ⟨b1, b2⟩ := binExp_spec b hb
  have hlt : binExp a < binExp b + 1 :=
    pow2_lt_pow2_iff.mp (lt_of_le_of_lt a1 (lt_of_le_of_lt h b2))
  rcases (show binExp a = binExp b ∨ binExp a + 1 ≤ binExp b by omega) with he | he
  · unfold roundPos
    rw [he]
    have hu := pow2_pos (binExp b - 52)
    apply mul_le_mul_of_nonneg_right _ hu.le
    have : roundHalfEven (a / pow2 (binExp b - 52)) ≤ roundHalfEven (b / pow2 (binExp b - 52)) :=
      roundHalfEven_mono (div_le_div_of_nonneg_right h hu.le)
    exact_mod_cast this
  · exact le_trans (roundPos_spec a ha).2.1
      (le_trans (pow2_le_pow2 he) (roundPos_spec b hb).1)

/-- Rounding to doubles is monotone. -/
theorem toDouble_mono {a b : ℚ} (h : a ≤ b) : toDouble a ≤ toDouble b := by
  rcases lt_trichotomy a 0 with ha | ha | ha
  · rcases lt_or_le b 0 with hb | hb
    · have := toDouble_mono_pos (by linarith : 0 < -b) (by linarith : -b ≤ -a)
      rw [toDouble_neg, toDouble_neg] at this
      linarith
    · have h1 := toDouble_pos (by linarith : 0 < -a)
      rw [toDouble_neg] at h1
      have h2 := toDouble_nonneg hb
      linarith
  · subst ha
    rw [toDouble_zero]
    exact toDouble_nonneg h
  · exact toDouble_mono_pos ha h

/-- A number with a significand of at most 53 bits is a double. -/
theorem toDouble_scaled (n e : Int) (h1 : 2 ^ 52 ≤ n) (h2 : n < 2 ^ 53) :
    toDouble (n * pow2 (e - 52)) = n * pow2 (e - 52) := by
  have hu := pow2_pos (e - 52)
  have e1 : pow2 e = 2 ^ 52 * pow2 (e - 52) := by
    exact pow2_split _
  have e2 : pow2 (e + 1) = 2 ^ 53 * pow2 (e - 52) := by
    rw [pow2_succ, e1]; ring
  have h1q : (2 : ℚ) ^ 52 ≤ (n : ℚ) := by exact_mod_cast h1
  have h2q : (n : ℚ) < (2 : ℚ) ^ 53 := by exact_mod_cast h2
  have hpos : 0 < (n : ℚ) * pow2 (e - 52) := mul_pos (by linarith [show (0:ℚ) < 2 ^ 52 by norm_num]) hu
  have hexp : binExp ((n : ℚ) * pow2 (e - 52)) = e := by
    apply binExp_unique
    · rw [e1]; exact mul_le_mul_of_nonneg_right h1q hu.le
    · rw [e2]; exact mul_lt_mul_of_pos_right h2q hu
  unfold toDouble
  rw [if_pos hpos]
  unfold roundPos
  rw [hexp, mul_div_assoc, div_self hu.ne', mul_one, roundHalfEven_intCast]

/-- Rounding twice is rounding once. -/
theorem toDouble_idem (q : ℚ) : toDouble (toDouble q) = toDouble q := by
  have key : ∀ q : ℚ, 0 < q → toDouble (toDouble q) = toDouble q := by
    intro q hq
    obtain ⟨m1, m2⟩ := significand_range q hq
    have r1 : (2 : Int) ^ 52 ≤ roundHalfEven (q / pow2 (binExp q - 52)) := by
      have := roundHalfEven_mono m1
      have c : ((2 : ℚ) ^ 52) = (((2 : Int) ^ 52 : Int) : ℚ) := by norm_num
      rw [c, roundHalfEven_intCast] at this
      exact this
    have r2 : roundHalfEven (q / pow2 (binExp q - 52)) ≤ (2 : Int) ^ 53 := by
      have := roundHalfEven_mono m2.le
      have c : ((2 : ℚ) ^ 53) = (((2 : Int) ^ 53 : Int) : ℚ) := by norm_num
      rw [c, roundHalfEven_intCast] at this
      exact this
    have hval : toDouble q
        = roundHalfEven (q / pow2 (binExp q - 52)) * pow2 (binExp q - 52) := by
      unfold toDouble; rw [if_pos hq]; rfl
    rw [hval]
    rcases r2.lt_or_eq with h | h
    · exact toDouble_scaled _ _ r1 h
    · rw [h]
      have : (((2 : Int) ^ 53 : Int) : ℚ) * pow2 (binExp q - 52)
          = (((2 : Int) ^ 52 : Int) : ℚ) * pow2 (binExp q + 1 - 52) := by
        have : binExp q + 1 - 52 = binExp q - 52 + 1 := by ring
        rw [this, pow2_succ]; push_cast; ring
      rw [this]
      exact toDouble_scaled _ _ (le_refl _) (by norm_num)
  rcases lt_trichotomy q 0 with h | h | h
  · have := key (-q) (by linarith)
    rw [toDouble_neg, toDouble_neg] at this
    linarith
  · subst h; rw [toDouble_zero, toDouble_zero]
  · exact key q h

/-- An upper bound that is a double survives rounding. -/
theorem toDouble_le_of_le {q d : ℚ} (hd : toDouble d = d) (h : q ≤ d) : toDouble q ≤ d := by
  rw [← hd]; exact toDouble_mono h

/-- A lower bound that is a double survives rounding. -/
theorem le_toDouble_of_le {q d : ℚ} (hd : toDouble d = d) (h : d ≤ q) : d ≤ toDouble q := by
  rw [← hd]; exact toDouble_mono h

/-- The relative error of rounding a positive number is at most `2^-53`. -/
theorem toDouble_error (q : ℚ) (hq : 0 < q) :
    toDouble q ≤ q * (1 + 1 / 2 ^ 53) ∧ q * (1 - 1 / 2 ^ 53) ≤ toDouble q := by
  obtain ⟨_, _, d1, d2⟩ := roundPos_spec q hq
  obtain ⟨s1, _⟩ := binExp_spec q hq
  have e1 : pow2 (binExp q) = 2 ^ 52 * pow2 (binExp q - 52) := by
    exact pow2_split _
  have hval : toDouble q = roundPos q := by unfold toDouble; rw [if_pos hq]
  rw [hval]
  have hu : pow2 (binExp q - 52) / 2 ≤ q / 2 ^ 53 := by
    rw [e1] at s1
    rw [le_div_iff₀ (by norm_num)]
    linarith
  constructor <;> linarith

/-! ## Center placement (`imageUtils.js`) -/

/-- The offsets and sizes of `drawSourceOnCanvas` are exact for a drawn size between 0 and
64: the difference from 64, its half and the products with `scale = 64 / 64` are doubles. -/
theorem placement_exact_nat : ∀ n : Nat, n < 65 →
    fmul (((⌊fdiv (fsub 64 (n : ℚ)) 2⌋ : ℤ) : ℚ)) (fdiv 64 64)
      = ((⌊((64 : ℚ) - (n : ℚ)) / 2⌋ : ℤ) : ℚ) ∧
    fmul (n : ℚ) (fdiv 64 64) = (n : ℚ) := by
  decide!

theorem placement_exact (d : Int) (h0 : 0 ≤ d) (h64 : d ≤ 64) :
    fmul (((⌊fdiv (fsub 64 (d : ℚ)) 2⌋ : ℤ) : ℚ)) (fdiv 64 64)
      = ((⌊((64 : ℚ) - (d : ℚ)) / 2⌋ : ℤ) : ℚ) ∧
    fmul (d : ℚ) (fdiv 64 64) = (d : ℚ) := by
  obtain ⟨n, rfl⟩ := Int.eq_ofNat_of_zero_le h0
  have hn : n < 65 := by omega
  have := placement_exact_nat n hn
  push_cast
  exact this

/-- The product of a side with a ratio of at most `64 / side`, both rounded, does not
exceed 64. -/
theorem fmul_ratio_le (w : Nat) (hw : 1 ≤ w) (r : ℚ) (hr0 : 0 ≤ r) (hr : r ≤ fdiv 64 (w : ℚ)) :
    0 ≤ fmul (w : ℚ) r ∧ fmul (w : ℚ) r ≤ 64 := by
  have hwq : (1 : ℚ) ≤ (w : ℚ) := by exact_mod_cast hw
  have hpos : (0 : ℚ) < 64 / (w : ℚ) := by positivity
  have herr := (toDouble_error (64 / (w : ℚ)) hpos).1
  have h64 : toDouble (64 + 1 / 2 ^ 47) = 64 := by decide!
  constructor
  · exact toDouble_nonneg (mul_nonneg (by linarith) hr0)
  · unfold fmul
    rw [← h64]
    apply toDouble_mono
    have h1 : (w : ℚ) * r ≤ (w : ℚ) * (64 / (w : ℚ) * (1 + 1 / 2 ^ 53)) :=
      mul_le_mul_of_nonneg_left (le_trans hr herr) (by linarith)
    have h2 : (w : ℚ) * (64 / (w : ℚ) * (1 + 1 / 2 ^ 53)) = 64 + 1 / 2 ^ 47 := by
      field_simp; ring
    linarith

/-- The product of a side with the rounded ratio `64 / side` is at least `64 - 2^-47`. -/
theorem fmul_ratio_ge (w : Nat) (hw : 1 ≤ w) : 63 ≤ fmul (w : ℚ) (fdiv 64 (w : ℚ)) := by
  have hwq : (1 : ℚ) ≤ (w : ℚ) := by exact_mod_cast hw
  have hpos : (0 : ℚ) < 64 / (w : ℚ) := by positivity
  have herr := (toDouble_error (64 / (w : ℚ)) hpos).2
  have h64 : toDouble (64 - 1 / 2 ^ 47) = 64 - 1 / 2 ^ 47 := by decide!
  have h1 : (w : ℚ) * (64 / (w : ℚ) * (1 - 1 / 2 ^ 53)) ≤ (w : ℚ) * fdiv 64 (w : ℚ) :=
    mul_le_mul_of_nonneg_left herr (by linarith)
  have h2 : (w : ℚ) * (64 / (w : ℚ) * (1 - 1 / 2 ^ 53)) = 64 - 1 / 2 ^ 47 := by
    field_simp; ring
  have h3 : (64 : ℚ) - 1 / 2 ^ 47 ≤ fmul (w : ℚ) (fdiv 64 (w : ℚ)) := by
    unfold fmul
    rw [← h64]
    apply toDouble_mono
    linarith
  have : (63 : ℚ) ≤ 64 - 1 / 2 ^ 47 := by norm_num
  linarith

/-- **C23** (failing input) Center placement leaves the longer side one pixel short. A
98×98 source is drawn 63×63 at offset `(0, 0)` and a 196×98 source 63×31 at offset
`(0, 16)`: the quotient `64 / 98` is rounded down to a double, so the product with 98
is the double just below 64, and `Math.floor` gives 63. In exact arithmetic
`⌊98 · min(64/98, 64/98)⌋` is 64 and the 196×98 source would be drawn 64×32. -/
theorem center_placement_short :
    placementRect ⟨98, 98, []⟩ 64 64 .center = (0, 0, 63, 63) ∧
    placementRect ⟨196, 98, []⟩ 64 64 .center = (0, 16, 63, 31) ∧
    fdiv 64 98 < 64 / 98 ∧
    fmul 98 (fdiv 64 98) = 64 - 1 / 2 ^ 47 ∧
    ⌊(98 : ℚ) * min (64 / 98) (64 / 98)⌋ = 64 ∧
    ⌊(196 : ℚ) * min (64 / 196) (64 / 98)⌋ = 64 ∧
    ⌊(98 : ℚ) * min (64 / 196) (64 / 98)⌋ = 32 := by
  decide!

/-- Center placement never upscales and stays on the canvas. For a source of size
`w × h` with `w, h ≥ 1` drawn in mode `center` on the 64×64 canvas, the target rectangle
is `(⌊(64-dw)/2⌋, ⌊(64-dh)/2⌋, dw, dh)` with integers `dw, dh`: if `w ≤ 64` and `h ≤ 64`
they are `w` and `h`; otherwise they are `⌊w·r⌋` and `⌊h·r⌋` with `r` the smaller of the
doubles `64/w` and `64/h`, the products being rounded to doubles, and the larger of
the two is 63 or 64. In both cases both sides are at most 64, the offsets are not
negative and the rectangle lies inside the canvas. A 128×128 source is drawn at
`(0, 0)` with size 64×64. -/
theorem center_placement_within (img : SourceImg) (hw : 1 ≤ img.width) (hh : 1 ≤ img.height) :
    ∃ dw dh : Int,
      placementRect img 64 64 .center
        = (((⌊((64 : ℚ) - dw) / 2⌋ : Int) : ℚ), ((⌊((64 : ℚ) - dh) / 2⌋ : Int) : ℚ),
            (dw : ℚ), (dh : ℚ)) ∧
      (img.width ≤ 64 ∧ img.height ≤ 64 → dw = img.width ∧ dh = img.height) ∧
      (¬ (img.width ≤ 64 ∧ img.height ≤ 64) →
        dw = ⌊fmul (img.width : ℚ) (min (fdiv 64 (img.width : ℚ)) (fdiv 64 (img.height : ℚ)))⌋ ∧
        dh = ⌊fmul (img.height : ℚ) (min (fdiv 64 (img.width : ℚ)) (fdiv 64 (img.height : ℚ)))⌋ ∧
        (max dw dh = 63 ∨ max dw dh = 64)) ∧
      (0 ≤ dw ∧ dw ≤ 64 ∧ 0 ≤ dh ∧ dh ≤ 64) ∧
      (0 ≤ ⌊((64 : ℚ) - dw) / 2⌋ ∧ ⌊((64 : ℚ) - dw) / 2⌋ + dw ≤ 64) ∧
      (0 ≤ ⌊((64 : ℚ) - dh) / 2⌋ ∧ ⌊((64 : ℚ) - dh) / 2⌋ + dh ≤ 64) ∧
      (img.width = 128 → img.height = 128 →
        placementRect img 64 64 .center = (0, 0, 64, 64)) := by
  have hwq : (1 : ℚ) ≤ (img.width : ℚ) := by exact_mod_cast hw
  have hhq : (1 : ℚ) ≤ (img.height : ℚ) := by exact_mod_cast hh
  have hoff : ∀ d : Int, 0 ≤ d → d ≤ 64 →
      0 ≤ ⌊((64 : ℚ) - d) / 2⌋ ∧ ⌊((64 : ℚ) - d) / 2⌋ + d ≤ 64 := by
    intro d h0 h64
    have h0q : (0 : ℚ) ≤ (d : ℚ) := by exact_mod_cast h0
    have h64q : (d : ℚ) ≤ 64 := by exact_mod_cast h64
    constructor
    · exact Int.floor_nonneg.2 (by linarith)
    · have hfl := Int.floor_le (((64 : ℚ) - d) / 2)
      have : ((⌊((64 : ℚ) - d) / 2⌋ + d : Int) : ℚ) ≤ ((64 : Int) : ℚ) := by
        push_cast; linarith
      exact_mod_cast this
  have hrect : ∀ dw dh : Int, 0 ≤ dw → dw ≤ 64 → 0 ≤ dh → dh ≤ 64 →
      (fmul (((⌊fdiv (fsub 64 (dw : ℚ)) 2⌋ : ℤ) : ℚ)) (fdiv 64 64),
        fmul (((⌊fdiv (fsub 64 (dh : ℚ)) 2⌋ : ℤ) : ℚ)) (fdiv 64 64),
        fmul (dw : ℚ) (fdiv 64 64), fmul (dh : ℚ) (fdiv 64 64))
      = (((⌊((64 : ℚ) - dw) / 2⌋ : Int) : ℚ), ((⌊((64 : ℚ) - dh) / 2⌋ : Int) : ℚ),
            (dw : ℚ), (dh : ℚ)) := by
    intro dw dh a1 a2 b1 b2
    obtain ⟨p1, p2⟩ := placement_exact dw a1 a2
    obtain ⟨q1, q2⟩ := placement_exact dh b1 b2
    rw [p1, p2, q1, q2]
  by_cases hsmall : img.width ≤ 64 ∧ img.height ≤ 64
  · have hc : ¬ ((img.width : ℚ) > 64 ∨ (img.height : ℚ) > 64) := by
      rintro (h | h)
      · have : (img.width : ℚ) ≤ 64 := by exact_mod_cast hsmall.1
        linarith
      · have : (img.height : ℚ) ≤ 64 := by exact_mod_cast hsmall.2
        linarith
    refine ⟨img.width, img.height, ?_, fun _ => ⟨rfl, rfl⟩, fun h => absurd hsmall h,
      ⟨by omega, by omega, by omega, by omega⟩, hoff _ (by omega) (by omega),
      hoff _ (by omega) (by omega), fun e1 => by omega⟩
    simp only [placementRect, if_neg hc]
    have := hrect img.width img.height (by omega) (by omega) (by omega) (by omega)
    push_cast at this ⊢
    exact this
  · have hc : (img.width : ℚ) > 64 ∨ (img.height : ℚ) > 64 := by
      by_contra hn
      push_neg at hn
      apply hsmall
      exact ⟨by exact_mod_cast hn.1, by exact_mod_cast hn.2⟩
    set r : ℚ := min (fdiv 64 (img.width : ℚ)) (fdiv 64 (img.height : ℚ)) with hr
    have hr0 : 0 ≤ r := by
      rw [hr]
      exact le_min (toDouble_nonneg (by positivity)) (toDouble_nonneg (by positivity))
    obtain ⟨w0, w64⟩ := fmul_ratio_le img.width hw r hr0 (min_le_left _ _)
    obtain ⟨h0, h64⟩ := fmul_ratio_le img.height hh r hr0 (min_le_right _ _)
    have fw0 : 0 ≤ ⌊fmul (img.width : ℚ) r⌋ := Int.floor_nonneg.mpr w0
    have fh0 : 0 ≤ ⌊fmul (img.height : ℚ) r⌋ := Int.floor_nonneg.mpr h0
    have fw64 : ⌊fmul (img.width : ℚ) r⌋ ≤ 64 := by
      have := Int.floor_le_floor w64
      rwa [show ⌊(64 : ℚ)⌋ = 64 from Int.floor_intCast 64] at this
    have fh64 : ⌊fmul (img.height : ℚ) r⌋ ≤ 64 := by
      have := Int.floor_le_floor h64
      rwa [show ⌊(64 : ℚ)⌋ = 64 from Int.floor_intCast 64] at this
    have hmax : 63 ≤ max ⌊fmul (img.width : ℚ) r⌋ ⌊fmul (img.height : ℚ) r⌋ := by
      rcases le_total (img.height : ℚ) (img.width : ℚ) with hle | hle
      · have hrw : r = fdiv 64 (img.width : ℚ) := by
          rw [hr]
          apply min_eq_left
          apply toDouble_mono
          exact div_le_div_of_nonneg_left (by norm_num) (by linarith) hle
        have := fmul_ratio_ge img.width hw
        rw [← hrw] at this
        exact le_max_of_le_left (Int.le_floor.mpr (by exact_mod_cast this))
      · have hrw : r = fdiv 64 (img.height : ℚ) := by
          rw [hr]
          apply min_eq_right
          apply toDouble_mono
          exact div_le_div_of_nonneg_left (by norm_num) (by linarith) hle
        have := fmul_ratio_ge img.height hh
        rw [← hrw] at this
        exact le_max_of_le_right (Int.le_floor.mpr (by exact_mod_cast this))
    have hmax64 : max ⌊fmul (img.width : ℚ) r⌋ ⌊fmul (img.height : ℚ) r⌋ ≤ 64 :=
      max_le fw64 fh64
    refine ⟨⌊fmul (img.width : ℚ) r⌋, ⌊fmul (img.height : ℚ) r⌋, ?_, fun h => absurd h hsmall,
      fun _ => ⟨rfl, rfl, by omega⟩, ⟨fw0, fw64, fh0, fh64⟩, hoff _ fw0 fw64, hoff _ fh0 fh64, ?_⟩
    · simp only [placementRect, if_pos hc]
      exact hrect _ _ fw0 fw64 fh0 fh64
    · intro e1 e2
      have e : img = ⟨128, 128, img.pixels⟩ := by
        cases img; simp only at e1 e2; subst e1; subst e2; rfl
      rw [e]
      have : ∀ px : List Pixel, placementRect ⟨128, 128, px⟩ 64 64 .center = (0, 0, 64, 64) := by
        intro px
        show placementRect ⟨128, 128, []⟩ 64 64 .center = (0, 0, 64, 64)
        decide!
      exact this _

/-! ## Flat background styles (`backgrounds.js`) -/

/-- Indexed invariant rule for a throwing loop with step 1 that starts at 0: if every
iteration succeeds and carries the invariant from `k` to `k + 1`, the loop succeeds and
ends with the invariant at `n`. -/
theorem forLoopE_range_inv {σ : Type} (I : Nat → σ → Prop) (n : Nat)
    (body : σ → Nat → Except JsError σ) (init : σ) (h0 : I 0 init)
    (hstep : ∀ k s, k < n → I k s → ∃ s', body s k = .ok s' ∧ I (k + 1) s') :
    ∃ s, forLoopE 0 n 1 body init = .ok s ∧ I n s := by
  have key : ∀ (m a : Nat) (s : σ), a + m = n → I a s →
      ∃ s', (List.range' a m 1).foldlM body s = .ok s' ∧ I n s' := by
    intro m
    induction m with
    | zero =>
      intro a s ha hI
      exact ⟨s, rfl, by rw [← ha]; exact hI⟩
    | succ m ih =>
      intro a s ha hI
      obtain ⟨s1, hb, hI1⟩ := hstep a s (by omega) hI
      obtain ⟨s2, hf, hI2⟩ := ih (a + 1) s1 (by omega) hI1
      refine ⟨s2, ?_, hI2⟩
      rw [List.range'_succ, List.foldlM_cons, hb]
      exact hf
  have hcount : (n - 0 + 1 - 1) / 1 = n := by simp
  unfold forLoopE
  rw [hcount]
  exact key n 0 init (by omega) h0

/-- The index of styles `bg1`, `bg4` and `bg10` is 0 for one to three colours: the hash
lies in `[0, 1)`, so its quotient by `4294967296`, times `n`, is below 1 and below
0.92. -/
theorem bgIndex_flat (M : JsMath) (patternType : JsString)
    (hs : patternType ∈ ["bg1".toList, "bg4".toList, "bg10".toList])
    (n : Nat) (hn : n ≤ 3) (x y : Nat) (draw : Nat → ℚ) :
    bgIndex M patternType n x y draw = some 0 := by
  have hnq : (0 : ℚ) ≤ (n : ℚ) ∧ (n : ℚ) ≤ 3 := ⟨Nat.cast_nonneg n, by exact_mod_cast hn⟩
  have hfloor : ∀ a b s : ℚ, ⌊bgHash M a b s / 4294967296 * (n : ℚ)⌋ = 0 := by
    intro a b s
    obtain ⟨h0, h1⟩ := bgHash_range M a b s
    rw [Int.floor_eq_zero_iff]
    constructor
    · exact mul_nonneg (div_nonneg h0 (by norm_num)) hnq.1
    · have hv : bgHash M a b s / 4294967296 < 1 / 4294967296 :=
        div_lt_div_of_pos_right h1 (by norm_num)
      have hv0 : 0 ≤ bgHash M a b s / 4294967296 := div_nonneg h0 (by norm_num)
      nlinarith [hnq.1, hnq.2]
  have hsmall : ∀ a b s : ℚ, ¬ bgHash M a b s / 4294967296 > 92 / 100 ∧
      ¬ bgHash M a b s / 4294967296 > 97 / 100 := by
    intro a b s
    obtain ⟨_, h1⟩ := bgHash_range M a b s
    have hv : bgHash M a b s / 4294967296 < 1 / 4294967296 :=
      div_lt_div_of_pos_right h1 (by norm_num)
    constructor <;> intro h <;> linarith
  simp only [List.mem_cons, List.mem_singleton, List.not_mem_nil, or_false] at hs
  rcases hs with rfl | rfl | rfl
  · unfold bgIndex
    rw [if_pos rfl]
    simp only [hfloor]
  · unfold bgIndex
    rw [if_neg (by decide), if_neg (by decide), if_neg (by decide), if_pos rfl]
    simp only [hfloor]
  · unfold bgIndex
    rw [if_neg (by decide), if_neg (by decide), if_neg (by decide), if_neg (by decide),
      if_neg (by decide), if_neg (by decide), if_neg (by decide), if_neg (by decide),
      if_neg (by decide), if_pos rfl]
    simp only [(hsmall _ _ _).1, (hsmall _ _ _).2, if_false, ite_self]

/-- A full scan that paints every pixel with the same colour leaves the canvas filled
with that colour. -/
theorem fill_all_pixels (col : Rgb) (d : Nat)
    (body : Nat → ImageData × Nat → Nat → Except JsError (ImageData × Nat))
    (hbody : ∀ x y st, body x st y = .ok (px st.1 col x y, st.2 + d)) :
    (forLoopE 0 64 1 (fun st x => forLoopE 0 64 1 (body x) st) (blankCanvas, 0)).map Prod.fst
      = .ok (List.replicate 4096 col.toPixel) := by
  -- inner loop: column `x`, rows below `y` are painted
  have hinner : ∀ (x : Nat) (st : ImageData × Nat), x < 64 →
      (st.1.length = 4096 ∧ ∀ i, i < 4096 → i % 64 < x → st.1[i]? = some col.toPixel) →
      ∃ st', forLoopE 0 64 1 (body x) st = .ok st' ∧
        (st'.1.length = 4096 ∧ ∀ i, i < 4096 → i % 64 < x + 1 →
          st'.1[i]? = some col.toPixel) := by
    intro x st hx ⟨hlen, hpaint⟩
    obtain ⟨st', hrun, hlen', hI⟩ := forLoopE_range_inv
      (fun y (s : ImageData × Nat) => s.1.length = 4096 ∧ ∀ i, i < 4096 →
        (i % 64 < x ∨ (i % 64 = x ∧ i / 64 < y)) → s.1[i]? = some col.toPixel)
      64 (body x) st ⟨hlen, fun i hi h => by
        rcases h with h | h
        · exact hpaint i hi h
        · omega⟩
      (by
        intro y s hy ⟨hl, hp⟩
        refine ⟨_, hbody x y s, ?_, ?_⟩
        · show (px s.1 col x y).length = 4096
          unfold px; rw [fillPx_length]; exact hl
        · intro i hi h
          show (px s.1 col x y)[i]? = some col.toPixel
          unfold px fillPx
          rw [canvasIndex_nat hx hy]
          simp only
          by_cases hiy : y * 64 + x = i
          · rw [← hiy, List.getElem?_set_self (by omega)]
          · rw [List.getElem?_set_ne hiy]
            refine hp i hi ?_
            rcases h with h | h
            · exact Or.inl h
            · right
              refine ⟨h.1, ?_⟩
              omega)
    refine ⟨st', hrun, hlen', fun i hi h => hI i hi ?_⟩
    by_cases h1 : i % 64 < x
    · exact Or.inl h1
    · exact Or.inr ⟨by omega, by omega⟩
  obtain ⟨st, hrun, hlen, hall⟩ := forLoopE_range_inv
    (fun x (s : ImageData × Nat) => s.1.length = 4096 ∧ ∀ i, i < 4096 → i % 64 < x →
      s.1[i]? = some col.toPixel)
    64 (fun st x => forLoopE 0 64 1 (body x) st) (blankCanvas, 0)
    ⟨blankCanvas_length, fun i _ h => by omega⟩
    (fun x s hx hI => hinner x s hx hI)
  rw [hrun]
  show Except.ok st.1 = _
  congr 1
  rw [List.eq_replicate_iff]
  refine ⟨hlen, fun p hp => ?_⟩
  obtain ⟨i, hi, rfl⟩ := List.mem_iff_getElem.1 hp
  have := hall i (by omega) (by omega)
  rw [List.getElem?_eq_getElem hi] at this
  exact Option.some.inj this

/-- **C29** Styles `bg1`, `bg4` and `bg10` are flat fills. For every colour list of length
1 to 3, every pixel and every stream of `rng` values, the colour index computed by
`createBackgroundPattern` with one of these styles is 0, also after the remainder by
the number of colours, and the call returns the canvas whose 4096 pixels all have the
colour `colors[0]`. -/
theorem flat_fill_styles (M : JsMath) (colors : List Rgb) (rng : Nat → ℚ)
    (patternType : JsString)
    (hs : patternType ∈ ["bg1".toList, "bg4".toList, "bg10".toList])
    (hn : 1 ≤ colors.length ∧ colors.length ≤ 3) :
    (∀ (x y : Nat) (draw : Nat → ℚ),
      bgIndex M patternType colors.length x y draw = some 0 ∧
      jsMod (bgIndex M patternType colors.length x y draw) colors.length = some 0) ∧
    ∃ c0, colors[0]? = some c0 ∧
      createBackgroundPattern M colors patternType rng
        = .ok (List.replicate 4096 c0.toPixel) := by
  have hidx : ∀ (x y : Nat) (draw : Nat → ℚ),
      bgIndex M patternType colors.length x y draw = some 0 ∧
      jsMod (bgIndex M patternType colors.length x y draw) colors.length = some 0 := by
    intro x y draw
    have h := bgIndex_flat M patternType hs colors.length hn.2 x y draw
    refine ⟨h, ?_⟩
    rw [h]
    show (if colors.length = 0 then none else some ((0 : Int).tmod colors.length)) = some 0
    rw [if_neg (by omega)]
    simp
  refine ⟨hidx, ?_⟩
  cases hcol : colors with
  | nil => rw [hcol] at hn; simp at hn
  | cons c0 rest =>
    refine ⟨c0, by simp, ?_⟩
    rw [← hcol]
    simp only [createBackgroundPattern]
    refine fill_all_pixels c0 (bgDraws patternType) _ (fun x y st => ?_)
    simp only [(hidx x y _).2]
    rw [hcol]
    rfl

/-- **C29** (instance) Style `bg4` with the colours red and blue on the stand-in platform,
for the constant stream `1/2`. -/
theorem flat_fill_styles_witness :
    "bg4".toList ∈ ["bg1".toList, "bg4".toList, "bg10".toList] ∧
    (1 ≤ ([⟨255, 0, 0⟩, ⟨0, 0, 255⟩] : List Rgb).length ∧
      ([⟨255, 0, 0⟩, ⟨0, 0, 255⟩] : List Rgb).length ≤ 3) ∧
    createBackgroundPattern refMath [⟨255, 0, 0⟩, ⟨0, 0, 255⟩] "bg4".toList (fun _ => 1 / 2)
      = .ok (List.replicate 4096 ⟨255, 0, 0, 255⟩) := by
  obtain ⟨_, c0, h0, hrun⟩ := flat_fill_styles refMath [⟨255, 0, 0⟩, ⟨0, 0, 255⟩]
    (fun _ => 1 / 2) "bg4".toList (by decide) (by decide)
  cases h0
  exact ⟨by decide, by decide, hrun⟩

/-! ## Stack serialization -/

/-- Every index stored by the loop of `encodeImage` is a byte. -/
theorem encodeLoop_indices_lt (raw : List Pixel) :
    ∀ (st0 st : EncodeState), encodeLoop raw st0 = some st →
      (∀ v ∈ st0.indices, v < 256) → ∀ v ∈ st.indices, v < 256 := by
  induction raw with
  | nil =>
    intro st0 st h h0
    simp only [encodeLoop] at h
    cases h; exact h0
  | cons p rest ih =>
    intro st0 st h h0
    simp only [encodeLoop] at h
    split at h
    · split at h
      · cases h
      · refine ih _ st h ?_
        intro v hv
        simp only [List.mem_append, List.mem_singleton] at hv
        rcases hv with hv | hv
        · exact h0 v hv
        · rw [hv]; exact Nat.mod_lt _ (by decide)
    · refine ih _ st h ?_
      intro v hv
      simp only [List.mem_append, List.mem_singleton] at hv
      rcases hv with hv | hv
      · exact h0 v hv
      · rw [hv]; exact Nat.mod_lt _ (by decide)

/-- `encodeImage` returns an object for every buffer. -/
theorem encodeImage_total (img : ImageData) : ∃ enc, encodeImage img = .ok enc := by
  unfold encodeImage
  cases hloop : encodeLoop img ⟨[], [], []⟩ with
  | none => exact ⟨_, rfl⟩
  | some st =>
    have hsmall := encodeLoop_indices_lt img _ st hloop (by intro v hv; cases hv)
    obtain ⟨px, hpx, _⟩ := atob_btoa st.indices hsmall
    simp only [hpx]
    exact ⟨_, rfl⟩

/-- `serializeLayer` returns an entry for every layer, with the layer's type, its
settings with the alpha replaced, the regenerate marker for a generate layer and no
image data for an upload layer without image. -/
theorem serializeLayer_spec (layer : Layer) :
    ∃ entry, serializeLayer layer = .ok entry ∧ entry.type = some layer.type ∧
      entry.settings = some { layer.settings with
        alpha := some (alphaOrOne layer.settings.alpha) } ∧
      (layer.type = .generate → entry.imageData = some { regen := true }) ∧
      (layer.type = .upload → layer.image = none → entry.imageData = none) ∧
      (layer.type = .upload → ∀ img, layer.image = some img →
        ∃ enc, encodeImage img = .ok enc ∧ entry.imageData = some enc) := by
  unfold serializeLayer
  cases ht : layer.type with
  | generate =>
    exact ⟨_, rfl, rfl, rfl, fun _ => rfl, fun h => (by cases h), fun h => (by cases h)⟩
  | upload =>
    cases hi : layer.image with
    | none =>
      exact ⟨_, rfl, rfl, rfl, fun h => (by cases h), fun _ _ => rfl,
        fun _ img h => (by cases h)⟩
    | some img =>
      obtain ⟨enc, henc⟩ := encodeImage_total img
      simp only [henc]
      refine ⟨_, rfl, rfl, rfl, fun h => (by cases h), fun _ h => (by cases h),
        fun _ img' h => ?_⟩
      cases h
      exact ⟨enc, henc, rfl⟩

/-- The loop of `serializeStack` returns one entry per layer, in order. -/
theorem serializeLayers_spec (layers : List Layer) :
    ∃ out : List SavedLayer, serializeLayers layers = .ok out ∧ out.length = layers.length ∧
      ∀ (i : Nat) (layer : Layer), layers[i]? = some layer →
        ∃ entry : SavedLayer, out[i]? = some entry ∧ serializeLayer layer = .ok entry := by
  induction layers with
  | nil => exact ⟨[], rfl, rfl, fun i layer h => (by simp at h)⟩
  | cons l rest ih =>
    obtain ⟨entry, he, _⟩ := serializeLayer_spec l
    obtain ⟨out, ho, hlen, hall⟩ := ih
    refine ⟨entry :: out, ?_, by simp [hlen], ?_⟩
    · simp only [serializeLayers, he, ho]
    · intro i layer h
      cases i with
      | zero =>
        simp only [List.getElem?_cons_zero, Option.some.injEq] at h
        subst h
        exact ⟨entry, by simp, he⟩
      | succ i =>
        simp only [List.getElem?_cons_succ] at h ⊢
        exact hall i layer h

/-- **C27** Generated layers never persist pixels. For every stack `serializeStack`
returns one entry per layer, in layer order, carrying the layer's type; the entry of a
generate layer has as `imageData` exactly the marker `{regen: true}`, without palette,
pixels or fallback, whether or not the layer holds an image, and the entry of an upload
layer without image has no `imageData`. -/
theorem serializeStack_regen_marker (stack : LayerStack) :
    ∃ out : List SavedLayer, serializeStack stack = .ok out ∧ out.length = stack.layers.length ∧
      ∀ (i : Nat) (layer : Layer), stack.layers[i]? = some layer →
        ∃ entry : SavedLayer, out[i]? = some entry ∧ entry.type = some layer.type ∧
          (layer.type = .generate → entry.imageData
            = some { regen := true, fallback := none, palette := none, pixels := none }) ∧
          (layer.type = .upload → layer.image = none → entry.imageData = none) := by
  obtain ⟨out, ho, hlen, hall⟩ := serializeLayers_spec stack.layers
  refine ⟨out, ho, hlen, fun i layer h => ?_⟩
  obtain ⟨entry, he, hs⟩ := hall i layer h
  obtain ⟨entry', he', ht, _, hg, hu, _⟩ := serializeLayer_spec layer
  rw [hs] at he'
  cases he'
  exact ⟨entry, he, ht, hg, hu⟩

/-- **C28** (failing input) Saving and restoring turns the alpha 0 into 1. The border
stack `alphaZeroStack` holds one generate layer with alpha 0; `serializeStack` writes
the alpha `0 || 1 = 1`, and the layer restored from the saved entry has alpha 1. -/
theorem save_restore_alpha_zero :
    alphaZeroStack.layers.map (fun l => l.settings.alpha) = [some 0] ∧
    ∃ out, serializeStack alphaZeroStack = .ok out ∧
      out.map (fun e => e.settings.bind (fun s => s.alpha)) = [some 1] ∧
      (restoreStack refCanvas (fun _ _ _ => none) (LayerStack.new .border) out).2 = .ok () ∧
      (restoreStack refCanvas (fun _ _ _ => none) (LayerStack.new .border) out).1.layers.map
        (fun l => l.settings.alpha) = [some 1] := by
  refine ⟨by decide, _, rfl, by decide, by decide, by decide⟩

/-! ## Saving and restoring a stack -/

/-- The settings `addLayer` computes are complete. -/
theorem settingsComplete_mergeSettings (kind : StackKind) (o : Overrides) :
    SettingsComplete kind (mergeSettings (_defaultSettings kind) o) := by
  unfold SettingsComplete
  obtain ⟨ty, os⟩ := o
  cases kind <;> cases os with
  | none => rfl
  | some s =>
    obtain ⟨a, b, c, d, e, f, g⟩ := s
    cases a <;> cases b <;> cases c <;> cases d <;> cases e <;> cases g <;> cases f with
    | none => rfl
    | some cs =>
      obtain ⟨c1, c2, c3, c4⟩ := cs
      cases c1 <;> cases c2 <;> cases c3 <;> cases c4 <;> rfl

/-- `setLayerImage` changes neither the kind nor the type and settings of any layer. -/
theorem setLayerImage_settings (P : Canvas2D) (s : LayerStack) (id : Nat) (img : ImageData) :
    (setLayerImage P s id img).kind = s.kind ∧
    (setLayerImage P s id img).layers.map (fun l => (l.type, l.settings))
      = s.layers.map (fun l => (l.type, l.settings)) := by
  refine ⟨rfl, ?_⟩
  simp only [setLayerImage, recompile, List.map_map]
  apply List.map_congr_left
  intro l _
  simp only [Function.comp]
  split <;> rfl

/-- The restore loop on restorable entries succeeds and appends one layer per entry, with
the entry's type and its settings merged over the defaults. -/
theorem restoreLayers_settings (P : Canvas2D)
    (gen : Nat → StackKind → Settings → Option ImageData) (saved : List SavedLayer)
    (hres : ∀ e ∈ saved, Restorable P e) :
    ∀ (k : Nat) (s : LayerStack),
      (restoreLayers P gen k saved s).2 = .ok () ∧
      (restoreLayers P gen k saved s).1.kind = s.kind ∧
      (restoreLayers P gen k saved s).1.layers.map (fun l => (l.type, l.settings))
        = s.layers.map (fun l => (l.type, l.settings)) ++
          saved.map (fun e => (e.type.getD .upload,
            mergeSettings (_defaultSettings s.kind) { type := e.type, settings := e.settings })) := by
  induction saved with
  | nil => intro k s; simp [restoreLayers]
  | cons e rest ih =>
    intro k s
    have ih' := ih (fun x hx => hres x (List.mem_cons_of_mem _ hx))
    have hadd : (addLayer s { type := e.type, settings := e.settings }).1.kind = s.kind ∧
        (addLayer s { type := e.type, settings := e.settings }).1.layers.map
            (fun l => (l.type, l.settings))
          = s.layers.map (fun l => (l.type, l.settings)) ++
            [(e.type.getD .upload,
              mergeSettings (_defaultSettings s.kind) { type := e.type, settings := e.settings })] ∧
        (addLayer s { type := e.type, settings := e.settings }).2.id = s.nextId := by
      simp [addLayer]
    -- continuing from a state with the layers of `addLayer`
    have hcont : ∀ (s1 : LayerStack), s1.kind = s.kind →
        s1.layers.map (fun l => (l.type, l.settings))
          = s.layers.map (fun l => (l.type, l.settings)) ++
            [(e.type.getD .upload,
              mergeSettings (_defaultSettings s.kind) { type := e.type, settings := e.settings })] →
        (restoreLayers P gen (k + 1) rest s1).2 = .ok () ∧
        (restoreLayers P gen (k + 1) rest s1).1.kind = s.kind ∧
        (restoreLayers P gen (k + 1) rest s1).1.layers.map (fun l => (l.type, l.settings))
          = s.layers.map (fun l => (l.type, l.settings)) ++
            (e :: rest).map (fun e => (e.type.getD .upload,
              mergeSettings (_defaultSettings s.kind)
                { type := e.type, settings := e.settings })) := by
      intro s1 hk hl
      obtain ⟨h1, h2, h3⟩ := ih' (k + 1) s1
      refine ⟨h1, h2.trans hk, ?_⟩
      rw [h3, hl, hk]
      simp
    cases hi : e.imageData with
    | none =>
      simp only [restoreLayers, hi]
      exact hcont _ hadd.1 hadd.2.1
    | some enc =>
      have hset : ∀ img,
          (setLayerImage P (addLayer s { type := e.type, settings := e.settings }).1
            (addLayer s { type := e.type, settings := e.settings }).2.id img).kind = s.kind ∧
          (setLayerImage P (addLayer s { type := e.type, settings := e.settings }).1
            (addLayer s { type := e.type, settings := e.settings }).2.id img).layers.map
              (fun l => (l.type, l.settings))
            = s.layers.map (fun l => (l.type, l.settings)) ++
              [(e.type.getD .upload, mergeSettings (_defaultSettings s.kind)
                { type := e.type, settings := e.settings })] := by
        intro img
        obtain ⟨a1, a2⟩ := setLayerImage_settings P
          (addLayer s { type := e.type, settings := e.settings }).1
          (addLayer s { type := e.type, settings := e.settings }).2.id img
        exact ⟨a1.trans hadd.1, a2.trans hadd.2.1⟩
      by_cases hr : enc.regen = true
      · simp only [restoreLayers, hi, hr, if_true]
        cases hg : gen k (addLayer s { type := e.type, settings := e.settings }).1.kind
            (addLayer s { type := e.type, settings := e.settings }).2.settings with
        | none =>
          simp only
          exact hcont _ hadd.1 hadd.2.1
        | some canvas =>
          simp only [_loadImg, toDataURL]
          exact hcont _ (hset canvas).1 (hset canvas).2
      · have hr' : enc.regen = false := by simpa using hr
        obtain ⟨img, himg⟩ := hres e (List.mem_cons_self _ _) enc hi hr'
        simp only [restoreLayers, hi, hr', himg]
        exact hcont _ (hset img).1 (hset img).2

/-- The entry `serializeLayer` writes for a layer with an encodable image can be
restored. -/
theorem restorable_serializeLayer (P : Canvas2D) (layer : Layer) (entry : SavedLayer)
    (h : serializeLayer layer = .ok entry)
    (himg : ∀ img, layer.image = some img → img.length = 4096 ∧ ∀ p ∈ img, p.IsByte) :
    Restorable P entry := by
  obtain ⟨entry', he, _, _, hg, hu, hup⟩ := serializeLayer_spec layer
  rw [h] at he
  cases he
  intro enc henc hreg
  cases ht : layer.type with
  | generate =>
    rw [hg ht] at henc
    cases henc
    cases hreg
  | upload =>
    cases hi : layer.image with
    | none => rw [hu ht hi] at henc; cases henc
    | some img =>
      obtain ⟨enc', henc', hd⟩ := hup ht img hi
      rw [hd] at henc
      cases henc
      obtain ⟨hlen, hbytes⟩ := himg img hi
      by_cases hcol : img.toFinset.card ≤ 256
      · obtain ⟨palette, pixels, _, h1, h2, _⟩ := decode_encode P img hlen hbytes hcol
        rw [h1] at henc'
        cases henc'
        exact ⟨putImageData P img, h2⟩
      · have hfb := encodeImage_fallback img hbytes (by omega)
        rw [hfb] at henc'
        cases henc'
        exact ⟨img, rfl⟩

/-- Saving then restoring preserves the layer state when no alpha is 0. For a stack
whose layers have complete settings with an alpha other than 0 and images that are
64×64 byte buffers, `serializeStack` returns the saved layers, restoring them into a
stack of the same kind succeeds, and the restored stack has the same number of layers
in the same order, each with the type and the settings of the original layer. -/
theorem save_restore_preserves (P : Canvas2D)
    (gen : Nat → StackKind → Settings → Option ImageData) (stack target : LayerStack)
    (hk : target.kind = stack.kind)
    (hset : ∀ l ∈ stack.layers, SettingsComplete stack.kind l.settings ∧
      ∃ a, l.settings.alpha = some a ∧ a ≠ 0)
    (himg : ∀ l ∈ stack.layers, ∀ img, l.image = some img →
      img.length = 4096 ∧ ∀ p ∈ img, p.IsByte) :
    ∃ out, serializeStack stack = .ok out ∧
      (restoreStack P gen target out).2 = .ok () ∧
      (restoreStack P gen target out).1.layers.map (fun l => (l.type, l.settings))
        = stack.layers.map (fun l => (l.type, l.settings)) := by
  have hser : ∀ (layers : List Layer),
      (∀ l ∈ layers, SettingsComplete stack.kind l.settings ∧
        ∃ a, l.settings.alpha = some a ∧ a ≠ 0) →
      (∀ l ∈ layers, ∀ img, l.image = some img → img.length = 4096 ∧ ∀ p ∈ img, p.IsByte) →
      ∃ out, serializeLayers layers = .ok out ∧ (∀ e ∈ out, Restorable P e) ∧
        out.map (fun e => (e.type.getD .upload,
          mergeSettings (_defaultSettings stack.kind)
            { type := e.type, settings := e.settings }))
          = layers.map (fun l => (l.type, l.settings)) := by
    intro layers
    induction layers with
    | nil => intro _ _; exact ⟨[], rfl, fun e he => (by cases he), rfl⟩
    | cons l rest ih =>
      intro h1 h2
      obtain ⟨out, ho, hr, hm⟩ := ih (fun x hx => h1 x (List.mem_cons_of_mem _ hx))
        (fun x hx => h2 x (List.mem_cons_of_mem _ hx))
      obtain ⟨entry, he, hty, hst, _⟩ := serializeLayer_spec l
      obtain ⟨hcomp, a, ha, ha0⟩ := h1 l (List.mem_cons_self _ _)
      refine ⟨entry :: out, by simp only [serializeLayers, he, ho], ?_, ?_⟩
      · intro e hmem
        rcases List.mem_cons.1 hmem with rfl | hmem
        · exact restorable_serializeLayer P l _ he (h2 l (List.mem_cons_self _ _))
        · exact hr e hmem
      · simp only [List.map_cons, hm]
        congr 1
        have hsettings : entry.settings = some l.settings := by
          rw [hst]
          have : alphaOrOne l.settings.alpha = a := by
            rw [ha]; simp [alphaOrOne, ha0]
          rw [this, ← ha]
        rw [hty, hsettings]
        simp only [Option.getD_some, Prod.mk.injEq, true_and]
        exact hcomp
  obtain ⟨out, ho, hr, hm⟩ := hser stack.layers hset himg
  refine ⟨out, ho, ?_⟩
  obtain ⟨r1, r2, r3⟩ := restoreLayers_settings P gen out hr 0 (clearAllLayers target)
  have hkind : (clearAllLayers target).kind = stack.kind := hk
  unfold restoreStack
  cases hrl : restoreLayers P gen 0 out (clearAllLayers target) with
  | mk s res =>
    rw [hrl] at r1 r2 r3
    simp only at r1 r3
    subst r1
    simp only
    refine ⟨trivial, ?_⟩
    show s.layers.map _ = _
    rw [r3, hkind, hm]
    simp [clearAllLayers]

/-! ## Cancelling the slice selection -/

/-- **C26** Cancelling slice selection aborts the whole batch. When at least one queued
source image has slicing enabled and the user cancels the slice modal, `processImages`
returns without compositing any image, without an error, and leaves the application
state, `state.processedCanvases` included, exactly as it was, for every batch of source
images, both values of `cycleBackgrounds` and every generator. -/
theorem processImages_cancel (P : Canvas2D)
    (genAt : Nat → Nat → StackKind → Settings → Except JsError (Option ImageData))
    (user : List SliceSelection → Option (Nat → Nat → Bool)) (app : App)
    (cycleBackgrounds : Bool)
    (hs : ∃ e ∈ app.state.sourceImages, e.slicing = true)
    (hc : user (initialModalData P app.intersectionStack
      (app.state.sourceImages.filter (fun e => e.slicing))) = none) :
    showSliceModal P app.intersectionStack
      (app.state.sourceImages.filter (fun e => e.slicing)) user = none ∧
    processImages P genAt user app cycleBackgrounds
      = { app := app, composited := [], error := none } ∧
    (processImages P genAt user app cycleBackgrounds).app.state.processedCanvases
      = app.state.processedCanvases ∧
    (processImages P genAt user app cycleBackgrounds).composited = [] := by
  have hmodal : showSliceModal P app.intersectionStack
      (app.state.sourceImages.filter (fun e => e.slicing)) user = none := by
    simp only [showSliceModal, hc]
  have hrun : processImages P genAt user app cycleBackgrounds
      = { app := app, composited := [], error := none } := by
    obtain ⟨e, he, hsl⟩ := hs
    have hne : (app.state.sourceImages.filter (fun e => e.slicing)).length > 0 :=
      List.length_pos_of_mem (List.mem_filter.2 ⟨he, hsl⟩)
    have hlen : ¬ app.state.sourceImages.length = 0 :=
      Nat.pos_iff_ne_zero.1 (List.length_pos_of_mem he)
    simp only [processImages, if_neg hlen, if_pos hne, hmodal]
  exact ⟨hmodal, hrun, by rw [hrun], by rw [hrun]⟩

/-- **C26** (instance) The state `slicingApp` with a user who cancels; the canvas of the
earlier batch stays. -/
theorem processImages_cancel_witness :
    (∃ e ∈ slicingApp.state.sourceImages, e.slicing = true) ∧
    processImages refCanvas (fun _ _ _ _ => .ok none) (fun _ => none) slicingApp false
      = { app := slicingApp, composited := [], error := none } ∧
    (processImages refCanvas (fun _ _ _ _ => .ok none) (fun _ => none) slicingApp
      false).app.state.processedCanvases
      = [{ canvas := blankCanvas, filename := "old.png".toList, suffix := [] }] := by
  have hs : ∃ e ∈ slicingApp.state.sourceImages, e.slicing = true :=
    ⟨_, List.mem_singleton.2 rfl, rfl⟩
  obtain ⟨_, h2, h3, _⟩ := processImages_cancel refCanvas (fun _ _ _ _ => .ok none)
    (fun _ => none) slicingApp false hs rfl
  exact ⟨hs, h2, h3⟩

/-! ## Termination and array accesses of the flood fill -/

/-- One iteration of the fill keeps the record consistent. -/
theorem LogInv.fillIter {om : List Nat} {st : FillState} {log : AccessLog}
    (inv : LogInv st.visited log) :
    LogInv (fillStep om st).visited (logStep om st log) := by
  cases hq : st.queue with
  | nil =>
    rw [fillStep_nil om st hq]
    unfold logStep; rw [hq]
    exact inv
  | cons c q =>
    obtain ⟨cx, cy⟩ := c
    by_cases hb : cx < 0 ∨ cx ≥ 64 ∨ cy < 0 ∨ cy ≥ 64
    · have hnin : ¬ InBounds (cx, cy) := by
        unfold InBounds; simp only; omega
      rw [fillStep_skip om st _ q hq (Or.inl hnin)]
      unfold logStep; rw [hq]
      simp only [if_pos hb]
      exact inv
    · have hin : InBounds (cx, cy) := by
        unfold InBounds; simp only; omega
      have hci : pixelIndex (cx, cy) = (cy * 64 + cx).toNat := rfl
      have hlt : (cy * 64 + cx).toNat < 4096 := by
        unfold InBounds at hin; simp only at hin; omega
      have hreads : ∀ r ∈ log.reads ++ [((cx, cy), (cy * 64 + cx).toNat)],
          InBounds r.1 ∧ r.2 = pixelIndex r.1 ∧ r.2 < 4096 := by
        intro r hr
        rcases List.mem_append.1 hr with h | h
        · exact inv.inside r h
        · rw [List.mem_singleton.1 h]
          exact ⟨hin, rfl, hlt⟩
      by_cases hc : st.visited.getD (cy * 64 + cx).toNat 0 ≠ 0 ∨
          om.getD (cy * 64 + cx).toNat 0 = 0
      · rw [fillStep_skip om st _ q hq (Or.inr hc)]
        unfold logStep; rw [hq]
        simp only [if_neg hb, if_pos hc]
        exact ⟨inv.len, inv.finished, inv.nodup, inv.marked, hreads⟩
      · have hv : st.visited.getD (pixelIndex (cx, cy)) 0 = 0 := by
          rw [hci]; by_contra h; exact hc (Or.inl h)
        have hm : om.getD (pixelIndex (cx, cy)) 0 ≠ 0 := by
          rw [hci]; intro h; exact hc (Or.inr h)
        rw [fillStep_visit om st _ q hq hin hv hm]
        unfold logStep; rw [hq]
        simp only [if_neg hb, if_neg hc]
        refine ⟨by simp only [List.length_set]; exact inv.len, inv.finished, ?_, ?_, hreads⟩
        · rw [List.nodup_append]
          refine ⟨inv.nodup, List.nodup_singleton _, ?_⟩
          intro a ha hb'
          rw [List.mem_singleton.1 hb'] at ha
          exact inv.marked _ ha (by rw [← hci]; exact hv)
        · intro m hmm
          rcases List.mem_append.1 hmm with h | h
          · by_cases hmc : pixelIndex (cx, cy) = m
            · rw [← hmc, getD_set_eq _ _ _ _ (by rw [inv.len, hci]; exact hlt)]
              decide
            · rw [getD_set_ne _ _ _ _ _ hmc]
              exact inv.marked m h
          · rw [List.mem_singleton.1 h, ← hci,
              getD_set_eq _ _ _ _ (by rw [inv.len, hci]; exact hlt)]
            decide

/-- A flood fill with enough iterations keeps the record consistent and ends with an
empty queue. -/
theorem LogInv.fill (om : List Nat) :
    ∀ (fuel : Nat) (st : FillState) (log : AccessLog), LogInv st.visited log →
      fillMeasure st ≤ fuel →
      LogInv (floodFill om fuel st).visited (fillLog om fuel st log) := by
  intro fuel
  induction fuel with
  | zero =>
    intro st log inv hm
    have hq : st.queue = [] := by
      unfold fillMeasure at hm
      exact List.length_eq_zero.mp (by omega)
    simp only [floodFill, fillLog, hq]
    exact inv
  | succ fuel ih =>
    intro st log inv hm
    cases hq : st.queue with
    | nil =>
      simp only [floodFill, fillLog, hq]
      exact inv
    | cons c q =>
      simp only [floodFill, fillLog, hq]
      have hne : st.queue ≠ [] := by rw [hq]; exact List.cons_ne_nil _ _
      have hstep := fillStep_measure om st inv.len hne
      exact ih _ _ inv.fillIter (by omega)

/-- The body of the scan keeps the record consistent. -/
theorem LogInv.scanPixelStep {om : List Nat} {sl : ScanState × AccessLog}
    (inv : LogInv sl.1.visited sl.2) (x y : Nat) (hx : x < 64) (hy : y < 64) :
    LogInv (scanPixelLogged om sl x y).1.visited (scanPixelLogged om sl x y).2 := by
  have hreads : ∀ r ∈ sl.2.reads ++ [(((x : Int), (y : Int)), y * 64 + x)],
      InBounds r.1 ∧ r.2 = pixelIndex r.1 ∧ r.2 < 4096 := by
    intro r hr
    rcases List.mem_append.1 hr with h | h
    · exact inv.inside r h
    · rw [List.mem_singleton.1 h]
      refine ⟨?_, ?_, by omega⟩
      · unfold InBounds; simp only; omega
      · unfold pixelIndex; simp only; omega
  have inv1 : LogInv sl.1.visited
      { sl.2 with reads := sl.2.reads ++ [(((x : Int), (y : Int)), y * 64 + x)] } :=
    ⟨inv.len, inv.finished, inv.nodup, inv.marked, hreads⟩
  unfold scanPixelLogged scanPixel
  simp only
  by_cases hskip : om.getD (y * 64 + x) 0 ≠ 1 ∨ sl.1.visited.getD (y * 64 + x) 0 ≠ 0
  · simp only [if_pos hskip]
    exact inv1
  · simp only [if_neg hskip]
    refine LogInv.fill om fillFuel _ _ inv1 ?_
    unfold fillMeasure fillFuel
    simp only [List.length_singleton]
    have hcount := List.count_le_length 0 sl.1.visited
    rw [inv.len] at hcount
    omega

/-- The logged functions compute the state of the functions they follow. -/
theorem scanLogged_state (om : List Nat) :
    (∀ (sl : ScanState × AccessLog) (x y : Nat),
      (scanPixelLogged om sl x y).1 = scanPixel om sl.1 x y) ∧
    (∀ (sl : ScanState × AccessLog) (y : Nat),
      (scanRowLogged om sl y).1 = scanRow om sl.1 y) ∧
    (scanAllLogged om).1 = scanAll om := by
  have hpix : ∀ (sl : ScanState × AccessLog) (x y : Nat),
      (scanPixelLogged om sl x y).1 = scanPixel om sl.1 x y := fun _ _ _ => rfl
  have hfold : ∀ (l : List Nat) (y : Nat) (sl : ScanState × AccessLog),
      (l.foldl (fun acc x => scanPixelLogged om acc x y) sl).1
        = l.foldl (fun acc x => scanPixel om acc x y) sl.1 := by
    intro l y
    induction l with
    | nil => intro sl; rfl
    | cons x rest ih => intro sl; simp only [List.foldl_cons]; rw [ih]; rfl
  have hrow : ∀ (sl : ScanState × AccessLog) (y : Nat),
      (scanRowLogged om sl y).1 = scanRow om sl.1 y := fun sl y => hfold _ y sl
  have hfold2 : ∀ (l : List Nat) (sl : ScanState × AccessLog),
      (l.foldl (scanRowLogged om) sl).1 = l.foldl (scanRow om) sl.1 := by
    intro l
    induction l with
    | nil => intro sl; rfl
    | cons y rest ih => intro sl; simp only [List.foldl_cons]; rw [ih, hrow]
  exact ⟨hpix, hrow, hfold2 _ _⟩

/-- The whole scan keeps the record consistent. -/
theorem LogInv.scanAllLogged (om : List Nat) :
    LogInv (BadgesBeDone.scanAllLogged om).1.visited (BadgesBeDone.scanAllLogged om).2 := by
  have hrowfold : ∀ (l : List Nat) (y : Nat) (sl : ScanState × AccessLog), y < 64 →
      (∀ x ∈ l, x < 64) → LogInv sl.1.visited sl.2 →
      LogInv (l.foldl (fun acc x => scanPixelLogged om acc x y) sl).1.visited
        (l.foldl (fun acc x => scanPixelLogged om acc x y) sl).2 := by
    intro l y
    induction l with
    | nil => intro sl _ _ inv; exact inv
    | cons x rest ih =>
      intro sl hy hl inv
      simp only [List.foldl_cons]
      exact ih _ hy (fun z hz => hl z (List.mem_cons_of_mem _ hz))
        (inv.scanPixelStep x y (hl x (List.mem_cons_self _ _)) hy)
  have hrow : ∀ (sl : ScanState × AccessLog) (y : Nat), y < 64 → LogInv sl.1.visited sl.2 →
      LogInv (scanRowLogged om sl y).1.visited (scanRowLogged om sl y).2 := by
    intro sl y hy inv
    exact hrowfold _ y sl hy (fun x hx => List.mem_range.1 hx) inv
  have hallfold : ∀ (l : List Nat) (sl : ScanState × AccessLog), (∀ y ∈ l, y < 64) →
      LogInv sl.1.visited sl.2 →
      LogInv (l.foldl (scanRowLogged om) sl).1.visited (l.foldl (scanRowLogged om) sl).2 := by
    intro l
    induction l with
    | nil => intro sl _ inv; exact inv
    | cons y rest ih =>
      intro sl hl inv
      simp only [List.foldl_cons]
      exact ih _ (fun z hz => hl z (List.mem_cons_of_mem _ hz))
        (hrow sl y (hl y (List.mem_cons_self _ _)) inv)
  refine hallfold _ _ (fun y hy => List.mem_range.1 hy) ?_
  exact ⟨List.length_replicate _ _, rfl, List.nodup_nil, fun m hm => (by cases hm),
    fun r hr => (by cases hr)⟩

/-- **C30** The flood fill in `detectSlices` terminates on every overlap mask. For every
mask, a fill started at any pixel on a `visited` array of 4096 entries has an empty queue
after at most `fillFuel = 5·4096 + 1` iterations; over the whole scan no fill is left
unfinished, no index is marked visited twice (so at most 4096 marks happen), and every
read of the mask or of the `visited` array uses a pair `[x, y]` with `0 ≤ x, y < 64` and
the index `y·64 + x < 4096`. The logged scan computes the state of the scan of
`detectSlices`. -/
theorem floodFill_terminates (om : List Nat) :
    (∀ (visited : List Nat) (x y : Int), visited.length = 4096 →
      (floodFill om fillFuel { visited := visited, pixels := [], queue := [(x, y)] }).queue
        = []) ∧
    (scanAllLogged om).1 = scanAll om ∧
    (scanAllLogged om).2.unfinished = 0 ∧
    (scanAllLogged om).2.marks.Nodup ∧
    (scanAllLogged om).2.marks.length ≤ 4096 ∧
    (∀ r ∈ (scanAllLogged om).2.reads,
      (0 ≤ r.1.1 ∧ r.1.1 < 64 ∧ 0 ≤ r.1.2 ∧ r.1.2 < 64) ∧
      r.2 = (r.1.2 * 64 + r.1.1).toNat ∧ r.2 < 4096) := by
  have inv := LogInv.scanAllLogged om
  refine ⟨?_, (scanLogged_state om).2.2, inv.finished, inv.nodup, ?_, inv.inside⟩
  · intro visited x y hlen
    refine floodFill_queue_nil om fillFuel _ hlen ?_
    unfold fillMeasure fillFuel
    simp only [List.length_singleton]
    have hcount := List.count_le_length 0 visited
    rw [hlen] at hcount
    omega
  · -- the marked indices are distinct positions of the `visited` array
    have hsub : ∀ m ∈ (scanAllLogged om).2.marks, m ∈ List.range 4096 := by
      intro m hm
      rw [List.mem_range]
      by_contra hge
      have := inv.marked m hm
      rw [List.getD_eq_getElem?_getD, List.getElem?_eq_none (by rw [inv.len]; omega)] at this
      exact this rfl
    have := (List.Nodup.subperm inv.nodup hsub).length_le
    rwa [List.length_range] at this

/-! ## Complementary palette (`colors.js`) -/

theorem toDouble_max {x y : ℚ} (hx : toDouble x = x) (hy : toDouble y = y) :
    toDouble (max x y) = max x y := by
  rcases max_choice x y with h | h <;> rw [h] <;> assumption

theorem toDouble_min {x y : ℚ} (hx : toDouble x = x) (hy : toDouble y = y) :
    toDouble (min x y) = min x y := by
  rcases min_choice x y with h | h <;> rw [h] <;> assumption

/-- Rounding keeps a number between two doubles that bracket it. -/
theorem toDouble_mem_Icc {q lo hi : ℚ} (hlo : toDouble lo = lo) (hhi : toDouble hi = hi)
    (h1 : lo ≤ q) (h2 : q ≤ hi) : lo ≤ toDouble q ∧ toDouble q ≤ hi :=
  ⟨le_toDouble_of_le hlo h1, toDouble_le_of_le hhi h2⟩

/-- The remainder of a number that is not negative lies in `[0, m)`. -/
theorem jsRemQ_range (x m : ℚ) (hx : 0 ≤ x) (hm : 0 < m) :
    0 ≤ jsRemQ x m ∧ jsRemQ x m < m := by
  unfold jsRemQ
  rw [if_pos (div_nonneg hx hm.le)]
  have h1 := Int.floor_le (x / m)
  have h2 := Int.lt_floor_add_one (x / m)
  have e : x / m * m = x := div_mul_cancel₀ x hm.ne'
  have a1 := mul_le_mul_of_nonneg_right h1 hm.le
  have a2 := mul_lt_mul_of_pos_right h2 hm
  constructor <;> nlinarith

/-- A channel divided by 255 is a double in `[0, 1]`. -/
theorem channel_unit (r : ℚ) (h0 : 0 ≤ r) (h1 : r ≤ 255) :
    0 ≤ fdiv r 255 ∧ fdiv r 255 ≤ 1 ∧ toDouble (fdiv r 255) = fdiv r 255 := by
  have c1 : toDouble 1 = 1 := by decide!
  refine ⟨toDouble_nonneg (by positivity), ?_, toDouble_idem _⟩
  exact toDouble_le_of_le c1 (by rw [div_le_one (by norm_num)]; exact h1)

/-- One term of the hue: for `x` and `y` between `mn` and `mx` the hue computed from
`(x - y) / d` and the offset `C` is between 0 and 360. -/
theorem hue_term (x y mn mx C : ℚ) (hx : mn ≤ x ∧ x ≤ mx) (hy : mn ≤ y ∧ y ≤ mx)
    (hlt : mn < mx) (hC1 : 1 ≤ C) (hC6 : C ≤ 6) (hCd : toDouble C = C)
    (hCd1 : toDouble (C - 1) = C - 1) :
    0 ≤ fmul (fadd (fdiv (fsub x y) (fsub mx mn)) (if x < y then C else 0)) 60 ∧
    fmul (fadd (fdiv (fsub x y) (fsub mx mn)) (if x < y then C else 0)) 60 ≤ 360 := by
  have c0 : toDouble 0 = 0 := toDouble_zero
  have c1 : toDouble 1 = 1 := by decide!
  have cm1 : toDouble (-1) = -1 := by decide!
  have c360 : toDouble 360 = 360 := by decide!
  have hd : 0 < fsub mx mn := toDouble_pos (by linarith)
  have hdd : toDouble (fsub mx mn) = fsub mx mn := toDouble_idem _
  have hndd : toDouble (-(fsub mx mn)) = -(fsub mx mn) := by rw [toDouble_neg, hdd]
  have hs1 : fsub x y ≤ fsub mx mn := toDouble_mono (by linarith [hx.2, hy.1])
  have hs2 : -(fsub mx mn) ≤ fsub x y := by
    have : fsub mn mx ≤ fsub x y := toDouble_mono (by linarith [hx.1, hy.2])
    have e : fsub mn mx = -(fsub mx mn) := by
      unfold fsub; rw [← toDouble_neg]; congr 1; ring
    rwa [e] at this
  have hq1 : fdiv (fsub x y) (fsub mx mn) ≤ 1 :=
    toDouble_le_of_le c1 (by rw [div_le_one hd]; exact hs1)
  have hq2 : -1 ≤ fdiv (fsub x y) (fsub mx mn) :=
    le_toDouble_of_le cm1 (by rw [le_div_iff₀ hd]; linarith)
  by_cases hxy : x < y
  · rw [if_pos hxy]
    have hneg : fsub x y ≤ 0 := by
      have := toDouble_mono (show x - y ≤ 0 by linarith)
      rwa [c0] at this
    have hq0 : fdiv (fsub x y) (fsub mx mn) ≤ 0 := by
      have := toDouble_mono (show fsub x y / fsub mx mn ≤ 0 from
        div_nonpos_of_nonpos_of_nonneg hneg hd.le)
      rwa [c0] at this
    obtain ⟨a1, a2⟩ := toDouble_mem_Icc (q := fdiv (fsub x y) (fsub mx mn) + C) hCd1 hCd
      (by linarith) (by linarith)
    have b := toDouble_mem_Icc (q := fadd (fdiv (fsub x y) (fsub mx mn)) C * 60) c0 c360
      (by unfold fadd; nlinarith) (by unfold fadd; nlinarith)
    exact b
  · rw [if_neg hxy]
    have hpos : 0 ≤ fsub x y := toDouble_nonneg (by linarith)
    have hq0 : 0 ≤ fdiv (fsub x y) (fsub mx mn) := toDouble_nonneg (div_nonneg hpos hd.le)
    have hq : fadd (fdiv (fsub x y) (fsub mx mn)) 0 = fdiv (fsub x y) (fsub mx mn) := by
      unfold fadd fdiv; rw [add_zero, toDouble_idem]
    rw [hq]
    exact toDouble_mem_Icc c0 c360 (by linarith) (by linarith)

/-- For a colour with channels between 0 and 255 `rgbToHsl` returns a hue between 0 and
360 and a saturation and a lightness between 0 and 100. -/
theorem rgbToHsl_range (r g b : ℚ) (hr : 0 ≤ r ∧ r ≤ 255) (hg : 0 ≤ g ∧ g ≤ 255)
    (hb : 0 ≤ b ∧ b ≤ 255) :
    (0 ≤ (rgbToHsl r g b).1 ∧ (rgbToHsl r g b).1 ≤ 360) ∧
    (0 ≤ (rgbToHsl r g b).2.1 ∧ (rgbToHsl r g b).2.1 ≤ 100) ∧
    (0 ≤ (rgbToHsl r g b).2.2 ∧ (rgbToHsl r g b).2.2 ≤ 100) := by
  have c0 : toDouble 0 = 0 := toDouble_zero
  have c1 : toDouble 1 = 1 := by decide!
  have c2 : toDouble 2 = 2 := by decide!
  have c100 : toDouble 100 = 100 := by decide!
  obtain ⟨R0, R1, Rd⟩ := channel_unit r hr.1 hr.2
  obtain ⟨G0, G1, Gd⟩ := channel_unit g hg.1 hg.2
  obtain ⟨B0, B1, Bd⟩ := channel_unit b hb.1 hb.2
  simp only [rgbToHsl]
  generalize fdiv r 255 = R at *
  generalize fdiv g 255 = G at *
  generalize fdiv b 255 = B at *
  have mxd : toDouble (max R (max G B)) = max R (max G B) := toDouble_max Rd (toDouble_max Gd Bd)
  have mnd : toDouble (min R (min G B)) = min R (min G B) := toDouble_min Rd (toDouble_min Gd Bd)
  have hRx : R ≤ max R (max G B) := le_max_left _ _
  have hGx : G ≤ max R (max G B) := le_trans (le_max_left _ _) (le_max_right _ _)
  have hBx : B ≤ max R (max G B) := le_trans (le_max_right _ _) (le_max_right _ _)
  have hRn : min R (min G B) ≤ R := min_le_left _ _
  have hGn : min R (min G B) ≤ G := le_trans (min_le_right _ _) (min_le_left _ _)
  have hBn : min R (min G B) ≤ B := le_trans (min_le_right _ _) (min_le_right _ _)
  have mx1 : max R (max G B) ≤ 1 := max_le R1 (max_le G1 B1)
  have mn0 : 0 ≤ min R (min G B) := le_min R0 (le_min G0 B0)
  generalize max R (max G B) = mx at *
  generalize min R (min G B) = mn at *
  have hnx : mn ≤ mx := le_trans hRn hRx
  -- lightness
  have hsum : 0 ≤ fadd mx mn ∧ fadd mx mn ≤ 2 :=
    toDouble_mem_Icc c0 c2 (by linarith) (by linarith)
  have hl : 0 ≤ fdiv (fadd mx mn) 2 ∧ fdiv (fadd mx mn) 2 ≤ 1 :=
    toDouble_mem_Icc c0 c1 (by linarith [hsum.1]) (by linarith [hsum.2])
  have hl100 : 0 ≤ fmul (fdiv (fadd mx mn) 2) 100 ∧ fmul (fdiv (fadd mx mn) 2) 100 ≤ 100 :=
    toDouble_mem_Icc c0 c100 (by linarith [hl.1]) (by linarith [hl.2])
  by_cases hm : mx = mn
  · rw [if_pos hm]
    have : fmul 0 100 = 0 := by unfold fmul; rw [zero_mul, c0]
    simp only [this]
    exact ⟨⟨le_refl _, by norm_num⟩, ⟨le_refl _, by norm_num⟩, hl100⟩
  · rw [if_neg hm]
    have hlt : mn < mx := lt_of_le_of_ne hnx (Ne.symm hm)
    have hd : 0 < fsub mx mn := toDouble_pos (by linarith)
    -- both denominators of the saturation are at least `d`
    have hden2 : fsub mx mn ≤ fadd mx mn := toDouble_mono (by linarith)
    have hden1 : fsub mx mn ≤ fsub (fsub 2 mx) mn := by
      have : mx ≤ fsub 2 mx := le_toDouble_of_le mxd (by linarith)
      exact toDouble_mono (by linarith)
    have hs : ∀ den : ℚ, fsub mx mn ≤ den →
        0 ≤ fmul (fdiv (fsub mx mn) den) 100 ∧ fmul (fdiv (fsub mx mn) den) 100 ≤ 100 := by
      intro den hden
      have hdpos : 0 < den := lt_of_lt_of_le hd hden
      have hq : 0 ≤ fdiv (fsub mx mn) den ∧ fdiv (fsub mx mn) den ≤ 1 :=
        toDouble_mem_Icc c0 c1 (div_nonneg hd.le hdpos.le) (by rw [div_le_one hdpos]; exact hden)
      exact toDouble_mem_Icc c0 c100 (by linarith [hq.1]) (by linarith [hq.2])
    refine ⟨?_, ?_, hl100⟩
    · simp only
      by_cases h1 : mx = R
      · rw [if_pos h1]
        exact hue_term G B mn mx 6 ⟨hGn, hGx⟩ ⟨hBn, hBx⟩ hlt (by norm_num) (by norm_num)
          (by decide!) (by decide!)
      · rw [if_neg h1]
        by_cases h2 : mx = G
        · rw [if_pos h2]
          exact hue_term B R mn mx 2 ⟨hBn, hBx⟩ ⟨hRn, hRx⟩ hlt (by norm_num) (by norm_num)
            (by decide!) (by decide!)
        · rw [if_neg h2]
          exact hue_term R G mn mx 4 ⟨hRn, hRx⟩ ⟨hGn, hGx⟩ hlt (by norm_num) (by norm_num)
            (by decide!) (by decide!)
    · simp only
      by_cases h1 : fdiv (fadd mx mn) 2 > 1 / 2
      · rw [if_pos h1]; exact hs _ hden1
      · rw [if_neg h1]; exact hs _ hden2

/-- For a saturation and a lightness between 0 and 100, every channel `hslToRgb` returns
is between 0 and 255, whatever the hue. -/
theorem hslToRgb_range (h s l : ℚ) (hs : 0 ≤ s ∧ s ≤ 100) (hl : 0 ≤ l ∧ l ≤ 100) :
    (0 ≤ (hslToRgb h s l).1 ∧ (hslToRgb h s l).1 ≤ 255) ∧
    (0 ≤ (hslToRgb h s l).2.1 ∧ (hslToRgb h s l).2.1 ≤ 255) ∧
    (0 ≤ (hslToRgb h s l).2.2 ∧ (hslToRgb h s l).2.2 ≤ 255) := by
  have c0 : toDouble 0 = 0 := toDouble_zero
  have c1 : toDouble 1 = 1 := by decide!
  have c255 : toDouble 255 = 255 := by decide!
  have ctie : toDouble (1 + 1 / 2 ^ 53) = 1 := by decide!
  have hS : 0 ≤ fdiv s 100 ∧ fdiv s 100 ≤ 1 :=
    toDouble_mem_Icc c0 c1 (by linarith [hs.1]) (by linarith [hs.2])
  have hL : 0 ≤ fdiv l 100 ∧ fdiv l 100 ≤ 1 :=
    toDouble_mem_Icc c0 c1 (by linarith [hl.1]) (by linarith [hl.2])
  have hLd : toDouble (fdiv l 100) = fdiv l 100 := toDouble_idem _
  simp only [hslToRgb]
  generalize fdiv s 100 = S at *
  generalize fdiv l 100 = L at *
  have hL1 : 0 ≤ fsub 1 L ∧ fsub 1 L ≤ 1 :=
    toDouble_mem_Icc c0 c1 (by linarith [hL.2]) (by linarith [hL.1])
  have hL1d : toDouble (fsub 1 L) = fsub 1 L := toDouble_idem _
  -- the rounded `1 - L` exceeds `1 - L` by at most `2^-53`
  have hL1e : fsub 1 L ≤ 1 - L + 1 / 2 ^ 53 := by
    rcases hL.2.lt_or_eq with hlt | heq
    · have := (toDouble_error (1 - L) (by linarith)).1
      unfold fsub
      nlinarith [hL.1]
    · unfold fsub; rw [heq, sub_self, c0]; norm_num
  have hm0 : 0 ≤ min L (fsub 1 L) := le_min hL.1 hL1.1
  have hmd : toDouble (min L (fsub 1 L)) = min L (fsub 1 L) := toDouble_min hLd hL1d
  have ha : 0 ≤ fmul S (min L (fsub 1 L)) ∧ fmul S (min L (fsub 1 L)) ≤ min L (fsub 1 L) :=
    toDouble_mem_Icc c0 hmd (mul_nonneg hS.1 hm0) (by nlinarith [hS.2])
  have had : toDouble (fmul S (min L (fsub 1 L))) = fmul S (min L (fsub 1 L)) := toDouble_idem _
  have haL : fmul S (min L (fsub 1 L)) ≤ L := le_trans ha.2 (min_le_left _ _)
  have haL1 : fmul S (min L (fsub 1 L)) ≤ fsub 1 L := le_trans ha.2 (min_le_right _ _)
  generalize fmul S (min L (fsub 1 L)) = A at *
  have key : ∀ t : ℚ, -1 ≤ t → t ≤ 1 →
      0 ≤ jsRound (fmul 255 (fsub L (fmul A t))) ∧
      jsRound (fmul 255 (fsub L (fmul A t))) ≤ 255 := by
    intro t t1 t2
    have hnad : toDouble (-A) = -A := by rw [toDouble_neg, had]
    have hp : -A ≤ fmul A t ∧ fmul A t ≤ A :=
      toDouble_mem_Icc hnad had (by nlinarith [ha.1]) (by nlinarith [ha.1])
    have hf : 0 ≤ fsub L (fmul A t) ∧ fsub L (fmul A t) ≤ 1 := by
      constructor
      · exact toDouble_nonneg (by linarith [hp.2])
      · unfold fsub
        rw [← ctie]
        apply toDouble_mono
        linarith [hp.1]
    have hc : 0 ≤ fmul 255 (fsub L (fmul A t)) ∧ fmul 255 (fsub L (fmul A t)) ≤ 255 :=
      toDouble_mem_Icc c0 c255 (by linarith [hf.1]) (by linarith [hf.2])
    unfold jsRound
    constructor
    · exact Int.floor_nonneg.mpr (by linarith [hc.1])
    · have : ⌊fmul 255 (fsub L (fmul A t)) + 1 / 2⌋ < 256 := by
        rw [Int.floor_lt]; push_cast; linarith [hc.2]
      omega
  have ht : ∀ k : ℚ, -1 ≤ max (-1) (min (fsub k 3) (min (fsub 9 k) 1)) ∧
      max (-1) (min (fsub k 3) (min (fsub 9 k) 1)) ≤ 1 := by
    intro k
    exact ⟨le_max_left _ _, max_le (by norm_num)
      (le_trans (min_le_right _ _) (min_le_right _ _))⟩
  exact ⟨key _ (ht _).1 (ht _).2, key _ (ht _).1 (ht _).2, key _ (ht _).1 (ht _).2⟩

set_option maxRecDepth 100000 in
/-- **C24** (counterexample) The warm transform adds 10 to the scaled saturation. For the
grey `[128,128,128]`, whose hue and saturation are 0, `generateComplementaryPalette(base,
'warm')` returns `[130,106,118]`, the colour of saturation `min(95, 0·1.3 + 10) = 10`,
and not `[118,118,118]`, the colour of saturation `min(95, 0·1.3) = 0`. -/
theorem warm_saturation_offset :
    rgbToHsl 128 128 128 = (0, 0, 7064470003718425 / 140737488355328) ∧
    generateComplementaryPalette [greyTriple] "warm".toList = [(130, 106, 118)] ∧
    jsRemQ (fadd (fsub 0 30) 360) 360 = 330 ∧
    hslToRgb 330 (min 95 (fmul 0 (toDouble (13 / 10))))
        (max 30 (fmul (7064470003718425 / 140737488355328) (toDouble (92 / 100))))
      = (118, 118, 118) ∧
    hslToRgb 330 (min 95 (fadd (fmul 0 (toDouble (13 / 10))) 10))
        (max 30 (fmul (7064470003718425 / 140737488355328) (toDouble (92 / 100))))
      = (130, 106, 118) := by
  decide!

/-- **C24** (amended) Warm complementary transform. For every base colour with channels
between 0 and 255, with hue `h`, saturation `s` and lightness `l` as computed by
`rgbToHsl` (`h` in `[0, 360]`, `s` and `l` in `[0, 100]`),
`generateComplementaryPalette(base, 'warm')` returns at the same position `hslToRgb` of
the hue `(h - 30 + 360) % 360`, which is in `[0, 360)`, the saturation
`min(95, s·1.3 + 10)`, which is in `[10, 95]`, and the lightness `max(30, l·0.92)`, which
is in `[30, 92]`, every operation being the double operation; each channel of the
colour returned is between 0 and 255. The result has the length of the input, and a bias
other than `cool` and `warm` returns the input unchanged. -/
theorem warm_palette_transform (baseColors : List RgbTriple)
    (hbytes : ∀ c ∈ baseColors,
      (0 ≤ c.1 ∧ c.1 ≤ 255) ∧ (0 ≤ c.2.1 ∧ c.2.1 ≤ 255) ∧ (0 ≤ c.2.2 ∧ c.2.2 ≤ 255)) :
    (generateComplementaryPalette baseColors "warm".toList).length = baseColors.length ∧
    (∀ (i : Nat) (color : RgbTriple), baseColors[i]? = some color →
      ∃ (h s l : ℚ) (out : RgbTriple),
        rgbToHsl color.1 color.2.1 color.2.2 = (h, s, l) ∧
        (0 ≤ h ∧ h ≤ 360) ∧ (0 ≤ s ∧ s ≤ 100) ∧ (0 ≤ l ∧ l ≤ 100) ∧
        (generateComplementaryPalette baseColors "warm".toList)[i]? = some out ∧
        out = hslToRgb (jsRemQ (fadd (fsub h 30) 360) 360)
          (min 95 (fadd (fmul s (toDouble (13 / 10))) 10))
          (max 30 (fmul l (toDouble (92 / 100)))) ∧
        (0 ≤ jsRemQ (fadd (fsub h 30) 360) 360 ∧ jsRemQ (fadd (fsub h 30) 360) 360 < 360) ∧
        (10 ≤ min 95 (fadd (fmul s (toDouble (13 / 10))) 10) ∧
          min 95 (fadd (fmul s (toDouble (13 / 10))) 10) ≤ 95) ∧
        (30 ≤ max 30 (fmul l (toDouble (92 / 100))) ∧
          max 30 (fmul l (toDouble (92 / 100))) ≤ 92) ∧
        (0 ≤ out.1 ∧ out.1 ≤ 255) ∧ (0 ≤ out.2.1 ∧ out.2.1 ≤ 255) ∧
        (0 ≤ out.2.2 ∧ out.2.2 ≤ 255)) ∧
    (∀ type : JsString, type ≠ "cool".toList → type ≠ "warm".toList →
      generateComplementaryPalette baseColors type = baseColors) := by
  have c0 : toDouble 0 = 0 := toDouble_zero
  have c10 : toDouble 10 = 10 := by decide!
  have c92 : toDouble (100 * toDouble (92 / 100)) = 92 := by decide!
  have c13 : (0 : ℚ) ≤ toDouble (13 / 10) := toDouble_nonneg (by norm_num)
  have c92' : (0 : ℚ) ≤ toDouble (92 / 100) := toDouble_nonneg (by norm_num)
  have cm30 : toDouble (-30) = -30 := by decide!
  have c330 : toDouble 330 = 330 := by decide!
  refine ⟨by simp [generateComplementaryPalette], ?_, ?_⟩
  · intro i color hi
    have hmem : color ∈ baseColors := by
      obtain ⟨hlt, rfl⟩ := List.getElem?_eq_some.mp hi
      exact List.getElem_mem _
    obtain ⟨hbr, hbg, hbb⟩ := hbytes color hmem
    have hbr' : (0 : ℚ) ≤ (color.1 : ℚ) ∧ (color.1 : ℚ) ≤ 255 :=
      ⟨by exact_mod_cast hbr.1, by exact_mod_cast hbr.2⟩
    have hbg' : (0 : ℚ) ≤ (color.2.1 : ℚ) ∧ (color.2.1 : ℚ) ≤ 255 :=
      ⟨by exact_mod_cast hbg.1, by exact_mod_cast hbg.2⟩
    have hbb' : (0 : ℚ) ≤ (color.2.2 : ℚ) ∧ (color.2.2 : ℚ) ≤ 255 :=
      ⟨by exact_mod_cast hbb.1, by exact_mod_cast hbb.2⟩
    obtain ⟨hh, hs, hl⟩ := rgbToHsl_range color.1 color.2.1 color.2.2 hbr' hbg' hbb'
    generalize hH : (rgbToHsl color.1 color.2.1 color.2.2).1 = h at hh
    generalize hS : (rgbToHsl color.1 color.2.1 color.2.2).2.1 = s at hs
    generalize hL : (rgbToHsl color.1 color.2.1 color.2.2).2.2 = l at hl
    have hhue : 0 ≤ jsRemQ (fadd (fsub h 30) 360) 360 ∧
        jsRemQ (fadd (fsub h 30) 360) 360 < 360 := by
      apply jsRemQ_range _ _ _ (by norm_num)
      have h1 : -30 ≤ fsub h 30 := le_toDouble_of_le cm30 (by linarith [hh.1])
      exact toDouble_nonneg (by linarith)
    have hsat : 10 ≤ min 95 (fadd (fmul s (toDouble (13 / 10))) 10) ∧
        min 95 (fadd (fmul s (toDouble (13 / 10))) 10) ≤ 95 := by
      refine ⟨le_min (by norm_num) ?_, min_le_left _ _⟩
      have h1 : 0 ≤ fmul s (toDouble (13 / 10)) := toDouble_nonneg (mul_nonneg hs.1 c13)
      exact le_toDouble_of_le c10 (by linarith)
    have hlight : 30 ≤ max 30 (fmul l (toDouble (92 / 100))) ∧
        max 30 (fmul l (toDouble (92 / 100))) ≤ 92 := by
      refine ⟨le_max_left _ _, max_le (by norm_num) ?_⟩
      exact le_trans (toDouble_mono (mul_le_mul_of_nonneg_right hl.2 c92')) (le_of_eq c92)
    obtain ⟨o1, o2, o3⟩ := hslToRgb_range (jsRemQ (fadd (fsub h 30) 360) 360)
      (min 95 (fadd (fmul s (toDouble (13 / 10))) 10)) (max 30 (fmul l (toDouble (92 / 100))))
      ⟨by linarith [hsat.1], by linarith [hsat.2]⟩ ⟨by linarith [hlight.1], by linarith [hlight.2]⟩
    refine ⟨h, s, l, _, ?_, hh, hs, hl, ?_, rfl, hhue, hsat, hlight, o1, o2, o3⟩
    · rw [← hH, ← hS, ← hL]
    · unfold generateComplementaryPalette
      rw [List.getElem?_map, hi]
      simp only [Option.map_some']
      rw [if_pos trivial, if_neg (by decide), hH, hS, hL]
  · intro type hc hw
    unfold generateComplementaryPalette
    simp only [if_neg hc, if_neg hw]
    exact List.map_id' _

set_option maxRecDepth 100000 in
/-- **C24** (instance) The blue `[0,30,168]` and the grey `[128,128,128]`: the warm
palette is `[4,103,151]`, `[130,106,118]`. -/
theorem warm_palette_transform_witness :
    (∀ c ∈ [((0 : Int), (30 : Int), (168 : Int)), (128, 128, 128)],
      (0 ≤ c.1 ∧ c.1 ≤ 255) ∧ (0 ≤ c.2.1 ∧ c.2.1 ≤ 255) ∧ (0 ≤ c.2.2 ∧ c.2.2 ≤ 255)) ∧
    generateComplementaryPalette [(0, 30, 168), (128, 128, 128)] "warm".toList
      = [(4, 103, 151), (130, 106, 118)] ∧
    (generateComplementaryPalette [(0, 30, 168), (128, 128, 128)] "warm".toList).length
      = [((0 : Int), (30 : Int), (168 : Int)), (128, 128, 128)].length :=
  ⟨by decide, by decide!,
    (warm_palette_transform [(0, 30, 168), (128, 128, 128)] (by decide)).1⟩

/-! ## Dominant colours (`colors.js`) -/

/-- Entries of the map after one more pixel of key `key`, for a map without repeated
keys. -/
theorem mem_mapIncr (m : List (ColorKey × Nat)) (key : ColorKey)
    (hnd : (m.map Prod.fst).Nodup) (k : ColorKey) (n : Nat) :
    (k, n) ∈ mapIncr m key ↔
      (k ≠ key ∧ (k, n) ∈ m) ∨
      (k = key ∧ ((∃ n0, (key, n0) ∈ m ∧ n = n0 + 1) ∨ (key ∉ m.map Prod.fst ∧ n = 1))) := by
  induction m with
  | nil => simp [mapIncr]
  | cons e rest ih =>
    obtain ⟨k0, n0⟩ := e
    simp only [List.map_cons, List.nodup_cons] at hnd
    have ih' := ih hnd.2
    unfold mapIncr
    by_cases hk : k0 = key
    · subst hk
      rw [if_pos rfl]
      have hnot : ∀ x, (k0, x) ∉ rest := fun x hx =>
        hnd.1 (List.mem_map.2 ⟨(k0, x), hx, rfl⟩)
      constructor
      · intro h
        rcases List.mem_cons.1 h with h1 | h2
        · simp only [Prod.mk.injEq] at h1
          exact Or.inr ⟨h1.1, Or.inl ⟨n0, List.mem_cons_self _ _, h1.2⟩⟩
        · by_cases hkk : k = k0
          · rw [hkk] at h2; exact absurd h2 (hnot n)
          · exact Or.inl ⟨hkk, List.mem_cons_of_mem _ h2⟩
      · rintro (⟨hne, h⟩ | ⟨rfl, h⟩)
        · rcases List.mem_cons.1 h with h | h
          · simp only [Prod.mk.injEq] at h; exact absurd h.1 hne
          · exact List.mem_cons_of_mem _ h
        · rcases h with ⟨n1, h, rfl⟩ | ⟨h, _⟩
          · rcases List.mem_cons.1 h with h | h
            · simp only [Prod.mk.injEq] at h
              rw [h.2]; exact List.mem_cons_self _ _
            · exact absurd h (hnot n1)
          · exact absurd (List.mem_cons_self _ _) h
    · rw [if_neg hk]
      rw [List.mem_cons, ih']
      constructor
      · rintro (h | ⟨hne, h⟩ | ⟨rfl, h⟩)
        · simp only [Prod.mk.injEq] at h
          exact Or.inl ⟨by rw [h.1]; exact hk, by rw [h.1, h.2]; exact List.mem_cons_self _ _⟩
        · exact Or.inl ⟨hne, List.mem_cons_of_mem _ h⟩
        · refine Or.inr ⟨rfl, ?_⟩
          rcases h with ⟨n1, h, rfl⟩ | ⟨h, rfl⟩
          · exact Or.inl ⟨n1, List.mem_cons_of_mem _ h, rfl⟩
          · refine Or.inr ⟨?_, rfl⟩
            simp only [List.map_cons, List.mem_cons, not_or]
            exact ⟨fun h' => hk h'.symm, h⟩
      · rintro (⟨hne, h⟩ | ⟨rfl, h⟩)
        · rcases List.mem_cons.1 h with h | h
          · exact Or.inl h
          · exact Or.inr (Or.inl ⟨hne, h⟩)
        · refine Or.inr (Or.inr ⟨rfl, ?_⟩)
          rcases h with ⟨n1, h, rfl⟩ | ⟨h, rfl⟩
          · rcases List.mem_cons.1 h with h | h
            · simp only [Prod.mk.injEq] at h; exact absurd h.1.symm hk
            · exact Or.inl ⟨n1, h, rfl⟩
          · refine Or.inr ⟨?_, rfl⟩
            simp only [List.map_cons, List.mem_cons, not_or] at h
            exact h.2

/-- The keys of the map after one more pixel. -/
theorem keys_mapIncr (m : List (ColorKey × Nat)) (key : ColorKey) :
    (mapIncr m key).map Prod.fst
      = if key ∈ m.map Prod.fst then m.map Prod.fst else m.map Prod.fst ++ [key] := by
  induction m with
  | nil => simp [mapIncr]
  | cons e rest ih =>
    obtain ⟨k0, n0⟩ := e
    unfold mapIncr
    by_cases hk : k0 = key
    · subst hk; simp
    · rw [if_neg hk]
      simp only [List.map_cons, List.mem_cons, ih]
      have hk' : ¬ key = k0 := fun h => hk h.symm
      by_cases hm : key ∈ rest.map Prod.fst
      · simp [hm]
      · simp [hm, hk']

/-- The counting loop establishes `CountInv`. -/
theorem countColors_spec (data : ImageData) : CountInv data (countColors data) := by
  have key : ∀ (rest pre : List Pixel) (m : List (ColorKey × Nat)), CountInv pre m →
      CountInv (pre ++ rest)
        (rest.foldl (fun m p => if survives p then mapIncr m (colorKeyOf p) else m) m) := by
    intro rest
    induction rest with
    | nil => intro pre m inv; simpa using inv
    | cons p rest ih =>
      intro pre m inv
      have hstep : CountInv (pre ++ [p])
          (if survives p then mapIncr m (colorKeyOf p) else m) := by
        by_cases hs : survives p = true
        · rw [if_pos hs]
          refine ⟨?_, ?_⟩
          · rw [keys_mapIncr]
            by_cases hm : colorKeyOf p ∈ m.map Prod.fst
            · rw [if_pos hm]; exact inv.nodup
            · rw [if_neg hm]
              rw [List.nodup_append]
              refine ⟨inv.nodup, List.nodup_singleton _, ?_⟩
              intro a ha hb
              rw [List.mem_singleton.1 hb] at ha
              exact hm ha
          · intro k n
            rw [mem_mapIncr m _ inv.nodup, List.countP_append]
            simp only [List.countP_cons, List.countP_nil, hs, Bool.true_and, zero_add]
            by_cases hk : k = colorKeyOf p
            · subst hk
              simp only [ne_eq, not_true_eq_false, false_and, false_or, true_and,
                decide_True, if_true]
              constructor
              · rintro (⟨n0, h0, rfl⟩ | ⟨hnot, rfl⟩)
                · exact ⟨by rw [((inv.count _ _).1 h0).1], by omega⟩
                · refine ⟨?_, by omega⟩
                  have hz : pre.countP (fun q => survives q &&
                      decide (colorKeyOf q = colorKeyOf p)) = 0 := by
                    by_contra hne
                    have hpos : 0 < pre.countP (fun q => survives q &&
                        decide (colorKeyOf q = colorKeyOf p)) := Nat.pos_of_ne_zero hne
                    exact hnot (List.mem_map.2 ⟨_, (inv.count _ _).2 ⟨rfl, hpos⟩, rfl⟩)
                  rw [hz]
              · rintro ⟨rfl, _⟩
                by_cases hz : pre.countP (fun q => survives q &&
                    decide (colorKeyOf q = colorKeyOf p)) = 0
                · right
                  refine ⟨?_, by rw [hz]⟩
                  intro hmem
                  obtain ⟨⟨k', n'⟩, hmem', hk'⟩ := List.mem_map.1 hmem
                  simp only at hk'
                  subst hk'
                  have := ((inv.count _ _).1 hmem')
                  omega
                · left
                  exact ⟨_, (inv.count _ _).2 ⟨rfl, Nat.pos_of_ne_zero hz⟩, rfl⟩
            · have hk' : ¬ colorKeyOf p = k := fun h => hk h.symm
              simp only [ne_eq, hk, not_false_eq_true, true_and, false_and, or_false,
                hk', decide_False, if_false, add_zero, Bool.false_eq_true]
              exact inv.count k n
        · rw [if_neg hs]
          have hs' : survives p = false := by simpa using hs
          refine ⟨inv.nodup, fun k n => ?_⟩
          rw [inv.count, List.countP_append]
          simp [List.countP_cons, hs']
      have := ih (pre ++ [p]) _ hstep
      simpa [List.foldl_cons, List.append_assoc] using this
  have h0 : CountInv [] ([] : List (ColorKey × Nat)) :=
    ⟨List.nodup_nil, fun k n => by simp⟩
  simpa [countColors] using key data [] [] h0

theorem perm_insertByCount (e : ColorKey × Nat) (l : List (ColorKey × Nat)) :
    (insertByCount e l).Perm (e :: l) := by
  induction l with
  | nil => exact List.Perm.refl _
  | cons u rest ih =>
    unfold insertByCount
    split
    · exact List.Perm.refl _
    · exact (List.Perm.cons u ih).trans (List.Perm.swap e u rest)

theorem perm_sortByCount (l : List (ColorKey × Nat)) : (sortByCount l).Perm l := by
  induction l with
  | nil => exact List.Perm.refl _
  | cons s rest ih =>
    rw [sortByCount]
    exact (perm_insertByCount s _).trans (List.Perm.cons s ih)

/-- Sorted by descending count, entries of equal count in the order given by `R`. -/
theorem pairwise_insertByCount (R : ColorKey × Nat → ColorKey × Nat → Prop)
    (e : ColorKey × Nat) (l : List (ColorKey × Nat))
    (hl : l.Pairwise (fun a b => a.2 ≥ b.2 ∧ (a.2 = b.2 → R a b)))
    (he : ∀ b ∈ l, R e b) :
    (insertByCount e l).Pairwise (fun a b => a.2 ≥ b.2 ∧ (a.2 = b.2 → R a b)) := by
  induction l with
  | nil => simp [insertByCount]
  | cons u rest ih =>
    rw [List.pairwise_cons] at hl
    unfold insertByCount
    split
    · next hge =>
      rw [List.pairwise_cons]
      refine ⟨?_, List.pairwise_cons.mpr hl⟩
      intro b hb
      refine ⟨?_, fun _ => he b hb⟩
      rw [List.mem_cons] at hb
      rcases hb with rfl | hb
      · exact hge
      · exact le_trans (hl.1 b hb).1 hge
    · next hge =>
      rw [List.pairwise_cons]
      refine ⟨?_, ih hl.2 (fun b hb => he b (List.mem_cons_of_mem _ hb))⟩
      intro b hb
      have hb' := (perm_insertByCount e rest).mem_iff.1 hb
      rw [List.mem_cons] at hb'
      rcases hb' with rfl | hb'
      · exact ⟨by omega, fun h => absurd h (by omega)⟩
      · exact hl.1 b hb'

theorem pairwise_sortByCount (R : ColorKey × Nat → ColorKey × Nat → Prop)
    (l : List (ColorKey × Nat)) (hl : l.Pairwise R) :
    (sortByCount l).Pairwise (fun a b => a.2 ≥ b.2 ∧ (a.2 = b.2 → R a b)) := by
  induction l with
  | nil => simp [sortByCount]
  | cons s rest ih =>
    rw [List.pairwise_cons] at hl
    rw [sortByCount]
    exact pairwise_insertByCount R s _ (ih hl.2)
      (fun b hb => hl.1 b ((perm_sortByCount rest).mem_iff.1 hb))

/-- The padding loop for three colours appends the defaults from the position of the
first missing entry on. -/
theorem padDefaults_three (sorted : List (Option RgbTriple)) (h : sorted.length ≤ 3) :
    padDefaults 3 3 sorted = sorted ++ (defaultPalette.drop sorted.length).map some := by
  match sorted, h with
  | [], _ => rfl
  | [a], _ => rfl
  | [a, b], _ => rfl
  | [a, b, c], _ => rfl
  | _ :: _ :: _ :: _ :: _, h => simp at h

/-- **C25** `extractDominantColors` pads with the fixed defaults. For `maxColors = 3` and
every pixel buffer the result has exactly 3 entries. With `k` the number of buckets of
the pixels that pass the alpha filter (alpha above 64) and the neutral filter, entry `i`
for `i < k` is the colour of the bucket ranked `i`-th by descending pixel count, and
entry `i` for `k ≤ i < 3` is the default at position `i` of gray-blue `[100,100,120]`,
tan `[200,150,100]`, mint `[150,200,150]`; when no pixel passes, the result is that list.
The ranking is a reordering of the buckets by descending count, no bucket occurs twice,
and the count of a bucket is the number of passing pixels with its key. -/
theorem extractDominantColors_pads (data : ImageData) :
    (extractDominantColors data 3).length = 3 ∧
    (∀ i : Nat, i < (countColors data).length → i < 3 →
      ∃ e : ColorKey × Nat, (sortByCount (countColors data))[i]? = some e ∧
        (extractDominantColors data 3)[i]? = some (some e.1.toTriple)) ∧
    (∀ i : Nat, (countColors data).length ≤ i → i < 3 →
      ∃ d : RgbTriple, defaultPalette[i]? = some d ∧
        (extractDominantColors data 3)[i]? = some (some d)) ∧
    ((∀ p ∈ data, survives p = false) →
      extractDominantColors data 3
        = [some (100, 100, 120), some (200, 150, 100), some (150, 200, 150)]) ∧
    (sortByCount (countColors data)).Perm (countColors data) ∧
    (sortByCount (countColors data)).Pairwise (fun a b => a.2 ≥ b.2) ∧
    ((countColors data).map Prod.fst).Nodup ∧
    (∀ (k : ColorKey) (n : Nat), (k, n) ∈ countColors data ↔
      (n = data.countP (fun p => survives p && decide (colorKeyOf p = k)) ∧ 0 < n)) := by
  have inv := countColors_spec data
  have hperm := perm_sortByCount (countColors data)
  have hlenR : (sortByCount (countColors data)).length = (countColors data).length :=
    hperm.length_eq
  have hsorted : (((sortByCount (countColors data)).take 3).map
      (fun e => some e.1.toTriple)).length = min 3 (countColors data).length := by
    rw [List.length_map, List.length_take, hlenR]
  have hres : extractDominantColors data 3
      = ((sortByCount (countColors data)).take 3).map (fun e => some e.1.toTriple)
        ++ (defaultPalette.drop (min 3 (countColors data).length)).map some := by
    unfold extractDominantColors
    simp only
    rw [padDefaults_three _ (by rw [hsorted]; omega), hsorted]
  have hdef : defaultPalette.length = 3 := rfl
  refine ⟨?_, ?_, ?_, ?_, hperm, ?_, inv.nodup, inv.count⟩
  · rw [hres, List.length_append, hsorted, List.length_map, List.length_drop, hdef]
    omega
  · intro i hi h3
    have hiR : i < (sortByCount (countColors data)).length := by rw [hlenR]; exact hi
    refine ⟨(sortByCount (countColors data))[i], List.getElem?_eq_getElem hiR, ?_⟩
    rw [hres, List.getElem?_append_left (by rw [hsorted]; omega), List.getElem?_map,
      List.getElem?_take_of_lt h3, List.getElem?_eq_getElem hiR]
    rfl
  · intro i hi h3
    have hmin : min 3 (countColors data).length = (countColors data).length := by omega
    have hid : i < defaultPalette.length := by rw [hdef]; exact h3
    refine ⟨defaultPalette[i], List.getElem?_eq_getElem hid, ?_⟩
    rw [hres, List.getElem?_append_right (by rw [hsorted]; omega), hsorted, hmin,
      List.getElem?_map, List.getElem?_drop]
    have hidx : (countColors data).length + (i - (countColors data).length) = i := by omega
    rw [hidx, List.getElem?_eq_getElem hid]
    rfl
  · intro hnone
    have hempty : countColors data = [] := by
      cases hc : countColors data with
      | nil => rfl
      | cons e rest =>
        obtain ⟨k, n⟩ := e
        have hmem : (k, n) ∈ countColors data := by rw [hc]; exact List.mem_cons_self _ _
        obtain ⟨hn, hpos⟩ := (inv.count k n).1 hmem
        have hz : data.countP (fun p => survives p && decide (colorKeyOf p = k)) = 0 := by
          rw [List.countP_eq_zero]
          intro p hp
          simp [hnone p hp]
        omega
    rw [hres, hempty]
    rfl
  · exact (pairwise_sortByCount (fun _ _ => True) _
      (List.pairwise_of_forall (fun _ _ => trivial))).imp (fun h => h.1)

end BadgesBeDone
